import Mathlib

/-!
# custom-linux kernel core: heap allocator, interrupt core, scheduler

A shallow embedding of `kernel/memory.c`, `kernel/interrupt.c`, `kernel/kernel.c`
and `kernel/scheduler.c`.

Conventions of the embedding
* The target is 32-bit x86: `uint32_t`, `size_t`, `uintptr_t` and pointers are
  natural numbers below `2 ^ 32`; arithmetic that can wrap is reduced with `u32`.
  `NULL` is the address `0`.
* Global (static) objects become fields of an explicit state that every
  function takes and returns.
* Records that the C code keeps in memory behind pointers (`memory_block_t`
  headers, `process_t` control blocks) are kept in a store indexed by address,
  and pointer fields hold addresses, so that aliasing and stale pointers behave
  as in the source.
* `while` loops run on a fuel argument; `none` means that the fuel ran out
  before the loop left.
-/

namespace CustomLinux

/-! ## Machine arithmetic -/

/-- Reduction of a natural number to an unsigned 32-bit value. -/
def u32 (n : Nat) : Nat := n % 2 ^ 32

/-- Unsigned 32-bit subtraction `a - b` (wraps below zero). -/
def sub32 (a b : Nat) : Nat := (a + (2 ^ 32 - b % 2 ^ 32)) % 2 ^ 32

/-- Conversion `uint32_t → int` on the target (two's complement). -/
def toInt32 (n : Nat) : Int :=
  if n % 2 ^ 32 < 2 ^ 31 then ((n % 2 ^ 32 : Nat) : Int) else ((n % 2 ^ 32 : Nat) : Int) - 2 ^ 32

/-! ## memory.h / memory.c : heap allocator -/

/-- The value of `sizeof(memory_block_t)` on the 32-bit target: four 4-byte fields. -/
def sizeof_memory_block_t : Nat := 16

/-- The header `memory_block_t`; `next` is a header address, `0` for `NULL`. -/
structure memory_block where
  start_addr : Nat
  size : Nat
  is_allocated : Nat
  next : Nat
deriving DecidableEq, Repr

/-- The record `memory_manager_t`; `free_list` is a header address, `0` for `NULL`. -/
structure memory_manager where
  free_list : Nat
  total_memory : Nat
  used_memory : Nat
  heap_start : Nat
  heap_end : Nat
deriving DecidableEq, Repr

/-- Allocator state: the static `mem_manager` and the block headers stored in
memory, indexed by header address. -/
structure MemState where
  mgr : memory_manager
  blk : Nat → memory_block

/-- Store `p->start_addr = v`. -/
def MemState.set_start_addr (st : MemState) (p v : Nat) : MemState :=
  { st with blk := Function.update st.blk p { st.blk p with start_addr := v } }

/-- Store `p->size = v`. -/
def MemState.set_size (st : MemState) (p v : Nat) : MemState :=
  { st with blk := Function.update st.blk p { st.blk p with size := v } }

/-- Store `p->is_allocated = v`. -/
def MemState.set_is_allocated (st : MemState) (p v : Nat) : MemState :=
  { st with blk := Function.update st.blk p { st.blk p with is_allocated := v } }

/-- Store `p->next = v`. -/
def MemState.set_next (st : MemState) (p v : Nat) : MemState :=
  { st with blk := Function.update st.blk p { st.blk p with next := v } }

/-- Store `mem_manager.used_memory = v`. -/
def MemState.set_used_memory (st : MemState) (v : Nat) : MemState :=
  { st with mgr := { st.mgr with used_memory := v } }

/-- The function `memory_init(start_addr, size)`. -/
def memory_init (start_addr size : Nat) (st : MemState) : MemState :=
  let st : MemState :=
    { st with mgr :=
        { heap_start := start_addr
          heap_end := u32 (start_addr + size)
          total_memory := size
          used_memory := 0
          free_list := start_addr } }
  let st := st.set_start_addr st.mgr.free_list (u32 (start_addr + sizeof_memory_block_t))
  let st := st.set_size st.mgr.free_list (sub32 size sizeof_memory_block_t)
  let st := st.set_is_allocated st.mgr.free_list 0
  st.set_next st.mgr.free_list 0

/-- The rounding `(size + 3) & ~3` of `kmalloc`, on 32-bit `size_t`. -/
def align4 (size : Nat) : Nat := Nat.land (u32 (size + 3)) (2 ^ 32 - 1 - 3)

/-- The body of `kmalloc` once a fitting block `current` is found: optional
split, mark allocated, account, return the payload address. -/
def kmalloc_take (st : MemState) (size current : Nat) : MemState × Nat :=
  let st :=
    if (st.blk current).size > u32 (size + sizeof_memory_block_t) then
      let new_block := u32 ((st.blk current).start_addr + size)
      let st := st.set_start_addr new_block
        (u32 ((st.blk current).start_addr + size + sizeof_memory_block_t))
      let st := st.set_size new_block
        (sub32 (sub32 (st.blk current).size size) sizeof_memory_block_t)
      let st := st.set_is_allocated new_block 0
      let st := st.set_next new_block (st.blk current).next
      let st := st.set_size current size
      st.set_next current new_block
    else st
  let st := st.set_is_allocated current 1
  let st := st.set_used_memory (u32 (st.mgr.used_memory + (st.blk current).size))
  (st, (st.blk current).start_addr)

/-- The `while (current != NULL)` loop of `kmalloc` (the local `prev` is
assigned but never read, so it is not carried). Result: new state and the
returned pointer, `0` for `NULL`. -/
def kmalloc_loop : Nat → MemState → Nat → Nat → Option (MemState × Nat)
  | 0, _, _, _ => none
  | fuel + 1, st, size, current =>
    if current = 0 then some (st, 0)
    else if (st.blk current).is_allocated = 0 ∧ (st.blk current).size ≥ size then
      some (kmalloc_take st size current)
    else kmalloc_loop fuel st size (st.blk current).next

/-- The function `kmalloc(size)`. -/
def kmalloc (fuel : Nat) (st : MemState) (size : Nat) : Option (MemState × Nat) :=
  if size = 0 then some (st, 0)
  else kmalloc_loop fuel st (align4 size) st.mgr.free_list

/-- The body of `kfree` once the block `current` with the given payload
address is found; `prev` is the node visited just before it (`0` if none). -/
def kfree_release (st : MemState) (prev current : Nat) : MemState :=
  let st := st.set_is_allocated current 0
  let st := st.set_used_memory (sub32 st.mgr.used_memory (st.blk current).size)
  let st :=
    if prev ≠ 0 ∧ (st.blk prev).is_allocated = 0 then
      let st := st.set_size prev
        (u32 ((st.blk prev).size + u32 ((st.blk current).size + sizeof_memory_block_t)))
      st.set_next prev (st.blk current).next
    else st
  if (st.blk current).next ≠ 0 ∧ (st.blk (st.blk current).next).is_allocated = 0 then
    let st := st.set_size current
      (u32 ((st.blk current).size
        + u32 ((st.blk (st.blk current).next).size + sizeof_memory_block_t)))
    st.set_next current (st.blk (st.blk current).next).next
  else st

/-- The `while (current != NULL)` loop of `kfree`. -/
def kfree_loop : Nat → MemState → Nat → Nat → Nat → Option MemState
  | 0, _, _, _, _ => none
  | fuel + 1, st, ptr, prev, current =>
    if current = 0 then some st
    else if (st.blk current).start_addr = ptr then some (kfree_release st prev current)
    else kfree_loop fuel st ptr current (st.blk current).next

/-- The function `kfree(ptr)`. -/
def kfree (fuel : Nat) (st : MemState) (ptr : Nat) : Option MemState :=
  if ptr = 0 then some st
  else kfree_loop fuel st ptr 0 st.mgr.free_list

/-- The function `kmalloc_aligned(size, alignment)`. -/
def kmalloc_aligned (fuel : Nat) (st : MemState) (size alignment : Nat) :
    Option (MemState × Nat) :=
  if alignment = 0 then kmalloc fuel st size
  else
    let aligned_size := u32 (size + alignment - 1)
    match kmalloc fuel st aligned_size with
    | none => none
    | some (st, ptr) =>
      if ptr = 0 then some (st, 0)
      else
        let addr := ptr
        let aligned_addr := Nat.land (u32 (addr + alignment - 1)) (2 ^ 32 - 1 - (alignment - 1))
        some (st, aligned_addr)

/-- The function `get_total_memory()`. -/
def get_total_memory (st : MemState) : Nat := st.mgr.total_memory

/-- The function `get_used_memory()`. -/
def get_used_memory (st : MemState) : Nat := st.mgr.used_memory

/-- The function `get_free_memory()`. -/
def get_free_memory (st : MemState) : Nat := sub32 st.mgr.total_memory st.mgr.used_memory

/-- The nodes met along the successor chain from `p`, as
`(header address, header)` pairs. -/
def chain_from : Nat → MemState → Nat → Option (List (Nat × memory_block))
  | 0, _, _ => none
  | fuel + 1, st, p =>
    if p = 0 then some []
    else (chain_from fuel st (st.blk p).next).map (fun l => (p, st.blk p) :: l)

/-- The nodes of the free list, read from `mem_manager.free_list`. -/
def free_list_nodes (fuel : Nat) (st : MemState) : Option (List (Nat × memory_block)) :=
  chain_from fuel st st.mgr.free_list

/-- Some two nodes adjacent in a list of nodes are both free. -/
def has_adjacent_free : List (Nat × memory_block) → Bool
  | a :: b :: l =>
    (decide (a.2.is_allocated = 0) && decide (b.2.is_allocated = 0)) || has_adjacent_free (b :: l)
  | _ => false

/-- A state before `memory_init`: every header word is zero. -/
def MemState.blank : MemState :=
  { mgr := { free_list := 0, total_memory := 0, used_memory := 0, heap_start := 0, heap_end := 0 }
    blk := fun _ => { start_addr := 0, size := 0, is_allocated := 0, next := 0 } }

/-- The allocation script of scenario S2 with the frees in the order `b, a, c`:
`memory_init(start, size)`, three `kmalloc(64)`, then `kfree(b)`, `kfree(a)`,
`kfree(c)`. -/
def scenario_coalesce (fuel start size : Nat) : Option MemState :=
  match kmalloc fuel (memory_init start size MemState.blank) 64 with
  | none => none
  | some (st, a) =>
    match kmalloc fuel st 64 with
    | none => none
    | some (st, b) =>
      match kmalloc fuel st 64 with
      | none => none
      | some (st, c) =>
        ((kfree fuel st b).bind (fun st => kfree fuel st a)).bind (fun st => kfree fuel st c)

/-- A shorter script: `memory_init(start, size)`, `a = kmalloc(64)`,
`b = kmalloc(64)`, `kfree(a)`, `kfree(b)`. -/
def scenario_two_frees (fuel start size : Nat) : Option MemState :=
  match kmalloc fuel (memory_init start size MemState.blank) 64 with
  | none => none
  | some (st, a) =>
    match kmalloc fuel st 64 with
    | none => none
    | some (st, b) => (kfree fuel st a).bind (fun st => kfree fuel st b)

/-! ## interrupt.h / interrupt.c : interrupt core -/

/-- The constant `SYSCALL_MAX`. -/
def SYSCALL_MAX : Nat := 256

/-- The constant `IRQ0`. -/
def IRQ0 : Nat := 32

/-- The record `idt_entry_t`. -/
structure idt_entry_t where
  offset_low : Nat
  selector : Nat
  zero : Nat
  flags : Nat
  offset_high : Nat
deriving DecidableEq, Repr

/-- The record `idtr_t`. -/
structure idtr_t where
  limit : Nat
  base : Nat
deriving DecidableEq, Repr

/-- The record `interrupt_context_t`. -/
structure interrupt_context_t where
  edi : Nat
  esi : Nat
  ebp : Nat
  esp : Nat
  ebx : Nat
  edx : Nat
  ecx : Nat
  eax : Nat
  int_no : Nat
  err_code : Nat
  eip : Nat
  cs : Nat
  eflags : Nat
  user_esp : Nat
  user_ss : Nat
deriving DecidableEq, Repr

/-- What the interrupt core does that is visible from outside, in order:
port writes, the IDT load, and the calls it makes through its handler tables. -/
inductive Event where
  | outb (value port : Nat)
  | lidt
  | call_handler (id : Nat)
  | call_syscall (num : Nat) (arg1 arg2 arg3 : Int)
deriving DecidableEq, Repr

/-- A value of type `syscall_handler_t`, that is `int (*)(int, int, int)`: the
result and the effect of the routine on the rest of the machine `σ`. -/
abbrev syscall_handler_t (σ : Type) : Type := Int → Int → Int → σ → Int × σ

/-- A value of type `interrupt_handler_t`, that is `void (*)(void)`: either the
routine `syscall_handler` converted by the cast of `syscall_init`, or another
routine, given by an identifying number and its effect on the rest of the
machine (`none`: it does not return). -/
inductive interrupt_handler_t (σ : Type) where
  | syscall_handler_cast : interrupt_handler_t σ
  | routine (id : Nat) (run : σ → Option σ) : interrupt_handler_t σ

/-- State of the interrupt core: the static tables of `interrupt.c` (a `none`
entry is a `NULL` pointer), the I/O ports (a read of a port returns the value
last written to it), the interrupt-enable flag, the trace of events, and the
rest of the machine, on which handlers act. `idt_addr` is the address `&idt`. -/
structure IntState (σ : Type) where
  idt : Nat → idt_entry_t
  idtr : idtr_t
  idt_addr : Nat
  interrupt_handlers : Nat → Option (interrupt_handler_t σ)
  irq_handlers : Nat → Option (interrupt_handler_t σ)
  syscall_handlers : Nat → Option (syscall_handler_t σ)
  ports : Nat → Nat
  interrupts_enabled : Bool
  trace : List Event
  rest : σ

/-- The instruction `outb value, port`. -/
def outb {σ : Type} (st : IntState σ) (value port : Nat) : IntState σ :=
  { st with ports := Function.update st.ports port value
            trace := st.trace ++ [Event.outb value port] }

/-- The function `set_interrupt_handler(num, handler)`; `num` is a `uint8_t`. -/
def set_interrupt_handler {σ : Type} (st : IntState σ) (num : Nat)
    (handler : Option (interrupt_handler_t σ)) : IntState σ :=
  { st with interrupt_handlers := Function.update st.interrupt_handlers (num % 256) handler }

/-- The function `enable_interrupts()`. -/
def enable_interrupts {σ : Type} (st : IntState σ) : IntState σ :=
  { st with interrupts_enabled := true }

/-- The function `disable_interrupts()`. -/
def disable_interrupts {σ : Type} (st : IntState σ) : IntState σ :=
  { st with interrupts_enabled := false }

/-- The function `irq_install_handler(irq, handler)`; `irq` is an `int`. -/
def irq_install_handler {σ : Type} (st : IntState σ) (irq : Int)
    (handler : Option (interrupt_handler_t σ)) : IntState σ :=
  if 0 ≤ irq ∧ irq < 16 then
    { st with irq_handlers := Function.update st.irq_handlers irq.toNat handler }
  else st

/-- The function `irq_uninstall_handler(irq)`. -/
def irq_uninstall_handler {σ : Type} (st : IntState σ) (irq : Int) : IntState σ :=
  if 0 ≤ irq ∧ irq < 16 then
    { st with irq_handlers := Function.update st.irq_handlers irq.toNat none }
  else st

/-- The function `pic_init()`. -/
def pic_init {σ : Type} (st : IntState σ) : IntState σ :=
  let st := outb st 0x11 0x20
  let st := outb st 0x11 0xA0
  let st := outb st 0x20 0x21
  let st := outb st 0x28 0xA1
  let st := outb st 0x04 0x21
  let st := outb st 0x02 0xA1
  let st := outb st 0x01 0x21
  let st := outb st 0x01 0xA1
  let st := outb st 0xFF 0x21
  outb st 0xFF 0xA1

/-- The function `pic_send_eoi(irq)`; `irq` is an `unsigned char`. -/
def pic_send_eoi {σ : Type} (st : IntState σ) (irq : Nat) : IntState σ :=
  let st := if irq ≥ 8 then outb st 0x20 0xA0 else st
  outb st 0x20 0x20

/-- The function `pic_mask_irq(irq)`. -/
def pic_mask_irq {σ : Type} (st : IntState σ) (irq : Nat) : IntState σ :=
  let port := if irq < 8 then 0x21 else 0xA1
  let irq := if irq < 8 then irq else irq - 8
  let value := st.ports port % 256
  let value := Nat.lor value (1 <<< irq) % 256
  outb st value port

/-- The function `pic_unmask_irq(irq)`. -/
def pic_unmask_irq {σ : Type} (st : IntState σ) (irq : Nat) : IntState σ :=
  let port := if irq < 8 then 0x21 else 0xA1
  let irq := if irq < 8 then irq else irq - 8
  let value := st.ports port % 256
  let value := Nat.land value (2 ^ 32 - 1 - (1 <<< irq) % 2 ^ 32) % 256
  outb st value port

/-- The function `syscall_init()`. -/
def syscall_init {σ : Type} (st : IntState σ) : IntState σ :=
  set_interrupt_handler st 0x80 (some interrupt_handler_t.syscall_handler_cast)

/-- The function `register_syscall(num, handler)`; `num` is an `int`. -/
def register_syscall {σ : Type} (st : IntState σ) (num : Int)
    (handler : Option (syscall_handler_t σ)) : IntState σ :=
  if 0 ≤ num ∧ num < (SYSCALL_MAX : Int) then
    { st with syscall_handlers := Function.update st.syscall_handlers num.toNat handler }
  else st

/-- The function `syscall_handler(context)`: the returned `int` and the state
after the call. -/
def syscall_handler {σ : Type} (st : IntState σ) (context : interrupt_context_t) :
    Int × IntState σ :=
  let syscall_num := toInt32 context.eax
  let arg1 := toInt32 context.ebx
  let arg2 := toInt32 context.ecx
  let arg3 := toInt32 context.edx
  if 0 ≤ syscall_num ∧ syscall_num < (SYSCALL_MAX : Int) then
    match st.syscall_handlers syscall_num.toNat with
    | some h =>
      let r := h arg1 arg2 arg3 st.rest
      (r.1, { st with rest := r.2
                      trace := st.trace ++ [Event.call_syscall syscall_num.toNat arg1 arg2 arg3] })
    | none => (-1, st)
  else (-1, st)

/-- A call `handler()` through a table of `interrupt_handler_t`. No argument is
passed and no result is taken: when the routine is `syscall_handler`, the
`context` parameter it reads is whatever lies in its argument slot (`stale`),
and its return value is dropped. -/
def call_interrupt_handler {σ : Type} (st : IntState σ) (stale : interrupt_context_t) :
    interrupt_handler_t σ → Option (IntState σ)
  | interrupt_handler_t.syscall_handler_cast => some (syscall_handler st stale).2
  | interrupt_handler_t.routine id run =>
    (run st.rest).map (fun w => { st with rest := w, trace := st.trace ++ [Event.call_handler id] })

/-- The function `common_interrupt_handler(context)`. The context object is
only read; it is returned next to the state as it stands when the function
returns. The tables are functions of the index, so an index beyond the array
bound is looked up like any other. -/
def common_interrupt_handler {σ : Type} (st : IntState σ) (context stale : interrupt_context_t) :
    Option (IntState σ × interrupt_context_t) :=
  let int_no := context.int_no
  if int_no ≥ IRQ0 ∧ int_no < IRQ0 + 16 then
    let irq := int_no - IRQ0
    let r := match st.irq_handlers irq with
      | some h => call_interrupt_handler st stale h
      | none => some st
    r.map (fun st => (pic_send_eoi st irq, context))
  else if int_no < 32 then some (st, context)
  else
    match st.interrupt_handlers int_no with
    | some h => (call_interrupt_handler st stale h).map (fun st => (st, context))
    | none => some (st, context)

/-- The function `set_idt_gate(num, handler)`; `num` is a `uint8_t`. -/
def set_idt_gate {σ : Type} (st : IntState σ) (num handler : Nat) : IntState σ :=
  let gate : idt_entry_t :=
    { offset_low := Nat.land handler 0xFFFF
      selector := 0x08
      zero := 0
      flags := 0x8E
      offset_high := Nat.land (handler >>> 16) 0xFFFF }
  { st with idt := Function.update st.idt (num % 256) gate }

/-- The value of `sizeof(idt)`: 256 packed entries of 8 bytes. -/
def sizeof_idt : Nat := 256 * 8

/-- The function `interrupt_init()`. -/
def interrupt_init {σ : Type} (st : IntState σ) : IntState σ :=
  let st := { st with idt := fun _ => idt_entry_t.mk 0 0 0 0 0 }
  let st := { st with interrupt_handlers := fun _ => none }
  let st := { st with irq_handlers := fun _ => none }
  let st := { st with syscall_handlers := fun _ => none }
  let st := { st with idtr := { limit := sizeof_idt - 1, base := st.idt_addr } }
  let st := pic_init st
  let st := syscall_init st
  { st with trace := st.trace ++ [Event.lidt] }

/-! ## scheduler.h / scheduler.c : scheduler -/

/-- The enumeration `process_state_t`. -/
inductive process_state_t where
  | PROCESS_READY
  | PROCESS_RUNNING
  | PROCESS_BLOCKED
  | PROCESS_SLEEPING
  | PROCESS_ZOMBIE
deriving DecidableEq, Repr

open process_state_t

/-- The enumerator `PRIORITY_LOW` of `priority_t`. -/
def PRIORITY_LOW : Nat := 0

/-- The enumerator `PRIORITY_NORMAL` of `priority_t`. -/
def PRIORITY_NORMAL : Nat := 1

/-- The enumerator `PRIORITY_HIGH` of `priority_t`. -/
def PRIORITY_HIGH : Nat := 2

/-- The enumerator `PRIORITY_REALTIME` of `priority_t`. -/
def PRIORITY_REALTIME : Nat := 3

/-- The record `process_t`; `priority` holds the value of a `priority_t`,
`next` and `prev` hold control-block addresses, `0` for `NULL`. -/
structure process where
  pid : Nat
  name : List Nat
  state : process_state_t
  priority : Nat
  time_slice : Nat
  total_time : Nat
  stack_top : Nat
  stack_bottom : Nat
  esp : Nat
  ebp : Nat
  eip : Nat
  eflags : Nat
  cr3 : Nat
  next : Nat
  prev : Nat
deriving DecidableEq, Repr

/-- The value of `sizeof(process_t)` on the 32-bit target. -/
def sizeof_process_t : Nat := 88

/-- The record `scheduler_t`; the four pointers hold control-block addresses. -/
structure scheduler_t where
  current_process : Nat
  ready_queue : Nat
  blocked_queue : Nat
  sleeping_queue : Nat
  next_pid : Nat
  total_processes : Nat
  time_quantum : Nat
deriving DecidableEq, Repr

/-- Scheduler state: the statics `scheduler`, `timer_ticks`, `timer_frequency`
of `scheduler.c`, the control blocks stored in memory, indexed by address, and
the list of calls made to `context_switch`, as `(from, to)`, oldest first. -/
structure SchedState where
  scheduler : scheduler_t
  timer_ticks : Nat
  timer_frequency : Nat
  proc : Nat → process
  switches : List (Nat × Nat)

/-- Store `p->next = v`. -/
def SchedState.set_next (s : SchedState) (p v : Nat) : SchedState :=
  { s with proc := Function.update s.proc p { s.proc p with next := v } }

/-- Store `p->prev = v`. -/
def SchedState.set_prev (s : SchedState) (p v : Nat) : SchedState :=
  { s with proc := Function.update s.proc p { s.proc p with prev := v } }

/-- Store `p->state = v`. -/
def SchedState.set_state (s : SchedState) (p : Nat) (v : process_state_t) : SchedState :=
  { s with proc := Function.update s.proc p { s.proc p with state := v } }

/-- Store `p->priority = v`. -/
def SchedState.set_priority (s : SchedState) (p v : Nat) : SchedState :=
  { s with proc := Function.update s.proc p { s.proc p with priority := v } }

/-- Store `p->time_slice = v`. -/
def SchedState.set_time_slice (s : SchedState) (p v : Nat) : SchedState :=
  { s with proc := Function.update s.proc p { s.proc p with time_slice := v } }

/-- Store `scheduler.ready_queue = v`. -/
def SchedState.set_ready_queue (s : SchedState) (v : Nat) : SchedState :=
  { s with scheduler := { s.scheduler with ready_queue := v } }

/-- Store `scheduler.blocked_queue = v`. -/
def SchedState.set_blocked_queue (s : SchedState) (v : Nat) : SchedState :=
  { s with scheduler := { s.scheduler with blocked_queue := v } }

/-- Store `scheduler.sleeping_queue = v`. -/
def SchedState.set_sleeping_queue (s : SchedState) (v : Nat) : SchedState :=
  { s with scheduler := { s.scheduler with sleeping_queue := v } }

/-- Store `scheduler.current_process = v`. -/
def SchedState.set_current_process (s : SchedState) (v : Nat) : SchedState :=
  { s with scheduler := { s.scheduler with current_process := v } }

/-- The four stores that link `process` in front of `current` in a circular
list (used by `scheduler_add_process` with `current` a node of the ready queue
or its head, and by the tail appends of `process_block` and `timer_sleep`). -/
def link_before (s : SchedState) (process current : Nat) : SchedState :=
  let s := s.set_next process current
  let s := s.set_prev process (s.proc current).prev
  let s := s.set_next (s.proc current).prev process
  s.set_prev current process

/-- The `do ... while (current != scheduler.ready_queue)` loop of
`scheduler_add_process` together with the append that follows it. -/
def scheduler_add_loop : Nat → SchedState → Nat → Nat → Option SchedState
  | 0, _, _, _ => none
  | fuel + 1, s, process, current =>
    if (s.proc process).priority > (s.proc current).priority then
      let s := link_before s process current
      some (if current = s.scheduler.ready_queue then s.set_ready_queue process else s)
    else
      let current := (s.proc current).next
      if current ≠ s.scheduler.ready_queue then scheduler_add_loop fuel s process current
      else some (link_before s process s.scheduler.ready_queue)

/-- The function `scheduler_add_process(process)`. -/
def scheduler_add_process (fuel : Nat) (s : SchedState) (process : Nat) : Option SchedState :=
  if process = 0 then some s
  else if s.scheduler.ready_queue = 0 then
    let s := s.set_ready_queue process
    let s := s.set_next process process
    some (s.set_prev process process)
  else scheduler_add_loop fuel s process s.scheduler.ready_queue

/-- The function `scheduler_remove_process(process)`. -/
def scheduler_remove_process (s : SchedState) (process : Nat) : SchedState :=
  if process = 0 then s
  else
    let s :=
      if (s.proc process).next = process then
        if s.scheduler.ready_queue = process then s.set_ready_queue 0
        else if s.scheduler.blocked_queue = process then s.set_blocked_queue 0
        else if s.scheduler.sleeping_queue = process then s.set_sleeping_queue 0
        else s
      else
        let s := s.set_next (s.proc process).prev (s.proc process).next
        let s := s.set_prev (s.proc process).next (s.proc process).prev
        if s.scheduler.ready_queue = process then s.set_ready_queue (s.proc process).next
        else if s.scheduler.blocked_queue = process then
          s.set_blocked_queue (s.proc process).next
        else if s.scheduler.sleeping_queue = process then
          s.set_sleeping_queue (s.proc process).next
        else s
    let s := s.set_next process 0
    s.set_prev process 0

/-- The function `context_switch(from, to)`: `save_context` and
`restore_context` have empty bodies, so only the call is recorded. -/
def context_switch (s : SchedState) (from_p to_p : Nat) : SchedState :=
  { s with switches := s.switches ++ [(from_p, to_p)] }

/-- The function `scheduler_round_robin()`. -/
def scheduler_round_robin (s : SchedState) : SchedState :=
  if s.scheduler.ready_queue = 0 then s
  else
    let next := (s.proc s.scheduler.ready_queue).next
    let s := s.set_ready_queue next
    let s := if s.scheduler.current_process ≠ 0 then
        s.set_state s.scheduler.current_process PROCESS_READY
      else s
    let s := s.set_state next PROCESS_RUNNING
    let s := s.set_current_process next
    if s.scheduler.current_process ≠ next then
      context_switch s s.scheduler.current_process next
    else s

/-- The function `scheduler_multilevel_feedback()`. -/
def scheduler_multilevel_feedback (s : SchedState) : SchedState :=
  if s.scheduler.ready_queue = 0 then s
  else
    let current := s.scheduler.ready_queue
    if (s.proc current).time_slice > 0 then
      s.set_time_slice current ((s.proc current).time_slice - 1)
    else
      let s := if (s.proc current).priority > PRIORITY_LOW then
          s.set_priority current ((s.proc current).priority - 1)
        else s
      let s := s.set_time_slice current s.scheduler.time_quantum
      scheduler_round_robin s

/-- The function `scheduler_schedule()`. -/
def scheduler_schedule (s : SchedState) : SchedState :=
  if s.scheduler.ready_queue = 0 then s
  else scheduler_multilevel_feedback s

/-- The function `scheduler_yield()`. -/
def scheduler_yield (s : SchedState) : SchedState :=
  if s.scheduler.current_process ≠ 0 then
    let s := s.set_state s.scheduler.current_process PROCESS_READY
    scheduler_schedule s
  else s

/-- The function `process_block(process)`. -/
def process_block (s : SchedState) (process : Nat) : SchedState :=
  if process = 0 then s
  else
    let s := scheduler_remove_process s process
    let s := s.set_state process PROCESS_BLOCKED
    if s.scheduler.blocked_queue = 0 then
      let s := s.set_blocked_queue process
      let s := s.set_next process process
      s.set_prev process process
    else link_before s process s.scheduler.blocked_queue

/-- The function `process_unblock(process)`. -/
def process_unblock (fuel : Nat) (s : SchedState) (process : Nat) : Option SchedState :=
  if process = 0 ∨ (s.proc process).state ≠ PROCESS_BLOCKED then some s
  else
    let s := scheduler_remove_process s process
    let s := s.set_state process PROCESS_READY
    scheduler_add_process fuel s process

/-- The function `process_get_current()`. -/
def process_get_current (s : SchedState) : Nat := s.scheduler.current_process

/-- The function `process_get_pid()`. -/
def process_get_pid (s : SchedState) : Nat :=
  if s.scheduler.current_process ≠ 0 then (s.proc s.scheduler.current_process).pid else 0

/-- The `while (current)` loop of `timer_handler` over the sleeping queue;
`afuel` is the fuel handed to `scheduler_add_process`. -/
def timer_walk (afuel : Nat) : Nat → SchedState → Nat → Option SchedState
  | 0, _, _ => none
  | fuel + 1, s, current =>
    if current = 0 then some s
    else
      let next := (s.proc current).next
      let r :=
        if (s.proc current).time_slice ≤ s.timer_ticks then
          let s := scheduler_remove_process s current
          let s := s.set_state current PROCESS_READY
          scheduler_add_process afuel s current
        else some s
      match r with
      | none => none
      | some s =>
        let current := next
        if current = s.scheduler.sleeping_queue then some s
        else timer_walk afuel fuel s current

/-- The function `timer_handler()`. -/
def timer_handler (fuel : Nat) (s : SchedState) : Option SchedState :=
  let s := { s with timer_ticks := u32 (s.timer_ticks + 1) }
  let s := if s.timer_ticks % 10 = 0 then scheduler_schedule s else s
  timer_walk fuel fuel s s.scheduler.sleeping_queue

/-- The function `timer_get_ticks()`. -/
def timer_get_ticks (s : SchedState) : Nat := s.timer_ticks

/-- The function `timer_sleep(ticks)`. -/
def timer_sleep (s : SchedState) (ticks : Nat) : SchedState :=
  let wake_time := u32 (s.timer_ticks + ticks)
  if s.scheduler.current_process ≠ 0 then
    let s := s.set_time_slice s.scheduler.current_process wake_time
    let s := s.set_state s.scheduler.current_process PROCESS_SLEEPING
    let s := scheduler_remove_process s s.scheduler.current_process
    let s :=
      if s.scheduler.sleeping_queue = 0 then
        let s := s.set_sleeping_queue s.scheduler.current_process
        let s := s.set_next s.scheduler.current_process s.scheduler.current_process
        s.set_prev s.scheduler.current_process s.scheduler.current_process
      else link_before s s.scheduler.current_process s.scheduler.sleeping_queue
    scheduler_schedule s
  else s

/-- The function `scheduler_get_load_average()`. -/
def scheduler_get_load_average (s : SchedState) : Nat := s.scheduler.total_processes

/-- The processes met from `p` along `next` until `head` comes up again: the
walk of the counting loops of `scheduler_dump_stats`. -/
def queue_walk (s : SchedState) (head : Nat) : Nat → Nat → Option (List Nat)
  | 0, _ => none
  | fuel + 1, p =>
    if (s.proc p).next = head then some [p]
    else (queue_walk s head fuel (s.proc p).next).map (fun l => p :: l)

/-- The members of the circular queue with head pointer `head`, in order from
the head; the empty list for a `NULL` head. -/
def queue_members (fuel : Nat) (s : SchedState) (head : Nat) : Option (List Nat) :=
  if head = 0 then some [] else queue_walk s head fuel head

/-! ## filesystem.h / filesystem.c : the part reached from `kernel.c` -/

/-- The record `fs_file_t`. -/
structure fs_file_t where
  fd : Nat
  inode : Nat
  offset : Nat
  mode : Nat
  ref_count : Nat
deriving DecidableEq, Repr

/-- The constant `MAX_FILES`. -/
def MAX_FILES : Nat := 1024

/-- The enumerator `FS_OPEN_READ`. -/
def FS_OPEN_READ : Nat := 0x01

/-- The enumerator `FS_OPEN_WRITE`. -/
def FS_OPEN_WRITE : Nat := 0x02

/-- The statics of `filesystem.c` that `fs_init`, `fs_open` and `fs_close` use. -/
structure FsState where
  file_table : Nat → fs_file_t
  mount_points : Nat
  registered_fs : Nat → Nat
  next_fd : Int

/-- Conversion `int → uint32_t`. -/
def ofInt32 (i : Int) : Nat := (i % 2 ^ 32).toNat

/-- The function `fs_init()`; it returns `0`. -/
def fs_init (fs : FsState) : FsState :=
  let fs := { fs with file_table := fun _ => fs_file_t.mk 0 0 0 0 0 }
  let e0 : fs_file_t := { fs.file_table 0 with fd := 0, mode := FS_OPEN_READ, ref_count := 1 }
  let fs := { fs with file_table := Function.update fs.file_table 0 e0 }
  let e1 : fs_file_t := { fs.file_table 1 with fd := 1, mode := FS_OPEN_WRITE, ref_count := 1 }
  let fs := { fs with file_table := Function.update fs.file_table 1 e1 }
  let e2 : fs_file_t := { fs.file_table 2 with fd := 2, mode := FS_OPEN_WRITE, ref_count := 1 }
  let fs := { fs with file_table := Function.update fs.file_table 2 e2 }
  let fs := { fs with mount_points := 0 }
  { fs with registered_fs := fun _ => 0 }

/-- The function `fs_open(path, mode)`. -/
def fs_open (fs : FsState) (_path mode : Int) : Int × FsState :=
  match (List.range MAX_FILES).find? (fun i => decide ((fs.file_table i).ref_count = 0)) with
  | none => (-1, fs)
  | some fd =>
    let entry : fs_file_t :=
      { fd := ofInt32 fs.next_fd, inode := 0, offset := 0, mode := ofInt32 mode, ref_count := 1 }
    let fs := { fs with file_table := Function.update fs.file_table fd entry
                        next_fd := toInt32 (ofInt32 (fs.next_fd + 1)) }
    (toInt32 (fs.file_table fd).fd, fs)

/-- The function `fs_close(fd)`. -/
def fs_close (fs : FsState) (fd : Int) : Int × FsState :=
  match (List.range MAX_FILES).find? (fun i => decide ((fs.file_table i).fd = ofInt32 fd)) with
  | none => (-1, fs)
  | some i =>
    let e := fs.file_table i
    let e := { e with ref_count := sub32 e.ref_count 1 }
    let e := if e.ref_count = 0 then fs_file_t.mk 0 0 0 0 0 else e
    (0, { fs with file_table := Function.update fs.file_table i e })

/-- The function `fs_read(fd, buffer, size)`. -/
def fs_read (fs : FsState) (_fd _buffer _size : Int) : Int × FsState := (0, fs)

/-- The function `fs_write(fd, buffer, size)`. -/
def fs_write (fs : FsState) (_fd _buffer _size : Int) : Int × FsState := (0, fs)

/-! ## The machine outside the interrupt core -/

/-- The state of everything but the interrupt core: allocator, plain memory
words (page tables and kernel stacks, by byte address), the paging registers
and the static `current_page_directory`, scheduler, filesystem. -/
structure World where
  mem : MemState
  ram : Nat → Nat
  current_page_directory : Nat
  cr3 : Nat
  cr0 : Nat
  sched : SchedState
  fs : FsState

/-- The whole kernel state. -/
abbrev Kernel : Type := IntState World

/-- A call `memset(p, 0, n)` on plain memory. -/
def memset_zero (ram : Nat → Nat) (p n : Nat) : Nat → Nat :=
  fun a => if p ≤ a ∧ a < p + n then 0 else ram a

/-- The constant `PAGE_SIZE`. -/
def PAGE_SIZE : Nat := 4096

/-- The function `switch_page_directory(dir)`. -/
def switch_page_directory (w : World) (dir : Nat) : World :=
  { w with current_page_directory := dir, cr3 := dir, cr0 := Nat.lor w.cr0 0x80000000 }

/-- The function `paging_init()`. -/
def paging_init (fuel : Nat) (w : World) : Option World :=
  match kmalloc_aligned fuel w.mem 4096 PAGE_SIZE with
  | none => none
  | some (mem, dir) =>
    let w := { w with mem := mem, current_page_directory := dir }
    let w := { w with ram := memset_zero w.ram w.current_page_directory 4096 }
    some (switch_page_directory w w.current_page_directory)

/-! ## scheduler.c : the functions that allocate or reach the interrupt core -/

/-- Store into the control block at `p`. -/
def SchedState.modify (s : SchedState) (p : Nat) (f : process → process) : SchedState :=
  { s with proc := Function.update s.proc p (f (s.proc p)) }

/-- Store of one 32-bit word `stack[-k] = v` with `stack = (uint32_t*)top`. -/
def store_below (ram : Nat → Nat) (top k v : Nat) : Nat → Nat :=
  Function.update ram (sub32 top (4 * k)) v

/-- The stores of `process_create` into the new control block `process`
before the stack is allocated. -/
def process_create_fields (s : SchedState) (process : Nat) (name : List Nat) (priority : Nat) :
    SchedState :=
  let s := s.modify process (fun x => { x with pid := s.scheduler.next_pid })
  let s := { s with scheduler := { s.scheduler with next_pid := u32 (s.scheduler.next_pid + 1) } }
  let s := s.modify process (fun x => { x with name := name.take 31 })
  let s := s.set_state process PROCESS_READY
  let s := s.set_priority process priority
  let s := s.set_time_slice process s.scheduler.time_quantum
  let s := s.modify process (fun x => { x with total_time := 0 })
  let s := s.set_next process 0
  s.set_prev process 0

/-- The stores of `process_create` into the control block once `kmalloc(4096)`
has returned `stack_bottom`, up to the final value of `esp`. -/
def process_create_stack_fields (s : SchedState) (process stack_bottom : Nat) : SchedState :=
  let s := s.modify process (fun x => { x with stack_bottom := stack_bottom })
  let s := s.modify process (fun x => { x with stack_top := u32 (x.stack_bottom + 4096) })
  let s := s.modify process (fun x => { x with esp := sub32 x.stack_top 16 })
  let s := s.modify process (fun x => { x with ebp := x.esp })
  s.modify process (fun x => { x with esp := sub32 x.stack_top (4 * 11) })

/-- The eleven stores `stack[-1] = entry_point, ..., stack[-11] = 0` of
`process_create`, with `stack = (uint32_t*)process->stack_top`. -/
def process_create_frame (ram : Nat → Nat) (stack entry_point : Nat) : Nat → Nat :=
  let ram := store_below ram stack 1 entry_point
  let ram := store_below ram stack 2 0x202
  let ram := store_below ram stack 3 0x10
  let ram := store_below ram stack 4 0
  let ram := store_below ram stack 5 0
  let ram := store_below ram stack 6 0
  let ram := store_below ram stack 7 0
  let ram := store_below ram stack 8 0
  let ram := store_below ram stack 9 0
  let ram := store_below ram stack 10 0
  store_below ram stack 11 0

/-- Store `scheduler.total_processes = v`. -/
def SchedState.set_total_processes (s : SchedState) (v : Nat) : SchedState :=
  { s with scheduler := { s.scheduler with total_processes := v } }

/-- The function `process_create(name, entry_point, priority)`: the new state
and the returned pointer, `0` for `NULL`. -/
def process_create (fuel : Nat) (w : World) (name : List Nat) (entry_point priority : Nat) :
    Option (World × Nat) :=
  match kmalloc fuel w.mem sizeof_process_t with
  | none => none
  | some (mem1, process) =>
    if process = 0 then some ({ w with mem := mem1 }, 0)
    else
      let s1 := process_create_fields w.sched process name priority
      match kmalloc fuel mem1 4096 with
      | none => none
      | some (mem2, stack_bottom) =>
        let s2 := process_create_stack_fields s1 process stack_bottom
        let ram := process_create_frame w.ram (s2.proc process).stack_top entry_point
        match kmalloc_aligned fuel mem2 4096 4096 with
        | none => none
        | some (mem3, cr3) =>
          let s3 := s2.modify process (fun x => { x with cr3 := cr3 })
          match scheduler_add_process fuel s3 process with
          | none => none
          | some s4 =>
            let s5 := s4.set_total_processes (u32 (s4.scheduler.total_processes + 1))
            some ({ w with mem := mem3, ram := ram, sched := s5 }, process)

/-- The function `process_destroy(process)`. -/
def process_destroy (fuel : Nat) (w : World) (process : Nat) : Option World :=
  if process = 0 then some w
  else
    let s := scheduler_remove_process w.sched process
    let r1 := if (s.proc process).stack_bottom ≠ 0 then
        kfree fuel w.mem (s.proc process).stack_bottom
      else some w.mem
    let r2 := r1.bind (fun mem =>
      if (s.proc process).cr3 ≠ 0 then kfree fuel mem (s.proc process).cr3 else some mem)
    let r3 := r2.bind (fun mem => kfree fuel mem process)
    r3.map (fun mem =>
      { w with mem := mem
               sched := s.set_total_processes (sub32 s.scheduler.total_processes 1) })

/-- The routine `timer_handler` as a value of type `interrupt_handler_t`;
`fuel` bounds its loops. -/
def timer_handler_routine (fuel : Nat) : interrupt_handler_t World :=
  interrupt_handler_t.routine 0
    (fun w => (timer_handler fuel w.sched).map (fun s => { w with sched := s }))

/-- The function `timer_init(frequency)`; `fuel` is the loop bound of the
installed `timer_handler`. -/
def timer_init (fuel : Nat) (k : Kernel) (frequency : Nat) : Kernel :=
  let k := { k with rest := { k.rest with sched := { k.rest.sched with timer_frequency := frequency } } }
  let divisor := 1193180 / frequency
  let k := outb k 0x36 0x43
  let k := outb k (Nat.land divisor 0xFF) 0x40
  let k := outb k (Nat.land (divisor >>> 8) 0xFF) 0x40
  let k := irq_install_handler k 0 (some (timer_handler_routine fuel))
  pic_unmask_irq k 0

/-- The function `scheduler_init()`; `fuel` is the loop bound of the installed
`timer_handler`. -/
def scheduler_init (fuel : Nat) (k : Kernel) : Kernel :=
  let sch : scheduler_t :=
    { current_process := 0, ready_queue := 0, blocked_queue := 0, sleeping_queue := 0,
      next_pid := 1, total_processes := 0, time_quantum := 10 }
  let k := { k with rest := { k.rest with sched := { k.rest.sched with scheduler := sch } } }
  timer_init fuel k k.rest.sched.timer_frequency

/-! ## kernel.c -/

/-- The function `sys_read`. -/
def sys_read : syscall_handler_t World :=
  fun fd buffer size w => ((fs_read w.fs fd buffer size).1, { w with fs := (fs_read w.fs fd buffer size).2 })

/-- The function `sys_write`. -/
def sys_write : syscall_handler_t World :=
  fun fd buffer size w =>
    ((fs_write w.fs fd buffer size).1, { w with fs := (fs_write w.fs fd buffer size).2 })

/-- The function `sys_open`. -/
def sys_open : syscall_handler_t World :=
  fun path mode _ w => ((fs_open w.fs path mode).1, { w with fs := (fs_open w.fs path mode).2 })

/-- The function `sys_close`. -/
def sys_close : syscall_handler_t World :=
  fun fd _ _ w => ((fs_close w.fs fd).1, { w with fs := (fs_close w.fs fd).2 })

/-- The function `sys_fork`. -/
def sys_fork : syscall_handler_t World := fun _ _ _ w => (-1, w)

/-- The function `sys_exec`. -/
def sys_exec : syscall_handler_t World := fun _ _ _ w => (-1, w)

/-- The function `sys_exit`. -/
def sys_exit : syscall_handler_t World := fun _ _ _ w => (0, w)

/-- The function `register_system_calls()`. -/
def register_system_calls (k : Kernel) : Kernel :=
  let k := register_syscall k 0 (some sys_read)
  let k := register_syscall k 1 (some sys_write)
  let k := register_syscall k 2 (some sys_open)
  let k := register_syscall k 3 (some sys_close)
  let k := register_syscall k 4 (some sys_fork)
  let k := register_syscall k 5 (some sys_exec)
  register_syscall k 6 (some sys_exit)

/-- The function `kernel_main()` from its entry to the point where interrupts
are enabled (steps 1 to 5); the endless main loop that follows changes no
state. -/
def kernel_main (fuel : Nat) (k : Kernel) : Option Kernel :=
  let k := { k with rest := { k.rest with mem := memory_init 0x100000 (64 * 1024 * 1024) k.rest.mem } }
  match paging_init fuel k.rest with
  | none => none
  | some w =>
    let k := { k with rest := w }
    let k := interrupt_init k
    let k := { k with rest := { k.rest with fs := fs_init k.rest.fs } }
    let k := scheduler_init fuel k
    some (enable_interrupts k)

/-- The function `kernel_init()`, up to the same point. -/
def kernel_init (fuel : Nat) (k : Kernel) : Option Kernel :=
  kernel_main fuel (register_system_calls k)

/-! ## Initial state and scenarios -/

/-- The statics of `scheduler.c` when the kernel is entered: zero-initialised,
except `timer_frequency = 100`. -/
def SchedState.initial : SchedState :=
  { scheduler := scheduler_t.mk 0 0 0 0 0 0 0
    timer_ticks := 0
    timer_frequency := 100
    proc := fun _ => process.mk 0 [] PROCESS_READY 0 0 0 0 0 0 0 0 0 0 0 0
    switches := [] }

/-- The machine outside the interrupt core when the kernel is entered: statics
zero-initialised, except `next_fd = 3`; memory content zero. -/
def World.initial : World :=
  { mem := MemState.blank
    ram := fun _ => 0
    current_page_directory := 0
    cr3 := 0
    cr0 := 0
    sched := SchedState.initial
    fs := FsState.mk (fun _ => fs_file_t.mk 0 0 0 0 0) 0 (fun _ => 0) 3 }

/-- The kernel state on entry, with the array `idt` placed at `idt_addr`. -/
def Kernel.initial (idt_addr : Nat) : Kernel :=
  { idt := fun _ => idt_entry_t.mk 0 0 0 0 0
    idtr := idtr_t.mk 0 0
    idt_addr := idt_addr
    interrupt_handlers := fun _ => none
    irq_handlers := fun _ => none
    syscall_handlers := fun _ => none
    ports := fun _ => 0
    interrupts_enabled := false
    trace := []
    rest := World.initial }

/-- An interrupt context with the given `int_no`, `eax`, `ebx`, `ecx`, `edx`
and every other field zero. -/
def context_of (int_no eax ebx ecx edx : Nat) : interrupt_context_t :=
  { edi := 0, esi := 0, ebp := 0, esp := 0, ebx := ebx, edx := edx, ecx := ecx, eax := eax,
    int_no := int_no, err_code := 0, eip := 0, cs := 0, eflags := 0, user_esp := 0, user_ss := 0 }

/-- The machine after `kernel_init()` has run on the entry state. -/
def booted : Option World := (kernel_init 20 (Kernel.initial 0)).map (fun k => k.rest)

/-- The call `scheduler_schedule()` made `n` times in a row. -/
def schedule_times : Nat → SchedState → SchedState
  | 0, s => s
  | n + 1, s => schedule_times n (scheduler_schedule s)

/-- Boot, then `process_create` of two `PRIORITY_NORMAL` processes `p`, `q`:
the machine and the two processes. -/
def scenario_two_created : Option (World × Nat × Nat) :=
  (booted.bind (fun w => process_create 20 w [] 0x2000 PRIORITY_NORMAL)).bind
    (fun r => (process_create 20 r.1 [] 0x3000 PRIORITY_NORMAL).map (fun r2 => (r2.1, r.2, r2.2)))

/-- Two processes created after boot, then eleven calls of
`scheduler_schedule`: the scheduler state and the two processes. -/
def scenario_two_processes : Option (SchedState × Nat × Nat) :=
  scenario_two_created.map (fun r => (schedule_times 11 r.1.sched, r.2.1, r.2.2))

/-- The state of `scenario_one_process` (its process `p` is current), followed by
`process_create` of a `PRIORITY_HIGH` process `q`: the scheduler state, `p`, `q`. -/
def scenario_head_not_current : Option (SchedState × Nat × Nat) :=
  (booted.bind (fun w => process_create 20 w [] 0x2000 PRIORITY_NORMAL)).bind
    (fun r =>
      (process_create 20 { r.1 with sched := schedule_times 11 r.1.sched } [] 0x3000
        PRIORITY_HIGH).map (fun r2 => (r2.1.sched, r.2, r2.2)))

/-- Three `PRIORITY_NORMAL` processes `p`, `q`, `r` created after boot; eleven
calls of `scheduler_schedule` make `q` current, which calls `timer_sleep(3)`;
eleven more calls make `p` current, which calls `timer_sleep(3)`; then
`timer_handler` runs twice (ticks 1 and 2). Result: scheduler state, `p`, `q`, `r`. -/
def scenario_two_sleepers : Option (SchedState × Nat × Nat × Nat) :=
  scenario_two_created.bind (fun r =>
    (process_create 20 r.1 [] 0x4000 PRIORITY_NORMAL).bind (fun r3 =>
      let s := schedule_times 11 r3.1.sched
      let s := timer_sleep s 3
      let s := schedule_times 11 s
      let s := timer_sleep s 3
      ((timer_handler 20 s).bind (timer_handler 20)).map (fun s => (s, r.2.1, r.2.2, r3.2))))

/-! ## Circular queues as lists -/

/-- A control block with its two link fields cleared: what is left are the
fields that queue operations do not write. -/
def unlinked (x : process) : process := { x with next := 0, prev := 0 }

/-- The link of a doubly-linked list from `x` to `y`: `x->next == y` and
`y->prev == x`. -/
def Linked (proc : Nat → process) (x y : Nat) : Prop := (proc x).next = y ∧ (proc y).prev = x

/-- The nodes `l` form a doubly-linked circle in the store `proc`: they are
distinct and not `NULL`, each is linked to the one after it, and the last is
linked to the first. -/
def Cyc (proc : Nat → process) (l : List Nat) : Prop :=
  l.Nodup ∧ (∀ x ∈ l, x ≠ 0) ∧ List.Chain' (Linked proc) l ∧
    ∀ x ∈ l.getLast?, ∀ y ∈ l.head?, Linked proc x y

/-- The circular queue with head pointer `head` holds the processes `l`, in
order from the head; the empty queue has a `NULL` head. -/
def IsQueue (proc : Nat → process) (head : Nat) (l : List Nat) : Prop :=
  Cyc proc l ∧ head = l.headD 0

/-- The ready, blocked and sleeping queues of `s` hold `lr`, `lb`, `ls`, and no
process is in two of them. -/
def Queues (s : SchedState) (lr lb ls : List Nat) : Prop :=
  IsQueue s.proc s.scheduler.ready_queue lr ∧ IsQueue s.proc s.scheduler.blocked_queue lb ∧
    IsQueue s.proc s.scheduler.sleeping_queue ls ∧ (lr ++ lb ++ ls).Nodup

/-- The queues hold `lr`, `lb`, `ls` and no process of the blocked or the
sleeping queue has state RUNNING. -/
def QInv (s : SchedState) (lr lb ls : List Nat) : Prop :=
  Queues s lr lb ls ∧ ∀ p ∈ lb ++ ls, (s.proc p).state ≠ PROCESS_RUNNING

/-- The queue invariant of a scheduler state with live processes `L`: the
three queues are well-formed circles, disjoint, without a RUNNING process in
the blocked or sleeping queue, and their members are exactly `L`. -/
def SchedInv (s : SchedState) (L : List Nat) : Prop :=
  ∃ lr lb ls, QInv s lr lb ls ∧ ∀ p, p ∈ L ↔ p ∈ lr ++ lb ++ ls

/-- The insertion rule of `scheduler_add_process` on a queue read from its head:
`p` goes in front of the first process of strictly lower priority, or to the
end when there is none. -/
def insert_by_priority (proc : Nat → process) (p : Nat) : List Nat → List Nat
  | [] => [p]
  | a :: t =>
    if (proc p).priority > (proc a).priority then p :: a :: t
    else a :: insert_by_priority proc p t

/-- The states reachable from `scheduler_init`, each with the list of the
processes created and not destroyed. The calls are those of the scheduler
interface, under their call conditions: `process_destroy`, `process_block` and
`process_unblock` are applied to a created-and-not-destroyed process;
`timer_sleep` is called while `scheduler.current_process` is `NULL` or such a
process; `process_create` counts when `kmalloc` hands out a control block that
no created-and-not-destroyed process occupies; calls that need fuel count when
they return. -/
inductive Reach : World → List Nat → Prop where
  | init (fuel : Nat) (k : Kernel) : Reach (scheduler_init fuel k).rest []
  | create {w w1 : World} {L : List Nat} {p : Nat} (fuel : Nat) (name : List Nat)
      (entry_point priority : Nat) : Reach w L →
      process_create fuel w name entry_point priority = some (w1, p) → p ≠ 0 → p ∉ L →
      Reach w1 (p :: L)
  | create_null {w w1 : World} {L : List Nat} (fuel : Nat) (name : List Nat)
      (entry_point priority : Nat) : Reach w L →
      process_create fuel w name entry_point priority = some (w1, 0) → Reach w1 L
  | destroy {w w1 : World} {L : List Nat} {p : Nat} (fuel : Nat) : Reach w L → p ∈ L →
      process_destroy fuel w p = some w1 → Reach w1 (L.erase p)
  | block {w : World} {L : List Nat} {p : Nat} : Reach w L → p ∈ L →
      Reach { w with sched := process_block w.sched p } L
  | unblock {w : World} {L : List Nat} {p : Nat} {s1 : SchedState} (fuel : Nat) : Reach w L →
      p ∈ L → process_unblock fuel w.sched p = some s1 → Reach { w with sched := s1 } L
  | sleep {w : World} {L : List Nat} (ticks : Nat) : Reach w L →
      (w.sched.scheduler.current_process = 0 ∨ w.sched.scheduler.current_process ∈ L) →
      Reach { w with sched := timer_sleep w.sched ticks } L
  | yield {w : World} {L : List Nat} : Reach w L →
      Reach { w with sched := scheduler_yield w.sched } L
  | schedule {w : World} {L : List Nat} : Reach w L →
      Reach { w with sched := scheduler_schedule w.sched } L
  | tick {w : World} {L : List Nat} {s1 : SchedState} (fuel : Nat) : Reach w L →
      timer_handler fuel w.sched = some s1 → Reach { w with sched := s1 } L

/-- The entry state with the heap set up by `memory_init(0x100000, 0x100000)`. -/
def sample_kernel : Kernel :=
  { Kernel.initial 0 with
      rest := { World.initial with mem := memory_init 0x100000 0x100000 MemState.blank } }

/-- The machine after `scheduler_init()` on `sample_kernel`. -/
def sample_world : World := (scheduler_init 20 sample_kernel).rest

/-- The machine and the process after one `process_create` at
`PRIORITY_NORMAL` on `sample_world`. -/
def sample_created : World × Nat :=
  (process_create 20 sample_world [] 0x2000 PRIORITY_NORMAL).getD (sample_world, 0)

/-- The machine of `sample_created` after eleven `scheduler_schedule` calls: its
process is then current and RUNNING. -/
def sample_running : World :=
  { sample_created.1 with sched := schedule_times 11 sample_created.1.sched }

/-! ## memory.c : paging -/

/-- The constant `PAGE_PRESENT`. -/
def PAGE_PRESENT : Nat := 0x1

/-- The constant `PAGE_WRITE`. -/
def PAGE_WRITE : Nat := 0x2

/-- The constant `PAGE_USER`. -/
def PAGE_USER : Nat := 0x4

/-- The address of `entries[i]` in the page directory or page table at `base`
(entries are 4 bytes wide). -/
def entry_addr (base i : Nat) : Nat := u32 (base + 4 * i)

/-- The mask `~0xFFF` on 32 bits. -/
def FRAME_MASK : Nat := 2 ^ 32 - 1 - 0xFFF

/-- The function `map_page(virtual_addr, physical_addr, flags)`. The `invlpg`
instruction at its end changes nothing that the state records. -/
def map_page (fuel : Nat) (w : World) (virtual_addr physical_addr flags : Nat) : Option World :=
  let page_dir_index := virtual_addr >>> 22
  let page_table_index := Nat.land (virtual_addr >>> 12) 0x3FF
  let r : Option World :=
    if Nat.land (w.ram (entry_addr w.current_page_directory page_dir_index)) PAGE_PRESENT = 0 then
      match kmalloc_aligned fuel w.mem 4096 PAGE_SIZE with
      | none => none
      | some (mem, page_table) =>
        let w := { w with mem := mem }
        let w := { w with ram := memset_zero w.ram page_table 4096 }
        let slot := entry_addr w.current_page_directory page_dir_index
        let value := Nat.lor (Nat.lor page_table PAGE_PRESENT) PAGE_WRITE
        some { w with ram := Function.update w.ram slot value }
    else some w
  r.map (fun w =>
    let page_table :=
      Nat.land (w.ram (entry_addr w.current_page_directory page_dir_index)) FRAME_MASK
    let slot := entry_addr page_table page_table_index
    { w with ram := Function.update w.ram slot (Nat.lor physical_addr flags) })

/-- The function `unmap_page(virtual_addr)`. The `invlpg` instruction changes
nothing that the state records. -/
def unmap_page (w : World) (virtual_addr : Nat) : World :=
  let page_dir_index := virtual_addr >>> 22
  let page_table_index := Nat.land (virtual_addr >>> 12) 0x3FF
  if Nat.land (w.ram (entry_addr w.current_page_directory page_dir_index)) PAGE_PRESENT ≠ 0 then
    let page_table :=
      Nat.land (w.ram (entry_addr w.current_page_directory page_dir_index)) FRAME_MASK
    { w with ram := Function.update w.ram (entry_addr page_table page_table_index) 0 }
  else w

/-- The directory entry that a two-level walk for `virtual_addr` reads. -/
def directory_entry (w : World) (virtual_addr : Nat) : Nat :=
  w.ram (entry_addr w.current_page_directory (virtual_addr >>> 22))

/-- The page table that the directory entry for `virtual_addr` points to. -/
def page_table_of (w : World) (virtual_addr : Nat) : Nat :=
  Nat.land (directory_entry w virtual_addr) FRAME_MASK

/-- The address of the page-table entry for `virtual_addr`. -/
def table_entry_addr (w : World) (virtual_addr : Nat) : Nat :=
  entry_addr (page_table_of w virtual_addr) (Nat.land (virtual_addr >>> 12) 0x3FF)

/-- The page-table entry that a two-level walk for `virtual_addr` ends on: `0`
(not present) when the directory entry is not `PRESENT`. -/
def walk_entry (w : World) (virtual_addr : Nat) : Nat :=
  if Nat.land (directory_entry w virtual_addr) PAGE_PRESENT = 0 then 0
  else w.ram (table_entry_addr w virtual_addr)

/-- The machine after `paging_init()` on `sample_world`. -/
def sample_paged : World := (paging_init 20 sample_world).getD sample_world

/-- The machine after `map_page(0x400000, 0x800000, PAGE_PRESENT | PAGE_WRITE)`
on `sample_paged`. -/
def sample_mapped : World :=
  (map_page 20 sample_paged 0x400000 0x800000 (Nat.lor PAGE_PRESENT PAGE_WRITE)).getD sample_paged

/-! ## Scenarios on the heap, on process creation and on the timer -/

/-- The heap of the allocator scenarios: `memory_init(0x100000, 0x100000)`. -/
def sample_heap : MemState := memory_init 0x100000 0x100000 MemState.blank

/-- Boot, `p = process_create(...)` at `PRIORITY_NORMAL`, `process_destroy(p)`.
Result: the machine before the creation, the machine after the destruction, `p`,
and the fields `stack_bottom` and `cr3` of `p` between the two calls. -/
def scenario_create_destroy : Option (World × World × List Nat) :=
  booted.bind (fun w =>
    (process_create 20 w [] 0x2000 PRIORITY_NORMAL).bind (fun r =>
      (process_destroy 20 r.1 r.2).map (fun w2 =>
        (w, w2, [r.2, (r.1.sched.proc r.2).stack_bottom, (r.1.sched.proc r.2).cr3]))))

/-- The machine after `memory_init(0x100000, 0x1000)` and `scheduler_init()`: a
heap with room for a control block but not for a 4 KiB stack. -/
def small_world : World :=
  (scheduler_init 20
    { Kernel.initial 0 with
        rest := { World.initial with mem := memory_init 0x100000 0x1000 MemState.blank } }).rest

/-- The interrupt routine `timer_handler` run for `n` consecutive ticks. -/
def ticks_run (fuel : Nat) : Nat → SchedState → Option SchedState
  | 0, s => some s
  | n + 1, s => (timer_handler fuel s).bind (ticks_run fuel n)

/-- The value of `scheduler.current_process` after each of `n` consecutive
ticks of `timer_handler`. -/
def current_trace (fuel : Nat) : Nat → SchedState → Option (List Nat)
  | 0, _ => some []
  | n + 1, s =>
    (timer_handler fuel s).bind (fun s1 =>
      (current_trace fuel n s1).map (fun l => s1.scheduler.current_process :: l))

/-! ## The free list as a list of headers -/

/-- The headers `l`, in order, are what the successor links give from `p` up
to `q`: each header is non-NULL and points to the following one, the last one
points to `q`. -/
def Seg (blk : Nat → memory_block) : Nat → List Nat → Nat → Prop
  | p, [], q => p = q
  | p, h :: t, q => p = h ∧ h ≠ 0 ∧ Seg blk (blk h).next t q

/-- The headers `l` are the whole NULL-terminated successor chain from `p`. -/
def Chain (blk : Nat → memory_block) (p : Nat) (l : List Nat) : Prop := Seg blk p l 0

/-- Address layout of the headers `l` below the bound `E`: each payload starts
right after its 16-byte header and ends at or before the next header of the
list, the last one at or before `E`. -/
def Layout (blk : Nat → memory_block) (E : Nat) : List Nat → Prop
  | [] => True
  | h :: t =>
    (blk h).start_addr = h + sizeof_memory_block_t ∧
    h + sizeof_memory_block_t + (blk h).size ≤ t.headD E ∧ Layout blk E t

/-- The sum of the `size` fields of the headers of `l` marked allocated. -/
def alloc_sum (blk : Nat → memory_block) : List Nat → Nat
  | [] => 0
  | h :: t => (if (blk h).is_allocated ≠ 0 then (blk h).size else 0) + alloc_sum blk t

/-- Well-formed allocator state with header list `l` inside a heap of the
32-bit address space that ends at `E`: the list is the chain from `free_list`,
it is laid out in address order, and `used_memory` is the sum of the allocated
sizes. -/
def HeapInv (E : Nat) (st : MemState) (l : List Nat) : Prop :=
  Chain st.blk st.mgr.free_list l ∧ Layout st.blk E l ∧ E ≤ 2 ^ 32 ∧
  st.mgr.used_memory = alloc_sum st.blk l

/-- Well-formed allocator state. -/
def HeapWf (st : MemState) : Prop := ∃ E l, HeapInv E st l

/-- The sum of the `size` fields of the nodes marked allocated. -/
def allocated_bytes (nodes : List (Nat × memory_block)) : Nat :=
  ((nodes.filter (fun n => decide (n.2.is_allocated ≠ 0))).map (fun n => n.2.size)).sum

/-- Whether `ptr` is the payload address of a node of the free list that is
marked allocated. -/
def is_allocated_payload (fuel : Nat) (st : MemState) (ptr : Nat) : Bool :=
  match free_list_nodes fuel st with
  | none => false
  | some nodes =>
    nodes.any (fun n => decide (n.2.start_addr = ptr) && decide (n.2.is_allocated ≠ 0))

/-- Whether a node is free and at least `r` bytes large: the test of the
search loop of `kmalloc`. -/
def fits (r : Nat) (n : Nat × memory_block) : Bool :=
  decide (n.2.is_allocated = 0) && decide (n.2.size ≥ r)

/-- The allocator states reached after `memory_init` by calls of `kmalloc`
(any size, any result) and calls of `kfree` on a payload address that is
allocated at the time of the call. -/
inductive HeapReach : MemState → Prop
  | init (start size : Nat) (st0 : MemState) :
      0 < start → sizeof_memory_block_t < size → start + size ≤ 2 ^ 32 →
      HeapReach (memory_init start size st0)
  | alloc {st : MemState} (fuel size : Nat) (st1 : MemState) (ptr : Nat) :
      HeapReach st → kmalloc fuel st size = some (st1, ptr) → HeapReach st1
  | free {st : MemState} (fuel ptr : Nat) (st1 : MemState) :
      HeapReach st → is_allocated_payload fuel st ptr = true →
      kfree fuel st ptr = some st1 → HeapReach st1

/-- The state and the pointer `a` after `a = kmalloc(100)` on `sample_heap`. -/
def sample_heap_a : MemState × Nat := (kmalloc 10 sample_heap 100).getD (sample_heap, 0)

/-- The state and the pointer `b` after `b = kmalloc(200)` on `sample_heap_a`. -/
def sample_heap_b : MemState × Nat := (kmalloc 10 sample_heap_a.1 200).getD (sample_heap, 0)

/-- The state after `kfree(a)` on `sample_heap_b`. -/
def sample_heap_freed : MemState := (kfree 10 sample_heap_b.1 sample_heap_a.2).getD sample_heap

/-- A ready queue that is a circle of two processes, head `h` then `t`, with
`k` schedule calls left on the head's slice and a full slice of 10 on `t`, the
quantum 10, and nobody sleeping. -/
def TwoReady (s : SchedState) (h t k : Nat) : Prop :=
  h ≠ 0 ∧ t ≠ 0 ∧ h ≠ t ∧ s.scheduler.ready_queue = h ∧
  (s.proc h).next = t ∧ (s.proc t).next = h ∧
  (s.proc h).time_slice = k ∧ (s.proc t).time_slice = 10 ∧
  s.scheduler.time_quantum = 10 ∧ s.scheduler.sleeping_queue = 0

/-- The machine and the process after a second `process_create` at
`PRIORITY_NORMAL`, on the machine of `sample_created`. -/
def sample_second : World × Nat :=
  (process_create 20 sample_created.1 [] 0x3000 PRIORITY_NORMAL).getD (sample_world, 0)

/-! ## Scenarios on the initial frame, the interrupt core and the scheduler -/

/-- The eleven 32-bit words of memory from the address `esp` upward. -/
def frame_words (ram : Nat → Nat) (esp : Nat) : List Nat :=
  (List.range 11).map (fun i => ram (esp + 4 * i))

/-- The port writes of one end-of-interrupt for IRQ line `irq`, as the EOI
discipline states them: `0x20` to port `0xA0` if and only if the line is at
least 8, then `0x20` to port `0x20`. -/
def eoi_events (irq : Nat) : List Event :=
  (if irq ≥ 8 then [Event.outb 0x20 0xA0] else []) ++ [Event.outb 0x20 0x20]

/-- The entry state with a handler installed for vector 14 by
`set_interrupt_handler`; the handler, when run, sets `cr3` to 1. -/
def sample_exception_kernel : Kernel :=
  set_interrupt_handler (Kernel.initial 0) 14
    (some (interrupt_handler_t.routine 14 (fun w => some { w with cr3 := 1 })))

/-- The entry state with a handler installed for IRQ line 9 by
`irq_install_handler`; the handler, when run, sets `cr3` to 1. -/
def sample_irq_kernel : Kernel :=
  irq_install_handler (Kernel.initial 0) 9
    (some (interrupt_handler_t.routine 9 (fun w => some { w with cr3 := 1 })))

/-- The process `p` alone in the ready queue, with `k` schedule calls left on
its slice, priority `pr`, and the quantum 10. -/
def OneReady (s : SchedState) (p k pr : Nat) : Prop :=
  p ≠ 0 ∧ s.scheduler.ready_queue = p ∧ (s.proc p).next = p ∧
  (s.proc p).time_slice = k ∧ (s.proc p).priority = pr ∧ s.scheduler.time_quantum = 10

/-- The machine and the process after one `process_create` at `PRIORITY_HIGH`
on `sample_world`. -/
def sample_high : World × Nat :=
  (process_create 20 sample_world [] 0x2000 PRIORITY_HIGH).getD (sample_world, 0)

/-- A sequence of processes ordered by non-increasing priority. -/
def PrioritySorted (proc : Nat → process) (l : List Nat) : Prop :=
  l.Pairwise (fun a b => (proc a).priority ≥ (proc b).priority)

/-- The scheduler state of `sample_second` (ready queue: two processes at
`PRIORITY_NORMAL`) with a control block at `0x200000`, in no queue, whose
priority is `PRIORITY_HIGH`. -/
def sample_three : SchedState := sample_second.1.sched.set_priority 0x200000 PRIORITY_HIGH

/-- The scheduler state of `sample_second` after `process_block` of its first
process: the ready queue holds the second process, the blocked queue the
first. -/
def sample_blocked : SchedState := process_block sample_second.1.sched sample_created.2

/-- The condition under which a `scheduler_schedule` call keeps the ready
queue ordered: the queue is empty, or its head has not used up its time slice
(no rotation), or the head's priority is at most one above the priority of the
last process of the queue (the head's `prev`). -/
def rotation_in_order (s : SchedState) : Prop :=
  s.scheduler.ready_queue = 0 ∨ (s.proc s.scheduler.ready_queue).time_slice > 0 ∨
    (s.proc s.scheduler.ready_queue).priority ≤
      (s.proc (s.proc s.scheduler.ready_queue).prev).priority + 1

/-- The machines reached from `scheduler_init` by `process_create`,
`process_block`, `process_unblock` (on created processes), and by
`scheduler_schedule`, `scheduler_yield` and returning `timer_handler` calls
whose `scheduler_schedule` step is made under `rotation_in_order`; the list
is the created processes. -/
inductive ReachInOrder : World → List Nat → Prop where
  | init (fuel : Nat) (k : Kernel) : ReachInOrder (scheduler_init fuel k).rest []
  | create {w w1 : World} {L : List Nat} {p : Nat} (fuel : Nat) (name : List Nat)
      (entry_point priority : Nat) : ReachInOrder w L →
      process_create fuel w name entry_point priority = some (w1, p) → p ≠ 0 → p ∉ L →
      ReachInOrder w1 (p :: L)
  | create_null {w w1 : World} {L : List Nat} (fuel : Nat) (name : List Nat)
      (entry_point priority : Nat) : ReachInOrder w L →
      process_create fuel w name entry_point priority = some (w1, 0) → ReachInOrder w1 L
  | block {w : World} {L : List Nat} {p : Nat} : ReachInOrder w L → p ∈ L →
      ReachInOrder { w with sched := process_block w.sched p } L
  | unblock {w : World} {L : List Nat} {p : Nat} {s1 : SchedState} (fuel : Nat) :
      ReachInOrder w L → p ∈ L → process_unblock fuel w.sched p = some s1 →
      ReachInOrder { w with sched := s1 } L
  | yield {w : World} {L : List Nat} : ReachInOrder w L →
      (w.sched.scheduler.current_process ≠ 0 → rotation_in_order w.sched) →
      ReachInOrder { w with sched := scheduler_yield w.sched } L
  | schedule {w : World} {L : List Nat} : ReachInOrder w L → rotation_in_order w.sched →
      ReachInOrder { w with sched := scheduler_schedule w.sched } L
  | tick {w : World} {L : List Nat} {s1 : SchedState} (fuel : Nat) : ReachInOrder w L →
      (u32 (w.sched.timer_ticks + 1) % 10 = 0 → rotation_in_order w.sched) →
      timer_handler fuel w.sched = some s1 → ReachInOrder { w with sched := s1 } L

/-- The invariant of `ReachInOrder`: the ready and blocked queues are
well-formed circles holding exactly the created processes, nobody sleeps, and
the ready queue read from its head is ordered by non-increasing priority. -/
def OrderedInv (s : SchedState) (L : List Nat) : Prop :=
  ∃ lr lb, QInv s lr lb [] ∧ PrioritySorted s.proc lr ∧ ∀ p, p ∈ L ↔ p ∈ lr ++ lb

/-- The machine and the process after a second `process_create`, at
`PRIORITY_LOW`, on the machine of `sample_high`. -/
def sample_low : World × Nat :=
  (process_create 20 sample_high.1 [] 0x3000 PRIORITY_LOW).getD (sample_world, 0)

/-- The machine of `sample_low` after eleven `scheduler_schedule` calls. -/
def sample_overtaken : World :=
  { sample_low.1 with sched := schedule_times 11 sample_low.1.sched }

/-- The machine of `sample_low` after one `scheduler_schedule` call. -/
def sample_low_step : World :=
  { sample_low.1 with sched := scheduler_schedule sample_low.1.sched }

/-- The runs made of `scheduler_schedule` calls and of returning
`timer_handler` invocations that leave the tick counter below `w`:
`BeforeWake w s s1` says that such a run leads from `s` to `s1`. -/
inductive BeforeWake (w : Nat) : SchedState → SchedState → Prop where
  | refl (s : SchedState) : BeforeWake w s s
  | schedule {s s1 : SchedState} : BeforeWake w s s1 → BeforeWake w s (scheduler_schedule s1)
  | tick {s s1 s2 : SchedState} (fuel : Nat) : BeforeWake w s s1 →
      timer_handler fuel s1 = some s2 → s2.timer_ticks < w → BeforeWake w s s2

/-- The scheduler state of `sample_running` after its current process called
`timer_sleep(5)` at tick 0. -/
def sample_asleep : SchedState := timer_sleep sample_running.sched 5

/-- The state of `sample_asleep` after a `scheduler_schedule` call and one
`timer_handler` invocation (tick 1). -/
def sample_asleep_later : SchedState :=
  (timer_handler 5 (scheduler_schedule sample_asleep)).getD sample_asleep

/-- The allocator states reached after `memory_init(start, size)` by calls of
`kmalloc` (any size, any result) and calls of `kfree` on a payload address
that is allocated at the time of the call. -/
inductive HeapReachFrom (start size : Nat) : MemState → Prop
  | init (st0 : MemState) : HeapReachFrom start size (memory_init start size st0)
  | alloc {st : MemState} (fuel n : Nat) (st1 : MemState) (ptr : Nat) :
      HeapReachFrom start size st → kmalloc fuel st n = some (st1, ptr) →
      HeapReachFrom start size st1
  | free {st : MemState} (fuel ptr : Nat) (st1 : MemState) :
      HeapReachFrom start size st → is_allocated_payload fuel st ptr = true →
      kfree fuel st ptr = some st1 → HeapReachFrom start size st1

/-- The aligned-allocation scenario on `sample_heap`:
`kmalloc_aligned(0xFFFFFFE0, 32)`. -/
def sample_aligned : MemState × Nat :=
  (kmalloc_aligned 10 sample_heap 0xFFFFFFE0 32).getD (sample_heap, 0)

/-- The machine of `sample_running` after `process_block` of its current
process. -/
def sample_self_blocked : World :=
  { sample_running with sched := process_block sample_running.sched sample_created.2 }

/-- The machine of `sample_self_blocked` after `scheduler_yield`. -/
def sample_blocked_yield : World :=
  { sample_self_blocked with sched := scheduler_yield sample_self_blocked.sched }

/-- The machine of `sample_running` after its current process called
`timer_sleep(5)`. -/
def sample_self_asleep : World :=
  { sample_running with sched := timer_sleep sample_running.sched 5 }

/-- The machine of `sample_self_asleep` after `scheduler_yield`. -/
def sample_asleep_yield : World :=
  { sample_self_asleep with sched := scheduler_yield sample_self_asleep.sched }

/-- The state in which `timer_handler` enters its loop over the sleeping
queue: the tick counter incremented and, on every tenth tick,
`scheduler_schedule` called. -/
def timer_handler_entry (s : SchedState) : SchedState :=
  let s := { s with timer_ticks := u32 (s.timer_ticks + 1) }
  if s.timer_ticks % 10 = 0 then scheduler_schedule s else s

/-- The scheduler state of `sample_running` after its current process called
`timer_sleep(0)` at tick 0: the sleeping queue holds that one process, with
wake tick 0. -/
def sample_due : SchedState := timer_sleep sample_running.sched 0

/-! ## Heap allocator: coalescing in `kfree` -/

/-- C1 (the code breaks the claim): after `memory_init(0x100000, 0x100000)`,
`a = kmalloc(64)`, `b = kmalloc(64)`, `kfree(a)`, `kfree(b)` the free list is
two nodes, both free and adjacent: `kfree(b)` merges `b` into its free
predecessor and then merges the free successor into the unlinked node `b`, so
the successor stays in the list next to the grown predecessor. -/
theorem kfree_leaves_adjacent_free_nodes :
    (scenario_two_frees 10 0x100000 0x100000).bind (free_list_nodes 10) =
      some [(0x100000, memory_block.mk 0x100010 144 0 0x1000A0),
            (0x1000A0, memory_block.mk 0x1000B0 1048400 0 0)] ∧
    ((scenario_two_frees 10 0x100000 0x100000).bind (free_list_nodes 10)).map has_adjacent_free =
      some true := by
  constructor <;> decide!

/-- C2 (the code breaks the claim): in scenario S2, `a = alloc(64)`,
`b = alloc(64)`, `c = alloc(64)`, `free(b)`, `free(a)`, `free(c)` on the region
`(0x100000, 0x100000)`, the free list ends with two free nodes, of sizes 224 and
1048320, not one node of size `0x100000 - 16`; `used_memory` is `0`. -/
theorem coalesce_scenario_leaves_two_nodes :
    (scenario_coalesce 10 0x100000 0x100000).map
        (fun st => (free_list_nodes 10 st, get_used_memory st)) =
      some (some [(0x100000, memory_block.mk 0x100010 224 0 0x1000F0),
                  (0x1000F0, memory_block.mk 0x100100 1048320 0 0)], 0) := by
  decide!

/-! ## Interrupt core: the system-call table -/

theorem register_syscall_lookup {σ : Type} (st : IntState σ) (num : Int)
    (h : Option (syscall_handler_t σ)) (h0 : 0 ≤ num) (h1 : num < 256) :
    (register_syscall st num h).syscall_handlers num.toNat = h := by
  simp [register_syscall, SYSCALL_MAX, h0, h1]

/-- C6: `syscall_handler` dispatch. With `eax` read as a signed 32-bit number
`n`: if `0 ≤ n < 256`, `register_syscall(n, h)` puts `h` in slot `n`, and with
`h` in slot `n` the handler returns `h(ebx, ecx, edx)`, the arguments in that
order, the only call made being that one; if `n < 0`, `n ≥ 256` or slot `n` is
empty, it returns `-1` and leaves the whole state as it was (no handler runs). -/
theorem syscall_handler_dispatch {σ : Type} (st : IntState σ) (context : interrupt_context_t) :
    (∀ h : syscall_handler_t σ, 0 ≤ toInt32 context.eax → toInt32 context.eax < 256 →
      (register_syscall st (toInt32 context.eax) (some h)).syscall_handlers
          (toInt32 context.eax).toNat = some h) ∧
    (∀ h : syscall_handler_t σ, 0 ≤ toInt32 context.eax → toInt32 context.eax < 256 →
      st.syscall_handlers (toInt32 context.eax).toNat = some h →
      syscall_handler st context =
        ((h (toInt32 context.ebx) (toInt32 context.ecx) (toInt32 context.edx) st.rest).1,
         { st with
            rest := (h (toInt32 context.ebx) (toInt32 context.ecx) (toInt32 context.edx) st.rest).2
            trace := st.trace ++ [Event.call_syscall (toInt32 context.eax).toNat
              (toInt32 context.ebx) (toInt32 context.ecx) (toInt32 context.edx)] })) ∧
    ((toInt32 context.eax < 0 ∨ 256 ≤ toInt32 context.eax ∨
        st.syscall_handlers (toInt32 context.eax).toNat = none) →
      syscall_handler st context = (-1, st)) := by
  refine ⟨fun h h0 h1 => register_syscall_lookup st _ _ h0 h1, ?_, ?_⟩
  · intro h h0 h1 hh
    simp [syscall_handler, SYSCALL_MAX, h0, h1, hh]
  · intro hc
    unfold syscall_handler
    rcases hc with hc | hc | hc
    · have : ¬ (0 ≤ toInt32 context.eax) := by omega
      simp [this]
    · have : ¬ (toInt32 context.eax < (SYSCALL_MAX : Int)) := by simp [SYSCALL_MAX]; omega
      simp [this]
    · simp only [hc]
      split <;> rfl

/-- Witness of C6: with `sys_exit` registered in slot 6 of the entry state,
`eax = 6` yields the result `0` of `sys_exit`; `eax = 300` and
`eax = 0xFFFFFFFF` (that is `-1`) yield `-1`. -/
theorem syscall_handler_dispatch_witness :
    (syscall_handler (register_syscall (Kernel.initial 0) 6 (some sys_exit))
        (context_of 0x80 6 1 2 3)).1 = 0 ∧
    (syscall_handler (Kernel.initial 0) (context_of 0x80 300 1 2 3)).1 = -1 ∧
    (syscall_handler (Kernel.initial 0) (context_of 0x80 0xFFFFFFFF 1 2 3)).1 = -1 := by
  refine ⟨?_, ?_, ?_⟩
  · rw [(syscall_handler_dispatch (register_syscall (Kernel.initial 0) 6 (some sys_exit))
        (context_of 0x80 6 1 2 3)).2.1 sys_exit (by decide) (by decide)
        ((syscall_handler_dispatch (Kernel.initial 0) (context_of 0x80 6 1 2 3)).1 sys_exit
          (by decide) (by decide))]
    rfl
  · rw [(syscall_handler_dispatch (Kernel.initial 0) (context_of 0x80 300 1 2 3)).2.2
        (Or.inr (Or.inl (by decide)))]
  · rw [(syscall_handler_dispatch (Kernel.initial 0) (context_of 0x80 0xFFFFFFFF 1 2 3)).2.2
        (Or.inl (by decide))]

/-- C7 (the code breaks the claim): after `interrupt_init` and
`register_syscall(1, write)`, `common_interrupt_handler` on a context with
`int_no = 0x80, eax = 1, ebx = 1, ecx = buf, edx = 5` calls the entry of
`interrupt_handlers[0x80]`, which is `syscall_handler` behind a
`void (*)(void)` cast, with no argument: the routine runs on whatever context
lies in its argument slot, its result is dropped, and the dispatched context
comes back unchanged, `eax` still `1`. -/
theorem syscall_gateway_drops_result {σ : Type} (st0 : IntState σ) (write : syscall_handler_t σ)
    (buf : Nat) (stale : interrupt_context_t) :
    common_interrupt_handler (register_syscall (interrupt_init st0) 1 (some write))
        (context_of 0x80 1 1 buf 5) stale =
      some ((syscall_handler (register_syscall (interrupt_init st0) 1 (some write)) stale).2,
            context_of 0x80 1 1 buf 5) ∧
    (context_of 0x80 1 1 buf 5).eax = 1 := by
  constructor
  · simp [common_interrupt_handler, context_of, IRQ0, register_syscall, SYSCALL_MAX,
      interrupt_init, syscall_init, set_interrupt_handler, pic_init, outb,
      call_interrupt_handler]
  · rfl

theorem kernel_main_syscall_handlers (fuel : Nat) (k k1 : Kernel)
    (h : kernel_main fuel k = some k1) : k1.syscall_handlers = fun _ => none := by
  unfold kernel_main at h
  simp only at h
  split at h
  · exact absurd h (by simp)
  · simp only [Option.some.injEq] at h
    subst h
    simp [enable_interrupts, scheduler_init, timer_init, pic_unmask_irq, irq_install_handler,
      outb, interrupt_init, syscall_init, set_interrupt_handler, pic_init]

/-- C8 (the code breaks the claim): `kernel_init` calls `register_system_calls`
before `kernel_main`, whose `interrupt_init` zeroes `syscall_handlers`. So
whenever the initialisation sequence completes, `syscall_handler` returns `-1`
for every context, `eax = 2` (open) included; and the sequence does complete
from the entry state. -/
theorem kernel_init_clears_syscall_table (fuel : Nat) (k : Kernel)
    (context : interrupt_context_t) :
    (kernel_init fuel k).map (fun k1 => (syscall_handler k1 context).1) =
      (kernel_init fuel k).map (fun _ => (-1 : Int)) ∧
    (kernel_init 20 (Kernel.initial 0)).map
        (fun k1 => (syscall_handler k1 (context_of 0x80 2 0x7000 1 0)).1) = some (-1) := by
  constructor
  · unfold kernel_init
    cases hk : kernel_main fuel (register_system_calls k) with
    | none => rfl
    | some k1 =>
      have ht := kernel_main_syscall_handlers fuel _ k1 hk
      simp only [Option.map_some', Option.some.injEq]
      unfold syscall_handler
      simp only [ht]
      split <;> rfl
  · decide!

/-! ## Scheduler: the policy -/

theorem scheduler_round_robin_switches (s : SchedState) :
    (scheduler_round_robin s).switches = s.switches := by
  unfold scheduler_round_robin
  split
  · rfl
  · simp only [SchedState.set_current_process, ne_eq, not_true_eq_false, if_false]
    split <;> rfl

/-- C9 (the code breaks the claim): `scheduler_round_robin` stores the chosen
process into `scheduler.current_process` before it tests
`scheduler.current_process != next`, so no call of `scheduler_schedule` ever
calls `context_switch`. In the two-process scenario the twelfth call rotates
from the current process `q` to `p ≠ q`, marks `q` READY and `p` RUNNING, and
the list of `context_switch` calls stays empty. -/
theorem scheduler_schedule_never_switches :
    (∀ s : SchedState, (scheduler_schedule s).switches = s.switches) ∧
    scenario_two_processes.map (fun r =>
        ([r.2.1, r.2.2, r.1.scheduler.current_process,
          (schedule_times 11 r.1).scheduler.current_process],
         [((schedule_times 11 r.1).proc r.2.2).state, ((schedule_times 11 r.1).proc r.2.1).state],
         (schedule_times 11 r.1).switches)) =
      some ([0x102020, 0x1050A8, 0x1050A8, 0x102020], [PROCESS_READY, PROCESS_RUNNING], []) := by
  constructor
  · intro s
    unfold scheduler_schedule scheduler_multilevel_feedback
    split
    · rfl
    · simp only [↓reduceIte, *]
      split
      · rfl
      · rw [scheduler_round_robin_switches]
        split <;> rfl
  · decide!

/-- C10 (counterexample): in the state reached by boot, `process_create` of `p`,
eleven `scheduler_schedule` calls (which make `p` current) and `process_create`
of a higher-priority `q`, the current process is `p` with `time_slice = 10 > 0`,
the ready-queue head is `q`, and `scheduler_schedule` leaves the `time_slice` of
`p` at 10 while it takes that of `q` from 10 to 9. -/
theorem schedule_decrements_head_not_current :
    scenario_head_not_current.map (fun r =>
        ([r.2.1, r.2.2, r.1.scheduler.current_process, r.1.scheduler.ready_queue],
         [(r.1.proc r.2.1).time_slice, ((scheduler_schedule r.1).proc r.2.1).time_slice],
         [(r.1.proc r.2.2).time_slice, ((scheduler_schedule r.1).proc r.2.2).time_slice])) =
      some ([0x102020, 0x1050A8, 0x102020, 0x1050A8], [10, 10], [10, 9]) := by
  decide!

/-- C10 (amended): for every scheduler state whose ready queue is not empty and
whose head has `time_slice > 0`, `scheduler_schedule` decrements the
`time_slice` of the ready-queue head by exactly one and changes nothing else:
the `scheduler` record (current process, queue heads, counters), the tick
counter, every other field of the head and every other control block are as
before, and `context_switch` is not called. When the current process is that
head, it is the current process whose slice is decremented. -/
theorem scheduler_schedule_decrements_head (s : SchedState)
    (h0 : s.scheduler.ready_queue ≠ 0)
    (h1 : 0 < (s.proc s.scheduler.ready_queue).time_slice) :
    (scheduler_schedule s).scheduler = s.scheduler ∧
    (scheduler_schedule s).timer_ticks = s.timer_ticks ∧
    (scheduler_schedule s).timer_frequency = s.timer_frequency ∧
    (scheduler_schedule s).switches = s.switches ∧
    (scheduler_schedule s).proc s.scheduler.ready_queue =
      { s.proc s.scheduler.ready_queue with
          time_slice := (s.proc s.scheduler.ready_queue).time_slice - 1 } ∧
    (∀ q, q ≠ s.scheduler.ready_queue → (scheduler_schedule s).proc q = s.proc q) ∧
    (s.scheduler.current_process = s.scheduler.ready_queue →
      ((scheduler_schedule s).proc s.scheduler.current_process).time_slice + 1 =
        (s.proc s.scheduler.current_process).time_slice) := by
  have hs : scheduler_schedule s =
      s.set_time_slice s.scheduler.ready_queue ((s.proc s.scheduler.ready_queue).time_slice - 1) := by
    simp [scheduler_schedule, scheduler_multilevel_feedback, h0, h1]
  rw [hs]
  refine ⟨rfl, rfl, rfl, rfl, ?_, ?_, ?_⟩
  · simp [SchedState.set_time_slice]
  · intro q hq
    simp [SchedState.set_time_slice, hq]
  · intro hc
    rw [hc]
    simp only [SchedState.set_time_slice, Function.update_same]
    omega

/-- Witness of C10 (amended): the state reached by `scheduler_init`, one
`process_create` and eleven `scheduler_schedule` calls; the process is the
ready-queue head and the current process, with `time_slice = 10`, and the next
call leaves it at 9. -/
theorem scheduler_schedule_decrements_head_witness :
    sample_running.sched.scheduler.ready_queue ≠ 0 ∧
    0 < (sample_running.sched.proc sample_running.sched.scheduler.ready_queue).time_slice ∧
    sample_running.sched.scheduler.current_process =
      sample_running.sched.scheduler.ready_queue ∧
    ((scheduler_schedule sample_running.sched).proc
        sample_running.sched.scheduler.current_process).time_slice + 1 =
      (sample_running.sched.proc sample_running.sched.scheduler.current_process).time_slice :=
  ⟨by decide!, by decide!, by decide!,
   (scheduler_schedule_decrements_head sample_running.sched (by decide!) (by decide!)).2.2.2.2.2.2
     (by decide!)⟩

/-! ## Scheduler: the sleeping-queue walk of `timer_handler` -/

/-- C5 (the code breaks the claim): in the scenario state the sleeping queue is
`[q, p]`, both with wake-tick 3, and the tick counter is 2. The next
`timer_handler` call raises the counter to 3, wakes the head `q` and then
stops, because the successor `p` saved before the removal is now the re-read
queue head: `p`, whose wake-tick 3 is ≤ 3, is still in the sleeping queue, with
state SLEEPING, and is not in the ready queue. The outcome is the same when the
state field of `q` (which the policy has set to READY) is first put back to
SLEEPING. -/
theorem timer_handler_misses_due_sleeper :
    scenario_two_sleepers.map (fun r =>
        ([r.2.1, r.2.2.1, r.2.2.2], r.1.timer_ticks,
         queue_members 10 r.1 r.1.scheduler.sleeping_queue,
         [(r.1.proc r.2.2.1).time_slice, (r.1.proc r.2.1).time_slice])) =
      some ([0x102020, 0x1050A8, 0x108130], 2, some [0x1050A8, 0x102020], [3, 3]) ∧
    scenario_two_sleepers.bind (fun r => (timer_handler 20 r.1).map (fun s =>
        (s.timer_ticks,
         queue_members 10 s s.scheduler.sleeping_queue,
         queue_members 10 s s.scheduler.ready_queue,
         (s.proc r.2.1).time_slice, (s.proc r.2.1).state))) =
      some (3, some [0x102020], some [0x1050A8, 0x108130], 3, PROCESS_SLEEPING) ∧
    scenario_two_sleepers.bind (fun r =>
        (timer_handler 20 (r.1.set_state r.2.2.1 PROCESS_SLEEPING)).map (fun s =>
          (s.timer_ticks,
           queue_members 10 s s.scheduler.sleeping_queue,
           queue_members 10 s s.scheduler.ready_queue,
           (s.proc r.2.1).time_slice, (s.proc r.2.1).state))) =
      some (3, some [0x102020], some [0x1050A8, 0x108130], 3, PROCESS_SLEEPING) := by
  refine ⟨?_, ?_, ?_⟩ <;> decide!

/-! ## Scheduler: the running process and the queues -/

/-- C3 (counterexample): after boot, `process_create` of `p` and `q` and eleven
`scheduler_schedule` calls, the ready queue is `[q, p]` and the state of its
member `q` is RUNNING: the queues do not hold only processes that are neither
RUNNING nor ZOMBIE. -/
theorem ready_queue_holds_running_process :
    scenario_two_processes.map (fun r =>
        ([r.2.1, r.2.2], queue_members 10 r.1 r.1.scheduler.ready_queue,
         (r.1.proc r.2.2).state)) =
      some ([0x102020, 0x1050A8], some [0x1050A8, 0x102020], PROCESS_RUNNING) := by
  decide!


/-! ## Scheduler: circular queues and the queue invariant -/

/-! ### Lists: links that survive a local change -/

theorem chain'_frame {α : Type} {R S : α → α → Prop} :
    ∀ l : List α, List.Chain' R l →
      (∀ u v, u ∈ l.dropLast → v ∈ l.tail → R u v → S u v) → List.Chain' S l
  | [], _, _ => List.chain'_nil
  | [_], _, _ => List.chain'_singleton _
  | a :: b :: t, h, hf => by
    rw [List.chain'_cons] at h ⊢
    refine ⟨hf a b (by simp) (by simp) h.1, chain'_frame (b :: t) h.2 ?_⟩
    intro u v hu hv huv
    refine hf u v ?_ ?_ huv
    · simp only [List.dropLast_cons₂, List.mem_cons]; exact Or.inr hu
    · simp only [List.tail_cons, List.mem_cons] at hv ⊢; exact Or.inr hv

theorem not_last_of_mem_dropLast {α : Type} {l : List α} (hn : l.Nodup) {u : α}
    (hu : u ∈ l.dropLast) (hne : l ≠ []) : u ≠ l.getLast hne := by
  intro h
  have := List.dropLast_append_getLast hne
  rw [← this] at hn
  rw [List.nodup_append] at hn
  exact hn.2.2 hu (by simp [h]) 

theorem cyc_rotate (proc : Nat → process) (a b : List Nat) :
    Cyc proc (a ++ b) → Cyc proc (b ++ a) := by
  intro ⟨hn, h0, hc, hl⟩
  refine ⟨List.nodup_append_comm.mp hn, ?_, ?_, ?_⟩
  · intro x hx; exact h0 x (by simp at hx ⊢; tauto)
  · cases a with
    | nil => simpa using hc
    | cons x a =>
      cases b with
      | nil => simpa using hc
      | cons y b =>
        rw [List.chain'_append] at hc ⊢
        refine ⟨hc.2.1, hc.1, ?_⟩
        intro u hu v hv
        apply hl u _ v _
        · rw [List.getLast?_append_of_ne_nil _ (List.cons_ne_nil _ _)]; exact hu
        · simpa using hv
  · cases a with
    | nil => simpa using hl
    | cons x a =>
      cases b with
      | nil => simpa using hl
      | cons y b =>
        rw [List.chain'_append] at hc
        intro u hu v hv
        apply hc.2.2 u _ v _
        · rw [List.getLast?_append_of_ne_nil _ (List.cons_ne_nil _ _)] at hu; exact hu
        · simpa using hv

/-! ### The stores of the scheduler, field by field -/

@[simp] theorem set_next_next (s : SchedState) (p v q : Nat) :
    ((s.set_next p v).proc q).next = if q = p then v else (s.proc q).next := by
  unfold SchedState.set_next
  by_cases h : q = p <;> simp [Function.update, h]

@[simp] theorem set_next_prev (s : SchedState) (p v q : Nat) :
    ((s.set_next p v).proc q).prev = (s.proc q).prev := by
  unfold SchedState.set_next
  by_cases h : q = p <;> simp [Function.update, h]

@[simp] theorem set_prev_prev (s : SchedState) (p v q : Nat) :
    ((s.set_prev p v).proc q).prev = if q = p then v else (s.proc q).prev := by
  unfold SchedState.set_prev
  by_cases h : q = p <;> simp [Function.update, h]

@[simp] theorem set_prev_next (s : SchedState) (p v q : Nat) :
    ((s.set_prev p v).proc q).next = (s.proc q).next := by
  unfold SchedState.set_prev
  by_cases h : q = p <;> simp [Function.update, h]

@[simp] theorem set_next_unlinked (s : SchedState) (p v q : Nat) :
    unlinked ((s.set_next p v).proc q) = unlinked (s.proc q) := by
  unfold SchedState.set_next unlinked
  by_cases h : q = p <;> simp [Function.update, h]

@[simp] theorem set_prev_unlinked (s : SchedState) (p v q : Nat) :
    unlinked ((s.set_prev p v).proc q) = unlinked (s.proc q) := by
  unfold SchedState.set_prev unlinked
  by_cases h : q = p <;> simp [Function.update, h]

@[simp] theorem set_ready_queue_proc (s : SchedState) (v : Nat) :
    (s.set_ready_queue v).proc = s.proc := rfl
@[simp] theorem set_blocked_queue_proc (s : SchedState) (v : Nat) :
    (s.set_blocked_queue v).proc = s.proc := rfl
@[simp] theorem set_sleeping_queue_proc (s : SchedState) (v : Nat) :
    (s.set_sleeping_queue v).proc = s.proc := rfl
@[simp] theorem set_current_process_proc (s : SchedState) (v : Nat) :
    (s.set_current_process v).proc = s.proc := rfl
@[simp] theorem set_next_scheduler (s : SchedState) (p v : Nat) :
    (s.set_next p v).scheduler = s.scheduler := rfl
@[simp] theorem set_prev_scheduler (s : SchedState) (p v : Nat) :
    (s.set_prev p v).scheduler = s.scheduler := rfl

theorem remove_proc_single (s : SchedState) (p : Nat) (hp : p ≠ 0)
    (h1 : (s.proc p).next = p) :
    (scheduler_remove_process s p).proc = ((s.set_next p 0).set_prev p 0).proc := by
  unfold scheduler_remove_process
  simp only [hp, h1, if_false, if_true]
  split_ifs <;> rfl

theorem remove_proc_multi (s : SchedState) (p : Nat) (hp : p ≠ 0)
    (h1 : (s.proc p).next ≠ p) :
    (scheduler_remove_process s p).proc =
      ((((s.set_next (s.proc p).prev (s.proc p).next).set_prev (s.proc p).next
          (s.proc p).prev).set_next p 0).set_prev p 0).proc := by
  have e1 : ((s.set_next (s.proc p).prev (s.proc p).next).proc p).next = (s.proc p).next := by
    rw [set_next_next]; split_ifs <;> rfl
  have e2 : ((s.set_next (s.proc p).prev (s.proc p).next).proc p).prev = (s.proc p).prev := by
    rw [set_next_prev]
  unfold scheduler_remove_process
  simp only [hp, h1, if_false]
  rw [e1, e2]
  split_ifs <;> rfl

theorem remove_next (s : SchedState) (p q : Nat) (hp : p ≠ 0) :
    ((scheduler_remove_process s p).proc q).next =
      if q = p then 0
      else if (s.proc p).next ≠ p ∧ q = (s.proc p).prev then (s.proc p).next
      else (s.proc q).next := by
  by_cases h1 : (s.proc p).next = p
  · rw [remove_proc_single s p hp h1]
    simp [h1]
  · rw [remove_proc_multi s p hp h1]
    simp [h1]

theorem remove_prev (s : SchedState) (p q : Nat) (hp : p ≠ 0) :
    ((scheduler_remove_process s p).proc q).prev =
      if q = p then 0
      else if (s.proc p).next ≠ p ∧ q = (s.proc p).next then (s.proc p).prev
      else (s.proc q).prev := by
  by_cases h1 : (s.proc p).next = p
  · rw [remove_proc_single s p hp h1]
    simp [h1]
  · rw [remove_proc_multi s p hp h1]
    simp [h1]

theorem remove_unlinked (s : SchedState) (p q : Nat) :
    unlinked ((scheduler_remove_process s p).proc q) = unlinked (s.proc q) := by
  by_cases hp : p = 0
  · simp [scheduler_remove_process, hp]
  by_cases h1 : (s.proc p).next = p
  · rw [remove_proc_single s p hp h1]
    simp
  · rw [remove_proc_multi s p hp h1]
    simp

/-! ### `scheduler_remove_process` on a circle -/

theorem cyc_nil (proc : Nat → process) : Cyc proc [] :=
  ⟨List.nodup_nil, by simp, List.chain'_nil, by simp⟩

theorem remove_cyc (s : SchedState) (p : Nat) (t : List Nat) (hcyc : Cyc s.proc (p :: t)) :
    Cyc (scheduler_remove_process s p).proc t := by
  obtain ⟨hn, h0, hc, hl⟩ := hcyc
  have hp : p ≠ 0 := h0 p (by simp)
  cases t with
  | nil => exact cyc_nil _
  | cons y t =>
    have hne : (y :: t) ≠ [] := List.cons_ne_nil _ _
    have hpy : Linked s.proc p y := (List.chain'_cons.mp hc).1
    have hc2 : List.Chain' (Linked s.proc) (y :: t) := (List.chain'_cons.mp hc).2
    have hz : Linked s.proc ((y :: t).getLast hne) p := by
      apply hl _ _ p (by simp)
      rw [List.getLast?_cons_cons, List.getLast?_eq_getLast _ hne]
      simp
    have hpn : p ∉ y :: t := (List.nodup_cons.mp hn).1
    have hn2 : (y :: t).Nodup := (List.nodup_cons.mp hn).2
    have hyp : y ≠ p := fun h => hpn (by simp [h])
    have hnp : (s.proc p).next ≠ p := by
      rw [hpy.1]; exact hyp
    have key1 : ∀ q, q ∈ y :: t → ((scheduler_remove_process s p).proc q).next =
        if q = (y :: t).getLast hne then y else (s.proc q).next := by
      intro q hq
      have hqp : q ≠ p := fun h => hpn (h ▸ hq)
      rw [remove_next s p q hp]
      simp [hqp, hyp, hz.2, hpy.1]
    have key2 : ∀ q, q ∈ y :: t → ((scheduler_remove_process s p).proc q).prev =
        if q = y then (y :: t).getLast hne else (s.proc q).prev := by
      intro q hq
      have hqp : q ≠ p := fun h => hpn (h ▸ hq)
      rw [remove_prev s p q hp]
      simp [hqp, hyp, hz.2, hpy.1]
    refine ⟨hn2, fun x hx => h0 x (List.mem_cons_of_mem _ hx), ?_, ?_⟩
    · refine chain'_frame (y :: t) hc2 ?_
      intro u v hu hv huv
      have hu1 : u ≠ (y :: t).getLast hne := not_last_of_mem_dropLast hn2 hu hne
      have hu2 : u ∈ y :: t := List.mem_of_mem_dropLast hu
      have hv2 : v ∈ y :: t := List.mem_of_mem_tail hv
      have hv1 : v ≠ y := by
        intro h
        simp only [List.tail_cons] at hv
        exact (List.nodup_cons.mp hn2).1 (h ▸ hv)
      refine ⟨?_, ?_⟩
      · rw [key1 u hu2]; simp [hu1, huv.1]
      · rw [key2 v hv2]; simp [hv1, huv.2]
    · intro x hx z hz2
      rw [List.getLast?_eq_getLast _ hne] at hx
      simp only [Option.mem_def, Option.some.injEq, List.head?_cons] at hx hz2
      subst hx; subst hz2
      refine ⟨?_, ?_⟩
      · rw [key1 _ (List.getLast_mem hne)]; simp
      · rw [key2 _ (by simp)]; simp

theorem cyc_congr {proc proc2 : Nat → process} {l : List Nat} (hcyc : Cyc proc l)
    (hf : ∀ q ∈ l, (proc2 q).next = (proc q).next ∧ (proc2 q).prev = (proc q).prev) :
    Cyc proc2 l := by
  obtain ⟨hn, h0, hc, hl⟩ := hcyc
  have hlink : ∀ u v, u ∈ l → v ∈ l → Linked proc u v → Linked proc2 u v := by
    intro u v hu hv huv
    exact ⟨by rw [(hf u hu).1]; exact huv.1, by rw [(hf v hv).2]; exact huv.2⟩
  refine ⟨hn, h0, ?_, ?_⟩
  · exact chain'_frame l hc (fun u v hu hv huv =>
      hlink u v (List.mem_of_mem_dropLast hu) (List.mem_of_mem_tail hv) huv)
  · intro x hx y hy
    exact hlink x y (List.mem_of_mem_getLast? hx) (List.mem_of_mem_head? hy) (hl x hx y hy)

theorem cyc_prev_mem {proc : Nat → process} {p : Nat} {t : List Nat}
    (hcyc : Cyc proc (p :: t)) : (proc p).prev ∈ p :: t := by
  obtain ⟨_, _, _, hl⟩ := hcyc
  have hne : (p :: t) ≠ [] := List.cons_ne_nil _ _
  have := hl ((p :: t).getLast hne) (by rw [List.getLast?_eq_getLast _ hne]; simp) p (by simp)
  rw [this.2]
  exact List.getLast_mem hne

theorem cyc_next_head {proc : Nat → process} {p : Nat} {t : List Nat}
    (hcyc : Cyc proc (p :: t)) : (proc p).next = (t ++ [p]).headD 0 := by
  obtain ⟨_, _, hc, hl⟩ := hcyc
  cases t with
  | nil => exact (hl p (by simp) p (by simp)).1
  | cons y t => exact (List.chain'_cons.mp hc).1.1

theorem cyc_next_mem_cons {proc : Nat → process} {p : Nat} {t : List Nat}
    (hcyc : Cyc proc (p :: t)) : (proc p).next ∈ p :: t := by
  rw [cyc_next_head hcyc]
  cases t <;> simp

theorem remove_other (s : SchedState) (p q : Nat) (t : List Nat) (hcyc : Cyc s.proc (p :: t))
    (hq : q ∉ p :: t) :
    ((scheduler_remove_process s p).proc q).next = (s.proc q).next ∧
    ((scheduler_remove_process s p).proc q).prev = (s.proc q).prev := by
  have hp : p ≠ 0 := hcyc.2.1 p (by simp)
  have h1 : q ≠ p := fun h => hq (by simp [h])
  have h2 : q ≠ (s.proc p).prev := fun h => hq (h ▸ cyc_prev_mem hcyc)
  have h3 : q ≠ (s.proc p).next := fun h => hq (h ▸ cyc_next_mem_cons hcyc)
  rw [remove_next s p q hp, remove_prev s p q hp]
  simp [h1, h2, h3]

/-! ### `link_before` on a circle -/

@[simp] theorem link_before_scheduler (s : SchedState) (p c : Nat) :
    (link_before s p c).scheduler = s.scheduler := rfl

theorem link_before_next (s : SchedState) (p c q : Nat) :
    ((link_before s p c).proc q).next =
      if q = (s.proc c).prev then p else if q = p then c else (s.proc q).next := by
  have e : (((s.set_next p c).set_prev p ((s.set_next p c).proc c).prev).proc c).prev
      = (s.proc c).prev := by
    simp
  unfold link_before
  simp only [e]
  simp

theorem link_before_prev (s : SchedState) (p c q : Nat) :
    ((link_before s p c).proc q).prev =
      if q = c then p else if q = p then (s.proc c).prev else (s.proc q).prev := by
  unfold link_before
  simp

@[simp] theorem link_before_unlinked (s : SchedState) (p c q : Nat) :
    unlinked ((link_before s p c).proc q) = unlinked (s.proc q) := by
  unfold link_before
  simp

theorem link_cyc (s : SchedState) (p c : Nat) (t : List Nat) (hcyc : Cyc s.proc (c :: t))
    (hp : p ∉ c :: t) (hp0 : p ≠ 0) : Cyc (link_before s p c).proc (c :: t ++ [p]) := by
  have hzmem := cyc_prev_mem hcyc
  obtain ⟨hn, h0, hc, hl⟩ := hcyc
  have hne : (c :: t) ≠ [] := List.cons_ne_nil _ _
  have hz : Linked s.proc ((c :: t).getLast hne) c :=
    hl _ (by rw [List.getLast?_eq_getLast _ hne]; simp) c (by simp)
  have hzp : (s.proc c).prev ≠ p := fun h => hp (h ▸ hzmem)
  have hcp : c ≠ p := fun h => hp (by simp [h])
  refine ⟨?_, ?_, ?_, ?_⟩
  · rw [List.nodup_append]
    refine ⟨hn, List.nodup_singleton _, ?_⟩
    intro x hx hx2
    simp only [List.mem_singleton] at hx2
    exact hp (hx2 ▸ hx)
  · intro x hx
    simp only [List.mem_append, List.mem_singleton] at hx
    rcases hx with hx | hx
    · exact h0 x hx
    · rw [hx]; exact hp0
  · rw [List.chain'_append]
    refine ⟨?_, List.chain'_singleton _, ?_⟩
    · refine chain'_frame (c :: t) hc ?_
      intro u v hu hv huv
      have hu1 : u ≠ (c :: t).getLast hne := not_last_of_mem_dropLast hn hu hne
      have hu2 : u ≠ p := fun h => hp (h ▸ List.mem_of_mem_dropLast hu)
      have hv2 : v ≠ p := fun h => hp (h ▸ List.mem_of_mem_tail hv)
      have hv1 : v ≠ c := by
        intro h
        simp only [List.tail_cons] at hv
        exact (List.nodup_cons.mp hn).1 (h ▸ hv)
      refine ⟨?_, ?_⟩
      · rw [link_before_next, hz.2]; simp [hu1, hu2, huv.1]
      · rw [link_before_prev]; simp [hv1, hv2, huv.2]
    · intro x hx y hy
      rw [List.getLast?_eq_getLast _ hne] at hx
      simp only [Option.mem_def, Option.some.injEq, List.head?_cons] at hx hy
      subst hx; subst hy
      refine ⟨?_, ?_⟩
      · rw [link_before_next, hz.2]; simp
      · rw [link_before_prev, hz.2]; simp [hcp.symm]
  · intro x hx y hy
    rw [List.getLast?_append_of_ne_nil _ (List.cons_ne_nil _ _)] at hx
    simp only [List.getLast?_singleton, Option.mem_def, Option.some.injEq, List.cons_append,
      List.head?_cons] at hx hy
    subst hx; subst hy
    refine ⟨?_, ?_⟩
    · rw [link_before_next]; simp [hzp.symm]
    · rw [link_before_prev]; simp

theorem link_other (s : SchedState) (p c q : Nat) (t : List Nat) (hcyc : Cyc s.proc (c :: t))
    (hq : q ∉ c :: t) (hqp : q ≠ p) :
    ((link_before s p c).proc q).next = (s.proc q).next ∧
    ((link_before s p c).proc q).prev = (s.proc q).prev := by
  have h2 : q ≠ (s.proc c).prev := fun h => hq (h ▸ cyc_prev_mem hcyc)
  have h3 : q ≠ c := fun h => hq (by simp [h])
  rw [link_before_next, link_before_prev]
  simp [hqp, h2, h3]

theorem single_cyc (s : SchedState) (p : Nat) (hp0 : p ≠ 0) :
    Cyc ((s.set_next p p).set_prev p p).proc [p] := by
  refine ⟨List.nodup_singleton _, by simpa using hp0, List.chain'_singleton _, ?_⟩
  intro x hx y hy
  simp only [List.getLast?_singleton, Option.mem_def, Option.some.injEq, List.head?_cons] at hx hy
  subst hx; subst hy
  constructor <;> simp

/-! ### Removal from the three queues -/

theorem cyc_split {proc : Nat → process} {l : List Nat} {p : Nat} (hcyc : Cyc proc l)
    (hp : p ∈ l) : ∃ pre post, l = pre ++ p :: post ∧ p ∉ pre ∧ p ∉ post ∧
      Cyc proc (p :: (post ++ pre)) ∧ l.erase p = pre ++ post := by
  obtain ⟨pre, post, rfl⟩ := List.append_of_mem hp
  have hn := hcyc.1
  have h1 : p ∉ pre := by
    intro h
    rw [List.nodup_append] at hn
    exact hn.2.2 h (by simp)
  have h2 : p ∉ post := by
    rw [List.nodup_append] at hn
    exact (List.nodup_cons.mp hn.2.1).1
  refine ⟨pre, post, rfl, h1, h2, ?_, ?_⟩
  · have := cyc_rotate proc pre (p :: post) hcyc
    simpa using this
  · rw [List.erase_append_right _ h1, List.erase_cons_head]

theorem remove_cyc_mem (s : SchedState) (p : Nat) (l : List Nat) (hcyc : Cyc s.proc l)
    (hp : p ∈ l) :
    Cyc (scheduler_remove_process s p).proc (l.erase p) ∧
    (l.erase p).headD 0 =
      if l.headD 0 = p then (if (s.proc p).next = p then 0 else (s.proc p).next)
      else l.headD 0 := by
  obtain ⟨pre, post, rfl, h1, h2, hrot, he⟩ := cyc_split hcyc hp
  rw [he]
  constructor
  · exact cyc_rotate _ post pre (remove_cyc s p _ hrot)
  · have hnext := cyc_next_head hrot
    cases pre with
    | nil =>
      simp only [List.nil_append, List.headD_cons, if_true, List.append_nil] at hnext ⊢
      cases post with
      | nil => simp at hnext; simp [hnext]
      | cons y post =>
        simp at hnext
        have : y ≠ p := fun h => h2 (by simp [h])
        simp [hnext, this]
    | cons x pre =>
      have : x ≠ p := fun h => h1 (by simp [h])
      simp [this]

theorem remove_cyc_not_mem (s : SchedState) (p : Nat) (l l2 : List Nat) (hcyc : Cyc s.proc l)
    (hc2 : Cyc s.proc l2) (hp : p ∈ l2) (hd : ∀ x ∈ l, x ∉ l2) :
    Cyc (scheduler_remove_process s p).proc l := by
  obtain ⟨pre, post, rfl, _, _, hrot, _⟩ := cyc_split hc2 hp
  refine cyc_congr hcyc ?_
  intro q hq
  apply remove_other s p q _ hrot
  intro h
  apply hd q hq
  simp only [List.mem_cons, List.mem_append] at h ⊢
  tauto

theorem remove_heads (s : SchedState) (p : Nat) (hp : p ≠ 0) :
    (scheduler_remove_process s p).scheduler =
      let n := if (s.proc p).next = p then 0 else (s.proc p).next
      if s.scheduler.ready_queue = p then { s.scheduler with ready_queue := n }
      else if s.scheduler.blocked_queue = p then { s.scheduler with blocked_queue := n }
      else if s.scheduler.sleeping_queue = p then { s.scheduler with sleeping_queue := n }
      else s.scheduler := by
  unfold scheduler_remove_process
  simp only [hp, if_false]
  by_cases h1 : (s.proc p).next = p
  · simp only [h1, if_true]
    split_ifs <;> rfl
  · simp only [h1, if_false]
    simp only [set_prev_next, set_next_next, ite_self, set_prev_scheduler, set_next_scheduler]
    split_ifs <;> rfl

theorem headD_ne_of_not_mem {l : List Nat} {p : Nat} (hp0 : p ≠ 0) (hp : p ∉ l) :
    l.headD 0 ≠ p := by
  cases l with
  | nil => simpa using hp0.symm
  | cons x l => simp only [List.headD_cons]; intro h; exact hp (by simp [h])

theorem queues_mem_ne_zero {s : SchedState} {lr lb ls : List Nat} (hq : Queues s lr lb ls)
    {p : Nat} (hp : p ∈ lr ++ lb ++ ls) : p ≠ 0 := by
  simp only [List.mem_append] at hp
  rcases hp with (hp | hp) | hp
  · exact hq.1.1.2.1 p hp
  · exact hq.2.1.1.2.1 p hp
  · exact hq.2.2.1.1.2.1 p hp

theorem remove_queues (s : SchedState) (p : Nat) (lr lb ls : List Nat)
    (hq : Queues s lr lb ls) (hp : p ∈ lr ++ lb ++ ls) :
    Queues (scheduler_remove_process s p) (lr.erase p) (lb.erase p) (ls.erase p) := by
  have hp0 := queues_mem_ne_zero hq hp
  obtain ⟨⟨hcr, hhr⟩, ⟨hcb, hhb⟩, ⟨hcs, hhs⟩, hn⟩ := hq
  have hn' : (lr.erase p ++ lb.erase p ++ ls.erase p).Nodup :=
    hn.sublist (((List.erase_sublist p lr).append (List.erase_sublist p lb)).append
      (List.erase_sublist p ls))
  have hd := hn
  rw [List.nodup_append, List.nodup_append] at hd
  obtain ⟨⟨_, _, hrb⟩, _, hrbs⟩ := hd
  have hrs : ∀ x ∈ lr, x ∉ ls := fun x hx hx2 => hrbs (List.mem_append_left _ hx) hx2
  have hbs : ∀ x ∈ lb, x ∉ ls := fun x hx hx2 => hrbs (List.mem_append_right _ hx) hx2
  have hrb' : ∀ x ∈ lr, x ∉ lb := fun x hx hx2 => hrb hx hx2
  simp only [List.mem_append] at hp
  rcases hp with (hp | hp) | hp
  · have hpb : p ∉ lb := hrb' p hp
    have hps : p ∉ ls := hrs p hp
    have h1 := remove_cyc_mem s p lr hcr hp
    have hb : s.scheduler.blocked_queue ≠ p := hhb ▸ headD_ne_of_not_mem hp0 hpb
    have hs : s.scheduler.sleeping_queue ≠ p := hhs ▸ headD_ne_of_not_mem hp0 hps
    rw [List.erase_of_not_mem hpb, List.erase_of_not_mem hps] at hn' ⊢
    refine ⟨⟨h1.1, ?_⟩, ⟨remove_cyc_not_mem s p lb lr hcb hcr hp (fun x hx hx2 => hrb' x hx2 hx), ?_⟩,
      ⟨remove_cyc_not_mem s p ls lr hcs hcr hp (fun x hx hx2 => hrs x hx2 hx), ?_⟩, hn'⟩
    · rw [h1.2, remove_heads s p hp0, ← hhr]
      simp only
      split_ifs <;> simp_all
    · rw [remove_heads s p hp0]
      simp only
      split_ifs <;> simp_all
    · rw [remove_heads s p hp0]
      simp only
      split_ifs <;> simp_all
  · have hpr : p ∉ lr := fun h => hrb' p h hp
    have hps : p ∉ ls := hbs p hp
    have h1 := remove_cyc_mem s p lb hcb hp
    have hr : s.scheduler.ready_queue ≠ p := hhr ▸ headD_ne_of_not_mem hp0 hpr
    have hs : s.scheduler.sleeping_queue ≠ p := hhs ▸ headD_ne_of_not_mem hp0 hps
    rw [List.erase_of_not_mem hpr, List.erase_of_not_mem hps] at hn' ⊢
    refine ⟨⟨remove_cyc_not_mem s p lr lb hcr hcb hp hrb', ?_⟩, ⟨h1.1, ?_⟩,
      ⟨remove_cyc_not_mem s p ls lb hcs hcb hp (fun x hx hx2 => hbs x hx2 hx), ?_⟩, hn'⟩
    · rw [remove_heads s p hp0]
      simp only
      split_ifs <;> simp_all
    · rw [h1.2, remove_heads s p hp0, ← hhb]
      simp only
      split_ifs <;> simp_all
    · rw [remove_heads s p hp0]
      simp only
      split_ifs <;> simp_all
  · have hpr : p ∉ lr := fun h => hrs p h hp
    have hpb : p ∉ lb := fun h => hbs p h hp
    have h1 := remove_cyc_mem s p ls hcs hp
    have hr : s.scheduler.ready_queue ≠ p := hhr ▸ headD_ne_of_not_mem hp0 hpr
    have hb : s.scheduler.blocked_queue ≠ p := hhb ▸ headD_ne_of_not_mem hp0 hpb
    rw [List.erase_of_not_mem hpr, List.erase_of_not_mem hpb] at hn' ⊢
    refine ⟨⟨remove_cyc_not_mem s p lr ls hcr hcs hp hrs, ?_⟩,
      ⟨remove_cyc_not_mem s p lb ls hcb hcs hp hbs, ?_⟩, ⟨h1.1, ?_⟩, hn'⟩
    · rw [remove_heads s p hp0]
      simp only
      split_ifs <;> simp_all
    · rw [remove_heads s p hp0]
      simp only
      split_ifs <;> simp_all
    · rw [h1.2, remove_heads s p hp0, ← hhs]
      simp only
      split_ifs <;> simp_all

/-! ### `scheduler_add_process`: insertion by priority -/

theorem link_target (s : SchedState) (p c : Nat) (pre post : List Nat)
    (hcyc : Cyc s.proc (pre ++ c :: post)) (hp : p ∉ pre ++ c :: post) (hp0 : p ≠ 0) :
    Cyc (link_before s p c).proc (pre ++ p :: c :: post) := by
  have h1 : Cyc s.proc (c :: (post ++ pre)) := by
    simpa using cyc_rotate s.proc pre (c :: post) hcyc
  have h2 := link_cyc s p c (post ++ pre) h1 (by simpa [or_comm, or_assoc, or_left_comm] using hp) hp0
  have h3 := cyc_rotate _ (c :: post) (pre ++ [p]) (by simpa using h2)
  simpa using h3

theorem link_untouched (s : SchedState) (p c : Nat) (l l2 : List Nat)
    (hcyc : Cyc s.proc l) (hc : c ∈ l) (hc2 : Cyc s.proc l2) (hd : ∀ x ∈ l2, x ∉ l)
    (hp : p ∉ l2) : Cyc (link_before s p c).proc l2 := by
  obtain ⟨pre, post, rfl, _, _, hrot, _⟩ := cyc_split hcyc hc
  refine cyc_congr hc2 ?_
  intro q hq
  apply link_other s p c q _ hrot
  · intro h
    apply hd q hq
    simp only [List.mem_cons, List.mem_append] at h ⊢
    tauto
  · intro h; exact hp (h ▸ hq)

theorem insert_by_priority_perm (proc : Nat → process) (p : Nat) (l : List Nat) :
    (insert_by_priority proc p l).Perm (p :: l) := by
  induction l with
  | nil => simp [insert_by_priority]
  | cons a t ih =>
    unfold insert_by_priority
    split_ifs
    · exact List.Perm.refl _
    · exact (List.Perm.cons a ih).trans (List.Perm.swap p a t)

theorem nodup_insert_perm {l l1 l2 : List Nat} {p : Nat} (hn : (l ++ l2).Nodup)
    (hp : p ∉ l ++ l2) (hperm : l1.Perm (p :: l)) : (l1 ++ l2).Nodup := by
  have h : (l1 ++ l2).Perm (p :: (l ++ l2)) := by
    simpa using hperm.append_right l2
  rw [h.nodup_iff]
  exact List.nodup_cons.mpr ⟨hp, hn⟩

theorem queues_link_ready (s : SchedState) (p c : Nat) (pre post lb ls : List Nat)
    (hq : Queues s (pre ++ c :: post) lb ls) (hp : p ∉ (pre ++ c :: post) ++ lb ++ ls)
    (hp0 : p ≠ 0) :
    Cyc (link_before s p c).proc (pre ++ p :: c :: post) ∧ Cyc (link_before s p c).proc lb ∧
    Cyc (link_before s p c).proc ls ∧ ((pre ++ p :: c :: post) ++ lb ++ ls).Nodup := by
  obtain ⟨⟨hcr, hhr⟩, ⟨hcb, hhb⟩, ⟨hcs, hhs⟩, hn⟩ := hq
  have hd := hn
  rw [List.nodup_append, List.nodup_append] at hd
  obtain ⟨⟨_, _, hrb⟩, _, hrbs⟩ := hd
  have hp1 : p ∉ pre ++ c :: post := fun h => hp (by simp only [List.mem_append] at h ⊢; tauto)
  have hp2 : p ∉ lb := fun h => hp (by simp only [List.mem_append] at h ⊢; tauto)
  have hp3 : p ∉ ls := fun h => hp (by simp only [List.mem_append] at h ⊢; tauto)
  refine ⟨link_target s p c pre post hcr hp1 hp0,
    link_untouched s p c _ lb hcr (by simp) hcb (fun x hx hx2 => hrb hx2 hx) hp2,
    link_untouched s p c _ ls hcr (by simp) hcs
      (fun x hx hx2 => hrbs (List.mem_append_left _ hx2) hx) hp3, ?_⟩
  have hperm : (pre ++ p :: c :: post).Perm (p :: (pre ++ c :: post)) :=
    List.perm_middle
  rw [List.append_assoc] at hn hp ⊢
  exact nodup_insert_perm hn hp hperm

theorem add_loop_spec (s : SchedState) (p : Nat) (lb ls : List Nat) (hp0 : p ≠ 0) :
    ∀ (fuel : Nat) (pre : List Nat) (c : Nat) (post : List Nat) (s1 : SchedState),
      Queues s (pre ++ c :: post) lb ls → p ∉ (pre ++ c :: post) ++ lb ++ ls →
      (∀ x ∈ pre, ¬ (s.proc p).priority > (s.proc x).priority) →
      scheduler_add_loop fuel s p c = some s1 →
      Queues s1 (pre ++ insert_by_priority s.proc p (c :: post)) lb ls ∧
      (∀ q, unlinked (s1.proc q) = unlinked (s.proc q)) ∧
      s1.scheduler.current_process = s.scheduler.current_process := by
  intro fuel
  induction fuel with
  | zero => intro pre c post s1 _ _ _ h; simp [scheduler_add_loop] at h
  | succ fuel ih =>
    intro pre c post s1 hq hp hpre h
    have hq' := hq
    obtain ⟨⟨hcr, hhr⟩, ⟨hcb, hhb⟩, ⟨hcs, hhs⟩, hn⟩ := hq'
    unfold scheduler_add_loop at h
    by_cases hprio : (s.proc p).priority > (s.proc c).priority
    · simp only [hprio, if_true, Option.some.injEq, link_before_scheduler] at h
      have hl := queues_link_ready s p c pre post lb ls hq hp hp0
      have hins : insert_by_priority s.proc p (c :: post) = p :: c :: post := by
        simp [insert_by_priority, hprio]
      rw [hins]
      cases pre with
      | nil =>
        simp only [List.nil_append, List.headD_cons] at hhr
        simp only [hhr, if_true] at h
        subst h
        refine ⟨⟨⟨hl.1, rfl⟩, ⟨hl.2.1, hhb⟩, ⟨hl.2.2.1, hhs⟩, hl.2.2.2⟩, ?_, rfl⟩
        intro q; simp
      | cons x pre =>
        simp only [List.cons_append, List.headD_cons] at hhr
        have hxc : c ≠ x := by
          intro h
          have := hcr.1
          simp [h] at this
        simp only [hhr, hxc, if_false] at h
        subst h
        refine ⟨⟨⟨hl.1, hhr⟩, ⟨hl.2.1, hhb⟩, ⟨hl.2.2.1, hhs⟩, hl.2.2.2⟩, ?_, rfl⟩
        intro q; simp
    · simp only [hprio, if_false] at h
      have hrot : Cyc s.proc (c :: (post ++ pre)) := by
        simpa using cyc_rotate s.proc pre (c :: post) hcr
      have hnext := cyc_next_head hrot
      cases post with
      | nil =>
        have hnr : (s.proc c).next = s.scheduler.ready_queue := by
          rw [hnext, hhr]; cases pre <;> simp
        simp only [hnr, ne_eq, not_true_eq_false, if_false, Option.some.injEq] at h
        subst h
        have hins : insert_by_priority s.proc p [c] = [c, p] := by
          simp [insert_by_priority, hprio]
        rw [hins]
        cases hlr : pre ++ [c] with
        | nil => simp at hlr
        | cons x t =>
          rw [hlr] at hq hp hhr
          simp only [List.headD_cons] at hhr
          rw [hhr]
          have hl := queues_link_ready s p x [] t lb ls (by simpa using hq) (by simpa using hp) hp0
          have e : pre ++ [c, p] = x :: t ++ [p] := by
            rw [← hlr]; simp
          rw [e]
          refine ⟨⟨⟨?_, by simpa using hhr⟩, ⟨hl.2.1, hhb⟩, ⟨hl.2.2.1, hhs⟩, ?_⟩, ?_, rfl⟩
          · exact cyc_rotate _ [p] (x :: t) (by simpa using hl.1)
          · have := hl.2.2.2
            have hperm : ((x :: t ++ [p]) ++ lb ++ ls).Perm (([] ++ p :: x :: t) ++ lb ++ ls) := by
              refine List.Perm.append_right _ (List.Perm.append_right _ ?_)
              simpa using (List.perm_append_comm : (x :: t ++ [p]).Perm ([p] ++ x :: t))
            exact hperm.nodup_iff.mpr this
          · intro q; simp
      | cons d post =>
        have hnd : (s.proc c).next = d := by
          rw [hnext]; simp
        have hdr : d ≠ s.scheduler.ready_queue := by
          rw [hhr]
          have hnd2 := hcr.1
          cases pre with
          | nil => simp at hnd2 ⊢; tauto
          | cons x pre => simp at hnd2 ⊢; tauto
        simp only [hnd, ne_eq, hdr, not_false_eq_true, if_true] at h
        have hins : insert_by_priority s.proc p (c :: d :: post) =
            c :: insert_by_priority s.proc p (d :: post) := by
          conv_lhs => unfold insert_by_priority
          simp [hprio]
        rw [hins]
        have := ih (pre ++ [c]) d post s1 (by simpa using hq) (by simpa using hp)
          (by
            intro x hx
            simp only [List.mem_append, List.mem_singleton] at hx
            rcases hx with hx | hx
            · exact hpre x hx
            · rw [hx]; exact hprio) h
        simpa using this

theorem isQueue_head_zero {proc : Nat → process} {h : Nat} {l : List Nat}
    (hq : IsQueue proc h l) : h = 0 ↔ l = [] := by
  obtain ⟨hc, hh⟩ := hq
  cases l with
  | nil => simpa using hh
  | cons x t =>
    simp only [List.headD_cons] at hh
    have := hc.2.1 x (by simp)
    simp [hh, this]

theorem queues_congr {s s1 : SchedState} {lr lb ls : List Nat} (hq : Queues s lr lb ls)
    (h1 : s1.scheduler.ready_queue = s.scheduler.ready_queue)
    (h2 : s1.scheduler.blocked_queue = s.scheduler.blocked_queue)
    (h3 : s1.scheduler.sleeping_queue = s.scheduler.sleeping_queue)
    (hf : ∀ q ∈ lr ++ lb ++ ls,
      (s1.proc q).next = (s.proc q).next ∧ (s1.proc q).prev = (s.proc q).prev) :
    Queues s1 lr lb ls := by
  obtain ⟨⟨hcr, hhr⟩, ⟨hcb, hhb⟩, ⟨hcs, hhs⟩, hn⟩ := hq
  refine ⟨⟨cyc_congr hcr ?_, h1 ▸ hhr⟩, ⟨cyc_congr hcb ?_, h2 ▸ hhb⟩,
    ⟨cyc_congr hcs ?_, h3 ▸ hhs⟩, hn⟩
  · intro q hq; exact hf q (by simp [hq])
  · intro q hq; exact hf q (by simp [hq])
  · intro q hq; exact hf q (by simp [hq])

theorem add_process_spec (fuel : Nat) (s : SchedState) (p : Nat) (lr lb ls : List Nat)
    (s1 : SchedState) (hq : Queues s lr lb ls) (hp : p ∉ lr ++ lb ++ ls) (hp0 : p ≠ 0)
    (h : scheduler_add_process fuel s p = some s1) :
    Queues s1 (insert_by_priority s.proc p lr) lb ls ∧
    (∀ q, unlinked (s1.proc q) = unlinked (s.proc q)) ∧
    s1.scheduler.current_process = s.scheduler.current_process := by
  unfold scheduler_add_process at h
  simp only [hp0, if_false] at h
  by_cases hr : s.scheduler.ready_queue = 0
  · simp only [hr, if_true, Option.some.injEq] at h
    have hnil : lr = [] := (isQueue_head_zero hq.1).mp hr
    subst hnil
    subst h
    have hq2 : Queues ((s.set_next p p).set_prev p p) [] lb ls := by
      refine queues_congr hq rfl rfl rfl ?_
      intro q hq
      have : q ≠ p := fun h => hp (h ▸ hq)
      simp [this]
    refine ⟨⟨⟨single_cyc _ p hp0, rfl⟩, hq2.2.1, hq2.2.2.1, ?_⟩, ?_, rfl⟩
    · have := hq.2.2.2
      simp only [List.nil_append] at this hp
      simpa [insert_by_priority] using List.nodup_cons.mpr ⟨hp, this⟩
    · intro q; simp
  · simp only [hr, if_false] at h
    cases lr with
    | nil => exact absurd ((isQueue_head_zero hq.1).mpr rfl) hr
    | cons c post =>
      have hh : s.scheduler.ready_queue = c := by simpa using hq.1.2
      rw [hh] at h
      have := add_loop_spec s p lb ls hp0 fuel [] c post s1 (by simpa using hq)
        (by simpa using hp) (by simp) h
      simpa using this

/-! ### The queue invariant under each scheduler call -/

@[simp] theorem set_state_next (s : SchedState) (p q : Nat) (v : process_state_t) :
    ((s.set_state p v).proc q).next = (s.proc q).next := by
  unfold SchedState.set_state
  by_cases h : q = p <;> simp [Function.update, h]

@[simp] theorem set_state_prev (s : SchedState) (p q : Nat) (v : process_state_t) :
    ((s.set_state p v).proc q).prev = (s.proc q).prev := by
  unfold SchedState.set_state
  by_cases h : q = p <;> simp [Function.update, h]

@[simp] theorem set_state_state (s : SchedState) (p q : Nat) (v : process_state_t) :
    ((s.set_state p v).proc q).state = if q = p then v else (s.proc q).state := by
  unfold SchedState.set_state
  by_cases h : q = p <;> simp [Function.update, h]

@[simp] theorem set_state_scheduler (s : SchedState) (p : Nat) (v : process_state_t) :
    (s.set_state p v).scheduler = s.scheduler := rfl

@[simp] theorem set_time_slice_next (s : SchedState) (p q v : Nat) :
    ((s.set_time_slice p v).proc q).next = (s.proc q).next := by
  unfold SchedState.set_time_slice
  by_cases h : q = p <;> simp [Function.update, h]

@[simp] theorem set_time_slice_prev (s : SchedState) (p q v : Nat) :
    ((s.set_time_slice p v).proc q).prev = (s.proc q).prev := by
  unfold SchedState.set_time_slice
  by_cases h : q = p <;> simp [Function.update, h]

@[simp] theorem set_time_slice_state (s : SchedState) (p q v : Nat) :
    ((s.set_time_slice p v).proc q).state = (s.proc q).state := by
  unfold SchedState.set_time_slice
  by_cases h : q = p <;> simp [Function.update, h]

@[simp] theorem set_time_slice_scheduler (s : SchedState) (p v : Nat) :
    (s.set_time_slice p v).scheduler = s.scheduler := rfl

@[simp] theorem set_priority_next (s : SchedState) (p q v : Nat) :
    ((s.set_priority p v).proc q).next = (s.proc q).next := by
  unfold SchedState.set_priority
  by_cases h : q = p <;> simp [Function.update, h]

@[simp] theorem set_priority_prev (s : SchedState) (p q v : Nat) :
    ((s.set_priority p v).proc q).prev = (s.proc q).prev := by
  unfold SchedState.set_priority
  by_cases h : q = p <;> simp [Function.update, h]

@[simp] theorem set_priority_state (s : SchedState) (p q v : Nat) :
    ((s.set_priority p v).proc q).state = (s.proc q).state := by
  unfold SchedState.set_priority
  by_cases h : q = p <;> simp [Function.update, h]

@[simp] theorem set_priority_scheduler (s : SchedState) (p v : Nat) :
    (s.set_priority p v).scheduler = s.scheduler := rfl

theorem unlinked_state {x y : process} (h : unlinked x = unlinked y) : x.state = y.state := by
  have := congrArg process.state h
  simpa [unlinked] using this

theorem qinv_congr {s s1 : SchedState} {lr lb ls : List Nat} (hq : QInv s lr lb ls)
    (h1 : s1.scheduler.ready_queue = s.scheduler.ready_queue)
    (h2 : s1.scheduler.blocked_queue = s.scheduler.blocked_queue)
    (h3 : s1.scheduler.sleeping_queue = s.scheduler.sleeping_queue)
    (hf : ∀ q ∈ lr ++ lb ++ ls,
      (s1.proc q).next = (s.proc q).next ∧ (s1.proc q).prev = (s.proc q).prev)
    (hs : ∀ q ∈ lb ++ ls, (s1.proc q).state = (s.proc q).state ∨
      (s1.proc q).state ≠ PROCESS_RUNNING) :
    QInv s1 lr lb ls := by
  refine ⟨queues_congr hq.1 h1 h2 h3 hf, ?_⟩
  intro q hq2
  rcases hs q hq2 with h | h
  · rw [h]; exact hq.2 q hq2
  · exact h

theorem qinv_remove (s : SchedState) (p : Nat) (lr lb ls : List Nat)
    (hq : QInv s lr lb ls) (hp : p ∈ lr ++ lb ++ ls) :
    QInv (scheduler_remove_process s p) (lr.erase p) (lb.erase p) (ls.erase p) := by
  refine ⟨remove_queues s p lr lb ls hq.1 hp, ?_⟩
  intro q hq2
  rw [unlinked_state (remove_unlinked s p q)]
  apply hq.2
  simp only [List.mem_append] at hq2 ⊢
  rcases hq2 with h | h
  · exact Or.inl (List.mem_of_mem_erase h)
  · exact Or.inr (List.mem_of_mem_erase h)

theorem qinv_add (fuel : Nat) (s : SchedState) (p : Nat) (lr lb ls : List Nat)
    (s1 : SchedState) (hq : QInv s lr lb ls) (hp : p ∉ lr ++ lb ++ ls) (hp0 : p ≠ 0)
    (h : scheduler_add_process fuel s p = some s1) :
    QInv s1 (insert_by_priority s.proc p lr) lb ls := by
  have := add_process_spec fuel s p lr lb ls s1 hq.1 hp hp0 h
  refine ⟨this.1, ?_⟩
  intro q hq2
  rw [unlinked_state (this.2.1 q)]
  exact hq.2 q hq2

theorem queues_disjoint {s : SchedState} {lr lb ls : List Nat} (hq : Queues s lr lb ls) :
    (∀ x ∈ lr, x ∉ lb) ∧ (∀ x ∈ lr, x ∉ ls) ∧ (∀ x ∈ lb, x ∉ ls) := by
  have hd := hq.2.2.2
  rw [List.nodup_append, List.nodup_append] at hd
  obtain ⟨⟨_, _, hrb⟩, _, hrbs⟩ := hd
  exact ⟨fun x hx hx2 => hrb hx hx2, fun x hx hx2 => hrbs (List.mem_append_left _ hx) hx2,
    fun x hx hx2 => hrbs (List.mem_append_right _ hx) hx2⟩

theorem qinv_append_blocked (s : SchedState) (p : Nat) (lr lb ls : List Nat)
    (hq : QInv s lr lb ls) (hp : p ∉ lr ++ lb ++ ls) (hp0 : p ≠ 0)
    (hst : (s.proc p).state ≠ PROCESS_RUNNING) :
    QInv (if s.scheduler.blocked_queue = 0 then
            ((s.set_blocked_queue p).set_next p p).set_prev p p
          else link_before s p s.scheduler.blocked_queue) lr (lb ++ [p]) ls := by
  obtain ⟨hqq, hstate⟩ := hq
  obtain ⟨hrb, hrs, hbs⟩ := queues_disjoint hqq
  have hq' := hqq
  obtain ⟨⟨hcr, hhr⟩, ⟨hcb, hhb⟩, ⟨hcs, hhs⟩, hn⟩ := hq'
  have hp1 : p ∉ lr := fun h => hp (by simp [h])
  have hp2 : p ∉ lb := fun h => hp (by simp [h])
  have hp3 : p ∉ ls := fun h => hp (by simp [h])
  have hnodup : (lr ++ (lb ++ [p]) ++ ls).Nodup := by
    have hperm : (lr ++ (lb ++ [p]) ++ ls).Perm (p :: (lr ++ lb ++ ls)) := by
      have : (lr ++ (lb ++ [p]) ++ ls) = (lr ++ lb) ++ p :: ls := by simp
      rw [this]
      exact List.perm_middle.trans (by simp)
    exact hperm.nodup_iff.mpr (List.nodup_cons.mpr ⟨hp, hn⟩)
  by_cases hb : s.scheduler.blocked_queue = 0
  · have hnil : lb = [] := (isQueue_head_zero hqq.2.1).mp hb
    subst hnil
    simp only [hb, if_true]
    have hfr : ∀ l : List Nat, Cyc s.proc l → p ∉ l →
        Cyc (((s.set_blocked_queue p).set_next p p).set_prev p p).proc l := by
      intro l hl hpl
      refine cyc_congr hl ?_
      intro q hq
      have : q ≠ p := fun h => hpl (h ▸ hq)
      simp [this]
    refine ⟨⟨⟨hfr lr hcr hp1, hhr⟩, ⟨single_cyc _ p hp0, rfl⟩, ⟨hfr ls hcs hp3, hhs⟩, hnodup⟩, ?_⟩
    intro q hq
    simp only [List.nil_append, List.mem_append, List.mem_singleton] at hq
    simp only [SchedState.set_prev, SchedState.set_next, SchedState.set_blocked_queue]
    rcases hq with hq | hq
    · rw [hq]; simpa using hst
    · have : q ≠ p := fun h => hp3 (h ▸ hq)
      simpa [this] using hstate q (by simp [hq])
  · simp only [hb, if_false]
    cases lb with
    | nil => exact absurd ((isQueue_head_zero hqq.2.1).mpr rfl) hb
    | cons c t =>
      have hh : s.scheduler.blocked_queue = c := by simpa using hhb
      rw [hh]
      refine ⟨⟨⟨link_untouched s p c _ lr hcb (by simp) hcr hrb hp1, hhr⟩,
        ⟨link_cyc s p c t hcb hp2 hp0, by simpa using hh⟩,
        ⟨link_untouched s p c _ ls hcb (by simp) hcs (fun x hx hx2 => hbs x hx2 hx) hp3, hhs⟩,
        hnodup⟩, ?_⟩
      intro q hq
      rw [unlinked_state (link_before_unlinked s p c q)]
      simp only [List.mem_append, List.mem_singleton] at hq
      rcases hq with (hq | hq) | hq
      · exact hstate q (by simp only [List.mem_append]; exact Or.inl hq)
      · rw [hq]; exact hst
      · exact hstate q (by simp [hq])

theorem qinv_append_sleeping (s : SchedState) (p : Nat) (lr lb ls : List Nat)
    (hq : QInv s lr lb ls) (hp : p ∉ lr ++ lb ++ ls) (hp0 : p ≠ 0)
    (hst : (s.proc p).state ≠ PROCESS_RUNNING) :
    QInv (if s.scheduler.sleeping_queue = 0 then
            ((s.set_sleeping_queue p).set_next p p).set_prev p p
          else link_before s p s.scheduler.sleeping_queue) lr lb (ls ++ [p]) := by
  obtain ⟨hqq, hstate⟩ := hq
  obtain ⟨hrb, hrs, hbs⟩ := queues_disjoint hqq
  have hq' := hqq
  obtain ⟨⟨hcr, hhr⟩, ⟨hcb, hhb⟩, ⟨hcs, hhs⟩, hn⟩ := hq'
  have hp1 : p ∉ lr := fun h => hp (by simp [h])
  have hp2 : p ∉ lb := fun h => hp (by simp [h])
  have hp3 : p ∉ ls := fun h => hp (by simp [h])
  have hnodup : (lr ++ lb ++ (ls ++ [p])).Nodup := by
    have hperm : (lr ++ lb ++ (ls ++ [p])).Perm (p :: (lr ++ lb ++ ls)) := by
      have : (lr ++ lb ++ (ls ++ [p])) = (lr ++ lb ++ ls) ++ [p] := by simp
      rw [this]
      exact List.perm_append_singleton _ _
    exact hperm.nodup_iff.mpr (List.nodup_cons.mpr ⟨hp, hn⟩)
  by_cases hb : s.scheduler.sleeping_queue = 0
  · have hnil : ls = [] := (isQueue_head_zero hqq.2.2.1).mp hb
    subst hnil
    simp only [hb, if_true]
    have hfr : ∀ l : List Nat, Cyc s.proc l → p ∉ l →
        Cyc (((s.set_sleeping_queue p).set_next p p).set_prev p p).proc l := by
      intro l hl hpl
      refine cyc_congr hl ?_
      intro q hq
      have : q ≠ p := fun h => hpl (h ▸ hq)
      simp [this]
    refine ⟨⟨⟨hfr lr hcr hp1, hhr⟩, ⟨hfr lb hcb hp2, hhb⟩, ⟨single_cyc _ p hp0, rfl⟩, hnodup⟩, ?_⟩
    intro q hq
    simp only [List.nil_append, List.mem_append, List.mem_singleton] at hq
    simp only [SchedState.set_prev, SchedState.set_next, SchedState.set_sleeping_queue]
    rcases hq with hq | hq
    · have : q ≠ p := fun h => hp2 (h ▸ hq)
      simpa [this] using hstate q (by simp [hq])
    · rw [hq]; simpa using hst
  · simp only [hb, if_false]
    cases ls with
    | nil => exact absurd ((isQueue_head_zero hqq.2.2.1).mpr rfl) hb
    | cons c t =>
      have hh : s.scheduler.sleeping_queue = c := by simpa using hhs
      rw [hh]
      refine ⟨⟨⟨link_untouched s p c _ lr hcs (by simp) hcr hrs hp1, hhr⟩,
        ⟨link_untouched s p c _ lb hcs (by simp) hcb hbs hp2, hhb⟩,
        ⟨link_cyc s p c t hcs hp3 hp0, by simpa using hh⟩,
        hnodup⟩, ?_⟩
      intro q hq
      rw [unlinked_state (link_before_unlinked s p c q)]
      simp only [List.mem_append, List.mem_singleton] at hq
      rcases hq with hq | hq | hq
      · exact hstate q (by simp [hq])
      · exact hstate q (by simp only [List.mem_append]; exact Or.inr hq)
      · rw [hq]; exact hst

@[simp] theorem set_sleeping_queue_current (s : SchedState) (v : Nat) :
    (s.set_sleeping_queue v).scheduler.current_process = s.scheduler.current_process := rfl

@[simp] theorem set_blocked_queue_current (s : SchedState) (v : Nat) :
    (s.set_blocked_queue v).scheduler.current_process = s.scheduler.current_process := rfl

@[simp] theorem set_ready_queue_current (s : SchedState) (v : Nat) :
    (s.set_ready_queue v).scheduler.current_process = s.scheduler.current_process := rfl

theorem remove_current (s : SchedState) (p : Nat) :
    (scheduler_remove_process s p).scheduler.current_process = s.scheduler.current_process := by
  by_cases hp : p = 0
  · simp [scheduler_remove_process, hp]
  · rw [remove_heads s p hp]
    simp only
    split_ifs <;> rfl

theorem not_mem_erase_lists {lr lb ls : List Nat} {p : Nat} (hn : (lr ++ lb ++ ls).Nodup) :
    p ∉ lr.erase p ++ lb.erase p ++ ls.erase p := by
  rw [List.nodup_append, List.nodup_append] at hn
  obtain ⟨⟨h1, h2, _⟩, h3, _⟩ := hn
  simp only [List.mem_append, not_or]
  exact ⟨⟨fun h => (List.Nodup.mem_erase_iff h1).mp h |>.1 rfl,
    fun h => (List.Nodup.mem_erase_iff h2).mp h |>.1 rfl⟩,
    fun h => (List.Nodup.mem_erase_iff h3).mp h |>.1 rfl⟩

theorem qinv_set_state (s : SchedState) (p : Nat) (v : process_state_t) (lr lb ls : List Nat)
    (hq : QInv s lr lb ls) (hv : v ≠ PROCESS_RUNNING ∨ p ∉ lb ++ ls) :
    QInv (s.set_state p v) lr lb ls := by
  refine qinv_congr hq rfl rfl rfl (fun q _ => by simp) ?_
  intro q hq2
  rw [set_state_state]
  by_cases h : q = p
  · rcases hv with hv | hv
    · right; simpa [h] using hv
    · exact absurd (h ▸ hq2) hv
  · left; simp [h]

theorem qinv_process_block (s : SchedState) (p : Nat) (lr lb ls : List Nat)
    (hq : QInv s lr lb ls) (hp : p ∈ lr ++ lb ++ ls) :
    QInv (process_block s p) (lr.erase p) (lb.erase p ++ [p]) (ls.erase p) := by
  have hp0 := queues_mem_ne_zero hq.1 hp
  have h1 := qinv_remove s p lr lb ls hq hp
  have h2 := qinv_set_state _ p PROCESS_BLOCKED _ _ _ h1 (Or.inl (by decide))
  have h3 := qinv_append_blocked _ p _ _ _ h2 (not_mem_erase_lists hq.1.2.2.2) hp0
    (by simp)
  unfold process_block
  simp only [hp0, if_false]
  exact h3

theorem qinv_round_robin (s : SchedState) (lr lb ls : List Nat) (hq : QInv s lr lb ls) :
    QInv (scheduler_round_robin s) (lr.rotate 1) lb ls := by
  unfold scheduler_round_robin
  by_cases hr : s.scheduler.ready_queue = 0
  · simp only [hr, if_true]
    have : lr = [] := (isQueue_head_zero hq.1.1).mp hr
    subst this
    simpa using hq
  · simp only [hr, if_false]
    cases lr with
    | nil => exact absurd ((isQueue_head_zero hq.1.1).mpr rfl) hr
    | cons a t =>
      obtain ⟨hqq, hstate⟩ := hq
      obtain ⟨hrb, hrs, hbs⟩ := queues_disjoint hqq
      obtain ⟨⟨hcr, hhr⟩, ⟨hcb, hhb⟩, ⟨hcs, hhs⟩, hn⟩ := hqq
      have hh : s.scheduler.ready_queue = a := by simpa using hhr
      have hnext := cyc_next_head hcr
      have hrot : (a :: t).rotate 1 = t ++ [a] := by
        rw [List.rotate_cons_succ, List.rotate_zero]
      rw [hrot, hh]
      have hnmem : (s.proc a).next ∈ a :: t := cyc_next_mem_cons hcr
      have hA : QInv (s.set_ready_queue (s.proc a).next) (t ++ [a]) lb ls := by
        refine ⟨⟨⟨cyc_rotate _ [a] t hcr, hnext⟩, ⟨hcb, hhb⟩, ⟨hcs, hhs⟩, ?_⟩, hstate⟩
        have hperm : (t ++ [a] ++ lb ++ ls).Perm (a :: t ++ lb ++ ls) := by
          refine List.Perm.append_right _ (List.Perm.append_right _ ?_)
          exact List.perm_append_singleton _ _
        exact hperm.nodup_iff.mpr hn
      have hB : QInv (if (s.set_ready_queue (s.proc a).next).scheduler.current_process ≠ 0 then
          (s.set_ready_queue (s.proc a).next).set_state
            (s.set_ready_queue (s.proc a).next).scheduler.current_process PROCESS_READY
          else s.set_ready_queue (s.proc a).next) (t ++ [a]) lb ls := by
        split_ifs
        · exact qinv_set_state _ _ _ _ _ _ hA (Or.inl (by decide))
        · exact hA
      have hnotin : (s.proc a).next ∉ lb ++ ls := by
        intro h
        simp only [List.mem_append] at h
        rcases h with h | h
        · exact hrb _ hnmem h
        · exact hrs _ hnmem h
      have hC := qinv_set_state _ (s.proc a).next PROCESS_RUNNING _ _ _ hB (Or.inr hnotin)
      simp only [set_ready_queue_proc, SchedState.set_current_process, ne_eq, not_true_eq_false,
        if_false]
      exact qinv_congr hC rfl rfl rfl (fun q _ => ⟨rfl, rfl⟩) (fun q _ => Or.inl rfl)

theorem qinv_schedule (s : SchedState) (lr lb ls : List Nat) (hq : QInv s lr lb ls) :
    ∃ lr1, lr1.Perm lr ∧ QInv (scheduler_schedule s) lr1 lb ls := by
  unfold scheduler_schedule scheduler_multilevel_feedback
  by_cases hr : s.scheduler.ready_queue = 0
  · simp only [hr, if_true]
    exact ⟨lr, List.Perm.refl _, hq⟩
  · simp only [hr, if_false]
    split_ifs
    · refine ⟨lr, List.Perm.refl _, ?_⟩
      exact qinv_congr hq rfl rfl rfl (fun q _ => by simp) (fun q _ => Or.inl (by simp))
    · refine ⟨lr.rotate 1, List.rotate_perm _ _, qinv_round_robin _ _ _ _ ?_⟩
      exact qinv_congr hq rfl rfl rfl (fun q _ => by simp) (fun q _ => Or.inl (by simp))
    · refine ⟨lr.rotate 1, List.rotate_perm _ _, qinv_round_robin _ _ _ _ ?_⟩
      exact qinv_congr hq rfl rfl rfl (fun q _ => by simp) (fun q _ => Or.inl (by simp))

theorem qinv_yield (s : SchedState) (lr lb ls : List Nat) (hq : QInv s lr lb ls) :
    ∃ lr1, lr1.Perm lr ∧ QInv (scheduler_yield s) lr1 lb ls := by
  unfold scheduler_yield
  split_ifs
  · exact qinv_schedule _ _ _ _ (qinv_set_state _ _ _ _ _ _ hq (Or.inl (by decide)))
  · exact ⟨lr, List.Perm.refl _, hq⟩

theorem qinv_timer_sleep (s : SchedState) (ticks : Nat) (lr lb ls : List Nat)
    (hq : QInv s lr lb ls)
    (hc : s.scheduler.current_process = 0 ∨ s.scheduler.current_process ∈ lr ++ lb ++ ls) :
    ∃ lr1 ls1, (lr1 ++ lb.erase s.scheduler.current_process ++ ls1).Perm (lr ++ lb ++ ls) ∧
      QInv (timer_sleep s ticks) lr1 (lb.erase s.scheduler.current_process) ls1 := by
  unfold timer_sleep
  by_cases h0 : s.scheduler.current_process = 0
  · simp only [h0, ne_eq, not_true_eq_false, if_false]
    have : lb.erase 0 = lb := by
      apply List.erase_of_not_mem
      intro h
      exact hq.1.2.1.1.2.1 0 h rfl
    rw [this]
    exact ⟨lr, ls, List.Perm.refl _, hq⟩
  · simp only [ne_eq, h0, not_false_eq_true, if_true]
    have hmem : s.scheduler.current_process ∈ lr ++ lb ++ ls := hc.resolve_left h0
    generalize hcur : s.scheduler.current_process = cur at *
    have h1 : QInv (s.set_time_slice cur (u32 (s.timer_ticks + ticks))) lr lb ls :=
      qinv_congr hq rfl rfl rfl (fun q _ => by simp) (fun q _ => Or.inl (by simp))
    have h2 := qinv_set_state _ cur PROCESS_SLEEPING _ _ _ h1 (Or.inl (by decide))
    have h3 := qinv_remove _ cur _ _ _ h2 hmem
    have h4 := qinv_append_sleeping _ cur _ _ _ h3 (not_mem_erase_lists hq.1.2.2.2) h0
      (by rw [unlinked_state (remove_unlinked _ _ _)]; simp)
    simp only [set_state_scheduler, set_time_slice_scheduler, hcur, remove_current,
      set_sleeping_queue_current, set_next_scheduler, set_prev_scheduler]
    obtain ⟨lr1, hperm, h5⟩ := qinv_schedule _ _ _ _ h4
    refine ⟨lr1, ls.erase cur ++ [cur], ?_, h5⟩
    have hn := hq.1.2.2.2
    have e1 : (lr1 ++ lb.erase cur ++ (ls.erase cur ++ [cur])).Perm
        (cur :: (lr.erase cur ++ lb.erase cur ++ ls.erase cur)) := by
      have : (lr1 ++ lb.erase cur ++ (ls.erase cur ++ [cur])) =
          (lr1 ++ lb.erase cur ++ ls.erase cur) ++ [cur] := by simp
      rw [this]
      refine (List.perm_append_singleton _ _).trans (List.Perm.cons _ ?_)
      exact List.Perm.append_right _ (List.Perm.append_right _ hperm)
    refine e1.trans ?_
    have e2 : (lr ++ lb ++ ls).erase cur = lr.erase cur ++ lb.erase cur ++ ls.erase cur := by
      rw [List.nodup_append, List.nodup_append] at hn
      obtain ⟨⟨_, _, hrb⟩, _, hrbs⟩ := hn
      simp only [List.mem_append] at hmem
      rcases hmem with (hm | hm) | hm
      · have n1 : cur ∉ lb := fun h => hrb hm h
        have n2 : cur ∉ ls := fun h => hrbs (List.mem_append_left _ hm) h
        rw [List.erase_append_left _ (List.mem_append_left _ hm), List.erase_append_left _ hm,
          List.erase_of_not_mem n1, List.erase_of_not_mem n2]
      · have n1 : cur ∉ lr := fun h => hrb h hm
        have n2 : cur ∉ ls := fun h => hrbs (List.mem_append_right _ hm) h
        rw [List.erase_append_left _ (List.mem_append_right _ hm), List.erase_append_right _ n1,
          List.erase_of_not_mem n1, List.erase_of_not_mem n2]
      · have n1 : cur ∉ lr := fun h => hrbs (List.mem_append_left _ h) hm
        have n2 : cur ∉ lb := fun h => hrbs (List.mem_append_right _ h) hm
        rw [List.erase_append_right _ (by simp [n1, n2]), List.erase_of_not_mem n1,
          List.erase_of_not_mem n2]
    rw [← e2]
    exact (List.perm_cons_erase hmem).symm

theorem erase_lists_perm {lr lb ls : List Nat} {cur : Nat} (hn : (lr ++ lb ++ ls).Nodup)
    (hmem : cur ∈ lr ++ lb ++ ls) :
    (cur :: (lr.erase cur ++ lb.erase cur ++ ls.erase cur)).Perm (lr ++ lb ++ ls) := by
  have e2 : (lr ++ lb ++ ls).erase cur = lr.erase cur ++ lb.erase cur ++ ls.erase cur := by
    rw [List.nodup_append, List.nodup_append] at hn
    obtain ⟨⟨_, _, hrb⟩, _, hrbs⟩ := hn
    simp only [List.mem_append] at hmem
    rcases hmem with (hm | hm) | hm
    · have n1 : cur ∉ lb := fun h => hrb hm h
      have n2 : cur ∉ ls := fun h => hrbs (List.mem_append_left _ hm) h
      rw [List.erase_append_left _ (List.mem_append_left _ hm), List.erase_append_left _ hm,
        List.erase_of_not_mem n1, List.erase_of_not_mem n2]
    · have n1 : cur ∉ lr := fun h => hrb h hm
      have n2 : cur ∉ ls := fun h => hrbs (List.mem_append_right _ hm) h
      rw [List.erase_append_left _ (List.mem_append_right _ hm), List.erase_append_right _ n1,
        List.erase_of_not_mem n1, List.erase_of_not_mem n2]
    · have n1 : cur ∉ lr := fun h => hrbs (List.mem_append_left _ h) hm
      have n2 : cur ∉ lb := fun h => hrbs (List.mem_append_right _ h) hm
      rw [List.erase_append_right _ (by simp [n1, n2]), List.erase_of_not_mem n1,
        List.erase_of_not_mem n2]
  rw [← e2]
  exact (List.perm_cons_erase hmem).symm

theorem queues_next_mem {s : SchedState} {lr lb ls : List Nat} (hq : Queues s lr lb ls)
    {p : Nat} (hp : p ∈ lr ++ lb ++ ls) : (s.proc p).next ∈ lr ++ lb ++ ls := by
  have key : ∀ l : List Nat, Cyc s.proc l → p ∈ l → (s.proc p).next ∈ l := by
    intro l hl hpl
    obtain ⟨pre, post, rfl, _, _, hrot, _⟩ := cyc_split hl hpl
    have := cyc_next_mem_cons hrot
    simp only [List.mem_cons, List.mem_append] at this ⊢
    tauto
  simp only [List.mem_append] at hp ⊢
  rcases hp with (hp | hp) | hp
  · exact Or.inl (Or.inl (key lr hq.1.1 hp))
  · exact Or.inl (Or.inr (key lb hq.2.1.1 hp))
  · exact Or.inr (key ls hq.2.2.1.1 hp)

theorem inv_requeue (fuel : Nat) (s s1 : SchedState) (p : Nat) (L : List Nat)
    (hinv : SchedInv s L) (hp : p ∈ L)
    (h : scheduler_add_process fuel ((scheduler_remove_process s p).set_state p PROCESS_READY) p
      = some s1) : SchedInv s1 L := by
  obtain ⟨lr, lb, ls, hq, hL⟩ := hinv
  have hmem := (hL p).mp hp
  have hp0 := queues_mem_ne_zero hq.1 hmem
  have h1 := qinv_remove s p lr lb ls hq hmem
  have h2 := qinv_set_state _ p PROCESS_READY _ _ _ h1 (Or.inl (by decide))
  have h3 := qinv_add fuel _ p _ _ _ s1 h2 (not_mem_erase_lists hq.1.2.2.2) hp0 h
  refine ⟨_, _, _, h3, ?_⟩
  intro q
  rw [hL q]
  have hperm := erase_lists_perm hq.1.2.2.2 hmem
  rw [← hperm.mem_iff]
  have hp2 := insert_by_priority_perm
    ((scheduler_remove_process s p).set_state p PROCESS_READY).proc p (lr.erase p)
  have : (insert_by_priority ((scheduler_remove_process s p).set_state p PROCESS_READY).proc p
      (lr.erase p) ++ lb.erase p ++ ls.erase p).Perm
      (p :: (lr.erase p ++ lb.erase p ++ ls.erase p)) := by
    simpa using (hp2.append_right (lb.erase p)).append_right (ls.erase p)
  rw [this.mem_iff]

theorem inv_timer_walk (afuel : Nat) (L : List Nat) :
    ∀ (fuel : Nat) (s : SchedState) (cur : Nat) (s1 : SchedState),
      SchedInv s L → (cur = 0 ∨ cur ∈ L) → timer_walk afuel fuel s cur = some s1 →
      SchedInv s1 L := by
  intro fuel
  induction fuel with
  | zero => intro s cur s1 _ _ h; simp [timer_walk] at h
  | succ fuel ih =>
    intro s cur s1 hinv hcur h
    unfold timer_walk at h
    by_cases h0 : cur = 0
    · simp only [h0, if_true, Option.some.injEq] at h
      exact h ▸ hinv
    · simp only [h0, if_false] at h
      have hmem : cur ∈ L := hcur.resolve_left h0
      have hnext : (s.proc cur).next ∈ L := by
        obtain ⟨lr, lb, ls, hq, hL⟩ := hinv
        rw [hL]
        exact queues_next_mem hq.1 ((hL cur).mp hmem)
      by_cases hdue : (s.proc cur).time_slice ≤ s.timer_ticks
      · simp only [hdue, if_true] at h
        cases hadd : scheduler_add_process afuel
            ((scheduler_remove_process s cur).set_state cur PROCESS_READY) cur with
        | none => simp [hadd] at h
        | some s2 =>
          simp only [hadd] at h
          have hinv2 := inv_requeue afuel s s2 cur L hinv hmem hadd
          split_ifs at h
          · simp only [Option.some.injEq] at h
            exact h ▸ hinv2
          · exact ih s2 _ s1 hinv2 (Or.inr hnext) h
      · simp only [hdue, if_false] at h
        split_ifs at h
        · simp only [Option.some.injEq] at h
          exact h ▸ hinv
        · exact ih s _ s1 hinv (Or.inr hnext) h

theorem inv_schedule (s : SchedState) (L : List Nat) (hinv : SchedInv s L) :
    SchedInv (scheduler_schedule s) L := by
  obtain ⟨lr, lb, ls, hq, hL⟩ := hinv
  obtain ⟨lr1, hperm, hq1⟩ := qinv_schedule s lr lb ls hq
  refine ⟨lr1, lb, ls, hq1, fun p => ?_⟩
  rw [hL p]
  simp only [List.mem_append, hperm.mem_iff]

theorem inv_yield (s : SchedState) (L : List Nat) (hinv : SchedInv s L) :
    SchedInv (scheduler_yield s) L := by
  obtain ⟨lr, lb, ls, hq, hL⟩ := hinv
  obtain ⟨lr1, hperm, hq1⟩ := qinv_yield s lr lb ls hq
  refine ⟨lr1, lb, ls, hq1, fun p => ?_⟩
  rw [hL p]
  simp only [List.mem_append, hperm.mem_iff]

theorem inv_timer_handler (fuel : Nat) (s s1 : SchedState) (L : List Nat)
    (hinv : SchedInv s L) (h : timer_handler fuel s = some s1) : SchedInv s1 L := by
  unfold timer_handler at h
  simp only at h
  have h1 : SchedInv { s with timer_ticks := u32 (s.timer_ticks + 1) } L := by
    obtain ⟨lr, lb, ls, hq, hL⟩ := hinv
    exact ⟨lr, lb, ls, qinv_congr hq rfl rfl rfl (fun q _ => ⟨rfl, rfl⟩) (fun q _ => Or.inl rfl), hL⟩
  have h2 : SchedInv (if u32 (s.timer_ticks + 1) % 10 = 0 then
      scheduler_schedule { s with timer_ticks := u32 (s.timer_ticks + 1) }
      else { s with timer_ticks := u32 (s.timer_ticks + 1) }) L := by
    split_ifs
    · exact inv_schedule _ _ h1
    · exact h1
  refine inv_timer_walk fuel L fuel _ _ s1 h2 ?_ h
  obtain ⟨lr, lb, ls, hq, hL⟩ := h2
  have hs := hq.1.2.2.1
  by_cases hz : ls = []
  · left; rw [hs.2, hz]; rfl
  · right
    rw [hL, hs.2]
    cases ls with
    | nil => exact absurd rfl hz
    | cons x t => simp

theorem inv_process_block (s : SchedState) (p : Nat) (L : List Nat)
    (hinv : SchedInv s L) (hp : p ∈ L) : SchedInv (process_block s p) L := by
  obtain ⟨lr, lb, ls, hq, hL⟩ := hinv
  have hmem := (hL p).mp hp
  refine ⟨_, _, _, qinv_process_block s p lr lb ls hq hmem, fun q => ?_⟩
  rw [hL q, ← (erase_lists_perm hq.1.2.2.2 hmem).mem_iff]
  simp only [List.mem_append, List.mem_cons, List.mem_singleton]
  tauto

theorem inv_process_unblock (fuel : Nat) (s s1 : SchedState) (p : Nat) (L : List Nat)
    (hinv : SchedInv s L) (hp : p ∈ L) (h : process_unblock fuel s p = some s1) :
    SchedInv s1 L := by
  unfold process_unblock at h
  split_ifs at h
  · simp only [Option.some.injEq] at h
    exact h ▸ hinv
  · exact inv_requeue fuel s s1 p L hinv hp h

theorem inv_timer_sleep (s : SchedState) (ticks : Nat) (L : List Nat)
    (hinv : SchedInv s L)
    (hc : s.scheduler.current_process = 0 ∨ s.scheduler.current_process ∈ L) :
    SchedInv (timer_sleep s ticks) L := by
  obtain ⟨lr, lb, ls, hq, hL⟩ := hinv
  obtain ⟨lr1, ls1, hperm, hq1⟩ := qinv_timer_sleep s ticks lr lb ls hq
    (hc.imp id (fun h => (hL _).mp h))
  refine ⟨_, _, _, hq1, fun q => ?_⟩
  rw [hL q, hperm.mem_iff]

/-! ### Reachable states -/

theorem process_create_sched (fuel : Nat) (w w1 : World) (name : List Nat)
    (entry_point priority p : Nat)
    (h : process_create fuel w name entry_point priority = some (w1, p)) (hp0 : p ≠ 0) :
    ∃ s3 s4 : SchedState, (∀ q, q ≠ p → s3.proc q = w.sched.proc q) ∧
      s3.scheduler.ready_queue = w.sched.scheduler.ready_queue ∧
      s3.scheduler.blocked_queue = w.sched.scheduler.blocked_queue ∧
      s3.scheduler.sleeping_queue = w.sched.scheduler.sleeping_queue ∧
      scheduler_add_process fuel s3 p = some s4 ∧
      w1.sched = s4.set_total_processes (u32 (s4.scheduler.total_processes + 1)) := by
  unfold process_create at h
  cases h1 : kmalloc fuel w.mem sizeof_process_t with
  | none => simp [h1] at h
  | some r1 =>
    obtain ⟨mem1, pr⟩ := r1
    simp only [h1] at h
    by_cases hz : pr = 0
    · simp only [hz, if_true, Option.some.injEq, Prod.mk.injEq] at h
      exact absurd h.2.symm hp0
    · simp only [hz, if_false] at h
      cases h2 : kmalloc fuel mem1 4096 with
      | none => simp [h2] at h
      | some r2 =>
        obtain ⟨mem2, sb⟩ := r2
        simp only [h2] at h
        cases h3 : kmalloc_aligned fuel mem2 4096 4096 with
        | none => simp [h3] at h
        | some r3 =>
          obtain ⟨mem3, cr3⟩ := r3
          simp only [h3] at h
          cases h4 : scheduler_add_process fuel
              ((process_create_stack_fields (process_create_fields w.sched pr name priority) pr
                sb).modify pr (fun x => { x with cr3 := cr3 })) pr with
          | none => simp [h4] at h
          | some s4 =>
            simp only [h4, Option.some.injEq, Prod.mk.injEq] at h
            obtain ⟨hw, hp⟩ := h
            subst hp
            refine ⟨_, s4, ?_, ?_, ?_, ?_, h4, ?_⟩
            · intro q hq
              simp [process_create_stack_fields, process_create_fields, SchedState.modify,
                SchedState.set_state, SchedState.set_priority, SchedState.set_time_slice,
                SchedState.set_next, SchedState.set_prev, Function.update, hq]
            · rfl
            · rfl
            · rfl
            · rw [← hw]

theorem process_destroy_sched (fuel : Nat) (w w1 : World) (p : Nat)
    (h : process_destroy fuel w p = some w1) (hp0 : p ≠ 0) :
    w1.sched = (scheduler_remove_process w.sched p).set_total_processes
      (sub32 (scheduler_remove_process w.sched p).scheduler.total_processes 1) := by
  unfold process_destroy at h
  simp only [hp0, if_false, Option.map_eq_some'] at h
  obtain ⟨mem, _, hw⟩ := h
  rw [← hw]

theorem qinv_set_total (s : SchedState) (v : Nat) (lr lb ls : List Nat)
    (hq : QInv s lr lb ls) : QInv (s.set_total_processes v) lr lb ls :=
  qinv_congr hq rfl rfl rfl (fun _ _ => ⟨rfl, rfl⟩) (fun _ _ => Or.inl rfl)

theorem reach_inv {w : World} {L : List Nat} (h : Reach w L) :
    SchedInv w.sched L ∧ L.Nodup := by
  induction h with
  | init fuel k =>
    refine ⟨⟨[], [], [], ⟨⟨⟨cyc_nil _, ?_⟩, ⟨cyc_nil _, ?_⟩, ⟨cyc_nil _, ?_⟩, by simp⟩,
      by simp⟩, by simp⟩, List.nodup_nil⟩
    all_goals
      simp [scheduler_init, timer_init, pic_unmask_irq, irq_install_handler, outb]
  | @create w w1 L p fuel name entry_point priority _ hc hp0 hfresh ih =>
    obtain ⟨⟨lr, lb, ls, hq, hL⟩, hn⟩ := ih
    obtain ⟨s3, s4, hframe, hr, hb, hs, hadd, hw1⟩ :=
      process_create_sched fuel w w1 name entry_point priority p hc hp0
    have hpn : p ∉ lr ++ lb ++ ls := fun h => hfresh ((hL p).mpr h)
    have h3 : QInv s3 lr lb ls := by
      refine qinv_congr hq hr hb hs ?_ ?_
      · intro q hq2
        have : q ≠ p := fun h => hpn (h ▸ hq2)
        rw [hframe q this]; exact ⟨rfl, rfl⟩
      · intro q hq2
        have : q ≠ p := fun h => hpn (by rw [← h]; simp only [List.mem_append] at hq2 ⊢; tauto)
        rw [hframe q this]; exact Or.inl rfl
    have h4 := qinv_add fuel s3 p lr lb ls s4 h3 hpn hp0 hadd
    refine ⟨⟨_, _, _, hw1 ▸ qinv_set_total _ _ _ _ _ h4, fun q => ?_⟩,
      List.nodup_cons.mpr ⟨hfresh, hn⟩⟩
    have hperm : (insert_by_priority s3.proc p lr ++ lb ++ ls).Perm (p :: (lr ++ lb ++ ls)) := by
      simpa using ((insert_by_priority_perm s3.proc p lr).append_right lb).append_right ls
    rw [hperm.mem_iff, List.mem_cons, List.mem_cons, hL q]
  | @create_null w w1 L fuel name entry_point priority _ hc ih =>
    have : w1.sched = w.sched := by
      unfold process_create at hc
      cases h1 : kmalloc fuel w.mem sizeof_process_t with
      | none => simp [h1] at hc
      | some r1 =>
        obtain ⟨mem1, pr⟩ := r1
        simp only [h1] at hc
        by_cases hz : pr = 0
        · simp only [hz, if_true, Option.some.injEq, Prod.mk.injEq] at hc
          rw [← hc.1]
        · simp only [hz, if_false] at hc
          cases h2 : kmalloc fuel mem1 4096 with
          | none => simp [h2] at hc
          | some r2 =>
            obtain ⟨mem2, sb⟩ := r2
            simp only [h2] at hc
            cases h3 : kmalloc_aligned fuel mem2 4096 4096 with
            | none => simp [h3] at hc
            | some r3 =>
              obtain ⟨mem3, cr3⟩ := r3
              simp only [h3] at hc
              cases h4 : scheduler_add_process fuel
                  ((process_create_stack_fields (process_create_fields w.sched pr name priority)
                    pr sb).modify pr (fun x => { x with cr3 := cr3 })) pr with
              | none => simp [h4] at hc
              | some s4 =>
                simp only [h4, Option.some.injEq, Prod.mk.injEq] at hc
                exact absurd hc.2 hz
    rw [this]; exact ih
  | @destroy w w1 L p fuel _ hp hd ih =>
    obtain ⟨⟨lr, lb, ls, hq, hL⟩, hn⟩ := ih
    have hmem := (hL p).mp hp
    have hp0 := queues_mem_ne_zero hq.1 hmem
    have hw1 := process_destroy_sched fuel w w1 p hd hp0
    refine ⟨⟨_, _, _, hw1 ▸ qinv_set_total _ _ _ _ _ (qinv_remove _ p _ _ _ hq hmem),
      fun q => ?_⟩, hn.erase p⟩
    rw [List.Nodup.mem_erase_iff hn, hL q]
    have hperm := erase_lists_perm hq.1.2.2.2 hmem
    have hnot := not_mem_erase_lists (p := p) hq.1.2.2.2
    rw [← hperm.mem_iff, List.mem_cons]
    constructor
    · rintro ⟨h1, h2 | h2⟩
      · exact absurd h2 h1
      · exact h2
    · intro h
      exact ⟨fun h2 => hnot (h2 ▸ h), Or.inr h⟩
  | block _ hp ih => exact ⟨inv_process_block _ _ _ ih.1 hp, ih.2⟩
  | unblock fuel _ hp hu ih => exact ⟨inv_process_unblock fuel _ _ _ _ ih.1 hp hu, ih.2⟩
  | sleep ticks _ hc ih => exact ⟨inv_timer_sleep _ ticks _ ih.1 hc, ih.2⟩
  | yield _ ih => exact ⟨inv_yield _ _ ih.1, ih.2⟩
  | schedule _ ih => exact ⟨inv_schedule _ _ ih.1, ih.2⟩
  | tick fuel _ ht ih => exact ⟨inv_timer_handler fuel _ _ _ ih.1 ht, ih.2⟩

/-! ### The queue walk and the claims on queue membership -/

theorem queue_walk_of_cyc (s : SchedState) :
    ∀ (post : List Nat) (x : Nat) (pre : List Nat), Cyc s.proc (pre ++ x :: post) →
      queue_walk s ((pre ++ x :: post).headD 0) (post.length + 1) x = some (x :: post) := by
  intro post
  induction post with
  | nil =>
    intro x pre hc
    have hrot : Cyc s.proc (x :: pre) := by
      simpa using cyc_rotate s.proc pre [x] hc
    have hn := cyc_next_head hrot
    simp [queue_walk, hn]
  | cons y post ih =>
    intro x pre hc
    have hrot : Cyc s.proc (x :: ((y :: post) ++ pre)) := by
      simpa using cyc_rotate s.proc pre (x :: y :: post) hc
    have hn : (s.proc x).next = y := by
      rw [cyc_next_head hrot]; simp
    have hy : y ≠ (pre ++ x :: y :: post).headD 0 := by
      have hnd := hc.1
      cases pre with
      | nil => simp at hnd ⊢; tauto
      | cons z pre => simp at hnd ⊢; tauto
    have := ih y (pre ++ [x]) (by simpa using hc)
    simp only [List.append_assoc, List.singleton_append] at this
    simp only [List.length_cons]
    rw [queue_walk, hn, if_neg hy, this]
    rfl

theorem queue_members_of_isQueue {s : SchedState} {h : Nat} {l : List Nat}
    (hq : IsQueue s.proc h l) : queue_members l.length s h = some l := by
  unfold queue_members
  cases l with
  | nil => simp [(isQueue_head_zero hq).mpr rfl]
  | cons x t =>
    have hh : h = x := by simpa using hq.2
    have hx : x ≠ 0 := hq.1.2.1 x (by simp)
    have := queue_walk_of_cyc s t x [] (by simpa using hq.1)
    simp only [List.nil_append, List.headD_cons] at this
    simp [hh, hx, this]

/-- C3 (amended): in every state reachable from `scheduler_init` by
`process_create`, `process_destroy`, `process_block`, `process_unblock`,
`timer_sleep`, `scheduler_yield`, `scheduler_schedule` and returning
`timer_handler` calls (relation `Reach`), the walks of the ready, blocked and
sleeping queues from their heads return three lists in which every
created-and-not-destroyed process, the RUNNING one included, occurs exactly
once over all three, and which hold no other process. -/
theorem live_processes_in_exactly_one_queue {w : World} {L : List Nat} (h : Reach w L) :
    ∃ lr lb ls,
      queue_members lr.length w.sched w.sched.scheduler.ready_queue = some lr ∧
      queue_members lb.length w.sched w.sched.scheduler.blocked_queue = some lb ∧
      queue_members ls.length w.sched w.sched.scheduler.sleeping_queue = some ls ∧
      (lr ++ lb ++ ls).Nodup ∧ ∀ p, p ∈ L ↔ p ∈ lr ++ lb ++ ls := by
  obtain ⟨⟨lr, lb, ls, hq, hL⟩, _⟩ := reach_inv h
  exact ⟨lr, lb, ls, queue_members_of_isQueue hq.1.1, queue_members_of_isQueue hq.1.2.1,
    queue_members_of_isQueue hq.1.2.2.1, hq.1.2.2.2, hL⟩

theorem sample_created_eq :
    process_create 20 sample_world [] 0x2000 PRIORITY_NORMAL =
      some (sample_created.1, sample_created.2) := by
  have hs : (process_create 20 sample_world [] 0x2000 PRIORITY_NORMAL).isSome = true := by
    decide!
  unfold sample_created
  cases h : process_create 20 sample_world [] 0x2000 PRIORITY_NORMAL with
  | none => simp [h] at hs
  | some r => simp

theorem reach_sample_created : Reach sample_created.1 [sample_created.2] :=
  Reach.create 20 [] 0x2000 PRIORITY_NORMAL (Reach.init 20 sample_kernel) sample_created_eq
    (by decide!) (by simp)

theorem reach_schedule_times (n : Nat) : ∀ (w : World) (L : List Nat), Reach w L →
    Reach { w with sched := schedule_times n w.sched } L := by
  induction n with
  | zero => intro w L h; exact h
  | succ n ih =>
    intro w L h
    exact ih _ L (Reach.schedule h)

/-- Witness of C3 (amended): the state reached by `scheduler_init`, one
`process_create` and eleven `scheduler_schedule` calls. -/
theorem live_processes_in_exactly_one_queue_witness :
    Reach sample_running [sample_created.2] ∧
    ∃ lr lb ls,
      queue_members lr.length sample_running.sched
        sample_running.sched.scheduler.ready_queue = some lr ∧
      queue_members lb.length sample_running.sched
        sample_running.sched.scheduler.blocked_queue = some lb ∧
      queue_members ls.length sample_running.sched
        sample_running.sched.scheduler.sleeping_queue = some ls ∧
      (lr ++ lb ++ ls).Nodup ∧ ∀ p, p ∈ [sample_created.2] ↔ p ∈ lr ++ lb ++ ls :=
  ⟨reach_schedule_times 11 _ _ reach_sample_created,
   live_processes_in_exactly_one_queue (reach_schedule_times 11 _ _ reach_sample_created)⟩

theorem land_high_mask (x k : Nat) (hx : x < 2 ^ 32) (hk : k ≤ 32) :
    Nat.land x (2 ^ 32 - 1 - (2 ^ k - 1)) = x / 2 ^ k * 2 ^ k := by
  have hmask : 2 ^ 32 - 1 - (2 ^ k - 1) = (2 ^ (32 - k) - 1) <<< k := by
    rw [Nat.shiftLeft_eq, Nat.sub_mul, ← Nat.pow_add, Nat.sub_add_cancel hk]
    have : 1 ≤ 2 ^ k := Nat.one_le_two_pow
    have : 2 ^ k ≤ 2 ^ 32 := Nat.pow_le_pow_right (by decide) hk
    omega
  have hx2 : x / 2 ^ k * 2 ^ k = (x >>> k) <<< k := by
    rw [Nat.shiftLeft_eq, Nat.shiftRight_eq_div_pow]
  show x &&& (2 ^ 32 - 1 - (2 ^ k - 1)) = x / 2 ^ k * 2 ^ k
  rw [hmask, hx2]
  apply Nat.eq_of_testBit_eq
  intro i
  rw [Nat.testBit_and, Nat.testBit_shiftLeft, Nat.testBit_shiftLeft, Nat.testBit_shiftRight,
    Nat.testBit_two_pow_sub_one]
  by_cases hi : k ≤ i
  · have e : k + (i - k) = i := by omega
    simp only [ge_iff_le, hi, decide_True, Bool.true_and, e]
    by_cases h32 : i < 32
    · have : i - k < 32 - k := by omega
      simp [this]
    · have : x.testBit i = false :=
        Nat.testBit_lt_two_pow (lt_of_lt_of_le hx (Nat.pow_le_pow_right (by decide) (by omega)))
      simp [this]
  · simp [hi]

theorem u32_lt (n : Nat) : u32 n < 4294967296 := by
  unfold u32; omega

theorem u32_of_lt {n : Nat} (h : n < 4294967296) : u32 n = n := by
  unfold u32; omega

theorem frame_mask_land (x : Nat) (hx : x < 4294967296) :
    Nat.land x FRAME_MASK = x / 4096 * 4096 := by
  have := land_high_mask x 12 (by omega) (by decide)
  simpa [FRAME_MASK] using this

theorem entry_addr_eq {base i : Nat} (hb : base % 4096 = 0) (hb2 : base < 4294967296)
    (hi : i < 1024) : entry_addr base i = base + 4 * i := by
  unfold entry_addr; apply u32_of_lt; omega

theorem dir_index_lt {virt : Nat} (hv : virt < 2 ^ 32) : virt >>> 22 < 1024 := by
  rw [Nat.shiftRight_eq_div_pow]
  omega

theorem table_index_lt (virt : Nat) : Nat.land (virt >>> 12) 0x3FF < 1024 :=
  Nat.and_lt_two_pow (virt >>> 12) (by decide : 0x3FF < 2 ^ 10)

theorem lor_present_write {pt : Nat} (h : pt % 4096 = 0) :
    Nat.lor (Nat.lor pt PAGE_PRESENT) PAGE_WRITE = pt + 3 := by
  show (pt ||| 1) ||| 2 = pt + 3
  rw [Nat.or_assoc]
  have e : pt = 2 ^ 12 * (pt / 4096) := by omega
  have : (1 ||| 2 : Nat) = 3 := by decide
  rw [this, e, ← Nat.mul_add_lt_is_or (by decide : 3 < 2 ^ 12)]

theorem land_present (x : Nat) : Nat.land x PAGE_PRESENT = x % 2 := Nat.and_one_is_mod x

theorem kmalloc_aligned_page (fuel : Nat) (st st1 : MemState) (size r : Nat)
    (h : kmalloc_aligned fuel st size PAGE_SIZE = some (st1, r)) :
    r % 4096 = 0 ∧ r < 4294967296 := by
  unfold kmalloc_aligned at h
  rw [if_neg (by decide : ¬ PAGE_SIZE = 0)] at h
  dsimp only at h
  cases hk : kmalloc fuel st (u32 (size + PAGE_SIZE - 1)) with
  | none => rw [hk] at h; cases h
  | some res =>
    obtain ⟨st2, ptr⟩ := res
    rw [hk] at h
    dsimp only at h
    split_ifs at h with hz
    · cases h
      exact ⟨by decide, by decide⟩
    · cases h
      have hm := land_high_mask (u32 (ptr + PAGE_SIZE - 1)) 12 (u32_lt _) (by decide)
      have e : (2 : Nat) ^ 32 - 1 - (2 ^ 12 - 1) = 2 ^ 32 - 1 - (PAGE_SIZE - 1) := by decide
      rw [e] at hm
      rw [hm]
      have := u32_lt (ptr + PAGE_SIZE - 1)
      constructor
      · have : (2:Nat) ^ 12 = 4096 := by decide
        rw [this]
        exact Nat.mul_mod_left _ _
      · have : u32 (ptr + PAGE_SIZE - 1) / 2 ^ 12 * 2 ^ 12 ≤ u32 (ptr + PAGE_SIZE - 1) :=
          Nat.div_mul_le_self _ _
        omega

theorem unmap_page_present {w : World} {virt : Nat}
    (h : Nat.land (directory_entry w virt) PAGE_PRESENT ≠ 0) :
    unmap_page w virt = { w with ram := Function.update w.ram (table_entry_addr w virt) 0 } := by
  unfold directory_entry at h
  unfold unmap_page
  rw [if_pos h]
  rfl

theorem unmap_page_absent {w : World} {virt : Nat}
    (h : Nat.land (directory_entry w virt) PAGE_PRESENT = 0) :
    unmap_page w virt = w := by
  unfold directory_entry at h
  unfold unmap_page
  rw [if_neg (not_not.mpr h)]

theorem table_entry_addr_congr {w w1 : World} {virt : Nat}
    (h : directory_entry w1 virt = directory_entry w virt) :
    table_entry_addr w1 virt = table_entry_addr w virt := by
  show entry_addr (Nat.land (directory_entry w1 virt) FRAME_MASK) _ = _
  rw [h]
  rfl

theorem walk_entry_unmap (w : World) (virt : Nat) :
    walk_entry (unmap_page w virt) virt = 0 := by
  by_cases h : Nat.land (directory_entry w virt) PAGE_PRESENT = 0
  · rw [unmap_page_absent h]
    unfold walk_entry
    rw [if_pos h]
  · rw [unmap_page_present h]
    by_cases ha : table_entry_addr w virt = entry_addr w.current_page_directory (virt >>> 22)
    · unfold walk_entry
      have : directory_entry
          { w with ram := Function.update w.ram (table_entry_addr w virt) 0 } virt = 0 := by
        unfold directory_entry
        show Function.update w.ram (table_entry_addr w virt) 0
          (entry_addr w.current_page_directory (virt >>> 22)) = 0
        rw [ha, Function.update_same]
      rw [this, if_pos (by decide)]
    · have hd : directory_entry
          { w with ram := Function.update w.ram (table_entry_addr w virt) 0 } virt =
          directory_entry w virt := by
        unfold directory_entry
        show Function.update w.ram (table_entry_addr w virt) 0
          (entry_addr w.current_page_directory (virt >>> 22)) = _
        rw [Function.update_noteq (Ne.symm ha)]
      have ht : table_entry_addr
          { w with ram := Function.update w.ram (table_entry_addr w virt) 0 } virt =
          table_entry_addr w virt := table_entry_addr_congr hd
      unfold walk_entry
      rw [hd, if_neg h, ht]
      show Function.update w.ram (table_entry_addr w virt) 0 (table_entry_addr w virt) = 0
      rw [Function.update_same]

/-- C20: when the directory entry for `virt` is PRESENT, `unmap_page(virt)`
stores 0 into the table entry for `virt` and changes no other word of memory
(so every other directory and table entry keeps its value) nor any other part
of the machine; a two-level walk for `virt` afterwards ends on a non-present
entry, also right after a `map_page` of the same page; when the directory entry
is not PRESENT, `unmap_page(virt)` leaves the whole machine unchanged. -/
theorem unmap_page_clears_entry (w : World) (virt : Nat) :
    (Nat.land (directory_entry w virt) PAGE_PRESENT ≠ 0 →
      unmap_page w virt = { w with ram := Function.update w.ram (table_entry_addr w virt) 0 } ∧
      (unmap_page w virt).ram (table_entry_addr w virt) = 0 ∧
      ∀ a, a ≠ table_entry_addr w virt → (unmap_page w virt).ram a = w.ram a) ∧
    walk_entry (unmap_page w virt) virt = 0 ∧
    Nat.land (walk_entry (unmap_page w virt) virt) PAGE_PRESENT = 0 ∧
    (∀ fuel phys flags w1, map_page fuel w virt phys flags = some w1 →
      walk_entry (unmap_page w1 virt) virt = 0) ∧
    (Nat.land (directory_entry w virt) PAGE_PRESENT = 0 → unmap_page w virt = w) := by
  refine ⟨fun h => ?_, walk_entry_unmap w virt, ?_, fun _ _ _ w1 _ => walk_entry_unmap w1 virt,
    fun h => unmap_page_absent h⟩
  · rw [unmap_page_present h]
    refine ⟨rfl, ?_, fun a ha => ?_⟩
    · show Function.update w.ram (table_entry_addr w virt) 0 (table_entry_addr w virt) = 0
      rw [Function.update_same]
    · show Function.update w.ram (table_entry_addr w virt) 0 a = w.ram a
      rw [Function.update_noteq ha]
  · rw [walk_entry_unmap]
    decide

/-- C20 on a mapped page: `sample_mapped` maps 0x400000 to 0x800000, the walk
finds `0x800003`, and after `unmap_page(0x400000)` the walk finds 0. -/
theorem unmap_page_clears_entry_witness :
    Nat.land (directory_entry sample_mapped 0x400000) PAGE_PRESENT ≠ 0 ∧
    walk_entry sample_mapped 0x400000 = 0x800003 ∧
    (unmap_page sample_mapped 0x400000).ram (table_entry_addr sample_mapped 0x400000) = 0 ∧
    walk_entry (unmap_page sample_mapped 0x400000) 0x400000 = 0 ∧
    Nat.land (directory_entry sample_mapped 0x800000) PAGE_PRESENT = 0 ∧
    unmap_page sample_mapped 0x800000 = sample_mapped :=
  ⟨by decide!, by decide!,
    ((unmap_page_clears_entry sample_mapped 0x400000).1 (by decide!)).2.1,
    (unmap_page_clears_entry sample_mapped 0x400000).2.1,
    by decide!,
    (unmap_page_clears_entry sample_mapped 0x800000).2.2.2.2 (by decide!)⟩

theorem frame_mask_props (x : Nat) :
    Nat.land x FRAME_MASK % 4096 = 0 ∧ Nat.land x FRAME_MASK < 4294967296 := by
  have hle : Nat.land x FRAME_MASK ≤ FRAME_MASK := Nat.and_le_right
  have hM : FRAME_MASK < 4294967296 := by decide
  have hidem : Nat.land (Nat.land x FRAME_MASK) FRAME_MASK = Nat.land x FRAME_MASK := by
    show (x &&& FRAME_MASK) &&& FRAME_MASK = x &&& FRAME_MASK
    rw [Nat.and_assoc, Nat.and_self]
  have := frame_mask_land (Nat.land x FRAME_MASK) (by omega)
  rw [hidem] at this
  constructor
  · rw [this]; exact Nat.mul_mod_left _ _
  · omega

theorem map_page_present {fuel : Nat} {w : World} {virt phys flags : Nat}
    (h : Nat.land (directory_entry w virt) PAGE_PRESENT ≠ 0) :
    map_page fuel w virt phys flags =
      some { w with ram := Function.update w.ram (table_entry_addr w virt) (Nat.lor phys flags) } := by
  unfold directory_entry at h
  unfold map_page
  dsimp only
  rw [if_neg h]
  rfl

theorem map_page_fresh {fuel : Nat} {w : World} {virt phys flags : Nat} {mem : MemState} {pt : Nat}
    (h : Nat.land (directory_entry w virt) PAGE_PRESENT = 0)
    (hk : kmalloc_aligned fuel w.mem 4096 PAGE_SIZE = some (mem, pt)) :
    map_page fuel w virt phys flags =
      some { w with
        mem := mem
        ram := Function.update
          (Function.update (memset_zero w.ram pt 4096)
            (entry_addr w.current_page_directory (virt >>> 22))
            (Nat.lor (Nat.lor pt PAGE_PRESENT) PAGE_WRITE))
          (entry_addr
            (Nat.land
              (Function.update (memset_zero w.ram pt 4096)
                (entry_addr w.current_page_directory (virt >>> 22))
                (Nat.lor (Nat.lor pt PAGE_PRESENT) PAGE_WRITE)
                (entry_addr w.current_page_directory (virt >>> 22))) FRAME_MASK)
            (Nat.land (virt >>> 12) 0x3FF))
          (Nat.lor phys flags) } := by
  unfold directory_entry at h
  unfold map_page
  dsimp only
  rw [if_pos h, hk]
  rfl

theorem map_page_none {fuel : Nat} {w : World} {virt phys flags : Nat}
    (h : Nat.land (directory_entry w virt) PAGE_PRESENT = 0)
    (hk : kmalloc_aligned fuel w.mem 4096 PAGE_SIZE = none) :
    map_page fuel w virt phys flags = none := by
  unfold directory_entry at h
  unfold map_page
  dsimp only
  rw [if_pos h, hk]
  rfl

/-- C19: for a 32-bit `virt`, a page-aligned page directory and page tables
that are not the directory itself, a `map_page(virt, phys, flags)` that returns
(the table allocation, if any, giving a non-NULL table) has both indices below
1024, leaves the directory entry PRESENT and the table entry reached through it
equal to `phys | flags`; a directory entry that was PRESENT is unchanged, the
allocator is untouched and only the one table entry changes; otherwise the
directory entry becomes `table | PRESENT | WRITE` for the newly allocated
table, whose other 1023 entries are 0, and memory outside that table and that
directory entry is unchanged. -/
theorem map_page_postcondition (fuel : Nat) (w w1 : World) (virt phys flags : Nat)
    (hv : virt < 2 ^ 32)
    (hcur : w.current_page_directory % 4096 = 0)
    (hcur2 : w.current_page_directory < 2 ^ 32)
    (hsep : Nat.land (directory_entry w virt) PAGE_PRESENT ≠ 0 →
      page_table_of w virt ≠ w.current_page_directory)
    (hfresh : Nat.land (directory_entry w virt) PAGE_PRESENT = 0 →
      ∀ pt, (kmalloc_aligned fuel w.mem 4096 PAGE_SIZE).map Prod.snd = some pt →
        pt ≠ 0 ∧ pt ≠ w.current_page_directory)
    (h : map_page fuel w virt phys flags = some w1) :
    virt >>> 22 < 1024 ∧ Nat.land (virt >>> 12) 0x3FF < 1024 ∧
    w1.current_page_directory = w.current_page_directory ∧
    Nat.land (directory_entry w1 virt) PAGE_PRESENT ≠ 0 ∧
    w1.ram (table_entry_addr w1 virt) = Nat.lor phys flags ∧
    walk_entry w1 virt = Nat.lor phys flags ∧
    (Nat.land (directory_entry w virt) PAGE_PRESENT ≠ 0 →
      directory_entry w1 virt = directory_entry w virt ∧ w1.mem = w.mem ∧
      ∀ a, a ≠ table_entry_addr w virt → w1.ram a = w.ram a) ∧
    (Nat.land (directory_entry w virt) PAGE_PRESENT = 0 →
      ∃ pt, kmalloc_aligned fuel w.mem 4096 PAGE_SIZE = some (w1.mem, pt) ∧
        directory_entry w1 virt = Nat.lor (Nat.lor pt PAGE_PRESENT) PAGE_WRITE ∧
        page_table_of w1 virt = pt ∧
        (∀ i, i < 1024 → i ≠ Nat.land (virt >>> 12) 0x3FF → w1.ram (entry_addr pt i) = 0) ∧
        ∀ a, ¬ (pt ≤ a ∧ a < pt + 4096) →
          a ≠ entry_addr w.current_page_directory (virt >>> 22) → w1.ram a = w.ram a) := by
  have hdi := dir_index_lt hv
  have hti := table_index_lt virt
  have hds := entry_addr_eq hcur hcur2 hdi
  by_cases hp : Nat.land (directory_entry w virt) PAGE_PRESENT = 0
  · -- a new table is allocated
    cases hk : kmalloc_aligned fuel w.mem 4096 PAGE_SIZE with
    | none => rw [map_page_none hp hk] at h; cases h
    | some res =>
      obtain ⟨mem, pt⟩ := res
      obtain ⟨hpt0, hptc⟩ := hfresh hp pt (by rw [hk]; rfl)
      obtain ⟨hpa, hpl⟩ := kmalloc_aligned_page fuel w.mem mem 4096 pt hk
      rw [map_page_fresh hp hk, Function.update_same] at h
      have hval := lor_present_write hpa
      have hfm : Nat.land (Nat.lor (Nat.lor pt PAGE_PRESENT) PAGE_WRITE) FRAME_MASK = pt := by
        rw [hval, frame_mask_land _ (by omega)]
        omega
      rw [hfm] at h
      have hts := entry_addr_eq hpa hpl hti
      have hne : entry_addr pt (Nat.land (virt >>> 12) 0x3FF) ≠
          entry_addr w.current_page_directory (virt >>> 22) := by
        rw [hts, hds]; omega
      cases h
      have hd : directory_entry
          { w with
            mem := mem
            ram := Function.update
              (Function.update (memset_zero w.ram pt 4096)
                (entry_addr w.current_page_directory (virt >>> 22))
                (Nat.lor (Nat.lor pt PAGE_PRESENT) PAGE_WRITE))
              (entry_addr pt (Nat.land (virt >>> 12) 0x3FF)) (Nat.lor phys flags) } virt =
          Nat.lor (Nat.lor pt PAGE_PRESENT) PAGE_WRITE := by
        show Function.update (Function.update _ _ _) _ _ _ = _
        rw [Function.update_noteq (Ne.symm hne), Function.update_same]
      have hpt : page_table_of
          { w with
            mem := mem
            ram := Function.update
              (Function.update (memset_zero w.ram pt 4096)
                (entry_addr w.current_page_directory (virt >>> 22))
                (Nat.lor (Nat.lor pt PAGE_PRESENT) PAGE_WRITE))
              (entry_addr pt (Nat.land (virt >>> 12) 0x3FF)) (Nat.lor phys flags) } virt = pt := by
        unfold page_table_of
        rw [hd, hfm]
      have hta : table_entry_addr
          { w with
            mem := mem
            ram := Function.update
              (Function.update (memset_zero w.ram pt 4096)
                (entry_addr w.current_page_directory (virt >>> 22))
                (Nat.lor (Nat.lor pt PAGE_PRESENT) PAGE_WRITE))
              (entry_addr pt (Nat.land (virt >>> 12) 0x3FF)) (Nat.lor phys flags) } virt =
          entry_addr pt (Nat.land (virt >>> 12) 0x3FF) := by
        unfold table_entry_addr
        rw [hpt]
      have hpres : Nat.land (Nat.lor (Nat.lor pt PAGE_PRESENT) PAGE_WRITE) PAGE_PRESENT ≠ 0 := by
        rw [hval, land_present]; omega
      refine ⟨hdi, hti, rfl, ?_, ?_, ?_, fun hc => absurd hp hc, fun _ => ⟨pt, rfl, hd, hpt, ?_, ?_⟩⟩
      · rw [hd]; exact hpres
      · rw [hta]
        show Function.update _ _ _ _ = _
        rw [Function.update_same]
      · unfold walk_entry
        rw [hd, if_neg hpres, hta]
        show Function.update _ _ _ _ = _
        rw [Function.update_same]
      · intro i hi hne2
        have hei := entry_addr_eq hpa hpl hi
        show Function.update (Function.update _ _ _) _ _ _ = _
        rw [Function.update_noteq (by rw [hei, hts]; omega),
          Function.update_noteq (by rw [hei, hds]; omega)]
        unfold memset_zero
        rw [if_pos (by rw [hei]; omega)]
      · intro a ha hna
        show Function.update (Function.update _ _ _) _ _ _ = _
        rw [Function.update_noteq (by rw [hts]; omega), Function.update_noteq hna]
        unfold memset_zero
        rw [if_neg ha]
  · -- the directory entry is already present
    rw [map_page_present hp] at h
    cases h
    obtain ⟨hpa, hpl⟩ := frame_mask_props (directory_entry w virt)
    have hne0 := hsep hp
    have hts : table_entry_addr w virt =
        page_table_of w virt + 4 * Nat.land (virt >>> 12) 0x3FF := entry_addr_eq hpa hpl hti
    have hne : table_entry_addr w virt ≠ entry_addr w.current_page_directory (virt >>> 22) := by
      rw [hts, hds]
      have : page_table_of w virt % 4096 = 0 := hpa
      omega
    have hd : directory_entry
        { w with ram := Function.update w.ram (table_entry_addr w virt) (Nat.lor phys flags) } virt =
        directory_entry w virt := by
      show Function.update w.ram _ _ _ = _
      rw [Function.update_noteq (Ne.symm hne)]
      rfl
    have hta := table_entry_addr_congr hd
    refine ⟨hdi, hti, rfl, ?_, ?_, ?_, fun _ => ⟨hd, rfl, fun a ha => ?_⟩, fun hc => absurd hc hp⟩
    · rw [hd]; exact hp
    · rw [hta]
      show Function.update _ _ _ _ = _
      rw [Function.update_same]
    · unfold walk_entry
      rw [hd, if_neg hp, hta]
      show Function.update _ _ _ _ = _
      rw [Function.update_same]
    · show Function.update _ _ _ _ = _
      rw [Function.update_noteq ha]

/-- C19 on `sample_paged`: the directory is page-aligned and the entry for
0x400000 is not PRESENT, so `map_page(0x400000, 0x800000, 3)` allocates a
table; the walk then finds `0x800000 | 3`. On `sample_mapped` the entry is
PRESENT and `map_page(0x401000, 0x900000, 3)` keeps it. -/
theorem map_page_postcondition_witness :
    sample_paged.current_page_directory % 4096 = 0 ∧
    Nat.land (directory_entry sample_paged 0x400000) PAGE_PRESENT = 0 ∧
    (∃ w1, map_page 20 sample_paged 0x400000 0x800000 3 = some w1 ∧
      Nat.land (directory_entry w1 0x400000) PAGE_PRESENT ≠ 0 ∧
      walk_entry w1 0x400000 = Nat.lor 0x800000 3) ∧
    Nat.land (directory_entry sample_mapped 0x401000) PAGE_PRESENT ≠ 0 ∧
    (∃ w1, map_page 20 sample_mapped 0x401000 0x900000 3 = some w1 ∧
      walk_entry w1 0x401000 = Nat.lor 0x900000 3 ∧
      directory_entry w1 0x401000 = directory_entry sample_mapped 0x401000) := by
  have hs : (map_page 20 sample_paged 0x400000 0x800000 3).isSome = true := by decide!
  obtain ⟨w1, hw1⟩ := Option.isSome_iff_exists.mp hs
  have hs2 : (map_page 20 sample_mapped 0x401000 0x900000 3).isSome = true := by decide!
  obtain ⟨w2, hw2⟩ := Option.isSome_iff_exists.mp hs2
  have hk : (kmalloc_aligned 20 sample_paged.mem 4096 PAGE_SIZE).map Prod.snd = some 1060864 := by
    decide!
  have t1 := map_page_postcondition 20 sample_paged w1 0x400000 0x800000 3 (by decide)
    (by decide!) (by decide!) (fun hc => absurd (by decide!) hc)
    (fun _ pt hpt => by
      rw [hk] at hpt
      cases hpt
      exact ⟨by decide, by decide!⟩) hw1
  have t2 := map_page_postcondition 20 sample_mapped w2 0x401000 0x900000 3 (by decide)
    (by decide!) (by decide!) (fun _ => by decide!)
    (fun hc => absurd hc (by decide!)) hw2
  exact ⟨by decide!, by decide!, ⟨w1, hw1, t1.2.2.2.1, t1.2.2.2.2.2.1⟩, by decide!,
    ⟨w2, hw2, t2.2.2.2.2.2.1, (t2.2.2.2.2.2.2.1 (by decide!)).1⟩⟩

/-! ## Heap allocator: the free list as a list -/

theorem sub32_of_le {a b : Nat} (h : b ≤ a) (ha : a < 4294967296) : sub32 a b = a - b := by
  unfold sub32
  have hb : b % 2 ^ 32 = b := Nat.mod_eq_of_lt (by omega)
  rw [hb]
  omega

theorem seg_append {blk : Nat → memory_block} {l1 l2 : List Nat} {p q : Nat} :
    Seg blk p (l1 ++ l2) q ↔ ∃ m, Seg blk p l1 m ∧ Seg blk m l2 q := by
  induction l1 generalizing p with
  | nil =>
    constructor
    · intro h; exact ⟨p, rfl, h⟩
    · rintro ⟨m, hm, h⟩
      have : p = m := hm
      subst this; exact h
  | cons a t ih =>
    constructor
    · rintro ⟨h1, h2, h3⟩
      obtain ⟨m, hm1, hm2⟩ := ih.mp h3
      exact ⟨m, ⟨h1, h2, hm1⟩, hm2⟩
    · rintro ⟨m, ⟨h1, h2, hm1⟩, hm2⟩
      exact ⟨h1, h2, ih.mpr ⟨m, hm1, hm2⟩⟩

theorem seg_frame {blk blk1 : Nat → memory_block} {l : List Nat} {p q : Nat}
    (h : Seg blk p l q) (hf : ∀ x ∈ l, (blk1 x).next = (blk x).next) : Seg blk1 p l q := by
  induction l generalizing p with
  | nil => exact h
  | cons a t ih =>
    obtain ⟨h1, h2, h3⟩ := h
    refine ⟨h1, h2, ?_⟩
    rw [hf a (List.mem_cons_self _ _)]
    exact ih h3 (fun x hx => hf x (List.mem_cons_of_mem _ hx))

theorem seg_nonzero {blk : Nat → memory_block} {l : List Nat} {p q : Nat}
    (h : Seg blk p l q) : ∀ x ∈ l, x ≠ 0 := by
  induction l generalizing p with
  | nil => intro x hx; cases hx
  | cons a t ih =>
    obtain ⟨_, h2, h3⟩ := h
    intro x hx
    rcases List.mem_cons.mp hx with rfl | hx
    · exact h2
    · exact ih h3 x hx

theorem seg_head {blk : Nat → memory_block} {l : List Nat} {p q : Nat}
    (h : Seg blk p l q) : p = l.headD q := by
  cases l with
  | nil => exact h
  | cons a t => exact h.1

/-- The link out of a segment's last header, or the start for an empty one. -/
theorem seg_last {blk : Nat → memory_block} {l : List Nat} {p q c : Nat}
    (h : Seg blk p (l ++ [c]) q) : (blk c).next = q := by
  obtain ⟨m, _, h2⟩ := seg_append.mp h
  obtain ⟨_, _, h3⟩ := h2
  exact h3

theorem layout_append {blk : Nat → memory_block} {E : Nat} {l1 l2 : List Nat} :
    Layout blk E (l1 ++ l2) ↔ Layout blk (l2.headD E) l1 ∧ Layout blk E l2 := by
  induction l1 with
  | nil => simp [Layout]
  | cons a t ih =>
    have e : (t ++ l2).headD E = t.headD (l2.headD E) := by cases t <;> rfl
    show ((blk a).start_addr = a + sizeof_memory_block_t ∧
        a + sizeof_memory_block_t + (blk a).size ≤ (t ++ l2).headD E ∧ Layout blk E (t ++ l2)) ↔
      ((blk a).start_addr = a + sizeof_memory_block_t ∧
        a + sizeof_memory_block_t + (blk a).size ≤ t.headD (l2.headD E) ∧
        Layout blk (l2.headD E) t) ∧ Layout blk E l2
    rw [ih, e]
    tauto

theorem layout_head_le {blk : Nat → memory_block} {E : Nat} {l : List Nat}
    (h : Layout blk E l) : l.headD E ≤ E := by
  induction l with
  | nil => exact le_refl _
  | cons a t ih =>
    obtain ⟨_, h2, h3⟩ := h
    have := ih h3
    show a ≤ E
    unfold sizeof_memory_block_t at h2
    omega

theorem layout_mono {blk : Nat → memory_block} {E E1 : Nat} {l : List Nat}
    (h : Layout blk E l) (hE : E ≤ E1) : Layout blk E1 l := by
  induction l with
  | nil => trivial
  | cons a t ih =>
    obtain ⟨h1, h2, h3⟩ := h
    refine ⟨h1, ?_, ih h3⟩
    cases t with
    | nil => exact le_trans h2 hE
    | cons b t => exact h2

/-- Every header of a laid-out list ends its payload at or before the bound. -/
theorem layout_bound {blk : Nat → memory_block} {E : Nat} {l : List Nat}
    (h : Layout blk E l) :
    ∀ x ∈ l, (blk x).start_addr = x + 16 ∧ x + 16 + (blk x).size ≤ E := by
  induction l with
  | nil => intro x hx; cases hx
  | cons a t ih =>
    obtain ⟨h1, h2, h3⟩ := h
    intro x hx
    rcases List.mem_cons.mp hx with rfl | hx
    · exact ⟨h1, le_trans h2 (layout_head_le h3)⟩
    · exact ih h3 x hx

/-- Every header of a laid-out list lies at or after the head of the list. -/
theorem layout_ge_head {blk : Nat → memory_block} {E : Nat} {l : List Nat}
    (h : Layout blk E l) : ∀ x ∈ l, l.headD E ≤ x := by
  induction l with
  | nil => intro x hx; cases hx
  | cons a t ih =>
    obtain ⟨_, h2, h3⟩ := h
    intro x hx
    rcases List.mem_cons.mp hx with rfl | hx
    · exact le_refl _
    · have := ih h3 x hx
      show a ≤ x
      unfold sizeof_memory_block_t at h2
      omega

theorem layout_frame {blk blk1 : Nat → memory_block} {E : Nat} {l : List Nat}
    (h : Layout blk E l)
    (hf : ∀ x ∈ l, (blk1 x).start_addr = (blk x).start_addr ∧ (blk1 x).size = (blk x).size) :
    Layout blk1 E l := by
  induction l with
  | nil => trivial
  | cons a t ih =>
    obtain ⟨h1, h2, h3⟩ := h
    obtain ⟨e1, e2⟩ := hf a (List.mem_cons_self _ _)
    refine ⟨by rw [e1]; exact h1, by rw [e2]; exact h2, ?_⟩
    exact ih h3 (fun x hx => hf x (List.mem_cons_of_mem _ hx))

theorem alloc_sum_append (blk : Nat → memory_block) (l1 l2 : List Nat) :
    alloc_sum blk (l1 ++ l2) = alloc_sum blk l1 + alloc_sum blk l2 := by
  induction l1 with
  | nil => simp [alloc_sum]
  | cons a t ih =>
    show (if (blk a).is_allocated ≠ 0 then (blk a).size else 0) + alloc_sum blk (t ++ l2) =
      (if (blk a).is_allocated ≠ 0 then (blk a).size else 0) + alloc_sum blk t + alloc_sum blk l2
    rw [ih]; omega

theorem alloc_sum_frame {blk blk1 : Nat → memory_block} {l : List Nat}
    (hf : ∀ x ∈ l, (blk1 x).is_allocated = (blk x).is_allocated ∧ (blk1 x).size = (blk x).size) :
    alloc_sum blk1 l = alloc_sum blk l := by
  induction l with
  | nil => rfl
  | cons a t ih =>
    obtain ⟨e1, e2⟩ := hf a (List.mem_cons_self _ _)
    simp only [alloc_sum, e1, e2, ih (fun x hx => hf x (List.mem_cons_of_mem _ hx))]

/-- The allocated sizes of a laid-out list fit between its head and the bound. -/
theorem alloc_sum_le {blk : Nat → memory_block} {E : Nat} {l : List Nat}
    (h : Layout blk E l) : l.headD E + alloc_sum blk l ≤ E := by
  induction l with
  | nil => exact le_refl _
  | cons a t ih =>
    obtain ⟨_, h2, h3⟩ := h
    have := ih h3
    show a + alloc_sum blk (a :: t) ≤ E
    unfold sizeof_memory_block_t at h2
    simp only [alloc_sum]
    split_ifs <;> omega

theorem chain_from_of_seg {st : MemState} {l : List Nat} {p : Nat}
    (h : Seg st.blk p l 0) :
    ∀ fuel, l.length < fuel → chain_from fuel st p = some (l.map (fun x => (x, st.blk x))) := by
  induction l generalizing p with
  | nil =>
    intro fuel hf
    have hp : p = 0 := h
    cases fuel with
    | zero => cases hf
    | succ n => simp [chain_from, hp]
  | cons a t ih =>
    intro fuel hf
    obtain ⟨h1, h2, h3⟩ := h
    cases fuel with
    | zero => cases hf
    | succ n =>
      subst h1
      have hn : t.length < n := by simpa using hf
      simp [chain_from, h2, ih h3 n hn]

theorem allocated_bytes_map (blk : Nat → memory_block) (l : List Nat) :
    allocated_bytes (l.map (fun x => (x, blk x))) = alloc_sum blk l := by
  induction l with
  | nil => rfl
  | cons a t ih =>
    unfold allocated_bytes at ih ⊢
    simp only [List.map_cons, List.filter_cons, alloc_sum]
    by_cases h : (blk a).is_allocated = 0
    · simp only [h, ne_eq, not_true_eq_false, decide_False, if_false, Bool.false_eq_true,
        zero_add]
      exact ih
    · simp only [h, ne_eq, not_false_eq_true, decide_True, if_true, List.map_cons, List.sum_cons]
      rw [ih]

theorem first_split {α : Type} (f : α → Bool) (l : List α) :
    (∀ x ∈ l, f x = false) ∨
    ∃ pre c post, l = pre ++ c :: post ∧ (∀ x ∈ pre, f x = false) ∧ f c = true := by
  induction l with
  | nil => left; intro x hx; cases hx
  | cons a t ih =>
    by_cases ha : f a = true
    · right; exact ⟨[], a, t, rfl, (fun x hx => by cases hx), ha⟩
    · have ha : f a = false := by simpa using ha
      rcases ih with h | ⟨pre, c, post, e, h1, h2⟩
      · left
        intro x hx
        rcases List.mem_cons.mp hx with rfl | hx
        · exact ha
        · exact h x hx
      · right
        refine ⟨a :: pre, c, post, by rw [e]; rfl, ?_, h2⟩
        intro x hx
        rcases List.mem_cons.mp hx with rfl | hx
        · exact ha
        · exact h1 x hx

theorem fits_iff {r : Nat} {n : Nat × memory_block} :
    fits r n = true ↔ n.2.is_allocated = 0 ∧ n.2.size ≥ r := by
  unfold fits
  simp

theorem kmalloc_loop_none {st : MemState} {r : Nat} {l : List Nat} {p : Nat}
    (h : Seg st.blk p l 0) (hno : ∀ x ∈ l, fits r (x, st.blk x) = false) :
    ∀ fuel, l.length < fuel → kmalloc_loop fuel st r p = some (st, 0) := by
  induction l generalizing p with
  | nil =>
    intro fuel hf
    have hp : p = 0 := h
    cases fuel with
    | zero => cases hf
    | succ n => simp [kmalloc_loop, hp]
  | cons a t ih =>
    intro fuel hf
    obtain ⟨h1, h2, h3⟩ := h
    subst h1
    cases fuel with
    | zero => cases hf
    | succ n =>
      have hn : t.length < n := by simpa using hf
      have hfa : ¬ ((st.blk p).is_allocated = 0 ∧ (st.blk p).size ≥ r) := by
        have := hno p (List.mem_cons_self _ _)
        intro hc
        rw [fits_iff.mpr hc] at this
        cases this
      unfold kmalloc_loop
      rw [if_neg h2, if_neg hfa]
      exact ih h3 (fun x hx => hno x (List.mem_cons_of_mem _ hx)) n hn

theorem kmalloc_loop_some {st : MemState} {r : Nat} {pre : List Nat} {p c : Nat}
    (h : Seg st.blk p pre c) (hc0 : c ≠ 0)
    (hno : ∀ x ∈ pre, fits r (x, st.blk x) = false) (hc : fits r (c, st.blk c) = true) :
    ∀ fuel, pre.length < fuel → kmalloc_loop fuel st r p = some (kmalloc_take st r c) := by
  induction pre generalizing p with
  | nil =>
    intro fuel hf
    have hp : p = c := h
    subst hp
    cases fuel with
    | zero => cases hf
    | succ n =>
      unfold kmalloc_loop
      rw [if_neg hc0, if_pos (fits_iff.mp hc)]
  | cons a t ih =>
    intro fuel hf
    obtain ⟨h1, h2, h3⟩ := h
    subst h1
    cases fuel with
    | zero => cases hf
    | succ n =>
      have hn : t.length < n := by simpa using hf
      have hfa : ¬ ((st.blk p).is_allocated = 0 ∧ (st.blk p).size ≥ r) := by
        have := hno p (List.mem_cons_self _ _)
        intro hc
        rw [fits_iff.mpr hc] at this
        cases this
      unfold kmalloc_loop
      rw [if_neg h2, if_neg hfa]
      exact ih h3 (fun x hx => hno x (List.mem_cons_of_mem _ hx)) n hn

theorem kmalloc_take_split {st : MemState} {r c : Nat}
    (hsz : (st.blk c).size > u32 (r + sizeof_memory_block_t))
    (hne : u32 ((st.blk c).start_addr + r) ≠ c) :
    kmalloc_take st r c =
      ({ mgr := { st.mgr with used_memory := u32 (st.mgr.used_memory + r) }
         blk := Function.update
           (Function.update st.blk (u32 ((st.blk c).start_addr + r))
             { start_addr := u32 ((st.blk c).start_addr + r + sizeof_memory_block_t)
               size := sub32 (sub32 (st.blk c).size r) sizeof_memory_block_t
               is_allocated := 0
               next := (st.blk c).next })
           c { start_addr := (st.blk c).start_addr, size := r, is_allocated := 1,
               next := u32 ((st.blk c).start_addr + r) } },
       (st.blk c).start_addr) := by
  unfold kmalloc_take
  rw [if_pos hsz]
  simp only [MemState.set_start_addr, MemState.set_size, MemState.set_is_allocated,
    MemState.set_next, MemState.set_used_memory, Function.update_same,
    Function.update_noteq hne.symm, Function.update_noteq hne, Function.update_idem]

theorem kmalloc_take_whole {st : MemState} {r c : Nat}
    (hsz : ¬ (st.blk c).size > u32 (r + sizeof_memory_block_t)) :
    kmalloc_take st r c =
      ({ mgr := { st.mgr with used_memory := u32 (st.mgr.used_memory + (st.blk c).size) }
         blk := Function.update st.blk c { st.blk c with is_allocated := 1 } },
       (st.blk c).start_addr) := by
  unfold kmalloc_take
  rw [if_neg hsz]
  simp only [MemState.set_is_allocated, MemState.set_used_memory, Function.update_same]

theorem update2_other {blk : Nat → memory_block} {a b x : Nat} {A B : memory_block}
    (h1 : x ≠ a) (h2 : x ≠ b) :
    Function.update (Function.update blk b B) a A x = blk x := by
  rw [Function.update_noteq h1, Function.update_noteq h2]

/-- The parts of a well-formed list around one of its headers `c`. -/
theorem heap_inv_at {E : Nat} {st : MemState} {pre post : List Nat} {c : Nat}
    (h : HeapInv E st (pre ++ c :: post)) :
    Seg st.blk st.mgr.free_list pre c ∧ c ≠ 0 ∧ Seg st.blk (st.blk c).next post 0 ∧
    Layout st.blk c pre ∧ (st.blk c).start_addr = c + 16 ∧
    c + 16 + (st.blk c).size ≤ post.headD E ∧ Layout st.blk E post ∧ E ≤ 4294967296 ∧
    (∀ x ∈ pre, x + 16 ≤ c) ∧ (∀ x ∈ post, c + 16 + (st.blk c).size ≤ x) ∧
    post.headD E ≤ E ∧
    st.mgr.used_memory =
      alloc_sum st.blk pre + (if (st.blk c).is_allocated ≠ 0 then (st.blk c).size else 0) +
        alloc_sum st.blk post := by
  obtain ⟨hc, hl, hE, hu⟩ := h
  obtain ⟨m, hs1, hs2⟩ := seg_append.mp hc
  obtain ⟨hm, hc0, hs3⟩ := hs2
  subst hm
  obtain ⟨hl1, hl2⟩ := layout_append.mp hl
  obtain ⟨hst, hsz, hl3⟩ := hl2
  refine ⟨hs1, hc0, hs3, hl1, hst, hsz, hl3, hE, ?_, ?_, layout_head_le hl3, ?_⟩
  · intro x hx
    have := (layout_bound hl1 x hx).2
    simp only [List.headD_cons] at this
    omega
  · intro x hx
    have := layout_ge_head hl3 x hx
    unfold sizeof_memory_block_t at hsz
    omega
  · rw [hu, alloc_sum_append]
    simp only [alloc_sum]
    omega

/-- Assembling a well-formed list from its parts around a header `c`. -/
theorem heap_inv_mk {E : Nat} {st : MemState} {pre post : List Nat} {c : Nat}
    (h1 : Seg st.blk st.mgr.free_list pre c) (h2 : c ≠ 0) (h3 : Seg st.blk (st.blk c).next post 0)
    (h4 : Layout st.blk c pre) (h5 : (st.blk c).start_addr = c + 16)
    (h6 : c + 16 + (st.blk c).size ≤ post.headD E) (h7 : Layout st.blk E post)
    (h8 : E ≤ 4294967296)
    (h9 : st.mgr.used_memory =
      alloc_sum st.blk pre + (if (st.blk c).is_allocated ≠ 0 then (st.blk c).size else 0) +
        alloc_sum st.blk post) :
    HeapInv E st (pre ++ c :: post) := by
  refine ⟨seg_append.mpr ⟨c, h1, rfl, h2, h3⟩, layout_append.mpr ⟨h4, h5, h6, h7⟩, h8, ?_⟩
  rw [h9, alloc_sum_append]
  simp only [alloc_sum]
  omega

/-- A free header `c` of a well-formed list, cut into an allocated header of
size `r` and a new free header right behind it, gives a well-formed list. -/
theorem heap_inv_split {E : Nat} {st st1 : MemState} {pre post : List Nat} {c r : Nat}
    (hinv : HeapInv E st (pre ++ c :: post)) (hfree : (st.blk c).is_allocated = 0)
    (hr : r + 16 < (st.blk c).size)
    (hfl : st1.mgr.free_list = st.mgr.free_list)
    (hu : st1.mgr.used_memory = st.mgr.used_memory + r)
    (hother : ∀ x, x ≠ c → x ≠ c + 16 + r → st1.blk x = st.blk x)
    (hc : st1.blk c = { start_addr := c + 16, size := r, is_allocated := 1, next := c + 16 + r })
    (hn : st1.blk (c + 16 + r) =
      { start_addr := c + 16 + r + 16, size := (st.blk c).size - r - 16,
        is_allocated := 0, next := (st.blk c).next }) :
    HeapInv E st1 (pre ++ c :: (c + 16 + r) :: post) := by
  obtain ⟨h1, h2, h3, h4, h5, h6, h7, h8, h9, h10, h11, h12⟩ := heap_inv_at hinv
  have hpre : ∀ x ∈ pre, st1.blk x = st.blk x := fun x hx => by
    have := h9 x hx
    exact hother x (by omega) (by omega)
  have hpost : ∀ x ∈ post, st1.blk x = st.blk x := fun x hx => by
    have := h10 x hx
    exact hother x (by omega) (by omega)
  rw [if_neg (not_not.mpr hfree)] at h12
  apply heap_inv_mk
  · rw [hfl]
    exact seg_frame h1 (fun x hx => by rw [hpre x hx])
  · exact h2
  · rw [hc]
    refine ⟨rfl, by omega, ?_⟩
    rw [hn]
    exact seg_frame h3 (fun x hx => by rw [hpost x hx])
  · exact layout_frame h4 (fun x hx => by rw [hpre x hx]; exact ⟨rfl, rfl⟩)
  · rw [hc]
  · rw [hc]
    exact le_refl _
  · refine ⟨by rw [hn]; rfl, ?_, ?_⟩
    · rw [hn]
      show c + 16 + r + 16 + ((st.blk c).size - r - 16) ≤ _
      omega
    · exact layout_frame h7 (fun x hx => by rw [hpost x hx]; exact ⟨rfl, rfl⟩)
  · exact h8
  · have a1 : alloc_sum st1.blk pre = alloc_sum st.blk pre :=
      alloc_sum_frame (fun x hx => by rw [hpre x hx]; exact ⟨rfl, rfl⟩)
    have a2 : alloc_sum st1.blk post = alloc_sum st.blk post :=
      alloc_sum_frame (fun x hx => by rw [hpost x hx]; exact ⟨rfl, rfl⟩)
    simp only [alloc_sum]
    rw [a1, a2, hc, hn, hu, h12]
    simp
    omega

theorem kmalloc_split_inv {E : Nat} {st : MemState} {pre post : List Nat} {c r : Nat}
    (hinv : HeapInv E st (pre ++ c :: post)) (hfree : (st.blk c).is_allocated = 0)
    (hr : r + 16 < (st.blk c).size) :
    kmalloc_take st r c =
      ({ mgr := { st.mgr with used_memory := st.mgr.used_memory + r }
         blk := Function.update
           (Function.update st.blk (c + 16 + r)
             { start_addr := c + 16 + r + 16, size := (st.blk c).size - r - 16,
               is_allocated := 0, next := (st.blk c).next })
           c { start_addr := c + 16, size := r, is_allocated := 1, next := c + 16 + r } },
       c + 16) ∧
    HeapInv E (kmalloc_take st r c).1 (pre ++ c :: (c + 16 + r) :: post) := by
  obtain ⟨h1, h2, h3, h4, h5, h6, h7, h8, h9, h10, h11, h12⟩ := heap_inv_at hinv
  have hnb : u32 ((st.blk c).start_addr + r) = c + 16 + r := by
    rw [h5]; apply u32_of_lt; omega
  have hsz : (st.blk c).size > u32 (r + sizeof_memory_block_t) := by
    rw [u32_of_lt (by unfold sizeof_memory_block_t; omega)]
    unfold sizeof_memory_block_t; omega
  have hused : alloc_sum st.blk pre + r + alloc_sum st.blk post < 4294967296 := by
    have := alloc_sum_le h4
    have := alloc_sum_le h7
    have := layout_head_le h4
    omega
  rw [if_neg (not_not.mpr hfree)] at h12
  have heq : kmalloc_take st r c =
      ({ mgr := { st.mgr with used_memory := st.mgr.used_memory + r }
         blk := Function.update
           (Function.update st.blk (c + 16 + r)
             { start_addr := c + 16 + r + 16, size := (st.blk c).size - r - 16,
               is_allocated := 0, next := (st.blk c).next })
           c { start_addr := c + 16, size := r, is_allocated := 1, next := c + 16 + r } },
       c + 16) := by
    rw [kmalloc_take_split hsz (by rw [hnb]; omega), hnb, h5]
    have e1 : u32 (c + 16 + r + sizeof_memory_block_t) = c + 16 + r + 16 := by
      apply u32_of_lt; unfold sizeof_memory_block_t; omega
    have e2 : sub32 (sub32 (st.blk c).size r) sizeof_memory_block_t = (st.blk c).size - r - 16 := by
      have e2a : sub32 (st.blk c).size r = (st.blk c).size - r :=
        sub32_of_le (by omega) (by omega)
      rw [e2a]
      show sub32 ((st.blk c).size - r) 16 = _
      exact sub32_of_le (by omega) (by omega)
    have e3 : u32 (st.mgr.used_memory + r) = st.mgr.used_memory + r := by
      apply u32_of_lt; omega
    rw [e1, e2, e3]
  refine ⟨heq, ?_⟩
  rw [heq]
  have hc1 : c ≠ c + 16 + r := by omega
  exact heap_inv_split hinv hfree hr rfl rfl
    (fun x hx1 hx2 => update2_other hx1 hx2)
    (Function.update_same _ _ _)
    (by
      show Function.update (Function.update _ _ _) _ _ _ = _
      rw [Function.update_noteq hc1.symm, Function.update_same])

/-- A free header `c` of a well-formed list, marked allocated as a whole, gives
a well-formed list. -/
theorem heap_inv_whole {E : Nat} {st st1 : MemState} {pre post : List Nat} {c : Nat}
    (hinv : HeapInv E st (pre ++ c :: post)) (hfree : (st.blk c).is_allocated = 0)
    (hfl : st1.mgr.free_list = st.mgr.free_list)
    (hu : st1.mgr.used_memory = st.mgr.used_memory + (st.blk c).size)
    (hother : ∀ x, x ≠ c → st1.blk x = st.blk x)
    (hc : st1.blk c = { st.blk c with is_allocated := 1 }) :
    HeapInv E st1 (pre ++ c :: post) := by
  obtain ⟨h1, h2, h3, h4, h5, h6, h7, h8, h9, h10, h11, h12⟩ := heap_inv_at hinv
  have hpre : ∀ x ∈ pre, st1.blk x = st.blk x := fun x hx => by
    have := h9 x hx
    exact hother x (by omega)
  have hpost : ∀ x ∈ post, st1.blk x = st.blk x := fun x hx => by
    have := h10 x hx
    exact hother x (by omega)
  rw [if_neg (not_not.mpr hfree)] at h12
  apply heap_inv_mk
  · rw [hfl]
    exact seg_frame h1 (fun x hx => by rw [hpre x hx])
  · exact h2
  · rw [hc]
    exact seg_frame h3 (fun x hx => by rw [hpost x hx])
  · exact layout_frame h4 (fun x hx => by rw [hpre x hx]; exact ⟨rfl, rfl⟩)
  · rw [hc]; exact h5
  · rw [hc]; exact h6
  · exact layout_frame h7 (fun x hx => by rw [hpost x hx]; exact ⟨rfl, rfl⟩)
  · exact h8
  · have a1 : alloc_sum st1.blk pre = alloc_sum st.blk pre :=
      alloc_sum_frame (fun x hx => by rw [hpre x hx]; exact ⟨rfl, rfl⟩)
    have a2 : alloc_sum st1.blk post = alloc_sum st.blk post :=
      alloc_sum_frame (fun x hx => by rw [hpost x hx]; exact ⟨rfl, rfl⟩)
    rw [a1, a2, hc, hu, h12]
    simp
    omega

theorem kmalloc_whole_inv {E : Nat} {st : MemState} {pre post : List Nat} {c r : Nat}
    (hinv : HeapInv E st (pre ++ c :: post)) (hfree : (st.blk c).is_allocated = 0)
    (hle : r ≤ (st.blk c).size) (hr : ¬ r + 16 < (st.blk c).size) :
    kmalloc_take st r c =
      ({ mgr := { st.mgr with used_memory := st.mgr.used_memory + (st.blk c).size }
         blk := Function.update st.blk c { st.blk c with is_allocated := 1 } },
       c + 16) ∧
    HeapInv E (kmalloc_take st r c).1 (pre ++ c :: post) := by
  obtain ⟨h1, h2, h3, h4, h5, h6, h7, h8, h9, h10, h11, h12⟩ := heap_inv_at hinv
  have hsz : ¬ (st.blk c).size > u32 (r + sizeof_memory_block_t) := by
    rw [u32_of_lt (by unfold sizeof_memory_block_t; omega)]
    unfold sizeof_memory_block_t; omega
  have hused : alloc_sum st.blk pre + (st.blk c).size + alloc_sum st.blk post < 4294967296 := by
    have := alloc_sum_le h4
    have := alloc_sum_le h7
    have := layout_head_le h4
    omega
  rw [if_neg (not_not.mpr hfree)] at h12
  have heq : kmalloc_take st r c =
      ({ mgr := { st.mgr with used_memory := st.mgr.used_memory + (st.blk c).size }
         blk := Function.update st.blk c { st.blk c with is_allocated := 1 } },
       c + 16) := by
    rw [kmalloc_take_whole hsz, h5, u32_of_lt (by omega)]
  refine ⟨heq, ?_⟩
  rw [heq]
  exact heap_inv_whole hinv hfree rfl rfl (fun x hx => Function.update_noteq hx _ _)
    (Function.update_same _ _ _)

theorem kmalloc_loop_mono {st : MemState} {r : Nat} :
    ∀ fuel p res, kmalloc_loop fuel st r p = some res →
      ∀ k, kmalloc_loop (fuel + k) st r p = some res := by
  intro fuel
  induction fuel with
  | zero => intro p res h; cases h
  | succ n ih =>
    intro p res h k
    rw [show n + 1 + k = (n + k) + 1 by omega]
    unfold kmalloc_loop at h ⊢
    split_ifs at h ⊢ with h1 h2
    · exact h
    · exact h
    · exact ih _ _ h k

/-- What a returning search loop of `kmalloc` returns on a chained list:
`NULL` with the state unchanged when no header fits, and otherwise the first
fitting header, taken. -/
theorem kmalloc_loop_result {st : MemState} {r : Nat} {l : List Nat}
    (h : Seg st.blk st.mgr.free_list l 0) {fuel : Nat} {res : MemState × Nat}
    (hres : kmalloc_loop fuel st r st.mgr.free_list = some res) :
    (res = (st, 0) ∧ ∀ x ∈ l, fits r (x, st.blk x) = false) ∨
    ∃ pre c post, l = pre ++ c :: post ∧ (∀ x ∈ pre, fits r (x, st.blk x) = false) ∧
      fits r (c, st.blk c) = true ∧ res = kmalloc_take st r c := by
  have hm := kmalloc_loop_mono fuel _ _ hres (l.length + 1)
  rcases first_split (fun x => fits r (x, st.blk x)) l with hno | ⟨pre, c, post, e, h1, h2⟩
  · left
    rw [kmalloc_loop_none h hno (fuel + (l.length + 1)) (by omega)] at hm
    exact ⟨(Option.some.inj hm).symm, hno⟩
  · right
    subst e
    obtain ⟨m, hs1, hs2⟩ := seg_append.mp h
    obtain ⟨hmc, hc0, _⟩ := hs2
    subst hmc
    rw [kmalloc_loop_some hs1 hc0 h1 h2 (fuel + ((pre ++ m :: post).length + 1))
      (by simp; omega)] at hm
    exact ⟨pre, m, post, rfl, h1, h2, (Option.some.inj hm).symm⟩

/-- With fuel beyond the length of the list the search loop of `kmalloc` returns. -/
theorem kmalloc_total {st : MemState} {l : List Nat}
    (h : Seg st.blk st.mgr.free_list l 0) (size fuel : Nat) (hf : l.length < fuel) :
    ∃ res, kmalloc fuel st size = some res := by
  unfold kmalloc
  split_ifs with hs
  · exact ⟨_, rfl⟩
  · rcases first_split (fun x => fits (align4 size) (x, st.blk x)) l with
      hno | ⟨pre, c, post, e, h1, h2⟩
    · exact ⟨_, kmalloc_loop_none h hno fuel hf⟩
    · subst e
      obtain ⟨m, hs1, hs2⟩ := seg_append.mp h
      obtain ⟨hmc, hc0, _⟩ := hs2
      subst hmc
      exact ⟨_, kmalloc_loop_some hs1 hc0 h1 h2 fuel (by
        have : (pre ++ m :: post).length = pre.length + post.length + 1 := by simp; omega
        omega)⟩

theorem kmalloc_result {st : MemState} {l : List Nat}
    (h : Seg st.blk st.mgr.free_list l 0) {fuel size : Nat} {res : MemState × Nat}
    (hres : kmalloc fuel st size = some res) :
    (res = (st, 0) ∧ (size = 0 ∨ ∀ x ∈ l, fits (align4 size) (x, st.blk x) = false)) ∨
    (size ≠ 0 ∧ ∃ pre c post, l = pre ++ c :: post ∧
      (∀ x ∈ pre, fits (align4 size) (x, st.blk x) = false) ∧
      fits (align4 size) (c, st.blk c) = true ∧ res = kmalloc_take st (align4 size) c) := by
  unfold kmalloc at hres
  split_ifs at hres with hs
  · left; exact ⟨(Option.some.inj hres).symm, Or.inl hs⟩
  · rcases kmalloc_loop_result h hres with ⟨h1, h2⟩ | h3
    · left; exact ⟨h1, Or.inr h2⟩
    · right; exact ⟨hs, h3⟩

/-- The function `kmalloc` keeps the allocator state well-formed. -/
theorem kmalloc_inv {E : Nat} {st : MemState} {l : List Nat} (hinv : HeapInv E st l)
    {fuel size : Nat} {res : MemState × Nat} (hres : kmalloc fuel st size = some res) :
    ∃ l1, HeapInv E res.1 l1 := by
  rcases kmalloc_result hinv.1 hres with ⟨h1, _⟩ | ⟨_, pre, c, post, e, _, hc, hr⟩
  · rw [h1]; exact ⟨l, hinv⟩
  · subst e
    obtain ⟨hfree, hsz⟩ := fits_iff.mp hc
    rw [hr]
    by_cases hsp : align4 size + 16 < (st.blk c).size
    · exact ⟨_, (kmalloc_split_inv hinv hfree hsp).2⟩
    · exact ⟨_, (kmalloc_whole_inv hinv hfree hsz hsp).2⟩

theorem kfree_loop_mono {st : MemState} {ptr : Nat} :
    ∀ fuel prev p res, kfree_loop fuel st ptr prev p = some res →
      ∀ k, kfree_loop (fuel + k) st ptr prev p = some res := by
  intro fuel
  induction fuel with
  | zero => intro prev p res h; cases h
  | succ n ih =>
    intro prev p res h k
    rw [show n + 1 + k = (n + k) + 1 by omega]
    unfold kfree_loop at h ⊢
    split_ifs at h ⊢ with h1 h2
    · exact h
    · exact h
    · exact ih _ _ _ h k

theorem kfree_loop_none {st : MemState} {ptr : Nat} {l : List Nat} {p : Nat}
    (h : Seg st.blk p l 0) (hno : ∀ x ∈ l, (st.blk x).start_addr ≠ ptr) :
    ∀ fuel prev, l.length < fuel → kfree_loop fuel st ptr prev p = some st := by
  induction l generalizing p with
  | nil =>
    intro fuel prev hf
    have hp : p = 0 := h
    cases fuel with
    | zero => cases hf
    | succ n => simp [kfree_loop, hp]
  | cons a t ih =>
    intro fuel prev hf
    obtain ⟨h1, h2, h3⟩ := h
    subst h1
    cases fuel with
    | zero => cases hf
    | succ n =>
      have hn : t.length < n := by simpa using hf
      unfold kfree_loop
      rw [if_neg h2, if_neg (hno p (List.mem_cons_self _ _))]
      exact ih h3 (fun x hx => hno x (List.mem_cons_of_mem _ hx)) n p hn

theorem kfree_loop_some {st : MemState} {ptr : Nat} {pre : List Nat} {p c : Nat}
    (h : Seg st.blk p pre c) (hc0 : c ≠ 0)
    (hno : ∀ x ∈ pre, (st.blk x).start_addr ≠ ptr) (hc : (st.blk c).start_addr = ptr) :
    ∀ fuel prev, pre.length < fuel →
      kfree_loop fuel st ptr prev p = some (kfree_release st (pre.getLastD prev) c) := by
  induction pre generalizing p with
  | nil =>
    intro fuel prev hf
    have hp : p = c := h
    subst hp
    cases fuel with
    | zero => cases hf
    | succ n =>
      unfold kfree_loop
      rw [if_neg hc0, if_pos hc]
      rfl
  | cons a t ih =>
    intro fuel prev hf
    obtain ⟨h1, h2, h3⟩ := h
    subst h1
    cases fuel with
    | zero => cases hf
    | succ n =>
      have hn : t.length < n := by simpa using hf
      unfold kfree_loop
      rw [if_neg h2, if_neg (hno p (List.mem_cons_self _ _))]
      rw [ih h3 (fun x hx => hno x (List.mem_cons_of_mem _ hx)) n p hn, List.getLastD_cons]

theorem blk_set_size (st : MemState) (p v x : Nat) :
    (st.set_size p v).blk x = if x = p then { st.blk p with size := v } else st.blk x := by
  unfold MemState.set_size
  by_cases h : x = p
  · subst h; simp
  · simp [h, Function.update_noteq h]

theorem blk_set_next (st : MemState) (p v x : Nat) :
    (st.set_next p v).blk x = if x = p then { st.blk p with next := v } else st.blk x := by
  unfold MemState.set_next
  by_cases h : x = p
  · subst h; simp
  · simp [h, Function.update_noteq h]

theorem blk_set_is_allocated (st : MemState) (p v x : Nat) :
    (st.set_is_allocated p v).blk x =
      if x = p then { st.blk p with is_allocated := v } else st.blk x := by
  unfold MemState.set_is_allocated
  by_cases h : x = p
  · subst h; simp
  · simp [h, Function.update_noteq h]

theorem blk_set_used_memory (st : MemState) (v x : Nat) :
    (st.set_used_memory v).blk x = st.blk x := rfl

theorem kfree_release_mgr (st : MemState) (prev c : Nat) :
    (kfree_release st prev c).mgr =
      { st.mgr with used_memory := sub32 st.mgr.used_memory (st.blk c).size } := by
  unfold kfree_release
  simp only [MemState.set_start_addr, MemState.set_size, MemState.set_is_allocated,
    MemState.set_next, MemState.set_used_memory, Function.update_same]
  split_ifs <;> rfl

theorem kfree_release_other (st : MemState) (prev c x : Nat) (h1 : x ≠ c) (h2 : x ≠ prev) :
    (kfree_release st prev c).blk x = st.blk x := by
  unfold kfree_release
  dsimp only
  split_ifs <;>
    simp [blk_set_size, blk_set_next, blk_set_is_allocated, blk_set_used_memory, h1, h2]

/-- The predecessor after `kfree_release` when it is free: it has absorbed the
released block and its header, and points past it. -/
theorem kfree_release_prev (st : MemState) (prev c : Nat) (h0 : prev ≠ 0) (hne : prev ≠ c)
    (hf : (st.blk prev).is_allocated = 0) :
    (kfree_release st prev c).blk prev =
      { st.blk prev with
        size := u32 ((st.blk prev).size + u32 ((st.blk c).size + sizeof_memory_block_t))
        next := (st.blk c).next } := by
  unfold kfree_release
  dsimp only
  have hcond : prev ≠ 0 ∧ (((st.set_is_allocated c 0).set_used_memory
      (sub32 (st.set_is_allocated c 0).mgr.used_memory
        ((st.set_is_allocated c 0).blk c).size)).blk prev).is_allocated = 0 := by
    simp [blk_set_is_allocated, blk_set_used_memory, hne, h0, hf]
  rw [if_pos hcond]
  split_ifs <;>
    simp [blk_set_size, blk_set_next, blk_set_is_allocated, blk_set_used_memory, hne, hne.symm]

/-- The released block after `kfree_release` when the predecessor is missing
or allocated: free, and merged with its successor when that one is free. -/
theorem kfree_release_cur (st : MemState) (prev c : Nat)
    (hp : ¬ (prev ≠ 0 ∧ (st.blk prev).is_allocated = 0)) (hne : prev ≠ c)
    (hn : (st.blk c).next ≠ c) :
    (kfree_release st prev c).blk c =
      if (st.blk c).next ≠ 0 ∧ (st.blk (st.blk c).next).is_allocated = 0 then
        { start_addr := (st.blk c).start_addr
          size := u32 ((st.blk c).size
            + u32 ((st.blk (st.blk c).next).size + sizeof_memory_block_t))
          is_allocated := 0
          next := (st.blk (st.blk c).next).next }
      else { st.blk c with is_allocated := 0 } := by
  unfold kfree_release
  dsimp only
  have hcond : ¬ (prev ≠ 0 ∧ (((st.set_is_allocated c 0).set_used_memory
      (sub32 (st.set_is_allocated c 0).mgr.used_memory
        ((st.set_is_allocated c 0).blk c).size)).blk prev).is_allocated = 0) := by
    simpa [blk_set_is_allocated, blk_set_used_memory, hne] using hp
  rw [if_neg hcond]
  simp only [blk_set_size, blk_set_next, blk_set_is_allocated, blk_set_used_memory, if_true,
    hn, if_false]
  split_ifs <;>
    simp [blk_set_size, blk_set_next, blk_set_is_allocated, blk_set_used_memory, hn]

theorem kfree_release_other_cur (st : MemState) (prev c x : Nat)
    (hp : ¬ (prev ≠ 0 ∧ (st.blk prev).is_allocated = 0)) (hne : prev ≠ c) (h1 : x ≠ c) :
    (kfree_release st prev c).blk x = st.blk x := by
  unfold kfree_release
  dsimp only
  have hcond : ¬ (prev ≠ 0 ∧ (((st.set_is_allocated c 0).set_used_memory
      (sub32 (st.set_is_allocated c 0).mgr.used_memory
        ((st.set_is_allocated c 0).blk c).size)).blk prev).is_allocated = 0) := by
    simpa [blk_set_is_allocated, blk_set_used_memory, hne] using hp
  rw [if_neg hcond]
  split_ifs <;>
    simp [blk_set_size, blk_set_next, blk_set_is_allocated, blk_set_used_memory, h1]

/-- An allocated header `c` absorbed by its free predecessor `pv` leaves a
well-formed list without `c`. -/
theorem heap_inv_merge_prev {E : Nat} {st st1 : MemState} {pre post : List Nat} {pv c : Nat}
    (hinv : HeapInv E st (pre ++ pv :: c :: post))
    (hpv : (st.blk pv).is_allocated = 0) (hc : (st.blk c).is_allocated ≠ 0)
    (hfl : st1.mgr.free_list = st.mgr.free_list)
    (hu : st1.mgr.used_memory = st.mgr.used_memory - (st.blk c).size)
    (hother : ∀ x, x ≠ c → x ≠ pv → st1.blk x = st.blk x)
    (hp : st1.blk pv =
      { st.blk pv with size := (st.blk pv).size + (st.blk c).size + 16, next := (st.blk c).next }) :
    HeapInv E st1 (pre ++ pv :: post) := by
  obtain ⟨h1, h2, h3, h4, h5, h6, h7, h8, h9, h10, h11, h12⟩ := heap_inv_at hinv
  obtain ⟨_, hc0, hs⟩ := h3
  obtain ⟨hcs, hcz, hl⟩ := h7
  simp only [List.headD_cons] at h6
  unfold sizeof_memory_block_t at hcz
  have hge := layout_ge_head hl
  have hpre : ∀ x ∈ pre, st1.blk x = st.blk x := fun x hx => by
    have := h9 x hx
    exact hother x (by omega) (by omega)
  have hpost : ∀ x ∈ post, st1.blk x = st.blk x := fun x hx => by
    have := hge x hx
    exact hother x (by omega) (by omega)
  rw [if_neg (not_not.mpr hpv)] at h12
  simp only [alloc_sum, if_pos hc] at h12
  apply heap_inv_mk
  · rw [hfl]
    exact seg_frame h1 (fun x hx => by rw [hpre x hx])
  · exact h2
  · rw [hp]
    exact seg_frame hs (fun x hx => by rw [hpost x hx])
  · exact layout_frame h4 (fun x hx => by rw [hpre x hx]; exact ⟨rfl, rfl⟩)
  · rw [hp]; exact h5
  · rw [hp]
    show pv + 16 + ((st.blk pv).size + (st.blk c).size + 16) ≤ _
    omega
  · exact layout_frame hl (fun x hx => by rw [hpost x hx]; exact ⟨rfl, rfl⟩)
  · exact h8
  · have a1 : alloc_sum st1.blk pre = alloc_sum st.blk pre :=
      alloc_sum_frame (fun x hx => by rw [hpre x hx]; exact ⟨rfl, rfl⟩)
    have a2 : alloc_sum st1.blk post = alloc_sum st.blk post :=
      alloc_sum_frame (fun x hx => by rw [hpost x hx]; exact ⟨rfl, rfl⟩)
    rw [a1, a2, hp, hu, h12]
    simp [hpv]
    omega

/-- An allocated header `c` freed and merged with its free successor `n`
leaves a well-formed list without `n`. -/
theorem heap_inv_merge_next {E : Nat} {st st1 : MemState} {pre post : List Nat} {c n : Nat}
    (hinv : HeapInv E st (pre ++ c :: n :: post))
    (hc : (st.blk c).is_allocated ≠ 0) (hn : (st.blk n).is_allocated = 0)
    (hfl : st1.mgr.free_list = st.mgr.free_list)
    (hu : st1.mgr.used_memory = st.mgr.used_memory - (st.blk c).size)
    (hother : ∀ x, x ≠ c → st1.blk x = st.blk x)
    (hcn : st1.blk c =
      { start_addr := (st.blk c).start_addr, size := (st.blk c).size + (st.blk n).size + 16,
        is_allocated := 0, next := (st.blk n).next }) :
    HeapInv E st1 (pre ++ c :: post) := by
  obtain ⟨h1, h2, h3, h4, h5, h6, h7, h8, h9, h10, h11, h12⟩ := heap_inv_at hinv
  obtain ⟨_, hn0, hs⟩ := h3
  obtain ⟨hns, hnz, hl⟩ := h7
  simp only [List.headD_cons] at h6
  unfold sizeof_memory_block_t at hnz
  have hge := layout_ge_head hl
  have hpre : ∀ x ∈ pre, st1.blk x = st.blk x := fun x hx => by
    have := h9 x hx
    exact hother x (by omega)
  have hpost : ∀ x ∈ post, st1.blk x = st.blk x := fun x hx => by
    have := hge x hx
    exact hother x (by omega)
  rw [if_pos hc] at h12
  simp only [alloc_sum, if_neg (not_not.mpr hn)] at h12
  apply heap_inv_mk
  · rw [hfl]
    exact seg_frame h1 (fun x hx => by rw [hpre x hx])
  · exact h2
  · rw [hcn]
    exact seg_frame hs (fun x hx => by rw [hpost x hx])
  · exact layout_frame h4 (fun x hx => by rw [hpre x hx]; exact ⟨rfl, rfl⟩)
  · rw [hcn]; exact h5
  · rw [hcn]
    show c + 16 + ((st.blk c).size + (st.blk n).size + 16) ≤ _
    omega
  · exact layout_frame hl (fun x hx => by rw [hpost x hx]; exact ⟨rfl, rfl⟩)
  · exact h8
  · have a1 : alloc_sum st1.blk pre = alloc_sum st.blk pre :=
      alloc_sum_frame (fun x hx => by rw [hpre x hx]; exact ⟨rfl, rfl⟩)
    have a2 : alloc_sum st1.blk post = alloc_sum st.blk post :=
      alloc_sum_frame (fun x hx => by rw [hpost x hx]; exact ⟨rfl, rfl⟩)
    rw [a1, a2, hcn, hu, h12]
    simp
    omega

/-- An allocated header `c` marked free leaves a well-formed list. -/
theorem heap_inv_mark_free {E : Nat} {st st1 : MemState} {pre post : List Nat} {c : Nat}
    (hinv : HeapInv E st (pre ++ c :: post)) (hc : (st.blk c).is_allocated ≠ 0)
    (hfl : st1.mgr.free_list = st.mgr.free_list)
    (hu : st1.mgr.used_memory = st.mgr.used_memory - (st.blk c).size)
    (hother : ∀ x, x ≠ c → st1.blk x = st.blk x)
    (hcn : st1.blk c = { st.blk c with is_allocated := 0 }) :
    HeapInv E st1 (pre ++ c :: post) := by
  obtain ⟨h1, h2, h3, h4, h5, h6, h7, h8, h9, h10, h11, h12⟩ := heap_inv_at hinv
  have hpre : ∀ x ∈ pre, st1.blk x = st.blk x := fun x hx => by
    have := h9 x hx
    exact hother x (by omega)
  have hpost : ∀ x ∈ post, st1.blk x = st.blk x := fun x hx => by
    have := h10 x hx
    exact hother x (by omega)
  rw [if_pos hc] at h12
  apply heap_inv_mk
  · rw [hfl]
    exact seg_frame h1 (fun x hx => by rw [hpre x hx])
  · exact h2
  · rw [hcn]
    exact seg_frame h3 (fun x hx => by rw [hpost x hx])
  · exact layout_frame h4 (fun x hx => by rw [hpre x hx]; exact ⟨rfl, rfl⟩)
  · rw [hcn]; exact h5
  · rw [hcn]; exact h6
  · exact layout_frame h7 (fun x hx => by rw [hpost x hx]; exact ⟨rfl, rfl⟩)
  · exact h8
  · have a1 : alloc_sum st1.blk pre = alloc_sum st.blk pre :=
      alloc_sum_frame (fun x hx => by rw [hpre x hx]; exact ⟨rfl, rfl⟩)
    have a2 : alloc_sum st1.blk post = alloc_sum st.blk post :=
      alloc_sum_frame (fun x hx => by rw [hpost x hx]; exact ⟨rfl, rfl⟩)
    rw [a1, a2, hcn, hu, h12]
    simp
    omega

theorem chain_from_result {st : MemState} {l : List Nat} {p : Nat} (h : Seg st.blk p l 0) :
    ∀ fuel nodes, chain_from fuel st p = some nodes → nodes = l.map (fun x => (x, st.blk x)) := by
  induction l generalizing p with
  | nil =>
    intro fuel nodes hn
    have hp : p = 0 := h
    cases fuel with
    | zero => cases hn
    | succ n =>
      simp [chain_from, hp] at hn
      simp [hn]
  | cons a t ih =>
    intro fuel nodes hn
    obtain ⟨h1, h2, h3⟩ := h
    subst h1
    cases fuel with
    | zero => cases hn
    | succ n =>
      unfold chain_from at hn
      rw [if_neg h2] at hn
      cases hc : chain_from n st (st.blk p).next with
      | none => rw [hc] at hn; cases hn
      | some l1 =>
        rw [hc] at hn
        rw [ih h3 n l1 hc] at hn
        exact (Option.some.inj hn).symm

/-- An allocated payload address names one header of a well-formed list, and
no header before it has that payload address. -/
theorem allocated_payload_split {E : Nat} {st : MemState} {l : List Nat} (hinv : HeapInv E st l)
    {fuel ptr : Nat} (h : is_allocated_payload fuel st ptr = true) :
    ∃ pre c post, l = pre ++ c :: post ∧ (∀ x ∈ pre, (st.blk x).start_addr ≠ ptr) ∧
      (st.blk c).start_addr = ptr ∧ (st.blk c).is_allocated ≠ 0 := by
  unfold is_allocated_payload at h
  cases hn : free_list_nodes fuel st with
  | none => rw [hn] at h; cases h
  | some nodes =>
    rw [hn] at h
    have hnodes := chain_from_result hinv.1 fuel nodes hn
    subst hnodes
    simp only [List.any_eq_true, List.mem_map, Bool.and_eq_true, decide_eq_true_eq] at h
    obtain ⟨n, ⟨x, hx, rfl⟩, hs, ha⟩ := h
    obtain ⟨pre, post, rfl⟩ := List.append_of_mem hx
    refine ⟨pre, x, post, rfl, ?_, hs, ha⟩
    obtain ⟨_, _, _, h4, h5, _, _, _, h9, _⟩ := heap_inv_at hinv
    intro y hy
    have := h9 y hy
    have := (layout_bound h4 y hy).1
    dsimp only at hs
    omega

/-- The function `kfree` on an allocated payload address keeps the allocator
state well-formed. -/
theorem kfree_inv {E : Nat} {st : MemState} {l : List Nat} (hinv : HeapInv E st l)
    {fuel0 fuel ptr : Nat} {st1 : MemState}
    (hp : is_allocated_payload fuel0 st ptr = true) (hres : kfree fuel st ptr = some st1) :
    ∃ l1, HeapInv E st1 l1 := by
  obtain ⟨pre, c, post, rfl, hno, hcs, hca⟩ := allocated_payload_split hinv hp
  obtain ⟨h1, h2, h3, h4, h5, h6, h7, h8, h9, h10, h11, h12⟩ := heap_inv_at hinv
  have hptr : ptr ≠ 0 := by omega
  unfold kfree at hres
  rw [if_neg hptr] at hres
  have hm := kfree_loop_mono fuel _ _ _ hres (pre.length + 1)
  rw [kfree_loop_some h1 h2 hno hcs (fuel + (pre.length + 1)) 0 (by omega)] at hm
  have hst : st1 = kfree_release st (pre.getLastD 0) c := (Option.some.inj hm).symm
  rw [if_pos hca] at h12
  have hub : st.mgr.used_memory < 4294967296 := by
    have := alloc_sum_le h4
    have := alloc_sum_le h7
    omega
  have hu : st1.mgr.used_memory = st.mgr.used_memory - (st.blk c).size := by
    rw [hst, kfree_release_mgr]
    exact sub32_of_le (by omega) hub
  have hfl : st1.mgr.free_list = st.mgr.free_list := by
    rw [hst, kfree_release_mgr]
  have hnext : (st.blk c).next = post.headD 0 := seg_head h3
  -- the case without a merge into the predecessor
  have hcur : ∀ prev, prev ≠ c → ¬ (prev ≠ 0 ∧ (st.blk prev).is_allocated = 0) →
      st1 = kfree_release st prev c → ∃ l1, HeapInv E st1 l1 := by
    intro prev hne hpc hst
    have hnc : (st.blk c).next ≠ c := by
      rw [hnext]
      cases post with
      | nil => exact fun e => h2 e.symm
      | cons n t =>
        have := h10 n (List.mem_cons_self _ _)
        show n ≠ c
        omega
    have hother : ∀ x, x ≠ c → st1.blk x = st.blk x := fun x hx => by
      rw [hst]; exact kfree_release_other_cur st prev c x hpc hne hx
    have hc := kfree_release_cur st prev c hpc hne hnc
    rw [← hst] at hc
    cases post with
    | nil =>
      have hz : (st.blk c).next = 0 := hnext
      rw [if_neg (fun hh => hh.1 hz)] at hc
      exact ⟨_, heap_inv_mark_free hinv hca hfl hu hother hc⟩
    | cons n t =>
      have hz : (st.blk c).next = n := hnext
      rw [hz] at hc
      by_cases hnf : (st.blk n).is_allocated = 0
      · have hn0 : n ≠ 0 := h3.2.1
        rw [if_pos ⟨hn0, hnf⟩] at hc
        obtain ⟨_, hnz, hl⟩ := h7
        have := layout_head_le hl
        simp only [List.headD_cons] at h6
        unfold sizeof_memory_block_t at hnz hc
        have e1 : u32 ((st.blk n).size + 16) = (st.blk n).size + 16 := u32_of_lt (by omega)
        rw [e1, u32_of_lt (by omega)] at hc
        refine ⟨_, heap_inv_merge_next hinv hca hnf hfl hu hother ?_⟩
        rw [hc]
        simp only [memory_block.mk.injEq, true_and, and_true]
        omega
      · rw [if_neg (fun hh => hnf hh.2)] at hc
        exact ⟨_, heap_inv_mark_free hinv hca hfl hu hother hc⟩
  rcases List.eq_nil_or_concat pre with rfl | ⟨pre0, pv, hpre⟩
  · exact hcur 0 (fun e => h2 e.symm) (fun hh => hh.1 rfl) hst
  · rw [List.concat_eq_append] at hpre
    subst hpre
    have hlast : (pre0 ++ [pv]).getLastD 0 = pv := by simp
    rw [hlast] at hst
    have hpv : pv + 16 ≤ c := h9 pv (by simp)
    have hpv0 : pv ≠ 0 := seg_nonzero h1 pv (by simp)
    by_cases hpf : (st.blk pv).is_allocated = 0
    · have hinv2 : HeapInv E st (pre0 ++ pv :: c :: post) := by
        have e : pre0 ++ pv :: c :: post = (pre0 ++ [pv]) ++ c :: post := by simp
        rw [e]; exact hinv
      have hother : ∀ x, x ≠ c → x ≠ pv → st1.blk x = st.blk x := fun x hx1 hx2 => by
        rw [hst]; exact kfree_release_other st pv c x hx1 hx2
      have hp2 := kfree_release_prev st pv c hpv0 (by omega) hpf
      rw [← hst] at hp2
      have hb := (layout_bound h4 pv (by simp)).2
      have := layout_head_le h7
      unfold sizeof_memory_block_t at hp2
      have e1 : u32 ((st.blk c).size + 16) = (st.blk c).size + 16 := u32_of_lt (by omega)
      rw [e1, u32_of_lt (by omega)] at hp2
      refine ⟨_, heap_inv_merge_prev hinv2 hpf hca hfl hu hother ?_⟩
      rw [hp2]
      simp only [memory_block.mk.injEq, true_and, and_true]
      omega
    · exact hcur pv (by omega) (fun hh => hpf hh.2) hst

theorem memory_init_blk (start size : Nat) (st0 : MemState) :
    (memory_init start size st0).blk start =
      { start_addr := u32 (start + sizeof_memory_block_t)
        size := sub32 size sizeof_memory_block_t, is_allocated := 0, next := 0 } := by
  unfold memory_init
  simp [MemState.set_start_addr, MemState.set_size, MemState.set_is_allocated, MemState.set_next]

theorem memory_init_mgr (start size : Nat) (st0 : MemState) :
    (memory_init start size st0).mgr =
      { heap_start := start, heap_end := u32 (start + size), total_memory := size
        used_memory := 0, free_list := start } := by
  unfold memory_init
  simp [MemState.set_start_addr, MemState.set_size, MemState.set_is_allocated, MemState.set_next]

/-- The state after `memory_init(start, size)` is well-formed: one free header
at `start` whose payload fills the heap. -/
theorem memory_init_inv (start size : Nat) (st0 : MemState)
    (h0 : 0 < start) (h1 : sizeof_memory_block_t < size) (h2 : start + size ≤ 2 ^ 32) :
    HeapInv (start + size) (memory_init start size st0) [start] := by
  unfold sizeof_memory_block_t at h1
  have e1 : u32 (start + sizeof_memory_block_t) = start + 16 :=
    u32_of_lt (by unfold sizeof_memory_block_t; omega)
  have e2 : sub32 size sizeof_memory_block_t = size - 16 :=
    sub32_of_le (by unfold sizeof_memory_block_t; omega) (by omega)
  have hb := memory_init_blk start size st0
  rw [e1, e2] at hb
  refine ⟨?_, ?_, h2, ?_⟩
  · rw [memory_init_mgr]
    refine ⟨rfl, by omega, ?_⟩
    rw [hb]
    rfl
  · refine ⟨by rw [hb]; rfl, ?_, trivial⟩
    rw [hb]
    show start + sizeof_memory_block_t + (size - 16) ≤ start + size
    unfold sizeof_memory_block_t
    omega
  · rw [memory_init_mgr]
    simp [alloc_sum, hb]

/-- Every state reached by `kmalloc` and `kfree` calls after `memory_init` is
well-formed. -/
theorem heap_reach_wf {st : MemState} (h : HeapReach st) : HeapWf st := by
  induction h with
  | init start size st0 h0 h1 h2 => exact ⟨_, _, memory_init_inv start size st0 h0 h1 h2⟩
  | alloc fuel size st1 ptr _ hk ih =>
    obtain ⟨E, l, hinv⟩ := ih
    obtain ⟨l1, h1⟩ := kmalloc_inv hinv hk
    exact ⟨E, l1, h1⟩
  | free fuel ptr st1 _ hp hk ih =>
    obtain ⟨E, l, hinv⟩ := ih
    obtain ⟨l1, h1⟩ := kfree_inv hinv hp hk
    exact ⟨E, l1, h1⟩

/-- With fuel beyond the length of the list the search loop of `kfree` returns. -/
theorem kfree_total {st : MemState} {l : List Nat}
    (h : Seg st.blk st.mgr.free_list l 0) (ptr fuel : Nat) (hf : l.length < fuel) :
    ∃ res, kfree fuel st ptr = some res := by
  unfold kfree
  split_ifs with hs
  · exact ⟨_, rfl⟩
  · rcases first_split (fun x => decide ((st.blk x).start_addr = ptr)) l with
      hno | ⟨pre, c, post, e, h1, h2⟩
    · exact ⟨_, kfree_loop_none h (fun x hx => by simpa using hno x hx) fuel 0 hf⟩
    · subst e
      obtain ⟨m, hs1, hs2⟩ := seg_append.mp h
      obtain ⟨hmc, hc0, _⟩ := hs2
      subst hmc
      exact ⟨_, kfree_loop_some hs1 hc0 (fun x hx => by simpa using h1 x hx)
        (by simpa using h2) fuel 0 (by
        have : (pre ++ m :: post).length = pre.length + post.length + 1 := by simp; omega
        omega)⟩

/-- The nodes read by `free_list_nodes` in a well-formed state. -/
theorem free_list_nodes_of_inv {E : Nat} {st : MemState} {l : List Nat} (hinv : HeapInv E st l) :
    ∀ fuel, l.length < fuel → free_list_nodes fuel st = some (l.map (fun x => (x, st.blk x))) :=
  chain_from_of_seg hinv.1

theorem align4_eq (size : Nat) : align4 size = u32 (size + 3) / 4 * 4 := by
  have := land_high_mask (u32 (size + 3)) 2 (u32_lt _) (by decide)
  exact this

theorem align4_of_le {size : Nat} (h : size ≤ 0xFFFFFFFC) : align4 size = (size + 3) / 4 * 4 := by
  rw [align4_eq, u32_of_lt (by omega)]

/-- The effect of a `kmalloc` that returns a block, on a well-formed state:
the first fitting header `c` is taken, split when more than a header would be
left over. -/
theorem kmalloc_nodes {E : Nat} {st : MemState} {l : List Nat} (hinv : HeapInv E st l)
    {fuel size : Nat} {st1 : MemState} {ptr : Nat}
    (hk : kmalloc fuel st size = some (st1, ptr)) (hp : ptr ≠ 0) :
    ∃ pre c post l1, l = pre ++ c :: post ∧ HeapInv E st1 l1 ∧
      (∀ x ∈ pre, fits (align4 size) (x, st.blk x) = false) ∧
      (st.blk c).is_allocated = 0 ∧ align4 size ≤ (st.blk c).size ∧
      ptr = (st.blk c).start_addr ∧ (st.blk c).start_addr = c + 16 ∧
      (∀ x ∈ pre, st1.blk x = st.blk x) ∧ (∀ x ∈ post, st1.blk x = st.blk x) ∧
      (align4 size + 16 < (st.blk c).size →
        l1 = pre ++ c :: (c + 16 + align4 size) :: post ∧
        st1.blk c = { start_addr := c + 16, size := align4 size, is_allocated := 1,
                      next := c + 16 + align4 size } ∧
        st1.blk (c + 16 + align4 size) =
          { start_addr := c + 16 + align4 size + 16
            size := (st.blk c).size - align4 size - 16, is_allocated := 0
            next := (st.blk c).next } ∧
        st1.mgr.used_memory = st.mgr.used_memory + align4 size) ∧
      (¬ align4 size + 16 < (st.blk c).size →
        l1 = pre ++ c :: post ∧ st1.blk c = { st.blk c with is_allocated := 1 } ∧
        st1.mgr.used_memory = st.mgr.used_memory + (st.blk c).size) := by
  rcases kmalloc_result hinv.1 hk with ⟨h1, _⟩ | ⟨_, pre, c, post, e, hno, hc, hr⟩
  · exact absurd (congrArg Prod.snd h1) hp
  · subst e
    obtain ⟨hfree, hsz⟩ := fits_iff.mp hc
    obtain ⟨h1, h2, h3, h4, h5, h6, h7, h8, h9, h10, h11, h12⟩ := heap_inv_at hinv
    by_cases hsp : align4 size + 16 < (st.blk c).size
    · obtain ⟨heq, hnew⟩ := kmalloc_split_inv hinv hfree hsp
      rw [← hr] at heq hnew
      have hs1 : st1 = _ := congrArg Prod.fst heq
      have hs2 : ptr = c + 16 := congrArg Prod.snd heq
      have hc1 : c ≠ c + 16 + align4 size := by omega
      refine ⟨pre, c, post, _, rfl, hnew, hno, hfree, hsz, by rw [h5]; exact hs2, h5, ?_, ?_,
        fun _ => ⟨rfl, ?_, ?_, ?_⟩, fun hc => absurd hsp hc⟩
      · intro x hx
        have := h9 x hx
        rw [hs1]
        exact update2_other (by omega) (by omega)
      · intro x hx
        have := h10 x hx
        rw [hs1]
        exact update2_other (by omega) (by omega)
      · rw [hs1]; exact Function.update_same _ _ _
      · rw [hs1]
        show Function.update (Function.update _ _ _) _ _ _ = _
        rw [Function.update_noteq hc1.symm, Function.update_same]
      · rw [hs1]
    · obtain ⟨heq, hnew⟩ := kmalloc_whole_inv hinv hfree hsz hsp
      rw [← hr] at heq hnew
      have hs1 : st1 = _ := congrArg Prod.fst heq
      have hs2 : ptr = c + 16 := congrArg Prod.snd heq
      refine ⟨pre, c, post, _, rfl, hnew, hno, hfree, hsz, by rw [h5]; exact hs2, h5, ?_, ?_,
        fun hc => absurd hc hsp, fun _ => ⟨rfl, ?_, ?_⟩⟩
      · intro x hx
        have := h9 x hx
        rw [hs1]
        exact Function.update_noteq (by omega) _ _
      · intro x hx
        have := h10 x hx
        rw [hs1]
        exact Function.update_noteq (by omega) _ _
      · rw [hs1]; exact Function.update_same _ _ _
      · rw [hs1]

theorem some_getD_of_isSome {α : Type} {o : Option α} (d : α) (h : o.isSome = true) :
    o = some (o.getD d) := by
  cases o with
  | none => cases h
  | some a => rfl

/-! ## Heap allocator: first fit, the split rule and the accounting -/

theorem reach_sample_heap : HeapReach sample_heap :=
  HeapReach.init 0x100000 0x100000 MemState.blank (by decide) (by decide) (by decide)

theorem reach_sample_heap_freed : HeapReach sample_heap_freed := by
  have ha : kmalloc 10 sample_heap 100 = some sample_heap_a :=
    some_getD_of_isSome (sample_heap, 0) (by decide!)
  have hb : kmalloc 10 sample_heap_a.1 200 = some sample_heap_b :=
    some_getD_of_isSome (sample_heap, 0) (by decide!)
  have hf : kfree 10 sample_heap_b.1 sample_heap_a.2 = some sample_heap_freed :=
    some_getD_of_isSome sample_heap (by decide!)
  have ha1 : kmalloc 10 sample_heap 100 = some (sample_heap_a.1, sample_heap_a.2) :=
    ha.trans (by simp only [Prod.mk.eta])
  have hb1 : kmalloc 10 sample_heap_a.1 200 = some (sample_heap_b.1, sample_heap_b.2) :=
    hb.trans (by simp only [Prod.mk.eta])
  have r1 : HeapReach sample_heap_a.1 :=
    HeapReach.alloc 10 100 sample_heap_a.1 sample_heap_a.2 reach_sample_heap ha1
  have r2 : HeapReach sample_heap_b.1 :=
    HeapReach.alloc 10 200 sample_heap_b.1 sample_heap_b.2 r1 hb1
  exact HeapReach.free 10 sample_heap_a.2 sample_heap_freed r2 (by decide!) hf

/-- C15: in every state reached after `memory_init` by `kmalloc` calls and by
`kfree` calls on currently allocated payload addresses, the free list is a
finite chain of nodes (read by `free_list_nodes` with any fuel beyond its
length), `kmalloc` and `kfree` return with that fuel, and `used_memory` equals
the sum of the `size` fields of the nodes marked allocated. -/
theorem used_memory_is_sum_of_allocated_sizes (st : MemState) (h : HeapReach st) :
    ∃ nodes, (∀ fuel, nodes.length < fuel → free_list_nodes fuel st = some nodes) ∧
      get_used_memory st = allocated_bytes nodes ∧
      (∀ fuel size, nodes.length < fuel → ∃ res, kmalloc fuel st size = some res) ∧
      (∀ fuel ptr, nodes.length < fuel → ∃ res, kfree fuel st ptr = some res) := by
  obtain ⟨E, l, hinv⟩ := heap_reach_wf h
  refine ⟨l.map (fun x => (x, st.blk x)), ?_, ?_, ?_, ?_⟩
  · intro fuel hf
    exact free_list_nodes_of_inv hinv fuel (by simpa using hf)
  · rw [allocated_bytes_map]
    exact hinv.2.2.2
  · intro fuel size hf
    exact kmalloc_total hinv.1 size fuel (by simpa using hf)
  · intro fuel ptr hf
    exact kfree_total hinv.1 ptr fuel (by simpa using hf)

/-- C15 on scenario S1 after `a = kmalloc(100)`, `b = kmalloc(200)`,
`kfree(a)`: the state is reached, and `used_memory` is 200. -/
theorem used_memory_is_sum_of_allocated_sizes_witness :
    HeapReach sample_heap_freed ∧ get_used_memory sample_heap_freed = 200 ∧
    ∃ nodes, (∀ fuel, nodes.length < fuel → free_list_nodes fuel sample_heap_freed = some nodes) ∧
      get_used_memory sample_heap_freed = allocated_bytes nodes ∧
      (∀ fuel size, nodes.length < fuel → ∃ res, kmalloc fuel sample_heap_freed size = some res) ∧
      (∀ fuel ptr, nodes.length < fuel → ∃ res, kfree fuel sample_heap_freed ptr = some res) :=
  ⟨reach_sample_heap_freed, by decide!,
    used_memory_is_sum_of_allocated_sizes sample_heap_freed reach_sample_heap_freed⟩

/-- C12 (the code breaks the claim): on the heap `memory_init(0x100000,
0x100000)`, whose only node is free with 1048560 bytes, no free node has
`0xFFFFFFFF` bytes, yet `kmalloc(0xFFFFFFFF)` returns `0x100010` instead of
NULL and changes the list: the rounding `(size + 3) & ~3` wraps to 0, so the
first free node fits and is split into an allocated node of size 0 and a free
node. -/
theorem kmalloc_oversized_request_returns_block :
    free_list_nodes 10 sample_heap = some [(0x100000, memory_block.mk 0x100010 1048560 0 0)] ∧
    (1048560 : Nat) < 0xFFFFFFFF ∧ align4 0xFFFFFFFF = 0 ∧
    (kmalloc 10 sample_heap 0xFFFFFFFF).map Prod.snd = some 0x100010 ∧
    (kmalloc 10 sample_heap 0xFFFFFFFF).bind (fun r => free_list_nodes 10 r.1) =
      some [(0x100000, memory_block.mk 0x100010 0 1 0x100010),
            (0x100010, memory_block.mk 0x100020 1048544 0 0)] := by
  refine ⟨?_, ?_, ?_, ?_, ?_⟩ <;> decide!

/-- C16 (the code breaks the claim): on the heap `memory_init(0x100000,
0x100000)` the call `kmalloc_aligned(0xFFFFFFF0, 16)`, for which
`n + a - 1 = 0xFFFFFFFF` does not overflow 32 bits, returns the non-NULL,
16-aligned address `r = 0x100010`, the payload address of a block that
`kmalloc` allocated with size 0: the range `[r, r + n)` is not inside the
payload `[p, p + 0)` of that block. -/
theorem kmalloc_aligned_range_exceeds_block :
    0xFFFFFFF0 + 16 - 1 < 2 ^ 32 ∧
    (kmalloc_aligned 10 sample_heap 0xFFFFFFF0 16).map Prod.snd = some 0x100010 ∧
    0x100010 % 16 = 0 ∧
    (kmalloc 10 sample_heap (u32 (0xFFFFFFF0 + 16 - 1))).map Prod.snd = some 0x100010 ∧
    (kmalloc_aligned 10 sample_heap 0xFFFFFFF0 16).bind (fun r => free_list_nodes 10 r.1) =
      some [(0x100000, memory_block.mk 0x100010 0 1 0x100010),
            (0x100010, memory_block.mk 0x100020 1048544 0 0)] ∧
    ¬ (0x100010 + 0xFFFFFFF0 ≤ 0x100010 + 0) := by
  refine ⟨?_, ?_, ?_, ?_, ?_, ?_⟩ <;> decide!

/-! ## Processes: creation and destruction against the allocator -/

/-- C17 (the code breaks the claim): after boot, `p = process_create(...)`
followed by `process_destroy(p)` leaves `used_memory` at 16384 where it was
8192 before the creation (`total_processes` is back to 0): `p->cr3` is the
page-aligned address 1064960 inside the block whose payload starts at 1061016,
`kfree(p->cr3)` finds no node with that payload address, and the 8192-byte
page-directory block stays allocated. -/
theorem process_destroy_keeps_page_directory_block :
    scenario_create_destroy.map (fun r => r.2.2) = some [1056800, 1056904, 1064960] ∧
    scenario_create_destroy.map (fun r =>
      [get_used_memory r.1.mem, get_used_memory r.2.1.mem,
       r.1.sched.scheduler.total_processes, r.2.1.sched.scheduler.total_processes]) =
      some [8192, 16384, 0, 0] ∧
    scenario_create_destroy.bind (fun r => free_list_nodes 10 r.2.1.mem) =
      some [(1048576, memory_block.mk 1048592 8192 1 1056784),
            (1056784, memory_block.mk 1056800 4200 0 1061000),
            (1061000, memory_block.mk 1061016 8192 1 1069208),
            (1069208, memory_block.mk 1069224 67088216 0 0)] := by
  refine ⟨?_, ?_, ?_⟩ <;> decide!

/-- C18 (the code breaks the claim): on a heap of 0x1000 bytes the control
block is allocated at `0x100010` and the next allocation, the 4 KiB stack,
returns NULL; `process_create` still returns `0x100010`, with `stack_bottom`
and `cr3` NULL, puts that process at the head of the ready queue, and moves
`next_pid` from 1 to 2 and `total_processes` from 0 to 1. -/
theorem process_create_ignores_failed_stack_allocation :
    (kmalloc 20 small_world.mem sizeof_process_t).map Prod.snd = some 0x100010 ∧
    ((kmalloc 20 small_world.mem sizeof_process_t).bind (fun r => kmalloc 20 r.1 4096)).map
      Prod.snd = some 0 ∧
    [small_world.sched.scheduler.ready_queue, small_world.sched.scheduler.next_pid,
      small_world.sched.scheduler.total_processes] = [0, 1, 0] ∧
    (process_create 20 small_world [] 0x2000 PRIORITY_NORMAL).map (fun r =>
      [r.2, r.1.sched.scheduler.ready_queue, r.1.sched.scheduler.next_pid,
       r.1.sched.scheduler.total_processes, (r.1.sched.proc r.2).stack_bottom,
       (r.1.sched.proc r.2).cr3]) = some [0x100010, 0x100010, 2, 1, 0, 0] := by
  refine ⟨?_, ?_, ?_, ?_⟩ <;> decide!

/-! ## Scheduler: preemption by the timer -/

/-- C11 (counterexample): after boot and `process_create` of two
`PRIORITY_NORMAL` processes, `scheduler.current_process` is NULL after each of
the first 100 ticks of `timer_handler`: neither process is current. -/
theorem no_process_current_within_100_ticks :
    scenario_two_created.bind (fun r => current_trace 20 100 r.1.sched) =
      some (List.replicate 100 0) := by
  decide!

theorem timer_walk_empty (fuel : Nat) (s : SchedState) (hf : 0 < fuel) :
    timer_walk fuel fuel s 0 = some s := by
  cases fuel with
  | zero => cases hf
  | succ n => simp [timer_walk]

/-- A tick that is not a multiple of 10, with nobody sleeping, only counts. -/
theorem timer_handler_idle {fuel : Nat} {s : SchedState} (hf : 0 < fuel)
    (hs : s.scheduler.sleeping_queue = 0) (hb : s.timer_ticks + 1 < 2 ^ 32)
    (ht : (s.timer_ticks + 1) % 10 ≠ 0) :
    timer_handler fuel s = some { s with timer_ticks := s.timer_ticks + 1 } := by
  unfold timer_handler
  simp only [u32_of_lt hb, if_neg ht, hs]
  exact timer_walk_empty fuel _ hf

/-- A tick that is a multiple of 10, with nobody sleeping, counts and calls
`scheduler_schedule`. -/
theorem timer_handler_sched {fuel : Nat} {s : SchedState} (hf : 0 < fuel)
    (hs : (scheduler_schedule { s with timer_ticks := s.timer_ticks + 1 }).scheduler.sleeping_queue
      = 0)
    (hb : s.timer_ticks + 1 < 2 ^ 32) (ht : (s.timer_ticks + 1) % 10 = 0) :
    timer_handler fuel s = some (scheduler_schedule { s with timer_ticks := s.timer_ticks + 1 }) := by
  unfold timer_handler
  simp only [u32_of_lt hb, if_pos ht, hs]
  exact timer_walk_empty fuel _ hf

theorem schedule_decrement {s : SchedState} {h t k : Nat} (hr : TwoReady s h t (k + 1)) :
    scheduler_schedule s = s.set_time_slice h k := by
  obtain ⟨h0, t0, hne, hq, hn, htn, hk, htk, hqu, hsl⟩ := hr
  unfold scheduler_schedule scheduler_multilevel_feedback
  rw [hq]
  simp only [h0, if_false, hk]
  rw [if_pos (by omega)]
  rfl

theorem set_state_time_slice (s : SchedState) (p q : Nat) (v : process_state_t) :
    ((s.set_state p v).proc q).time_slice = (s.proc q).time_slice := by
  unfold SchedState.set_state
  by_cases h : q = p <;> simp [Function.update, h]

theorem set_priority_time_slice (s : SchedState) (p q v : Nat) :
    ((s.set_priority p v).proc q).time_slice = (s.proc q).time_slice := by
  unfold SchedState.set_priority
  by_cases h : q = p <;> simp [Function.update, h]

theorem set_time_slice_time_slice (s : SchedState) (p q v : Nat) :
    ((s.set_time_slice p v).proc q).time_slice = if q = p then v else (s.proc q).time_slice := by
  unfold SchedState.set_time_slice
  by_cases h : q = p <;> simp [Function.update, h]

/-- The fields after `scheduler_round_robin` on a non-empty ready queue. -/
theorem round_robin_fields (s : SchedState) (h : s.scheduler.ready_queue ≠ 0) :
    (scheduler_round_robin s).scheduler =
      { s.scheduler with
        ready_queue := (s.proc s.scheduler.ready_queue).next
        current_process := (s.proc s.scheduler.ready_queue).next } ∧
    (scheduler_round_robin s).timer_ticks = s.timer_ticks ∧
    ((scheduler_round_robin s).proc (s.proc s.scheduler.ready_queue).next).state
      = PROCESS_RUNNING ∧
    ∀ x, ((scheduler_round_robin s).proc x).next = (s.proc x).next ∧
      ((scheduler_round_robin s).proc x).time_slice = (s.proc x).time_slice := by
  unfold scheduler_round_robin
  simp only [h, if_false, SchedState.set_current_process, ne_eq, not_true_eq_false]
  refine ⟨?_, ?_, ?_, ?_⟩
  · split_ifs <;> rfl
  · split_ifs <;> rfl
  · simp
  · intro x
    split_ifs <;> simp [set_state_time_slice]

theorem schedule_rotate {s : SchedState} {h t : Nat} (hr : TwoReady s h t 0) :
    TwoReady (scheduler_schedule s) t h 10 ∧
    (scheduler_schedule s).scheduler.current_process = t ∧
    ((scheduler_schedule s).proc t).state = PROCESS_RUNNING ∧
    (scheduler_schedule s).timer_ticks = s.timer_ticks := by
  obtain ⟨h0, t0, hne, hq, hn, htn, hk, htk, hqu, hsl⟩ := hr
  have e : scheduler_schedule s =
      scheduler_round_robin
        ((if (s.proc h).priority > PRIORITY_LOW then
            s.set_priority h ((s.proc h).priority - 1) else s).set_time_slice h 10) := by
    unfold scheduler_schedule scheduler_multilevel_feedback
    rw [hq]
    simp only [h0, if_false, hk, lt_irrefl, gt_iff_lt]
    split_ifs <;> simp [hqu]
  have hq1 : ((if (s.proc h).priority > PRIORITY_LOW then
      s.set_priority h ((s.proc h).priority - 1) else s).set_time_slice h 10).scheduler
      = s.scheduler := by
    split_ifs <;> rfl
  have hnx : ∀ x, (((if (s.proc h).priority > PRIORITY_LOW then
      s.set_priority h ((s.proc h).priority - 1) else s).set_time_slice h 10).proc x).next
      = (s.proc x).next := by
    intro x
    split_ifs <;> simp
  have hts : ∀ x, (((if (s.proc h).priority > PRIORITY_LOW then
      s.set_priority h ((s.proc h).priority - 1) else s).set_time_slice h 10).proc x).time_slice
      = if x = h then 10 else (s.proc x).time_slice := by
    intro x
    rw [set_time_slice_time_slice]
    by_cases hx : x = h
    · rw [if_pos hx, if_pos hx]
    · rw [if_neg hx, if_neg hx]
      split_ifs
      · exact set_priority_time_slice _ _ _ _
      · rfl
  have htt : ((if (s.proc h).priority > PRIORITY_LOW then
      s.set_priority h ((s.proc h).priority - 1) else s).set_time_slice h 10).timer_ticks
      = s.timer_ticks := by
    split_ifs <;> rfl
  have hrq : ((if (s.proc h).priority > PRIORITY_LOW then
      s.set_priority h ((s.proc h).priority - 1) else s).set_time_slice h 10).scheduler.ready_queue
      ≠ 0 := by
    rw [hq1, hq]; exact h0
  obtain ⟨f1, f2, f3, f4⟩ := round_robin_fields _ hrq
  rw [hq1, hq, hnx, hn] at f1 f3
  rw [e]
  refine ⟨⟨t0, h0, Ne.symm hne, ?_, ?_, ?_, ?_, ?_, ?_, ?_⟩, ?_, f3, ?_⟩
  · rw [f1]
  · rw [(f4 t).1, hnx, htn]
  · rw [(f4 h).1, hnx, hn]
  · rw [(f4 t).2, hts, if_neg (Ne.symm hne), htk]
  · rw [(f4 h).2, hts, if_pos rfl]
  · rw [f1]; exact hqu
  · rw [f1]; exact hsl
  · rw [f1]
  · rw [f2, htt]

theorem ticks_run_add (fuel a b : Nat) (s : SchedState) :
    ticks_run fuel (a + b) s = (ticks_run fuel a s).bind (ticks_run fuel b) := by
  induction a generalizing s with
  | zero => simp [ticks_run]
  | succ n ih =>
    rw [show n + 1 + b = (n + b) + 1 by omega]
    show (timer_handler fuel s).bind (ticks_run fuel (n + b)) =
      ((timer_handler fuel s).bind (ticks_run fuel n)).bind (ticks_run fuel b)
    cases timer_handler fuel s with
    | none => rfl
    | some s1 => exact ih s1

/-- One tick on a two-process ready queue whose head has slice `k`: the slice
goes down by one on a tick that is a multiple of 10 (when `k > 0`), nothing but
the tick counter changes on the other ticks. -/
theorem two_ready_tick {fuel : Nat} (hf : 0 < fuel) {s : SchedState} {h t k : Nat}
    (hr : TwoReady s h t k) (hb : s.timer_ticks + 1 < 2 ^ 32)
    (hk : (s.timer_ticks + 1) % 10 = 0 → 0 < k) :
    ∃ s1, timer_handler fuel s = some s1 ∧
      TwoReady s1 h t (if (s.timer_ticks + 1) % 10 = 0 then k - 1 else k) ∧
      s1.timer_ticks = s.timer_ticks + 1 ∧
      s1.scheduler.current_process = s.scheduler.current_process ∧
      ∀ x, (s1.proc x).state = (s.proc x).state := by
  by_cases ht : (s.timer_ticks + 1) % 10 = 0
  · have hk0 := hk ht
    obtain ⟨k1, rfl⟩ : ∃ k1, k = k1 + 1 := ⟨k - 1, by omega⟩
    have hr1 : TwoReady { s with timer_ticks := s.timer_ticks + 1 } h t (k1 + 1) := hr
    have e := schedule_decrement hr1
    obtain ⟨h0, t0, hne, hq, hn, htn, hks, htk, hqu, hsl⟩ := hr
    refine ⟨_, timer_handler_sched hf (by rw [e]; exact hsl) hb ht, ?_, ?_, ?_, ?_⟩
    · rw [e, if_pos ht]
      refine ⟨h0, t0, hne, hq, ?_, ?_, ?_, ?_, hqu, hsl⟩
      · rw [set_time_slice_next]; exact hn
      · rw [set_time_slice_next]; exact htn
      · rw [set_time_slice_time_slice, if_pos rfl]; rfl
      · rw [set_time_slice_time_slice, if_neg (Ne.symm hne)]; exact htk
    · rw [e]; rfl
    · rw [e]; rfl
    · intro x
      rw [e, set_time_slice_state]
  · refine ⟨_, timer_handler_idle hf hr.2.2.2.2.2.2.2.2.2 hb ht, ?_, rfl, rfl, fun _ => rfl⟩
    rw [if_neg ht]
    exact hr

/-- The tick on which the head's slice is found exhausted: the queue rotates
and the other process becomes current and RUNNING. -/
theorem two_ready_rotate {fuel : Nat} (hf : 0 < fuel) {s : SchedState} {h t : Nat}
    (hr : TwoReady s h t 0) (hb : s.timer_ticks + 1 < 2 ^ 32)
    (ht : (s.timer_ticks + 1) % 10 = 0) :
    ∃ s1, timer_handler fuel s = some s1 ∧ TwoReady s1 t h 10 ∧
      s1.timer_ticks = s.timer_ticks + 1 ∧ s1.scheduler.current_process = t ∧
      (s1.proc t).state = PROCESS_RUNNING := by
  have hr1 : TwoReady { s with timer_ticks := s.timer_ticks + 1 } h t 0 := hr
  obtain ⟨r1, r2, r3, r4⟩ := schedule_rotate hr1
  exact ⟨_, timer_handler_sched hf r1.2.2.2.2.2.2.2.2.2 hb ht, r1, r4, r2, r3⟩

/-- The ticks before the rotation: after `m + n ≤ 109` ticks from a multiple of
10 the head's slice is `10 - (m + n) / 10` and nothing else has changed. -/
theorem two_ready_run {fuel : Nat} (hf : 0 < fuel) {h t T c : Nat} (hT : T % 10 = 0)
    (hb : T + 110 < 2 ^ 32) :
    ∀ n m (s : SchedState), TwoReady s h t (10 - m / 10) → s.timer_ticks = T + m →
      s.scheduler.current_process = c → m + n ≤ 109 →
      ∃ s1, ticks_run fuel n s = some s1 ∧ TwoReady s1 h t (10 - (m + n) / 10) ∧
        s1.timer_ticks = T + (m + n) ∧ s1.scheduler.current_process = c ∧
        ∀ x, (s1.proc x).state = (s.proc x).state := by
  intro n
  induction n with
  | zero =>
    intro m s hr ht hc _
    exact ⟨s, rfl, hr, ht, hc, fun _ => rfl⟩
  | succ n ih =>
    intro m s hr ht hc hm
    obtain ⟨s1, e1, r1, t1, c1, st1⟩ := two_ready_tick hf hr (by omega) (by intro _; omega)
    have r2 : TwoReady s1 h t (10 - (m + 1) / 10) := by
      have e : (if (s.timer_ticks + 1) % 10 = 0 then 10 - m / 10 - 1 else 10 - m / 10) =
          10 - (m + 1) / 10 := by
        rw [ht]
        split_ifs <;> omega
      rw [e] at r1
      exact r1
    obtain ⟨s2, e2, r3, t3, c3, st3⟩ := ih (m + 1) s1 r2 (by rw [t1, ht]; omega)
      (by rw [c1, hc]) (by omega)
    refine ⟨s2, ?_, ?_, ?_, c3, fun x => by rw [st3, st1]⟩
    · show (timer_handler fuel s).bind (ticks_run fuel n) = some s2
      rw [e1]
      exact e2
    · rw [show m + (n + 1) = m + 1 + n by omega]; exact r3
    · rw [t3]; omega

/-- One turn of the two-process ready queue: 110 ticks from a multiple of 10
with a full slice on the head rotate the queue once. -/
theorem two_ready_turn {fuel : Nat} (hf : 0 < fuel) {s : SchedState} {h t : Nat}
    (hr : TwoReady s h t 10) (hT : s.timer_ticks % 10 = 0) (hb : s.timer_ticks + 110 < 2 ^ 32) :
    (∀ n, n < 110 → ∃ s1, ticks_run fuel n s = some s1 ∧
      s1.scheduler.current_process = s.scheduler.current_process ∧
      ∀ x, (s1.proc x).state = (s.proc x).state) ∧
    ∃ s1, ticks_run fuel 110 s = some s1 ∧ TwoReady s1 t h 10 ∧
      s1.timer_ticks = s.timer_ticks + 110 ∧ s1.scheduler.current_process = t ∧
      (s1.proc t).state = PROCESS_RUNNING := by
  constructor
  · intro n hn
    obtain ⟨s1, e1, _, _, c1, st1⟩ := two_ready_run hf hT hb n 0 s hr rfl rfl (by omega)
    exact ⟨s1, e1, c1, st1⟩
  · obtain ⟨s1, e1, r1, t1, _, _⟩ := two_ready_run hf hT hb 109 0 s hr rfl rfl (by omega)
    obtain ⟨s2, e2, r2, t2, c2, st2⟩ := two_ready_rotate hf r1 (by rw [t1]; omega)
      (by rw [t1]; omega)
    refine ⟨s2, ?_, r2, by rw [t2, t1], c2, st2⟩
    rw [show 110 = 109 + 1 by rfl, ticks_run_add, e1]
    show (timer_handler fuel s1).bind (ticks_run fuel 0) = some s2
    rw [e2]
    rfl

/-- From a two-process ready circle `p` then `q` with full slices, no current
process and a tick counter that is a multiple of 10: nobody is current through
tick 109, `q` is current and RUNNING from tick 110 through 219, `p` after tick
220. -/
theorem two_ready_220 (fuel : Nat) (s : SchedState) (p q : Nat)
    (hf : 0 < fuel) (hr : TwoReady s p q 10) (hc : s.scheduler.current_process = 0)
    (hT : s.timer_ticks % 10 = 0) (hb : s.timer_ticks + 220 < 2 ^ 32) :
    (∀ n, n < 110 → ∃ s1, ticks_run fuel n s = some s1 ∧ s1.scheduler.current_process = 0) ∧
    (∀ n, 110 ≤ n → n < 220 → ∃ s1, ticks_run fuel n s = some s1 ∧
      s1.scheduler.current_process = q ∧ (s1.proc q).state = PROCESS_RUNNING) ∧
    (∃ s2, ticks_run fuel 220 s = some s2 ∧ s2.scheduler.current_process = p ∧
      (s2.proc p).state = PROCESS_RUNNING) := by
  obtain ⟨ha, s1, e1, r1, t1, c1, st1⟩ := two_ready_turn hf hr hT (by omega)
  obtain ⟨hb2, s2, e2, r2, t2, c2, st2⟩ := two_ready_turn hf r1 (by rw [t1]; omega)
    (by rw [t1]; omega)
  refine ⟨?_, ?_, ?_⟩
  · intro n hn
    obtain ⟨s3, e3, c3, _⟩ := ha n hn
    exact ⟨s3, e3, by rw [c3, hc]⟩
  · intro n h1 h2
    obtain ⟨s3, e3, c3, st3⟩ := hb2 (n - 110) (by omega)
    refine ⟨s3, ?_, by rw [c3, c1], by rw [st3, st1]⟩
    have en : n = 110 + (n - 110) := by omega
    rw [en, ticks_run_add, e1, Option.some_bind]
    exact e3
  · refine ⟨s2, ?_, c2, st2⟩
    have e220 : ticks_run fuel 220 s = ticks_run fuel (110 + 110) s := rfl
    rw [e220, ticks_run_add, e1, Option.some_bind]
    exact e2

/-- The scheduler side of a `process_create` that returns a control block `p`:
the block is filled in (`priority`, a full slice), then inserted by
`scheduler_add_process`, then counted. -/
theorem process_create_sched_fields (fuel : Nat) (w w1 : World) (name : List Nat)
    (entry_point priority p : Nat)
    (h : process_create fuel w name entry_point priority = some (w1, p)) (hp0 : p ≠ 0) :
    ∃ s3 s4 : SchedState, (∀ q, q ≠ p → s3.proc q = w.sched.proc q) ∧
      (s3.proc p).priority = priority ∧
      (s3.proc p).time_slice = w.sched.scheduler.time_quantum ∧
      s3.scheduler.ready_queue = w.sched.scheduler.ready_queue ∧
      s3.scheduler.blocked_queue = w.sched.scheduler.blocked_queue ∧
      s3.scheduler.sleeping_queue = w.sched.scheduler.sleeping_queue ∧
      s3.scheduler.current_process = w.sched.scheduler.current_process ∧
      s3.scheduler.time_quantum = w.sched.scheduler.time_quantum ∧
      s3.timer_ticks = w.sched.timer_ticks ∧
      scheduler_add_process fuel s3 p = some s4 ∧
      w1.sched = s4.set_total_processes (u32 (s4.scheduler.total_processes + 1)) := by
  unfold process_create at h
  cases h1 : kmalloc fuel w.mem sizeof_process_t with
  | none => simp [h1] at h
  | some r1 =>
    obtain ⟨mem1, pr⟩ := r1
    simp only [h1] at h
    by_cases hz : pr = 0
    · simp only [hz, if_true, Option.some.injEq, Prod.mk.injEq] at h
      exact absurd h.2.symm hp0
    · simp only [hz, if_false] at h
      cases h2 : kmalloc fuel mem1 4096 with
      | none => simp [h2] at h
      | some r2 =>
        obtain ⟨mem2, sb⟩ := r2
        simp only [h2] at h
        cases h3 : kmalloc_aligned fuel mem2 4096 4096 with
        | none => simp [h3] at h
        | some r3 =>
          obtain ⟨mem3, cr3⟩ := r3
          simp only [h3] at h
          cases h4 : scheduler_add_process fuel
              ((process_create_stack_fields (process_create_fields w.sched pr name priority) pr
                sb).modify pr (fun x => { x with cr3 := cr3 })) pr with
          | none => simp [h4] at h
          | some s4 =>
            simp only [h4, Option.some.injEq, Prod.mk.injEq] at h
            obtain ⟨hw, hp⟩ := h
            subst hp
            refine ⟨_, s4, ?_, ?_, ?_, ?_, ?_, ?_, ?_, ?_, ?_, h4, ?_⟩
            · intro q hq
              simp [process_create_stack_fields, process_create_fields, SchedState.modify,
                SchedState.set_state, SchedState.set_priority, SchedState.set_time_slice,
                SchedState.set_next, SchedState.set_prev, Function.update, hq]
            · simp [process_create_stack_fields, process_create_fields, SchedState.modify,
                SchedState.set_state, SchedState.set_priority, SchedState.set_time_slice,
                SchedState.set_next, SchedState.set_prev, Function.update]
            · simp [process_create_stack_fields, process_create_fields, SchedState.modify,
                SchedState.set_state, SchedState.set_priority, SchedState.set_time_slice,
                SchedState.set_next, SchedState.set_prev, Function.update]
            · rfl
            · rfl
            · rfl
            · rfl
            · rfl
            · rfl
            · rw [← hw]

theorem add_loop_static (fuel : Nat) :
    ∀ (s s1 : SchedState) (p c : Nat), scheduler_add_loop fuel s p c = some s1 →
      s1.scheduler.time_quantum = s.scheduler.time_quantum ∧ s1.timer_ticks = s.timer_ticks := by
  induction fuel with
  | zero => intro s s1 p c h; cases h
  | succ n ih =>
    intro s s1 p c h
    unfold scheduler_add_loop at h
    by_cases h1 : (s.proc p).priority > (s.proc c).priority
    · rw [if_pos h1] at h
      have e := Option.some.inj h
      rw [← e]
      split_ifs
      · exact ⟨by rw [SchedState.set_ready_queue, link_before_scheduler], rfl⟩
      · exact ⟨by rw [link_before_scheduler], rfl⟩
    · rw [if_neg h1] at h
      dsimp only at h
      by_cases h2 : (s.proc c).next ≠ s.scheduler.ready_queue
      · rw [if_pos h2] at h
        exact ih _ _ _ _ h
      · rw [if_neg h2] at h
        have e := Option.some.inj h
        rw [← e]
        exact ⟨by rw [link_before_scheduler], rfl⟩

/-- The function `scheduler_add_process` leaves the quantum and the tick
counter alone. -/
theorem add_process_static (fuel : Nat) (s s1 : SchedState) (p : Nat)
    (h : scheduler_add_process fuel s p = some s1) :
    s1.scheduler.time_quantum = s.scheduler.time_quantum ∧ s1.timer_ticks = s.timer_ticks := by
  unfold scheduler_add_process at h
  split_ifs at h with h1 h2
  · cases h; exact ⟨rfl, rfl⟩
  · cases h; exact ⟨rfl, rfl⟩
  · exact add_loop_static fuel _ _ _ _ h

theorem unlinked_fields {x y : process} (h : unlinked x = unlinked y) :
    x.priority = y.priority ∧ x.time_slice = y.time_slice := by
  have h1 := congrArg process.priority h
  have h2 := congrArg process.time_slice h
  exact ⟨by simpa [unlinked] using h1, by simpa [unlinked] using h2⟩

/-- Two `process_create` calls at `PRIORITY_NORMAL` on a scheduler with empty
queues and quantum 10 leave the ready queue as the circle of the two
processes, first created first, both with a full slice. -/
theorem two_created_ready (fuel1 fuel2 : Nat) (w w1 w2 : World) (name1 name2 : List Nat)
    (entry1 entry2 p q : Nat)
    (hr : w.sched.scheduler.ready_queue = 0) (hbq : w.sched.scheduler.blocked_queue = 0)
    (hsq : w.sched.scheduler.sleeping_queue = 0) (hqu : w.sched.scheduler.time_quantum = 10)
    (h1 : process_create fuel1 w name1 entry1 PRIORITY_NORMAL = some (w1, p)) (hp : p ≠ 0)
    (h2 : process_create fuel2 w1 name2 entry2 PRIORITY_NORMAL = some (w2, q)) (hq : q ≠ 0)
    (hpq : p ≠ q) :
    TwoReady w2.sched p q 10 ∧
    w2.sched.scheduler.current_process = w.sched.scheduler.current_process ∧
    w2.sched.timer_ticks = w.sched.timer_ticks := by
  obtain ⟨s3, s4, a1, a2, a3, a4, a5, a6, a7, a8, a9, a10, a11⟩ :=
    process_create_sched_fields fuel1 w w1 name1 entry1 PRIORITY_NORMAL p h1 hp
  have hq0 : Queues s3 [] [] [] :=
    ⟨⟨cyc_nil _, by rw [a4, hr]; rfl⟩, ⟨cyc_nil _, by rw [a5, hbq]; rfl⟩,
      ⟨cyc_nil _, by rw [a6, hsq]; rfl⟩, by simp⟩
  obtain ⟨q1, u1, c1⟩ := add_process_spec fuel1 s3 p [] [] [] s4 hq0 (by simp) hp a10
  obtain ⟨t1, k1⟩ := add_process_static fuel1 s3 s4 p a10
  have q1a : Queues s4 [p] [] [] := q1
  obtain ⟨s5, s6, b1, b2, b3, b4, b5, b6, b7, b8, b9, b10, b11⟩ :=
    process_create_sched_fields fuel2 w1 w2 name2 entry2 PRIORITY_NORMAL q h2 hq
  have hw1 : w1.sched.proc = s4.proc := by rw [a11]; rfl
  have hw1s : ∀ x, s5.proc x = s4.proc x ∨ x = q := fun x => by
    by_cases hx : x = q
    · exact Or.inr hx
    · left; rw [b1 x hx, hw1]
  have e5p : s5.proc p = s4.proc p := by rw [b1 p hpq, hw1]
  have q2 : Queues s5 [p] [] [] := by
    refine queues_congr q1a (by rw [b4, a11]; rfl) (by rw [b5, a11]; rfl) (by rw [b6, a11]; rfl) ?_
    intro x hx
    simp only [List.append_nil, List.mem_singleton] at hx
    subst hx
    rw [e5p]
    exact ⟨rfl, rfl⟩
  obtain ⟨q3, u2, c2⟩ := add_process_spec fuel2 s5 q [p] [] [] s6 q2
    (by simpa using Ne.symm hpq) hq b10
  obtain ⟨t2, k2⟩ := add_process_static fuel2 s5 s6 q b10
  have hpp : (s5.proc p).priority = PRIORITY_NORMAL := by
    rw [e5p, (unlinked_fields (u1 p)).1, a2]
  have hins : insert_by_priority s5.proc q [p] = [p, q] := by
    simp [insert_by_priority, hpp, b2]
  rw [hins] at q3
  obtain ⟨⟨⟨_, _, hch, hlast⟩, hhead⟩, _, ⟨_, hsl⟩, _⟩ := q3
  have l1 : Linked s6.proc p q := by
    simpa using hch
  have l2 : Linked s6.proc q p := hlast q (by simp) p (by simp)
  have hsched : w2.sched.scheduler.ready_queue = s6.scheduler.ready_queue ∧
      w2.sched.scheduler.sleeping_queue = s6.scheduler.sleeping_queue ∧
      w2.sched.scheduler.time_quantum = s6.scheduler.time_quantum ∧
      w2.sched.scheduler.current_process = s6.scheduler.current_process ∧
      w2.sched.timer_ticks = s6.timer_ticks ∧ w2.sched.proc = s6.proc := by
    rw [b11]; exact ⟨rfl, rfl, rfl, rfl, rfl, rfl⟩
  obtain ⟨g1, g2, g3, g4, g5, g6⟩ := hsched
  have hw1q : w1.sched.scheduler.time_quantum = 10 := by
    rw [a11]
    show s4.scheduler.time_quantum = 10
    rw [t1, a8, hqu]
  refine ⟨⟨hp, hq, hpq, ?_, ?_, ?_, ?_, ?_, ?_, ?_⟩, ?_, ?_⟩
  · rw [g1, hhead]; rfl
  · rw [g6]; exact l1.1
  · rw [g6]; exact l2.1
  · rw [g6, (unlinked_fields (u2 p)).2, e5p, (unlinked_fields (u1 p)).2, a3, hqu]
  · rw [g6, (unlinked_fields (u2 q)).2, b3, hw1q]
  · rw [g3, t2, b8, hw1q]
  · rw [g2, hsl]; rfl
  · rw [g4, c2, b7, a11]
    show s4.scheduler.current_process = _
    rw [c1, a7]
  · rw [g5, k2, b9, a11]
    show s4.timer_ticks = _
    rw [k1, a9]

theorem scheduler_init_sched (fuel : Nat) (k : Kernel) :
    (scheduler_init fuel k).rest.sched.scheduler =
      { current_process := 0, ready_queue := 0, blocked_queue := 0, sleeping_queue := 0,
        next_pid := 1, total_processes := 0, time_quantum := 10 } ∧
    (scheduler_init fuel k).rest.sched.timer_ticks = k.rest.sched.timer_ticks := by
  constructor <;>
    simp [scheduler_init, timer_init, pic_unmask_irq, irq_install_handler, outb]

/-- C11 (amended): after `scheduler_init` (tick counter a multiple of 10, as at
boot where it is 0) and `process_create` of two `PRIORITY_NORMAL` processes `p`
then `q` in distinct control blocks, `timer_handler` returns on every tick, and
running it for 220 consecutive ticks makes each of the two processes the
current RUNNING process at some tick: no process is current through tick 109,
`q` is current and RUNNING from tick 110 through tick 219, and `p` is current
and RUNNING after tick 220. -/
theorem each_process_current_within_220_ticks (fuel0 fuel1 fuel2 fuel : Nat) (k : Kernel)
    (w1 w2 : World) (name1 name2 : List Nat) (entry1 entry2 p q : Nat) (hf : 0 < fuel)
    (hT : k.rest.sched.timer_ticks % 10 = 0) (hb : k.rest.sched.timer_ticks + 220 < 2 ^ 32)
    (h1 : process_create fuel1 (scheduler_init fuel0 k).rest name1 entry1 PRIORITY_NORMAL =
      some (w1, p)) (hp : p ≠ 0)
    (h2 : process_create fuel2 w1 name2 entry2 PRIORITY_NORMAL = some (w2, q)) (hq : q ≠ 0)
    (hpq : p ≠ q) :
    (∀ n, n < 110 → ∃ s1, ticks_run fuel n w2.sched = some s1 ∧
      s1.scheduler.current_process = 0) ∧
    (∀ n, 110 ≤ n → n < 220 → ∃ s1, ticks_run fuel n w2.sched = some s1 ∧
      s1.scheduler.current_process = q ∧ (s1.proc q).state = PROCESS_RUNNING) ∧
    (∃ s2, ticks_run fuel 220 w2.sched = some s2 ∧ s2.scheduler.current_process = p ∧
      (s2.proc p).state = PROCESS_RUNNING) := by
  obtain ⟨e1, e2⟩ := scheduler_init_sched fuel0 k
  obtain ⟨r, c, t⟩ := two_created_ready fuel1 fuel2 _ w1 w2 name1 name2 entry1 entry2 p q
    (by rw [e1]) (by rw [e1]) (by rw [e1]) (by rw [e1]) h1 hp h2 hq hpq
  rw [e1] at c
  rw [e2] at t
  exact two_ready_220 fuel w2.sched p q hf r c (by rw [t]; exact hT) (by rw [t]; exact hb)

theorem sample_second_eq :
    process_create 20 sample_created.1 [] 0x3000 PRIORITY_NORMAL =
      some (sample_second.1, sample_second.2) :=
  (some_getD_of_isSome (sample_world, 0) (by decide!)).trans (by simp only [Prod.mk.eta]; rfl)

/-- C11 (amended) on `sample_kernel`: `scheduler_init`, then two
`process_create` calls at `PRIORITY_NORMAL` that return distinct non-NULL
control blocks, with the tick counter at 0. -/
theorem each_process_current_within_220_ticks_witness :
    sample_kernel.rest.sched.timer_ticks = 0 ∧
    sample_created.2 ≠ 0 ∧ sample_second.2 ≠ 0 ∧ sample_created.2 ≠ sample_second.2 ∧
    (∀ n, n < 110 → ∃ s1, ticks_run 20 n sample_second.1.sched = some s1 ∧
      s1.scheduler.current_process = 0) ∧
    (∀ n, 110 ≤ n → n < 220 → ∃ s1, ticks_run 20 n sample_second.1.sched = some s1 ∧
      s1.scheduler.current_process = sample_second.2 ∧
      (s1.proc sample_second.2).state = PROCESS_RUNNING) ∧
    (∃ s2, ticks_run 20 220 sample_second.1.sched = some s2 ∧
      s2.scheduler.current_process = sample_created.2 ∧
      (s2.proc sample_created.2).state = PROCESS_RUNNING) :=
  ⟨by decide!, by decide!, by decide!, by decide!,
    each_process_current_within_220_ticks 20 20 20 20 sample_kernel sample_created.1
      sample_second.1 [] [] 0x2000 0x3000 sample_created.2 sample_second.2 (by decide)
      (by decide!) (by decide!) sample_created_eq (by decide!) sample_second_eq (by decide!)
      (by decide!)⟩

/-! ## Heap allocator: `kfree` of NULL and of an unknown address -/

/-- The list that `chain_from` returns is a NULL-terminated chain of headers,
each paired with its header record. -/
theorem seg_of_chain_from {st : MemState} :
    ∀ fuel p nodes, chain_from fuel st p = some nodes →
      Seg st.blk p (nodes.map Prod.fst) 0 ∧
      nodes = (nodes.map Prod.fst).map (fun x => (x, st.blk x)) := by
  intro fuel
  induction fuel with
  | zero => intro p nodes h; cases h
  | succ n ih =>
    intro p nodes h
    unfold chain_from at h
    by_cases hp : p = 0
    · rw [if_pos hp] at h
      cases h
      exact ⟨hp, rfl⟩
    · rw [if_neg hp] at h
      cases hc : chain_from n st (st.blk p).next with
      | none => rw [hc] at h; cases h
      | some l1 =>
        rw [hc] at h
        cases h
        obtain ⟨h1, h2⟩ := ih _ _ hc
        refine ⟨⟨rfl, hp, h1⟩, ?_⟩
        simp only [List.map_cons]
        rw [← h2]

/-- C30: `kfree(NULL)` returns the state unchanged with any fuel; and when the
free list is a NULL-terminated chain of nodes (as read by `free_list_nodes`),
`kfree(ptr)` for a `ptr` that is the payload address (`start_addr`) of no node
of the list returns, with any fuel beyond the length of the list, the state
unchanged: every node's size, flag and link, and `used_memory`. With less fuel
it does not return a different state either. -/
theorem kfree_unknown_pointer_is_noop (st : MemState) (fuel0 : Nat)
    (nodes : List (Nat × memory_block)) (ptr : Nat)
    (hl : free_list_nodes fuel0 st = some nodes)
    (hp : ∀ n ∈ nodes, n.2.start_addr ≠ ptr) :
    (∀ fuel, kfree fuel st 0 = some st) ∧
    (∀ fuel, nodes.length < fuel → kfree fuel st ptr = some st) ∧
    (∀ fuel st1, kfree fuel st ptr = some st1 → st1 = st) := by
  obtain ⟨hseg, hn⟩ := seg_of_chain_from fuel0 _ nodes hl
  have hno : ∀ x ∈ nodes.map Prod.fst, (st.blk x).start_addr ≠ ptr := by
    intro x hx
    have hm : (x, st.blk x) ∈ nodes := by
      rw [hn]
      exact List.mem_map.mpr ⟨x, hx, rfl⟩
    exact hp _ hm
  have hfull : ∀ fuel, nodes.length < fuel → kfree fuel st ptr = some st := by
    intro fuel hf
    unfold kfree
    split_ifs
    · rfl
    · exact kfree_loop_none hseg hno fuel 0 (by simpa using hf)
  refine ⟨fun fuel => by unfold kfree; rw [if_pos rfl], hfull, ?_⟩
  intro fuel st1 h
  by_cases h0 : ptr = 0
  · unfold kfree at h
    rw [if_pos h0] at h
    exact (Option.some.inj h).symm
  · unfold kfree at h
    rw [if_neg h0] at h
    have hm := kfree_loop_mono fuel _ _ _ h (nodes.length + 1)
    have hf := hfull (fuel + (nodes.length + 1)) (by omega)
    unfold kfree at hf
    rw [if_neg h0, hm] at hf
    exact Option.some.inj hf

/-- C30 on the state of scenario S1 after `b = kmalloc(200)`: the list has
three nodes with payloads `0x100010`, `0x100084`, `0x10015C`; `kfree(0x100020)`,
an address inside the first payload, and `kfree(NULL)` change nothing. -/
theorem kfree_unknown_pointer_is_noop_witness :
    free_list_nodes 10 sample_heap_b.1 =
      some [(0x100000, memory_block.mk 0x100010 100 1 0x100074),
            (0x100074, memory_block.mk 0x100084 200 1 0x10014C),
            (0x10014C, memory_block.mk 0x10015C 1048228 0 0)] ∧
    kfree 10 sample_heap_b.1 0 = some sample_heap_b.1 ∧
    kfree 10 sample_heap_b.1 0x100020 = some sample_heap_b.1 :=
  ⟨by decide!,
   (kfree_unknown_pointer_is_noop sample_heap_b.1 10 _ 0x100020
      (show free_list_nodes 10 sample_heap_b.1 =
        some [(0x100000, memory_block.mk 0x100010 100 1 0x100074),
              (0x100074, memory_block.mk 0x100084 200 1 0x10014C),
              (0x10014C, memory_block.mk 0x10015C 1048228 0 0)] by decide!)
      (by decide)).1 10,
   (kfree_unknown_pointer_is_noop sample_heap_b.1 10 _ 0x100020
      (show free_list_nodes 10 sample_heap_b.1 =
        some [(0x100000, memory_block.mk 0x100010 100 1 0x100074),
              (0x100074, memory_block.mk 0x100084 200 1 0x10014C),
              (0x10014C, memory_block.mk 0x10015C 1048228 0 0)] by decide!)
      (by decide)).2.1 10 (by decide)⟩

/-! ## Processes: the initial kernel stack frame -/

/-- C29 (the code breaks the claim): after `process_create("", 0x2000,
PRIORITY_NORMAL)` on `sample_world` the saved `esp` is `stack_top - 44`, and the
eleven words from there upward are eight zeros, then `0x10` in the CS slot,
then `0x202`, then the entry point `0x2000`: the CS slot holds `0x10`, not the
kernel code segment selector `0x08` (the selector that `set_idt_gate` writes). -/
theorem initial_frame_has_wrong_code_selector :
    sample_created.2 ≠ 0 ∧
    (sample_created.1.sched.proc sample_created.2).esp + 44 =
      (sample_created.1.sched.proc sample_created.2).stack_top ∧
    frame_words sample_created.1.ram (sample_created.1.sched.proc sample_created.2).esp =
      [0, 0, 0, 0, 0, 0, 0, 0, 0x10, 0x202, 0x2000] ∧
    sample_created.1.ram ((sample_created.1.sched.proc sample_created.2).esp + 32) ≠ 0x08 ∧
    (set_idt_gate (Kernel.initial 0) 0x80 0x2000).idt 0x80 =
      idt_entry_t.mk 0x2000 0x08 0 0x8E 0 := by
  refine ⟨?_, ?_, ?_, ?_, ?_⟩ <;> decide!

/-! ## Interrupt core: exceptions, IRQs and the descriptor table -/

/-- C21 (counterexample): with a handler installed for vector 14 by
`set_interrupt_handler`, `common_interrupt_handler` on a context with
`int_no = 14` returns without calling it: the trace stays empty and `cr3`,
which the handler would set to 1, stays 0. -/
theorem exception_handler_is_not_called :
    (sample_exception_kernel.interrupt_handlers 14).isSome = true ∧
    (common_interrupt_handler sample_exception_kernel (context_of 14 0 0 0 0)
      (context_of 0 0 0 0 0)).map (fun r => (r.1.trace, r.1.rest.cr3)) = some ([], 0) := by
  constructor <;> decide!

/-- C21 (amended): for every interrupt context with `int_no` in `[0, 32)`,
`common_interrupt_handler` returns with the whole state unchanged: no handler
is called, whatever is installed for the vector, and no EOI is sent. -/
theorem exception_dispatch_does_nothing {σ : Type} (st : IntState σ)
    (context stale : interrupt_context_t) (h : context.int_no < 32) :
    common_interrupt_handler st context stale = some (st, context) := by
  unfold common_interrupt_handler
  have h1 : ¬ (context.int_no ≥ IRQ0 ∧ context.int_no < IRQ0 + 16) := by
    unfold IRQ0; omega
  simp only [h1, if_false, h, if_true]

/-- C21 (amended) on `sample_exception_kernel` and vector 14. -/
theorem exception_dispatch_does_nothing_witness :
    (context_of 14 0 0 0 0).int_no < 32 ∧
    common_interrupt_handler sample_exception_kernel (context_of 14 0 0 0 0)
      (context_of 0 0 0 0 0) = some (sample_exception_kernel, context_of 14 0 0 0 0) :=
  ⟨by decide, exception_dispatch_does_nothing sample_exception_kernel (context_of 14 0 0 0 0)
    (context_of 0 0 0 0 0) (by decide)⟩

theorem pic_send_eoi_trace {σ : Type} (st : IntState σ) (irq : Nat) :
    (pic_send_eoi st irq).trace = st.trace ++ eoi_events irq ∧
    (pic_send_eoi st irq).rest = st.rest ∧
    (pic_send_eoi st irq).irq_handlers = st.irq_handlers ∧
    (pic_send_eoi st irq).interrupt_handlers = st.interrupt_handlers := by
  unfold pic_send_eoi eoi_events
  by_cases h : irq ≥ 8
  · simp [h, outb]
  · simp [h, outb]

/-- C22: for every interrupt context with `int_no` in `[32, 48)`, with
`irq = int_no - 32`: when no handler is installed for the line,
`common_interrupt_handler` calls nothing and sends one EOI; when a handler is
installed and returns, that handler is called once (the only call in the
trace) and then one EOI is sent; when it does not return, neither does
`common_interrupt_handler`; when the installed handler is the cast
`syscall_handler`, it is the one called, and the EOI follows. One EOI is a
write of `0x20` to port `0xA0` exactly when `irq ≥ 8`, followed by a write of
`0x20` to port `0x20`. -/
theorem irq_dispatch_then_eoi {σ : Type} (st : IntState σ)
    (context stale : interrupt_context_t)
    (h : IRQ0 ≤ context.int_no ∧ context.int_no < IRQ0 + 16) :
    (st.irq_handlers (context.int_no - IRQ0) = none →
      ∃ st1, common_interrupt_handler st context stale = some (st1, context) ∧
        st1.trace = st.trace ++ eoi_events (context.int_no - IRQ0) ∧ st1.rest = st.rest) ∧
    (∀ id run w, st.irq_handlers (context.int_no - IRQ0) =
        some (interrupt_handler_t.routine id run) → run st.rest = some w →
      ∃ st1, common_interrupt_handler st context stale = some (st1, context) ∧
        st1.trace = st.trace ++ [Event.call_handler id] ++ eoi_events (context.int_no - IRQ0) ∧
        st1.rest = w) ∧
    (∀ id run, st.irq_handlers (context.int_no - IRQ0) =
        some (interrupt_handler_t.routine id run) → run st.rest = none →
      common_interrupt_handler st context stale = none) ∧
    (st.irq_handlers (context.int_no - IRQ0) = some interrupt_handler_t.syscall_handler_cast →
      ∃ st1, common_interrupt_handler st context stale = some (st1, context) ∧
        st1.trace = (syscall_handler st stale).2.trace ++ eoi_events (context.int_no - IRQ0) ∧
        st1.rest = (syscall_handler st stale).2.rest) ∧
    eoi_events (context.int_no - IRQ0) =
      (if context.int_no - IRQ0 ≥ 8 then [Event.outb 0x20 0xA0] else []) ++
        [Event.outb 0x20 0x20] := by
  have hc : context.int_no ≥ IRQ0 ∧ context.int_no < IRQ0 + 16 := h
  refine ⟨?_, ?_, ?_, ?_, rfl⟩
  · intro hn
    refine ⟨pic_send_eoi st (context.int_no - IRQ0), ?_, (pic_send_eoi_trace _ _).1,
      (pic_send_eoi_trace _ _).2.1⟩
    unfold common_interrupt_handler
    simp only [hc, and_self, if_true, hn, Option.map_some']
  · intro id run w hi hr
    refine ⟨pic_send_eoi { st with rest := w, trace := st.trace ++ [Event.call_handler id] }
      (context.int_no - IRQ0), ?_, (pic_send_eoi_trace _ _).1, (pic_send_eoi_trace _ _).2.1⟩
    unfold common_interrupt_handler
    simp only [hc, and_self, if_true, hi, call_interrupt_handler, hr, Option.map_some']
  · intro id run hi hr
    unfold common_interrupt_handler
    simp only [hc, and_self, if_true, hi, call_interrupt_handler, hr, Option.map_none']
  · intro hi
    refine ⟨pic_send_eoi (syscall_handler st stale).2 (context.int_no - IRQ0), ?_,
      (pic_send_eoi_trace _ _).1, (pic_send_eoi_trace _ _).2.1⟩
    unfold common_interrupt_handler
    simp only [hc, and_self, if_true, hi, call_interrupt_handler, Option.map_some']

/-- C22 on `sample_irq_kernel`: vector 41 (line 9, handler installed) gives the
trace `call_handler 9`, `outb 0x20, 0xA0`, `outb 0x20, 0x20` and runs the
handler; vector 33 (line 1, no handler) gives the single write to port `0x20`. -/
theorem irq_dispatch_then_eoi_witness :
    (∃ st1, common_interrupt_handler sample_irq_kernel (context_of 41 0 0 0 0)
        (context_of 0 0 0 0 0) = some (st1, context_of 41 0 0 0 0) ∧
      st1.trace = [Event.call_handler 9, Event.outb 0x20 0xA0, Event.outb 0x20 0x20] ∧
      st1.rest.cr3 = 1) ∧
    (∃ st1, common_interrupt_handler sample_irq_kernel (context_of 33 0 0 0 0)
        (context_of 0 0 0 0 0) = some (st1, context_of 33 0 0 0 0) ∧
      st1.trace = [Event.outb 0x20 0x20]) := by
  have t1 := irq_dispatch_then_eoi sample_irq_kernel (context_of 41 0 0 0 0)
    (context_of 0 0 0 0 0) (by decide)
  have t2 := irq_dispatch_then_eoi sample_irq_kernel (context_of 33 0 0 0 0)
    (context_of 0 0 0 0 0) (by decide)
  constructor
  · obtain ⟨st1, e1, tr1, r1⟩ := t1.2.1 9 (fun w => some { w with cr3 := 1 })
      { World.initial with cr3 := 1 } rfl rfl
    exact ⟨st1, e1, by rw [tr1]; rfl, by rw [r1]⟩
  · obtain ⟨st1, e1, tr1, _⟩ := t2.1 rfl
    exact ⟨st1, e1, by rw [tr1]; rfl⟩

theorem split_offset (h : Nat) (hh : h < 2 ^ 32) :
    Nat.lor (Nat.land h 0xFFFF) (Nat.land (h >>> 16) 0xFFFF <<< 16) = h := by
  show (h &&& 0xFFFF) ||| ((h >>> 16 &&& 0xFFFF) <<< 16) = h
  have e : (0xFFFF : Nat) = 2 ^ 16 - 1 := by decide
  rw [e]
  apply Nat.eq_of_testBit_eq
  intro i
  rw [Nat.testBit_or, Nat.testBit_and, Nat.testBit_shiftLeft, Nat.testBit_and,
    Nat.testBit_shiftRight, Nat.testBit_two_pow_sub_one, Nat.testBit_two_pow_sub_one]
  by_cases hi : i < 16
  · have : ¬ (16 ≤ i) := by omega
    simp [hi, this]
  · have h16 : 16 ≤ i := by omega
    have e2 : 16 + (i - 16) = i := by omega
    simp only [hi, decide_False, Bool.and_false, ge_iff_le, h16, decide_True, e2, Bool.true_and,
      Bool.false_or]
    by_cases h32 : i < 32
    · have : i - 16 < 16 := by omega
      simp [this]
    · have : h.testBit i = false :=
        Nat.testBit_lt_two_pow (lt_of_lt_of_le hh (Nat.pow_le_pow_right (by decide) (by omega)))
      simp [this]

/-- C23 (counterexample): when `interrupt_init` returns on the entry state,
the IDT descriptor of vector 0x80 is all zero, so its type byte is not `0x8E`
and its selector is not `0x08`, although vector 0x80 has a handler in the
handler table. -/
theorem interrupt_init_writes_no_gate :
    (interrupt_init (Kernel.initial 0)).idt 0x80 = idt_entry_t.mk 0 0 0 0 0 ∧
    ((interrupt_init (Kernel.initial 0)).idt 0x80).flags ≠ 0x8E ∧
    ((interrupt_init (Kernel.initial 0)).idt 0x80).selector ≠ 0x08 ∧
    ((interrupt_init (Kernel.initial 0)).interrupt_handlers 0x80).isSome = true := by
  refine ⟨?_, ?_, ?_, ?_⟩ <;> decide!

/-- C23 (amended): when `interrupt_init` returns, every IDT descriptor is zero
(no gate is written), vector 0x80 is registered in the handler table as
`syscall_handler`, and the IDTR holds limit `sizeof(idt) - 1` and base `&idt`;
a descriptor written by `set_idt_gate(num, handler)`, for a 32-bit `handler`,
carries type byte `0x8E`, selector `0x08`, a zero byte 0, and
`offset_low | (offset_high << 16)` equal to `handler`, and no other descriptor
changes. -/
theorem interrupt_init_leaves_idt_zero {σ : Type} (st : IntState σ) (num handler : Nat)
    (hh : handler < 2 ^ 32) :
    (∀ n, (interrupt_init st).idt n = idt_entry_t.mk 0 0 0 0 0) ∧
    (interrupt_init st).interrupt_handlers 0x80 =
      some interrupt_handler_t.syscall_handler_cast ∧
    (interrupt_init st).idtr = idtr_t.mk (sizeof_idt - 1) st.idt_addr ∧
    ((set_idt_gate st num handler).idt (num % 256)).flags = 0x8E ∧
    ((set_idt_gate st num handler).idt (num % 256)).selector = 0x08 ∧
    ((set_idt_gate st num handler).idt (num % 256)).zero = 0 ∧
    Nat.lor ((set_idt_gate st num handler).idt (num % 256)).offset_low
      (((set_idt_gate st num handler).idt (num % 256)).offset_high <<< 16) = handler ∧
    (∀ n, n ≠ num % 256 → (set_idt_gate st num handler).idt n = st.idt n) := by
  refine ⟨fun n => rfl, ?_, rfl, ?_, ?_, ?_, ?_, ?_⟩
  · simp [interrupt_init, syscall_init, set_interrupt_handler, pic_init, outb]
  · simp [set_idt_gate]
  · simp [set_idt_gate]
  · simp [set_idt_gate]
  · simp only [set_idt_gate, Function.update_same]
    exact split_offset handler hh
  · intro n hn
    simp [set_idt_gate, Function.update_noteq hn]

/-- C23 (amended) on the entry state, with the gate of vector 0x80 set to the
address `0x00123456`. -/
theorem interrupt_init_leaves_idt_zero_witness :
    (0x00123456 : Nat) < 2 ^ 32 ∧
    (∀ n, (interrupt_init (Kernel.initial 0)).idt n = idt_entry_t.mk 0 0 0 0 0) ∧
    (set_idt_gate (Kernel.initial 0) 0x80 0x00123456).idt 0x80 =
      idt_entry_t.mk 0x3456 0x08 0 0x8E 0x12 ∧
    Nat.lor ((set_idt_gate (Kernel.initial 0) 0x80 0x00123456).idt (0x80 % 256)).offset_low
      (((set_idt_gate (Kernel.initial 0) 0x80 0x00123456).idt (0x80 % 256)).offset_high <<< 16)
      = 0x00123456 :=
  ⟨by decide,
   (interrupt_init_leaves_idt_zero (Kernel.initial 0) 0x80 0x00123456 (by decide)).1,
   by decide!,
   (interrupt_init_leaves_idt_zero (Kernel.initial 0) 0x80 0x00123456
     (by decide)).2.2.2.2.2.2.1⟩

/-! ## Scheduler: demotion and the fields that queue operations leave alone -/

theorem set_state_priority (s : SchedState) (p q : Nat) (v : process_state_t) :
    ((s.set_state p v).proc q).priority = (s.proc q).priority := by
  unfold SchedState.set_state
  by_cases h : q = p <;> simp [Function.update, h]

theorem set_time_slice_priority (s : SchedState) (p q v : Nat) :
    ((s.set_time_slice p v).proc q).priority = (s.proc q).priority := by
  unfold SchedState.set_time_slice
  by_cases h : q = p <;> simp [Function.update, h]

theorem set_priority_priority (s : SchedState) (p q v : Nat) :
    ((s.set_priority p v).proc q).priority = if q = p then v else (s.proc q).priority := by
  unfold SchedState.set_priority
  by_cases h : q = p <;> simp [Function.update, h]

theorem round_robin_priority (s : SchedState) (x : Nat) :
    ((scheduler_round_robin s).proc x).priority = (s.proc x).priority ∧
    ((scheduler_round_robin s).proc x).time_slice = (s.proc x).time_slice := by
  unfold scheduler_round_robin
  by_cases h : s.scheduler.ready_queue = 0
  · rw [if_pos h]; exact ⟨rfl, rfl⟩
  · simp only [h, if_false, SchedState.set_current_process, ne_eq, not_true_eq_false]
    split_ifs <;> simp [set_state_priority, set_state_time_slice]

/-- What `scheduler_schedule` does to priorities and slices: nothing on an empty
ready queue; a decrement of the head's slice while it is positive; otherwise
the demotion of the head by one level, not below `PRIORITY_LOW`, and the reset
of its slice to the quantum. -/
theorem schedule_fields (s : SchedState) (x : Nat) :
    ((scheduler_schedule s).proc x).priority =
      (if s.scheduler.ready_queue ≠ 0 ∧ x = s.scheduler.ready_queue ∧
          (s.proc x).time_slice = 0 then
        max ((s.proc x).priority - 1) PRIORITY_LOW else (s.proc x).priority) ∧
    ((scheduler_schedule s).proc x).time_slice =
      (if s.scheduler.ready_queue ≠ 0 ∧ x = s.scheduler.ready_queue then
        (if (s.proc x).time_slice = 0 then s.scheduler.time_quantum
         else (s.proc x).time_slice - 1)
       else (s.proc x).time_slice) := by
  unfold scheduler_schedule scheduler_multilevel_feedback
  by_cases h0 : s.scheduler.ready_queue = 0
  · simp [h0]
  · simp only [h0, if_false, ne_eq, not_false_eq_true, true_and]
    by_cases hk : (s.proc s.scheduler.ready_queue).time_slice > 0
    · rw [if_pos hk]
      rw [set_time_slice_priority, set_time_slice_time_slice]
      by_cases hx : x = s.scheduler.ready_queue
      · subst hx
        have : ¬ (s.proc s.scheduler.ready_queue).time_slice = 0 := by omega
        simp [this]
      · simp [hx]
    · rw [if_neg hk]
      have hz : (s.proc s.scheduler.ready_queue).time_slice = 0 := by omega
      rw [(round_robin_priority _ x).1, (round_robin_priority _ x).2, set_time_slice_priority,
        set_time_slice_time_slice]
      by_cases hx : x = s.scheduler.ready_queue
      · subst hx
        simp only [hz, and_self, if_true]
        constructor
        · by_cases hp : (s.proc s.scheduler.ready_queue).priority > PRIORITY_LOW
          · rw [if_pos hp, set_priority_priority, if_pos rfl]
            unfold PRIORITY_LOW
            omega
          · rw [if_neg hp]
            unfold PRIORITY_LOW at hp ⊢
            omega
        · split_ifs <;> rfl
      · simp only [hx, false_and, if_false]
        constructor
        · split_ifs
          · rw [set_priority_priority, if_neg hx]
          · rfl
        · split_ifs
          · rw [set_priority_time_slice]
          · rfl

theorem schedule_priority_le (s : SchedState) (x : Nat) :
    ((scheduler_schedule s).proc x).priority ≤ (s.proc x).priority := by
  rw [(schedule_fields s x).1]
  split_ifs
  · unfold PRIORITY_LOW; omega
  · exact le_refl _

theorem add_loop_unlinked (fuel : Nat) :
    ∀ (s s1 : SchedState) (p c : Nat), scheduler_add_loop fuel s p c = some s1 →
      ∀ q, unlinked (s1.proc q) = unlinked (s.proc q) := by
  induction fuel with
  | zero => intro s s1 p c h; cases h
  | succ n ih =>
    intro s s1 p c h q
    unfold scheduler_add_loop at h
    by_cases h1 : (s.proc p).priority > (s.proc c).priority
    · rw [if_pos h1] at h
      have e := Option.some.inj h
      rw [← e]
      split_ifs <;> simp
    · rw [if_neg h1] at h
      dsimp only at h
      by_cases h2 : (s.proc c).next ≠ s.scheduler.ready_queue
      · rw [if_pos h2] at h
        exact ih _ _ _ _ h q
      · rw [if_neg h2] at h
        have e := Option.some.inj h
        rw [← e]
        simp

/-- The function `scheduler_add_process` writes link fields and the
ready-queue head only. -/
theorem add_process_unlinked (fuel : Nat) (s s1 : SchedState) (p : Nat)
    (h : scheduler_add_process fuel s p = some s1) :
    ∀ q, unlinked (s1.proc q) = unlinked (s.proc q) := by
  intro q
  unfold scheduler_add_process at h
  split_ifs at h with h1 h2
  · cases h; rfl
  · cases h; simp
  · exact add_loop_unlinked fuel _ _ _ _ h q

/-- The sleeping-queue walk of `timer_handler` changes no priority and no
`time_slice`. -/
theorem timer_walk_fields (afuel : Nat) :
    ∀ (fuel : Nat) (s s1 : SchedState) (cur : Nat), timer_walk afuel fuel s cur = some s1 →
      ∀ q, (s1.proc q).priority = (s.proc q).priority ∧
        (s1.proc q).time_slice = (s.proc q).time_slice := by
  intro fuel
  induction fuel with
  | zero => intro s s1 cur h; cases h
  | succ n ih =>
    intro s s1 cur h q
    unfold timer_walk at h
    by_cases h0 : cur = 0
    · rw [if_pos h0] at h
      cases h
      exact ⟨rfl, rfl⟩
    · rw [if_neg h0] at h
      dsimp only at h
      by_cases hd : (s.proc cur).time_slice ≤ s.timer_ticks
      · rw [if_pos hd] at h
        cases ha : scheduler_add_process afuel
            ((scheduler_remove_process s cur).set_state cur PROCESS_READY) cur with
        | none => rw [ha] at h; cases h
        | some s2 =>
          rw [ha] at h
          dsimp only at h
          have f2 : (s2.proc q).priority = (s.proc q).priority ∧
              (s2.proc q).time_slice = (s.proc q).time_slice := by
            obtain ⟨e1, e2⟩ := unlinked_fields (add_process_unlinked afuel _ s2 cur ha q)
            obtain ⟨e3, e4⟩ := unlinked_fields (remove_unlinked s cur q)
            rw [e1, e2, set_state_priority, set_state_time_slice, e3, e4]
            exact ⟨rfl, rfl⟩
          split_ifs at h
          · cases h; exact f2
          · obtain ⟨e5, e6⟩ := ih _ _ _ h q
            rw [e5, e6]
            exact f2
      · rw [if_neg hd] at h
        dsimp only at h
        split_ifs at h
        · cases h; exact ⟨rfl, rfl⟩
        · exact ih _ _ _ h q

theorem yield_priority_le (s : SchedState) (x : Nat) :
    ((scheduler_yield s).proc x).priority ≤ (s.proc x).priority := by
  unfold scheduler_yield
  split_ifs
  · refine le_trans (schedule_priority_le _ x) ?_
    rw [set_state_priority]
  · exact le_refl _

theorem timer_handler_priority_le (fuel : Nat) (s s1 : SchedState)
    (h : timer_handler fuel s = some s1) (x : Nat) :
    (s1.proc x).priority ≤ (s.proc x).priority := by
  unfold timer_handler at h
  dsimp only at h
  rw [(timer_walk_fields fuel fuel _ s1 _ h x).1]
  split_ifs
  · exact schedule_priority_le { s with timer_ticks := u32 (s.timer_ticks + 1) } x
  · exact le_refl _

theorem process_block_priority (s : SchedState) (p x : Nat) :
    ((process_block s p).proc x).priority = (s.proc x).priority := by
  unfold process_block
  by_cases hp : p = 0
  · rw [if_pos hp]
  · rw [if_neg hp]
    dsimp only
    have hb : ∀ t : SchedState, (t.proc x).priority = (unlinked (t.proc x)).priority :=
      fun _ => rfl
    have e0 : (unlinked (((scheduler_remove_process s p).set_state p PROCESS_BLOCKED).proc x)).priority
        = (s.proc x).priority := by
      show (((scheduler_remove_process s p).set_state p PROCESS_BLOCKED).proc x).priority = _
      rw [set_state_priority, (unlinked_fields (remove_unlinked s p x)).1]
    split_ifs
    · rw [hb, set_prev_unlinked, set_next_unlinked, set_blocked_queue_proc, e0]
    · rw [hb, link_before_unlinked, e0]

theorem process_unblock_priority (fuel : Nat) (s s1 : SchedState) (p : Nat)
    (h : process_unblock fuel s p = some s1) (x : Nat) :
    (s1.proc x).priority = (s.proc x).priority := by
  unfold process_unblock at h
  split_ifs at h
  · cases h; rfl
  · rw [(unlinked_fields (add_process_unlinked fuel _ s1 p h x)).1, set_state_priority,
      (unlinked_fields (remove_unlinked s p x)).1]

theorem schedule_times_add (a b : Nat) (s : SchedState) :
    schedule_times (a + b) s = schedule_times b (schedule_times a s) := by
  induction a generalizing s with
  | zero => simp [schedule_times]
  | succ n ih =>
    rw [show n + 1 + b = (n + b) + 1 by omega]
    exact ih (scheduler_schedule s)

theorem schedule_times_priority_le (n : Nat) : ∀ (s : SchedState) (x : Nat),
    ((schedule_times n s).proc x).priority ≤ (s.proc x).priority := by
  induction n with
  | zero => intro s x; exact le_refl _
  | succ n ih =>
    intro s x
    exact le_trans (ih (scheduler_schedule s) x) (schedule_priority_le s x)

theorem schedule_scheduler_quantum (s : SchedState) :
    (scheduler_schedule s).scheduler.time_quantum = s.scheduler.time_quantum := by
  unfold scheduler_schedule scheduler_multilevel_feedback
  by_cases h0 : s.scheduler.ready_queue = 0
  · simp [h0]
  · simp only [h0, if_false]
    split_ifs
    · rfl
    · rw [(round_robin_fields _ (by simpa using h0)).1]
      rfl
    · rw [(round_robin_fields _ (by simpa using h0)).1]
      rfl

/-- One `scheduler_schedule` call on a ready queue that holds `p` alone. -/
theorem one_ready_step {s : SchedState} {p k pr : Nat} (h : OneReady s p k pr) :
    OneReady (scheduler_schedule s) p (if k = 0 then 10 else k - 1)
      (if k = 0 then pr - 1 else pr) := by
  obtain ⟨h0, hq, hn, hk, hpr, hqu⟩ := h
  have hq0 : s.scheduler.ready_queue ≠ 0 := by rw [hq]; exact h0
  obtain ⟨f1, f2⟩ := schedule_fields s p
  have c1 : s.scheduler.ready_queue ≠ 0 ∧ p = s.scheduler.ready_queue := ⟨hq0, hq.symm⟩
  refine ⟨h0, ?_, ?_, ?_, ?_, ?_⟩
  · -- the head
    unfold scheduler_schedule scheduler_multilevel_feedback
    simp only [hq0, if_false]
    split_ifs
    · exact hq
    · rw [(round_robin_fields _ (by simpa using hq0)).1]
      show ((_ : SchedState).proc _).next = p
      simp only [set_time_slice_next, set_priority_next, set_time_slice_scheduler,
        set_priority_scheduler, hq, hn]
    · rw [(round_robin_fields _ (by simpa using hq0)).1]
      show ((_ : SchedState).proc _).next = p
      simp only [set_time_slice_next, set_time_slice_scheduler, hq, hn]
  · -- the link
    unfold scheduler_schedule scheduler_multilevel_feedback
    simp only [hq0, if_false]
    split_ifs
    · rw [set_time_slice_next]; exact hn
    · rw [((round_robin_fields _ (by simpa using hq0)).2.2.2 p).1]
      simp only [set_time_slice_next, set_priority_next, hn]
    · rw [((round_robin_fields _ (by simpa using hq0)).2.2.2 p).1]
      simp only [set_time_slice_next, hn]
  · rw [f2, if_pos c1, hk, hqu]
  · rw [f1, hk, hpr]
    by_cases hz : k = 0
    · rw [if_pos ⟨hq0, hq.symm, hz⟩, if_pos hz]
      unfold PRIORITY_LOW; omega
    · rw [if_neg (fun hc => hz hc.2.2), if_neg hz]
  · rw [schedule_scheduler_quantum, hqu]

/-- The calls that use up a slice of `k`: the priority stays, the slice is 0. -/
theorem one_ready_run {p pr : Nat} : ∀ (k : Nat) (s : SchedState), OneReady s p k pr →
    OneReady (schedule_times k s) p 0 pr := by
  intro k
  induction k with
  | zero => intro s h; exact h
  | succ n ih =>
    intro s h
    have h1 := one_ready_step h
    rw [if_neg (by omega), if_neg (by omega)] at h1
    exact ih _ h1

/-- Eleven calls from a full slice: one exhausted slice, one demotion. -/
theorem one_ready_turn {s : SchedState} {p pr : Nat} (h : OneReady s p 10 pr) :
    OneReady (schedule_times 11 s) p 10 (pr - 1) := by
  have h1 := one_ready_run 10 s h
  have h2 := one_ready_step h1
  rw [if_pos rfl, if_pos rfl] at h2
  have e : schedule_times 11 s = scheduler_schedule (schedule_times 10 s) := by
    have := schedule_times_add 10 1 s
    exact this
  rw [e]
  exact h2

/-- C26: when `scheduler_schedule` finds the slice of the ready-queue head `p`
exhausted, the priority of `p` becomes `max(priority - 1, LOW)` and its
`time_slice` is reset to the quantum 10, and otherwise it changes no priority;
no call of `scheduler_schedule`, `scheduler_yield`, `timer_handler`,
`process_block` or `process_unblock` raises the priority of any process; and a
process at `PRIORITY_HIGH` with a full slice that is alone in the ready queue
has priority `PRIORITY_NORMAL` after the first exhausted slice (call 11) and
`PRIORITY_LOW` after the second (call 22), hence after at most 3, and keeps
`PRIORITY_LOW` on every later call. -/
theorem mlfq_demotion (s : SchedState) (p : Nat) (hp : p ≠ 0)
    (hr : s.scheduler.ready_queue = p) (hq : s.scheduler.time_quantum = 10) :
    ((s.proc p).time_slice = 0 →
      ((scheduler_schedule s).proc p).priority = max ((s.proc p).priority - 1) PRIORITY_LOW ∧
      ((scheduler_schedule s).proc p).time_slice = 10) ∧
    (∀ x, x ≠ p ∨ (s.proc p).time_slice ≠ 0 →
      ((scheduler_schedule s).proc x).priority = (s.proc x).priority) ∧
    (∀ (t : SchedState) (x : Nat),
      ((scheduler_schedule t).proc x).priority ≤ (t.proc x).priority ∧
      ((scheduler_yield t).proc x).priority ≤ (t.proc x).priority) ∧
    (∀ (t : SchedState) (q x : Nat),
      ((process_block t q).proc x).priority = (t.proc x).priority) ∧
    (∀ (fuel : Nat) (t t1 : SchedState) (x : Nat), timer_handler fuel t = some t1 →
      (t1.proc x).priority ≤ (t.proc x).priority) ∧
    (∀ (fuel : Nat) (t t1 : SchedState) (q x : Nat), process_unblock fuel t q = some t1 →
      (t1.proc x).priority = (t.proc x).priority) ∧
    ((s.proc p).next = p → (s.proc p).priority = PRIORITY_HIGH → (s.proc p).time_slice = 10 →
      ((schedule_times 11 s).proc p).priority = PRIORITY_NORMAL ∧
      ((schedule_times 22 s).proc p).priority = PRIORITY_LOW ∧
      ∀ n, 22 ≤ n → ((schedule_times n s).proc p).priority = PRIORITY_LOW) := by
  have hq0 : s.scheduler.ready_queue ≠ 0 := by rw [hr]; exact hp
  refine ⟨?_, ?_, fun t x => ⟨schedule_priority_le t x, yield_priority_le t x⟩,
    fun t q x => process_block_priority t q x,
    fun fuel t t1 x h => timer_handler_priority_le fuel t t1 h x,
    fun fuel t t1 q x h => process_unblock_priority fuel t t1 q h x, ?_⟩
  · intro hz
    obtain ⟨f1, f2⟩ := schedule_fields s p
    rw [f1, f2, if_pos ⟨hq0, hr.symm, hz⟩, if_pos ⟨hq0, hr.symm⟩, if_pos hz]
    exact ⟨rfl, hq⟩
  · intro x hx
    rw [(schedule_fields s x).1]
    rw [if_neg]
    rintro ⟨_, h2, h3⟩
    rw [hr] at h2
    rcases hx with hx | hx
    · exact hx h2
    · rw [h2] at h3; exact hx h3
  · intro hn hpr hk
    have h0 : OneReady s p 10 PRIORITY_HIGH := ⟨hp, hr, hn, hk, hpr, hq⟩
    have h1 := one_ready_turn h0
    have h2 := one_ready_turn h1
    have e22 : schedule_times 22 s = schedule_times 11 (schedule_times 11 s) :=
      schedule_times_add 11 11 s
    rw [← e22] at h2
    have p22 : ((schedule_times 22 s).proc p).priority = PRIORITY_LOW := h2.2.2.2.2.1
    refine ⟨h1.2.2.2.2.1, p22, ?_⟩
    intro n hn2
    have e : schedule_times n s = schedule_times (n - 22) (schedule_times 22 s) := by
      have := schedule_times_add 22 (n - 22) s
      rw [show 22 + (n - 22) = n by omega] at this
      exact this
    have hle := schedule_times_priority_le (n - 22) (schedule_times 22 s) p
    rw [← e, p22] at hle
    unfold PRIORITY_LOW at hle ⊢
    omega

/-- C26 on the machine after `scheduler_init` and one `process_create` at
`PRIORITY_HIGH`: the process is alone in the ready queue with a full slice. -/
theorem mlfq_demotion_witness :
    sample_high.2 ≠ 0 ∧ sample_high.1.sched.scheduler.ready_queue = sample_high.2 ∧
    sample_high.1.sched.scheduler.time_quantum = 10 ∧
    (sample_high.1.sched.proc sample_high.2).priority = PRIORITY_HIGH ∧
    ((schedule_times 11 sample_high.1.sched).proc sample_high.2).priority = PRIORITY_NORMAL ∧
    ((schedule_times 22 sample_high.1.sched).proc sample_high.2).priority = PRIORITY_LOW ∧
    (∀ n, 22 ≤ n →
      ((schedule_times n sample_high.1.sched).proc sample_high.2).priority = PRIORITY_LOW) :=
  ⟨by decide!, by decide!, by decide!, by decide!,
    (mlfq_demotion sample_high.1.sched sample_high.2 (by decide!) (by decide!)
      (by decide!)).2.2.2.2.2.2 (by decide!) (by decide!) (by decide!)⟩

/-! ## Scheduler: insertion by priority -/

theorem add_loop_total (s : SchedState) (p : Nat) (lb ls : List Nat) :
    ∀ (post pre : List Nat) (c fuel : Nat), Queues s (pre ++ c :: post) lb ls →
      post.length < fuel → ∃ s1, scheduler_add_loop fuel s p c = some s1 := by
  intro post
  induction post with
  | nil =>
    intro pre c fuel hq hf
    obtain ⟨⟨hcr, hhr⟩, _⟩ := hq
    cases fuel with
    | zero => cases hf
    | succ n =>
      unfold scheduler_add_loop
      by_cases hprio : (s.proc p).priority > (s.proc c).priority
      · rw [if_pos hprio]; exact ⟨_, rfl⟩
      · rw [if_neg hprio]
        have hrot : Cyc s.proc (c :: ([] ++ pre)) := by
          simpa using cyc_rotate s.proc pre [c] hcr
        have hnr : (s.proc c).next = s.scheduler.ready_queue := by
          rw [cyc_next_head hrot, hhr]; cases pre <;> simp
        dsimp only
        rw [if_neg (not_not.mpr hnr)]
        exact ⟨_, rfl⟩
  | cons d post ih =>
    intro pre c fuel hq hf
    have hq2 := hq
    obtain ⟨⟨hcr, hhr⟩, _⟩ := hq2
    cases fuel with
    | zero => cases hf
    | succ n =>
      unfold scheduler_add_loop
      by_cases hprio : (s.proc p).priority > (s.proc c).priority
      · rw [if_pos hprio]; exact ⟨_, rfl⟩
      · rw [if_neg hprio]
        have hrot : Cyc s.proc (c :: (d :: post ++ pre)) := by
          simpa using cyc_rotate s.proc pre (c :: d :: post) hcr
        have hnd : (s.proc c).next = d := by
          rw [cyc_next_head hrot]; simp
        have hdr : d ≠ s.scheduler.ready_queue := by
          rw [hhr]
          have hnd2 := hcr.1
          cases pre with
          | nil => simp at hnd2 ⊢; tauto
          | cons x pre => simp at hnd2 ⊢; tauto
        dsimp only
        rw [hnd, if_pos hdr]
        exact ih (pre ++ [c]) d n (by simpa using hq) (by simpa using hf)

/-- With fuel at least the length of the ready queue `scheduler_add_process`
returns. -/
theorem add_process_total (fuel : Nat) (s : SchedState) (p : Nat) (lr lb ls : List Nat)
    (hq : Queues s lr lb ls) (hf : lr.length ≤ fuel) :
    ∃ s1, scheduler_add_process fuel s p = some s1 := by
  unfold scheduler_add_process
  by_cases hp0 : p = 0
  · rw [if_pos hp0]; exact ⟨_, rfl⟩
  · rw [if_neg hp0]
    by_cases hr : s.scheduler.ready_queue = 0
    · rw [if_pos hr]; exact ⟨_, rfl⟩
    · rw [if_neg hr]
      cases lr with
      | nil => exact absurd ((isQueue_head_zero hq.1).mpr rfl) hr
      | cons c post =>
        have hh : s.scheduler.ready_queue = c := by simpa using hq.1.2
        rw [hh]
        exact add_loop_total s p lb ls post [] c fuel (by simpa using hq) (by simpa using hf)

/-- The insertion rule as a cut of the sequence: `p` goes between a front part
whose priorities are all at least its own and a rest that is empty or starts
with a process of strictly lower priority. -/
theorem insert_by_priority_split (proc : Nat → process) (p : Nat) (l : List Nat) :
    ∃ pre post, l = pre ++ post ∧ insert_by_priority proc p l = pre ++ p :: post ∧
      (∀ x ∈ pre, (proc x).priority ≥ (proc p).priority) ∧
      (∀ y ∈ post.head?, (proc y).priority < (proc p).priority) := by
  induction l with
  | nil => exact ⟨[], [], rfl, rfl, by simp, by simp⟩
  | cons a t ih =>
    by_cases h : (proc p).priority > (proc a).priority
    · refine ⟨[], a :: t, rfl, ?_, by simp, ?_⟩
      · simp [insert_by_priority, h]
      · intro y hy
        simp only [List.head?_cons, Option.mem_def, Option.some.injEq] at hy
        subst hy
        exact h
    · obtain ⟨pre, post, e, hi, h1, h2⟩ := ih
      refine ⟨a :: pre, post, by rw [e]; rfl, ?_, ?_, h2⟩
      · conv_lhs => unfold insert_by_priority
        rw [if_neg h, hi]
        rfl
      · intro x hx
        rcases List.mem_cons.mp hx with rfl | hx
        · omega
        · exact h1 x hx

theorem priority_sorted_congr {proc proc1 : Nat → process} {l : List Nat}
    (h : ∀ q, (proc1 q).priority = (proc q).priority) :
    PrioritySorted proc1 l ↔ PrioritySorted proc l := by
  unfold PrioritySorted
  simp only [h]

/-- Insertion by priority keeps a sequence ordered by non-increasing priority. -/
theorem insert_by_priority_sorted (proc : Nat → process) (p : Nat) (l : List Nat)
    (hs : PrioritySorted proc l) : PrioritySorted proc (insert_by_priority proc p l) := by
  induction l with
  | nil => simp [insert_by_priority, PrioritySorted]
  | cons a t ih =>
    unfold PrioritySorted at hs ih ⊢
    rw [List.pairwise_cons] at hs
    unfold insert_by_priority
    by_cases h : (proc p).priority > (proc a).priority
    · rw [if_pos h, List.pairwise_cons, List.pairwise_cons]
      refine ⟨?_, hs⟩
      intro x hx
      rcases List.mem_cons.mp hx with rfl | hx
      · omega
      · have := hs.1 x hx
        omega
    · rw [if_neg h, List.pairwise_cons]
      refine ⟨?_, ih hs.2⟩
      intro x hx
      have hm := (insert_by_priority_perm proc p t).mem_iff.mp hx
      rcases List.mem_cons.mp hm with rfl | hm
      · omega
      · exact hs.1 x hm

theorem cyc_pair {proc : Nat → process} {a b : Nat} (hab : a ≠ b) (ha : a ≠ 0) (hb : b ≠ 0)
    (h1 : Linked proc a b) (h2 : Linked proc b a) : Cyc proc [a, b] := by
  refine ⟨by simp [hab], ?_, ?_, ?_⟩
  · intro x hx
    simp only [List.mem_cons, List.mem_singleton, List.not_mem_nil, or_false] at hx
    rcases hx with rfl | rfl
    · exact ha
    · exact hb
  · simp [h1]
  · intro x hx y hy
    simp only [List.getLast?_cons_cons, List.getLast?_singleton, Option.mem_def,
      Option.some.injEq, List.head?_cons] at hx hy
    subst hx; subst hy
    exact h2

theorem set_next_proc_congr {s t : SchedState} (h : t.proc = s.proc) (p v : Nat) :
    (t.set_next p v).proc = (s.set_next p v).proc := by
  show Function.update t.proc p _ = Function.update s.proc p _
  rw [h]

theorem set_prev_proc_congr {s t : SchedState} (h : t.proc = s.proc) (p v : Nat) :
    (t.set_prev p v).proc = (s.set_prev p v).proc := by
  show Function.update t.proc p _ = Function.update s.proc p _
  rw [h]

theorem link_before_proc_congr {s t : SchedState} (h : t.proc = s.proc) (p c : Nat) :
    (link_before t p c).proc = (link_before s p c).proc := by
  unfold link_before
  dsimp only
  have e1 := set_next_proc_congr h p c
  have e2 := set_prev_proc_congr e1 p (((s.set_next p c).proc c).prev)
  have e3 := set_next_proc_congr e2
    ((((s.set_next p c).set_prev p (((s.set_next p c).proc c).prev)).proc c).prev) p
  have e4 := set_prev_proc_congr e3 c p
  rw [e1, e2]
  exact e4

/-- The ready-queue insertion reads and writes only the process links and the
ready head: two states that agree on them get results that agree on them, and
the other scheduler fields of each are kept. -/
theorem add_loop_transfer : ∀ (fuel : Nat) (s t : SchedState) (p c : Nat) (s1 : SchedState),
    t.proc = s.proc → t.scheduler.ready_queue = s.scheduler.ready_queue →
    scheduler_add_loop fuel s p c = some s1 →
    ∃ t1, scheduler_add_loop fuel t p c = some t1 ∧ t1.proc = s1.proc ∧
      t1.scheduler.ready_queue = s1.scheduler.ready_queue ∧
      t1.scheduler.blocked_queue = t.scheduler.blocked_queue ∧
      t1.scheduler.sleeping_queue = t.scheduler.sleeping_queue := by
  intro fuel
  induction fuel with
  | zero => intro s t p c s1 _ _ h; cases h
  | succ n ih =>
    intro s t p c s1 hp hr h
    unfold scheduler_add_loop at h ⊢
    rw [hp, hr]
    by_cases hprio : (s.proc p).priority > (s.proc c).priority
    · rw [if_pos hprio] at h ⊢
      dsimp only at h ⊢
      rw [link_before_scheduler] at h ⊢
      rw [hr]
      rw [← Option.some.inj h]
      by_cases hc : c = s.scheduler.ready_queue
      · rw [if_pos hc, if_pos hc]
        exact ⟨_, rfl, link_before_proc_congr hp p c, rfl,
          by show (link_before t p c).scheduler.blocked_queue = _; rw [link_before_scheduler],
          by show (link_before t p c).scheduler.sleeping_queue = _; rw [link_before_scheduler]⟩
      · rw [if_neg hc, if_neg hc]
        exact ⟨_, rfl, link_before_proc_congr hp p c,
          by rw [link_before_scheduler, link_before_scheduler, hr],
          by rw [link_before_scheduler], by rw [link_before_scheduler]⟩
    · rw [if_neg hprio] at h ⊢
      dsimp only at h ⊢
      by_cases hn : (s.proc c).next ≠ s.scheduler.ready_queue
      · rw [if_pos hn] at h ⊢
        exact ih s t p _ s1 hp hr h
      · rw [if_neg hn] at h ⊢
        rw [← Option.some.inj h]
        exact ⟨_, rfl, link_before_proc_congr hp p _,
          by rw [link_before_scheduler, link_before_scheduler, hr],
          by rw [link_before_scheduler], by rw [link_before_scheduler]⟩

theorem add_process_transfer (fuel : Nat) (s t : SchedState) (p : Nat) (s1 : SchedState)
    (hp : t.proc = s.proc) (hr : t.scheduler.ready_queue = s.scheduler.ready_queue)
    (h : scheduler_add_process fuel s p = some s1) :
    ∃ t1, scheduler_add_process fuel t p = some t1 ∧ t1.proc = s1.proc ∧
      t1.scheduler.ready_queue = s1.scheduler.ready_queue ∧
      t1.scheduler.blocked_queue = t.scheduler.blocked_queue ∧
      t1.scheduler.sleeping_queue = t.scheduler.sleeping_queue := by
  unfold scheduler_add_process at h ⊢
  rw [hr]
  by_cases hp0 : p = 0
  · rw [if_pos hp0] at h ⊢
    rw [← Option.some.inj h]
    exact ⟨_, rfl, hp, hr, rfl, rfl⟩
  · rw [if_neg hp0] at h ⊢
    by_cases hz : s.scheduler.ready_queue = 0
    · rw [if_pos hz] at h ⊢
      rw [← Option.some.inj h]
      refine ⟨_, rfl, ?_, rfl, rfl, rfl⟩
      simp only [SchedState.set_prev, SchedState.set_next, SchedState.set_ready_queue, hp]
    · rw [if_neg hz] at h ⊢
      exact add_loop_transfer fuel s t p _ s1 hp hr h

/-- C24: for every scheduler state whose ready queue is a well-formed circle
that reads, from its head, as the sequence `lr`, and every non-NULL process
`p` not in it, `scheduler_add_process` returns (fuel at least the length of
`lr`), and the new ready queue is `pre ++ p :: post` where `lr = pre ++ post`,
every process of `pre` has priority at least that of `p`, and `post` is empty
or starts with a process of strictly lower priority: `p` stands immediately
before the first process of strictly lower priority, at the tail when there
is none. The new queue is a consistent doubly-linked circle (`IsQueue`), the
walk along `next` from the new head reads exactly that sequence, the head is
`p` exactly when `pre` is empty and is the old head otherwise, every field
other than `next` and `prev` of every process is kept, a sequence ordered by
non-increasing priority stays ordered, and when `p` is in no queue the
blocked and sleeping queues stay as they are. -/
theorem add_process_inserts_by_priority (fuel : Nat) (s : SchedState) (p : Nat)
    (lr : List Nat) (hq : IsQueue s.proc s.scheduler.ready_queue lr) (hp : p ∉ lr)
    (hp0 : p ≠ 0) (hf : lr.length ≤ fuel) :
    ∃ s1 pre post, scheduler_add_process fuel s p = some s1 ∧ lr = pre ++ post ∧
      (∀ x ∈ pre, (s.proc x).priority ≥ (s.proc p).priority) ∧
      (∀ y ∈ post.head?, (s.proc y).priority < (s.proc p).priority) ∧
      IsQueue s1.proc s1.scheduler.ready_queue (pre ++ p :: post) ∧
      queue_members (lr.length + 1) s1 s1.scheduler.ready_queue = some (pre ++ p :: post) ∧
      (s1.scheduler.ready_queue = p ↔ pre = []) ∧
      (pre ≠ [] → s1.scheduler.ready_queue = s.scheduler.ready_queue) ∧
      (∀ q, unlinked (s1.proc q) = unlinked (s.proc q)) ∧
      (PrioritySorted s.proc lr → PrioritySorted s1.proc (pre ++ p :: post)) ∧
      (∀ lb ls, Queues s lr lb ls → p ∉ lb ++ ls → Queues s1 (pre ++ p :: post) lb ls) := by
  have hqt : Queues ((s.set_blocked_queue 0).set_sleeping_queue 0) lr [] [] :=
    ⟨hq, ⟨cyc_nil _, rfl⟩, ⟨cyc_nil _, rfl⟩, by simpa using hq.1.1⟩
  have hpt : p ∉ lr ++ [] ++ [] := by simpa using hp
  obtain ⟨t1, ht1⟩ := add_process_total fuel _ p lr [] [] hqt hf
  obtain ⟨qt, ut, _⟩ := add_process_spec fuel _ p lr [] [] t1 hqt hpt hp0 ht1
  obtain ⟨s1, h1, e1, e2, _, _⟩ :=
    add_process_transfer fuel ((s.set_blocked_queue 0).set_sleeping_queue 0) s p t1 rfl rfl ht1
  have u1 : ∀ q, unlinked (s1.proc q) = unlinked (s.proc q) := by
    intro q
    rw [e1]
    exact ut q
  have q1 : IsQueue s1.proc s1.scheduler.ready_queue (insert_by_priority s.proc p lr) := by
    rw [e1, e2]
    exact qt.1
  obtain ⟨pre, post, e, hi, hpre, hpost⟩ := insert_by_priority_split s.proc p lr
  rw [hi] at q1
  have hhead : s1.scheduler.ready_queue = (pre ++ p :: post).headD 0 := q1.2
  have hpl : p ∉ pre := fun hm => hp (by rw [e]; simp [hm])
  refine ⟨s1, pre, post, h1, e, hpre, hpost, q1, ?_, ?_, ?_, u1, ?_, ?_⟩
  · have hm := queue_members_of_isQueue (s := s1) q1
    have hl : (pre ++ p :: post).length = lr.length + 1 := by rw [e]; simp; omega
    rw [hl] at hm
    exact hm
  · rw [hhead]
    cases pre with
    | nil => simp
    | cons a t =>
      simp only [List.cons_append, List.headD_cons, reduceCtorEq, iff_false]
      intro ha
      exact hpl (by simp [ha])
  · intro hne
    rw [hhead, hq.2, e]
    cases pre with
    | nil => exact absurd rfl hne
    | cons a t => rfl
  · intro hs
    rw [← hi]
    exact (priority_sorted_congr (fun q => (unlinked_fields (u1 q)).1)).mpr
      (insert_by_priority_sorted s.proc p lr hs)
  · intro lb ls hQ hpb
    have hpn : p ∉ lr ++ lb ++ ls := by
      simp only [List.mem_append, not_or] at hpb ⊢
      exact ⟨⟨hp, hpb.1⟩, hpb.2⟩
    have := (add_process_spec fuel s p lr lb ls s1 hQ hpn hp0 h1).1
    rw [hi] at this
    exact this

theorem sample_three_queues :
    Queues sample_three [sample_created.2, sample_second.2] [] [] := by
  refine ⟨⟨cyc_pair (by decide!) (by decide!) (by decide!) ⟨by decide!, by decide!⟩
    ⟨by decide!, by decide!⟩, by decide!⟩, ⟨cyc_nil _, by decide!⟩, ⟨cyc_nil _, by decide!⟩, ?_⟩
  decide!

/-- C24 on `sample_three`: the ready queue holds two processes at
`PRIORITY_NORMAL`; the process at `0x200000` has `PRIORITY_HIGH` and is in no
queue. -/
theorem add_process_inserts_by_priority_witness :
    ([sample_created.2, sample_second.2].map (fun x => (sample_three.proc x).priority) =
        [PRIORITY_NORMAL, PRIORITY_NORMAL] ∧
      (sample_three.proc 0x200000).priority = PRIORITY_HIGH) ∧
    ∃ s1 pre post, scheduler_add_process 5 sample_three 0x200000 = some s1 ∧
      [sample_created.2, sample_second.2] = pre ++ post ∧
      (∀ x ∈ pre, (sample_three.proc x).priority ≥ (sample_three.proc 0x200000).priority) ∧
      (∀ y ∈ post.head?, (sample_three.proc y).priority <
        (sample_three.proc 0x200000).priority) ∧
      IsQueue s1.proc s1.scheduler.ready_queue (pre ++ 0x200000 :: post) ∧
      queue_members ([sample_created.2, sample_second.2].length + 1) s1
        s1.scheduler.ready_queue = some (pre ++ 0x200000 :: post) ∧
      (s1.scheduler.ready_queue = 0x200000 ↔ pre = []) ∧
      (pre ≠ [] → s1.scheduler.ready_queue = sample_three.scheduler.ready_queue) ∧
      (∀ q, unlinked (s1.proc q) = unlinked (sample_three.proc q)) ∧
      (PrioritySorted sample_three.proc [sample_created.2, sample_second.2] →
        PrioritySorted s1.proc (pre ++ 0x200000 :: post)) ∧
      (∀ lb ls, Queues sample_three [sample_created.2, sample_second.2] lb ls →
        0x200000 ∉ lb ++ ls → Queues s1 (pre ++ 0x200000 :: post) lb ls) :=
  ⟨by decide!,
    add_process_inserts_by_priority 5 sample_three 0x200000
      [sample_created.2, sample_second.2] sample_three_queues.1 (by decide!) (by decide)
      (by decide)⟩

/-! ## Scheduler: `process_unblock` -/

theorem insert_by_priority_congr {proc proc1 : Nat → process} (p : Nat) (l : List Nat)
    (h : ∀ q, (proc1 q).priority = (proc q).priority) :
    insert_by_priority proc1 p l = insert_by_priority proc p l := by
  induction l with
  | nil => rfl
  | cons a t ih =>
    unfold insert_by_priority
    rw [h p, h a, ih]

theorem cyc_one {proc : Nat → process} {a : Nat} (ha : a ≠ 0) (h : Linked proc a a) :
    Cyc proc [a] := by
  refine ⟨by simp, ?_, by simp, ?_⟩
  · intro x hx
    rw [List.mem_singleton] at hx
    exact hx ▸ ha
  · intro x hx y hy
    simp only [List.getLast?_singleton, Option.mem_def, Option.some.injEq,
      List.head?_cons] at hx hy
    subst hx; subst hy
    exact h

theorem erase_of_mem_blocked {lr lb ls : List Nat} {p : Nat} (hn : (lr ++ lb ++ ls).Nodup)
    (hp : p ∈ lb) : lr.erase p = lr ∧ ls.erase p = ls := by
  rw [List.nodup_append, List.nodup_append] at hn
  obtain ⟨⟨_, _, d1⟩, _, d2⟩ := hn
  constructor
  · exact List.erase_of_not_mem (fun h => d1 h hp)
  · exact List.erase_of_not_mem (fun h => d2 (List.mem_append_right _ hp) h)

/-- C27: on a well-formed scheduler state with queues `lr`, `lb`, `ls`:
`process_unblock(p)` with `p` NULL or a state other than BLOCKED returns the
state it was given, for every fuel; for a queued process `p` whose state is
BLOCKED it returns (fuel at least the length of the ready queue), `p` leaves
its queue with the order of the others kept (`erase`; for `p` in the blocked
queue the ready and sleeping sequences are the old ones), the new ready queue
is `pre ++ p :: post` where the old ready sequence is `pre ++ post`, all of
`pre` has priority at least that of `p` and `post` is empty or starts with a
strictly lower priority, the state of `p` is READY, and every other field
apart from the `next` and `prev` links, the current process, the quantum and
the tick counter are kept. -/
theorem process_unblock_spec (fuel : Nat) (s : SchedState) (p : Nat) (lr lb ls : List Nat)
    (hq : Queues s lr lb ls) :
    ((p = 0 ∨ (s.proc p).state ≠ PROCESS_BLOCKED) → ∀ fuel1, process_unblock fuel1 s p = some s) ∧
    (p ∈ lr ++ lb ++ ls → (s.proc p).state = PROCESS_BLOCKED → lr.length ≤ fuel →
      ∃ s1 pre post, process_unblock fuel s p = some s1 ∧
        lr.erase p = pre ++ post ∧
        (∀ x ∈ pre, (s.proc x).priority ≥ (s.proc p).priority) ∧
        (∀ y ∈ post.head?, (s.proc y).priority < (s.proc p).priority) ∧
        Queues s1 (pre ++ p :: post) (lb.erase p) (ls.erase p) ∧
        (p ∈ lb → lr.erase p = lr ∧ ls.erase p = ls) ∧
        (s1.proc p).state = PROCESS_READY ∧
        (∀ q, unlinked (s1.proc q) = unlinked ((s.set_state p PROCESS_READY).proc q)) ∧
        s1.scheduler.current_process = s.scheduler.current_process ∧
        s1.scheduler.time_quantum = s.scheduler.time_quantum ∧
        s1.timer_ticks = s.timer_ticks) := by
  constructor
  · intro h fuel1
    unfold process_unblock
    rw [if_pos h]
  · intro hmem hst hf
    have hp0 := queues_mem_ne_zero hq hmem
    have h1 := remove_queues s p lr lb ls hq hmem
    have h2 : Queues ((scheduler_remove_process s p).set_state p PROCESS_READY)
        (lr.erase p) (lb.erase p) (ls.erase p) :=
      queues_congr h1 rfl rfl rfl (fun q _ => by simp)
    have hlen : (lr.erase p).length ≤ fuel := le_trans (List.length_erase_le p lr) hf
    obtain ⟨s1, hs1⟩ := add_process_total fuel _ p _ _ _ h2 hlen
    obtain ⟨q1, u1, c1⟩ := add_process_spec fuel _ p _ _ _ s1 h2
      (not_mem_erase_lists hq.2.2.2) hp0 hs1
    obtain ⟨t1, k1⟩ := add_process_static fuel _ s1 p hs1
    have hu : ∀ q, unlinked (s1.proc q) = unlinked ((s.set_state p PROCESS_READY).proc q) := by
      intro q
      rw [u1 q]
      by_cases hqp : q = p
      · subst hqp
        have := remove_unlinked s q q
        simp only [SchedState.set_state, Function.update_same, unlinked] at this ⊢
        simp only [process.mk.injEq] at this ⊢
        tauto
      · have := remove_unlinked s p q
        simpa [SchedState.set_state, Function.update_noteq hqp] using this
    have hprio : ∀ q, (((scheduler_remove_process s p).set_state p PROCESS_READY).proc q).priority
        = (s.proc q).priority := by
      intro q
      rw [set_state_priority]
      exact (unlinked_fields (remove_unlinked s p q)).1
    rw [insert_by_priority_congr p _ hprio] at q1
    obtain ⟨pre, post, e, hi, hpre, hpost⟩ := insert_by_priority_split s.proc p (lr.erase p)
    rw [hi] at q1
    refine ⟨s1, pre, post, ?_, e, hpre, hpost, q1, erase_of_mem_blocked hq.2.2.2, ?_, hu, ?_,
      ?_, ?_⟩
    · unfold process_unblock
      rw [if_neg (by simp [hp0, hst])]
      exact hs1
    · rw [unlinked_state (hu p)]
      simp [SchedState.set_state]
    · rw [c1]
      show (scheduler_remove_process s p).scheduler.current_process = _
      exact remove_current s p
    · rw [t1]
      show (scheduler_remove_process s p).scheduler.time_quantum = _
      rw [remove_heads s p hp0]
      dsimp only
      split_ifs <;> rfl
    · rw [k1]
      show (scheduler_remove_process s p).timer_ticks = _
      unfold scheduler_remove_process
      rw [if_neg hp0]
      dsimp only
      split_ifs <;> rfl

theorem sample_blocked_queues :
    Queues sample_blocked [sample_second.2] [sample_created.2] [] := by
  refine ⟨⟨cyc_one (by decide!) ⟨by decide!, by decide!⟩, by decide!⟩,
    ⟨cyc_one (by decide!) ⟨by decide!, by decide!⟩, by decide!⟩, ⟨cyc_nil _, by decide!⟩, ?_⟩
  decide!

/-- C27 on `sample_blocked`: the first process is BLOCKED and in the blocked
queue, the second is in the ready queue. -/
theorem process_unblock_spec_witness :
    (sample_blocked.proc sample_created.2).state = PROCESS_BLOCKED ∧
    (sample_blocked.proc sample_second.2).state ≠ PROCESS_BLOCKED ∧
    (∀ fuel1, process_unblock fuel1 sample_blocked sample_second.2 = some sample_blocked) ∧
    ∃ s1 pre post, process_unblock 5 sample_blocked sample_created.2 = some s1 ∧
      [sample_second.2].erase sample_created.2 = pre ++ post ∧
      (∀ x ∈ pre, (sample_blocked.proc x).priority ≥
        (sample_blocked.proc sample_created.2).priority) ∧
      (∀ y ∈ post.head?, (sample_blocked.proc y).priority <
        (sample_blocked.proc sample_created.2).priority) ∧
      Queues s1 (pre ++ sample_created.2 :: post) ([sample_created.2].erase sample_created.2)
        (([] : List Nat).erase sample_created.2) ∧
      (sample_created.2 ∈ [sample_created.2] →
        [sample_second.2].erase sample_created.2 = [sample_second.2] ∧
        ([] : List Nat).erase sample_created.2 = []) ∧
      (s1.proc sample_created.2).state = PROCESS_READY ∧
      (∀ q, unlinked (s1.proc q) =
        unlinked ((sample_blocked.set_state sample_created.2 PROCESS_READY).proc q)) ∧
      s1.scheduler.current_process = sample_blocked.scheduler.current_process ∧
      s1.scheduler.time_quantum = sample_blocked.scheduler.time_quantum ∧
      s1.timer_ticks = sample_blocked.timer_ticks :=
  ⟨by decide!, by decide!,
    (process_unblock_spec 5 sample_blocked sample_second.2 [sample_second.2]
      [sample_created.2] [] sample_blocked_queues).1 (Or.inr (by decide!)),
    (process_unblock_spec 5 sample_blocked sample_created.2 [sample_second.2]
      [sample_created.2] [] sample_blocked_queues).2 (by decide!) (by decide!) (by decide)⟩

/-! ## Scheduler: order of the ready queue -/

theorem priority_sorted_congr_mem {proc proc1 : Nat → process} {l : List Nat}
    (h : ∀ q ∈ l, (proc1 q).priority = (proc q).priority) (hs : PrioritySorted proc l) :
    PrioritySorted proc1 l := by
  unfold PrioritySorted at hs ⊢
  refine List.Pairwise.imp_of_mem ?_ hs
  intro a b ha hb hab
  rw [h a ha, h b hb]
  exact hab

theorem priority_sorted_erase {proc : Nat → process} {l : List Nat} (p : Nat)
    (hs : PrioritySorted proc l) : PrioritySorted proc (l.erase p) :=
  List.Pairwise.sublist (List.erase_sublist p l) hs

/-- In an ordered sequence every process has priority at least that of the
last one. -/
theorem priority_sorted_last {proc : Nat → process} {l : List Nat} {z : Nat}
    (hs : PrioritySorted proc (l ++ [z])) : ∀ x ∈ l ++ [z], (proc x).priority ≥ (proc z).priority := by
  unfold PrioritySorted at hs
  rw [List.pairwise_append] at hs
  intro x hx
  rcases List.mem_append.mp hx with hx | hx
  · exact hs.2.2 x hx z (by simp)
  · rw [List.mem_singleton] at hx
    rw [hx]

/-- The head of a circle has the last process of the sequence as `prev`. -/
theorem cyc_prev_last {proc : Nat → process} {a z : Nat} {t : List Nat}
    (hcyc : Cyc proc (a :: (t ++ [z]))) : (proc a).prev = z := by
  obtain ⟨_, _, _, hl⟩ := hcyc
  have := hl z (by
    rw [show a :: (t ++ [z]) = (a :: t) ++ [z] from rfl, List.getLast?_append]
    simp) a (by simp)
  exact this.2

theorem cyc_prev_single {proc : Nat → process} {a : Nat} (hcyc : Cyc proc [a]) :
    (proc a).prev = a :=
  (hcyc.2.2.2 a (by simp) a (by simp)).2

/-- One `scheduler_schedule` call under `rotation_in_order` keeps the queues
well-formed and the ready queue ordered. -/
theorem schedule_sorted (s : SchedState) (lr lb ls : List Nat) (hq : QInv s lr lb ls)
    (hs : PrioritySorted s.proc lr) (hc : rotation_in_order s) :
    ∃ lr1, lr1.Perm lr ∧ QInv (scheduler_schedule s) lr1 lb ls ∧
      PrioritySorted (scheduler_schedule s).proc lr1 := by
  by_cases hr : s.scheduler.ready_queue = 0
  · have e : scheduler_schedule s = s := by
      unfold scheduler_schedule
      rw [if_pos hr]
    rw [e]
    exact ⟨lr, List.Perm.refl _, hq, hs⟩
  by_cases hk : (s.proc s.scheduler.ready_queue).time_slice > 0
  · refine ⟨lr, List.Perm.refl _, ?_, ?_⟩
    · have e : scheduler_schedule s = s.set_time_slice s.scheduler.ready_queue
          ((s.proc s.scheduler.ready_queue).time_slice - 1) := by
        unfold scheduler_schedule scheduler_multilevel_feedback
        rw [if_neg hr, if_neg hr, if_pos hk]
      rw [e]
      exact qinv_congr hq rfl rfl rfl (fun q _ => by simp) (fun q _ => Or.inl (by simp))
    · refine priority_sorted_congr_mem ?_ hs
      intro q _
      rw [(schedule_fields s q).1, if_neg]
      rintro ⟨_, rfl, h0⟩
      omega
  · have hk0 : (s.proc s.scheduler.ready_queue).time_slice = 0 := by omega
    have hq1 : QInv (scheduler_schedule s) (lr.rotate 1) lb ls := by
      unfold scheduler_schedule scheduler_multilevel_feedback
      simp only [hr, if_false, if_neg hk]
      split_ifs
      · exact qinv_round_robin _ _ _ _
          (qinv_congr hq rfl rfl rfl (fun q _ => by simp) (fun q _ => Or.inl (by simp)))
      · exact qinv_round_robin _ _ _ _
          (qinv_congr hq rfl rfl rfl (fun q _ => by simp) (fun q _ => Or.inl (by simp)))
    refine ⟨lr.rotate 1, List.rotate_perm _ _, hq1, ?_⟩
    have hcyc := hq.1.1.1
    have hhead := hq.1.1.2
    cases lr with
    | nil => exact absurd hhead hr
    | cons a t =>
      have ha : s.scheduler.ready_queue = a := by simpa using hhead
      have hrot : (a :: t).rotate 1 = t ++ [a] := by simp [List.rotate_cons_succ]
      rw [hrot]
      have hnd : a ∉ t := (List.nodup_cons.mp hcyc.1).1
      have hpa : ((scheduler_schedule s).proc a).priority =
          max ((s.proc a).priority - 1) PRIORITY_LOW := by
        rw [(schedule_fields s a).1, if_pos ⟨hr, ha.symm, ha ▸ hk0⟩]
      have hpt : ∀ x ∈ t, ((scheduler_schedule s).proc x).priority = (s.proc x).priority := by
        intro x hx
        rw [(schedule_fields s x).1, if_neg]
        rintro ⟨_, h2, _⟩
        exact hnd (ha ▸ h2 ▸ hx)
      have hst : PrioritySorted s.proc t := (List.pairwise_cons.mp hs).2
      unfold PrioritySorted
      rw [List.pairwise_append]
      refine ⟨priority_sorted_congr_mem hpt hst, by simp, ?_⟩
      intro x hx y hy
      rw [List.mem_singleton] at hy
      subst hy
      rw [hpt x hx, hpa]
      rcases hc with hc | hc | hc
      · exact absurd hc hr
      · exact absurd hc hk
      · rw [ha] at hc
        rcases List.eq_nil_or_concat t with ht | ⟨t0, z, ht⟩
        · rw [ht] at hx; cases hx
        · rw [List.concat_eq_append] at ht
          subst ht
          rw [cyc_prev_last hcyc] at hc
          have := priority_sorted_last hst x hx
          unfold PRIORITY_LOW
          omega

theorem rotation_in_order_set_state {s : SchedState} {p : Nat} {v : process_state_t}
    (h : rotation_in_order s) : rotation_in_order (s.set_state p v) := by
  unfold rotation_in_order at h ⊢
  have e1 : ∀ q, ((s.set_state p v).proc q).time_slice = (s.proc q).time_slice :=
    fun q => set_state_time_slice s p q v
  have e2 : ∀ q, ((s.set_state p v).proc q).priority = (s.proc q).priority :=
    fun q => set_state_priority s p q v
  have e3 : ∀ q, ((s.set_state p v).proc q).prev = (s.proc q).prev := by
    intro q; simp
  have e4 : (s.set_state p v).scheduler = s.scheduler := rfl
  rw [e4, e1, e2, e2, e3]
  exact h

theorem yield_sorted (s : SchedState) (lr lb ls : List Nat) (hq : QInv s lr lb ls)
    (hs : PrioritySorted s.proc lr)
    (hc : s.scheduler.current_process ≠ 0 → rotation_in_order s) :
    ∃ lr1, lr1.Perm lr ∧ QInv (scheduler_yield s) lr1 lb ls ∧
      PrioritySorted (scheduler_yield s).proc lr1 := by
  unfold scheduler_yield
  by_cases h0 : s.scheduler.current_process ≠ 0
  · rw [if_pos h0]
    exact schedule_sorted _ _ _ _ (qinv_set_state _ _ _ _ _ _ hq (Or.inl (by decide)))
      (priority_sorted_congr_mem (fun q _ => set_state_priority s _ q _) hs)
      (rotation_in_order_set_state (hc h0))
  · rw [if_neg h0]
    exact ⟨lr, List.Perm.refl _, hq, hs⟩

theorem timer_handler_sorted (fuel : Nat) (s s1 : SchedState) (lr lb : List Nat)
    (hq : QInv s lr lb []) (hs : PrioritySorted s.proc lr)
    (hc : u32 (s.timer_ticks + 1) % 10 = 0 → rotation_in_order s)
    (h : timer_handler fuel s = some s1) :
    ∃ lr1, lr1.Perm lr ∧ QInv s1 lr1 lb [] ∧ PrioritySorted s1.proc lr1 := by
  unfold timer_handler at h
  dsimp only at h
  have hf : 0 < fuel := by
    cases fuel with
    | zero => simp [timer_walk] at h
    | succ n => exact Nat.succ_pos n
  set s0 : SchedState := { s with timer_ticks := u32 (s.timer_ticks + 1) } with hs0
  have hq0 : QInv s0 lr lb [] :=
    qinv_congr hq rfl rfl rfl (fun q _ => ⟨rfl, rfl⟩) (fun q _ => Or.inl rfl)
  have hs00 : PrioritySorted s0.proc lr := hs
  by_cases ht : u32 (s.timer_ticks + 1) % 10 = 0
  · have ht0 : s0.timer_ticks % 10 = 0 := ht
    rw [if_pos ht0] at h
    obtain ⟨lr1, hperm, hq1, hs1⟩ := schedule_sorted s0 lr lb [] hq0 hs00 (hc ht)
    have hz : (scheduler_schedule s0).scheduler.sleeping_queue = 0 :=
      (isQueue_head_zero hq1.1.2.2.1).mpr rfl
    rw [hz, timer_walk_empty fuel _ hf] at h
    rw [← Option.some.inj h]
    exact ⟨lr1, hperm, hq1, hs1⟩
  · have ht0 : ¬ s0.timer_ticks % 10 = 0 := ht
    rw [if_neg ht0] at h
    have hz : s0.scheduler.sleeping_queue = 0 := (isQueue_head_zero hq0.1.2.2.1).mpr rfl
    rw [hz, timer_walk_empty fuel _ hf] at h
    rw [← Option.some.inj h]
    exact ⟨lr, List.Perm.refl _, hq0, hs00⟩

theorem process_create_null_sched (fuel : Nat) (w w1 : World) (name : List Nat)
    (entry_point priority : Nat)
    (hc : process_create fuel w name entry_point priority = some (w1, 0)) :
    w1.sched = w.sched := by
  unfold process_create at hc
  cases h1 : kmalloc fuel w.mem sizeof_process_t with
  | none => simp [h1] at hc
  | some r1 =>
    obtain ⟨mem1, pr⟩ := r1
    simp only [h1] at hc
    by_cases hz : pr = 0
    · simp only [hz, if_true, Option.some.injEq, Prod.mk.injEq] at hc
      rw [← hc.1]
    · simp only [hz, if_false] at hc
      cases h2 : kmalloc fuel mem1 4096 with
      | none => simp [h2] at hc
      | some r2 =>
        obtain ⟨mem2, sb⟩ := r2
        simp only [h2] at hc
        cases h3 : kmalloc_aligned fuel mem2 4096 4096 with
        | none => simp [h3] at hc
        | some r3 =>
          obtain ⟨mem3, cr3⟩ := r3
          simp only [h3] at hc
          cases h4 : scheduler_add_process fuel
              ((process_create_stack_fields (process_create_fields w.sched pr name priority)
                pr sb).modify pr (fun x => { x with cr3 := cr3 })) pr with
          | none => simp [h4] at hc
          | some s4 =>
            simp only [h4, Option.some.injEq, Prod.mk.injEq] at hc
            exact absurd hc.2 hz

theorem mem_requeue {lr lb : List Nat} {p : Nat} (hn : (lr ++ lb).Nodup) (hp : p ∈ lr ++ lb)
    (q : Nat) : (q = p ∨ q ∈ lr.erase p ∨ q ∈ lb.erase p) ↔ q ∈ lr ++ lb := by
  rw [List.nodup_append] at hn
  obtain ⟨h1, h2, _⟩ := hn
  rw [List.Nodup.mem_erase_iff h1, List.Nodup.mem_erase_iff h2, List.mem_append]
  rw [List.mem_append] at hp
  by_cases hqp : q = p
  · subst hqp; tauto
  · tauto

theorem ordered_inv_create (fuel : Nat) (w w1 : World) (name : List Nat)
    (entry_point priority p : Nat) (L : List Nat)
    (hc : process_create fuel w name entry_point priority = some (w1, p)) (hp0 : p ≠ 0)
    (hfresh : p ∉ L) (ih : OrderedInv w.sched L) : OrderedInv w1.sched (p :: L) := by
  obtain ⟨lr, lb, hq, hs, hL⟩ := ih
  obtain ⟨s3, s4, hframe, hr, hb, hsl, hadd, hw1⟩ :=
    process_create_sched fuel w w1 name entry_point priority p hc hp0
  have hpn0 : p ∉ lr ++ lb := fun h => hfresh ((hL p).mpr h)
  have hpn : p ∉ lr ++ lb ++ [] := by simpa using hpn0
  have h3 : QInv s3 lr lb [] := by
    refine qinv_congr hq hr hb hsl ?_ ?_
    · intro q hq2
      have : q ≠ p := fun h => hpn (h ▸ hq2)
      rw [hframe q this]; exact ⟨rfl, rfl⟩
    · intro q hq2
      have : q ≠ p := fun h => hpn0 (by rw [← h]; simp only [List.mem_append] at hq2 ⊢; tauto)
      rw [hframe q this]; exact Or.inl rfl
  have h4 := qinv_add fuel s3 p lr lb [] s4 h3 hpn hp0 hadd
  have hu := (add_process_spec fuel s3 p lr lb [] s4 h3.1 hpn hp0 hadd).2.1
  have hs3 : PrioritySorted s3.proc lr := by
    refine priority_sorted_congr_mem ?_ hs
    intro q hq2
    have : q ≠ p := fun h => hpn0 (by rw [← h]; exact List.mem_append_left _ hq2)
    rw [hframe q this]
  have hs4 : PrioritySorted s4.proc (insert_by_priority s3.proc p lr) :=
    (priority_sorted_congr (fun q => (unlinked_fields (hu q)).1)).mpr
      (insert_by_priority_sorted s3.proc p lr hs3)
  refine ⟨_, _, hw1 ▸ qinv_set_total _ _ _ _ _ h4, ?_, fun q => ?_⟩
  · rw [hw1]; exact hs4
  · have hperm := insert_by_priority_perm s3.proc p lr
    rw [List.mem_cons, hL q, List.mem_append, List.mem_append, hperm.mem_iff, List.mem_cons]
    tauto

theorem ordered_inv_block (s : SchedState) (p : Nat) (L : List Nat) (hp : p ∈ L)
    (ih : OrderedInv s L) : OrderedInv (process_block s p) L := by
  obtain ⟨lr, lb, hq, hs, hL⟩ := ih
  have hmem0 : p ∈ lr ++ lb := (hL p).mp hp
  have hmem : p ∈ lr ++ lb ++ [] := by simpa using hmem0
  have hn : (lr ++ lb).Nodup := by simpa using hq.1.2.2.2
  have h1 := qinv_process_block s p lr lb [] hq hmem
  refine ⟨lr.erase p, lb.erase p ++ [p], h1, ?_, fun q => ?_⟩
  · exact priority_sorted_congr_mem (fun q _ => process_block_priority s p q)
      (priority_sorted_erase p hs)
  · rw [hL q, ← mem_requeue hn hmem0 q]
    simp only [List.mem_append, List.mem_singleton]
    tauto

theorem ordered_inv_unblock (fuel : Nat) (s s1 : SchedState) (p : Nat) (L : List Nat)
    (hp : p ∈ L) (hu : process_unblock fuel s p = some s1) (ih : OrderedInv s L) :
    OrderedInv s1 L := by
  have hprio := process_unblock_priority fuel s s1 p hu
  unfold process_unblock at hu
  split_ifs at hu
  · rw [← Option.some.inj hu]; exact ih
  · obtain ⟨lr, lb, hq, hs, hL⟩ := ih
    have hmem0 : p ∈ lr ++ lb := (hL p).mp hp
    have hmem : p ∈ lr ++ lb ++ [] := by simpa using hmem0
    have hn : (lr ++ lb).Nodup := by simpa using hq.1.2.2.2
    have hp0 := queues_mem_ne_zero hq.1 hmem
    have h1 := qinv_remove s p lr lb [] hq hmem
    have h2 := qinv_set_state _ p PROCESS_READY _ _ _ h1 (Or.inl (by decide))
    have h3 := qinv_add fuel _ p _ _ _ s1 h2 (not_mem_erase_lists hq.1.2.2.2) hp0 hu
    have hpr2 : ∀ q, (((scheduler_remove_process s p).set_state p PROCESS_READY).proc q).priority
        = (s.proc q).priority := by
      intro q
      rw [set_state_priority]
      exact (unlinked_fields (remove_unlinked s p q)).1
    rw [insert_by_priority_congr p _ hpr2] at h3
    refine ⟨_, _, h3, ?_, fun q => ?_⟩
    · exact (priority_sorted_congr hprio).mpr
        (insert_by_priority_sorted s.proc p _ (priority_sorted_erase p hs))
    · have hperm := insert_by_priority_perm s.proc p (lr.erase p)
      rw [hL q, ← mem_requeue hn hmem0 q, List.mem_append, hperm.mem_iff, List.mem_cons]
      tauto

/-- Every machine of `ReachInOrder` satisfies `OrderedInv`. -/
theorem reach_in_order_inv {w : World} {L : List Nat} (h : ReachInOrder w L) :
    OrderedInv w.sched L := by
  induction h with
  | init fuel k =>
    refine ⟨[], [], ⟨⟨⟨cyc_nil _, ?_⟩, ⟨cyc_nil _, ?_⟩, ⟨cyc_nil _, ?_⟩, by simp⟩, by simp⟩,
      List.Pairwise.nil, by simp⟩
    all_goals
      simp [scheduler_init, timer_init, pic_unmask_irq, irq_install_handler, outb]
  | @create w w1 L p fuel name entry_point priority _ hc hp0 hfresh ih =>
    exact ordered_inv_create fuel w w1 name entry_point priority p L hc hp0 hfresh ih
  | @create_null w w1 L fuel name entry_point priority _ hc ih =>
    rw [process_create_null_sched fuel w w1 name entry_point priority hc]; exact ih
  | block _ hp ih => exact ordered_inv_block _ _ _ hp ih
  | unblock fuel _ hp hu ih => exact ordered_inv_unblock fuel _ _ _ _ hp hu ih
  | yield _ hc ih =>
    obtain ⟨lr, lb, hq, hs, hL⟩ := ih
    obtain ⟨lr1, hperm, hq1, hs1⟩ := yield_sorted _ lr lb [] hq hs hc
    exact ⟨lr1, lb, hq1, hs1, fun q => by
      rw [hL q, List.mem_append, List.mem_append, hperm.mem_iff]⟩
  | schedule _ hc ih =>
    obtain ⟨lr, lb, hq, hs, hL⟩ := ih
    obtain ⟨lr1, hperm, hq1, hs1⟩ := schedule_sorted _ lr lb [] hq hs hc
    exact ⟨lr1, lb, hq1, hs1, fun q => by
      rw [hL q, List.mem_append, List.mem_append, hperm.mem_iff]⟩
  | tick fuel _ hc ht ih =>
    obtain ⟨lr, lb, hq, hs, hL⟩ := ih
    obtain ⟨lr1, hperm, hq1, hs1⟩ := timer_handler_sorted fuel _ _ lr lb hq hs hc ht
    exact ⟨lr1, lb, hq1, hs1, fun q => by
      rw [hL q, List.mem_append, List.mem_append, hperm.mem_iff]⟩

theorem sample_high_eq :
    process_create 20 sample_world [] 0x2000 PRIORITY_HIGH =
      some (sample_high.1, sample_high.2) :=
  (some_getD_of_isSome (sample_world, 0) (by decide!)).trans (by simp only [Prod.mk.eta]; rfl)

theorem sample_low_eq :
    process_create 20 sample_high.1 [] 0x3000 PRIORITY_LOW =
      some (sample_low.1, sample_low.2) :=
  (some_getD_of_isSome (sample_world, 0) (by decide!)).trans (by simp only [Prod.mk.eta]; rfl)

/-- C25 fails: after `scheduler_init`, a `process_create` at `PRIORITY_HIGH`, a
`process_create` at `PRIORITY_LOW` and eleven `scheduler_schedule` calls the
first process has been demoted to `PRIORITY_NORMAL` and rotated behind the
second: the ready queue read from its head has priorities LOW, NORMAL, so it
is not ordered and the head's priority is below the tail's. -/
theorem ready_queue_unordered_after_rotation :
    Reach sample_overtaken [sample_low.2, sample_high.2] ∧
    queue_members 2 sample_overtaken.sched sample_overtaken.sched.scheduler.ready_queue =
      some [sample_low.2, sample_high.2] ∧
    [sample_low.2, sample_high.2].map (fun x => (sample_overtaken.sched.proc x).priority) =
      [PRIORITY_LOW, PRIORITY_NORMAL] ∧
    ¬ PrioritySorted sample_overtaken.sched.proc [sample_low.2, sample_high.2] ∧
    (sample_overtaken.sched.proc sample_overtaken.sched.scheduler.ready_queue).priority <
      (sample_overtaken.sched.proc
        (sample_overtaken.sched.proc sample_overtaken.sched.scheduler.ready_queue).prev).priority := by
  refine ⟨?_, by decide!, by decide!, ?_, by decide!⟩
  · exact reach_schedule_times 11 _ _
      (Reach.create 20 [] 0x3000 PRIORITY_LOW
        (Reach.create 20 [] 0x2000 PRIORITY_HIGH (Reach.init 20 sample_kernel) sample_high_eq
          (by decide!) (by simp))
        sample_low_eq (by decide!) (by decide!))
  · unfold PrioritySorted
    rw [List.pairwise_cons]
    intro h
    have h1 := h.1 sample_high.2 (by simp)
    revert h1
    decide!

/-- C25 (amended): in every machine reached from `scheduler_init` by
`process_create`, `process_block`, `process_unblock`, and by
`scheduler_schedule`, `scheduler_yield` and returning `timer_handler` calls
made when the ready queue is empty, its head has time slice left, or the
head's priority is at most one above the priority of the last process, the
walk along `next` from the ready head returns a sequence ordered by
non-increasing priority, and the priority of its first process is at least
that of its last. -/
theorem ready_queue_ordered_without_overtaking {w : World} {L : List Nat}
    (h : ReachInOrder w L) :
    ∃ l, queue_members l.length w.sched w.sched.scheduler.ready_queue = some l ∧
      PrioritySorted w.sched.proc l ∧
      ∀ a z, l.head? = some a → l.getLast? = some z →
        (w.sched.proc a).priority ≥ (w.sched.proc z).priority := by
  obtain ⟨lr, lb, hq, hs, _⟩ := reach_in_order_inv h
  refine ⟨lr, queue_members_of_isQueue hq.1.1, hs, ?_⟩
  intro a z ha hz
  rcases List.eq_nil_or_concat lr with hl | ⟨l0, z1, hl⟩
  · rw [hl] at ha; cases ha
  · rw [List.concat_eq_append] at hl
    subst hl
    have hz1 : z1 = z := by simpa using hz
    subst hz1
    exact priority_sorted_last hs a (List.mem_of_mem_head? ha)

theorem reach_in_order_sample_low : ReachInOrder sample_low.1 [sample_low.2, sample_high.2] :=
  ReachInOrder.create 20 [] 0x3000 PRIORITY_LOW
    (ReachInOrder.create 20 [] 0x2000 PRIORITY_HIGH (ReachInOrder.init 20 sample_kernel)
      sample_high_eq (by decide!) (by simp))
    sample_low_eq (by decide!) (by decide!)

/-- C25 (amended) on `sample_low_step`: one `scheduler_schedule` call on the
machine of `sample_low`, made while the head has time slice left; the ready
queue reads HIGH, LOW. -/
theorem ready_queue_ordered_without_overtaking_witness :
    [sample_high.2, sample_low.2].map (fun x => (sample_low_step.sched.proc x).priority) =
      [PRIORITY_HIGH, PRIORITY_LOW] ∧
    ∃ l, queue_members l.length sample_low_step.sched
        sample_low_step.sched.scheduler.ready_queue = some l ∧
      PrioritySorted sample_low_step.sched.proc l ∧
      ∀ a z, l.head? = some a → l.getLast? = some z →
        (sample_low_step.sched.proc a).priority ≥ (sample_low_step.sched.proc z).priority :=
  ⟨by decide!,
    ready_queue_ordered_without_overtaking
      (ReachInOrder.schedule reach_in_order_sample_low (Or.inr (Or.inl (by decide!))))⟩

/-! ## Timer: `timer_sleep` and the sleeping queue -/

theorem remove_timer_ticks (s : SchedState) (p : Nat) :
    (scheduler_remove_process s p).timer_ticks = s.timer_ticks := by
  unfold scheduler_remove_process
  by_cases hp : p = 0
  · rw [if_pos hp]
  · rw [if_neg hp]
    dsimp only
    split_ifs <;> rfl

theorem schedule_timer_ticks (s : SchedState) :
    (scheduler_schedule s).timer_ticks = s.timer_ticks := by
  unfold scheduler_schedule scheduler_multilevel_feedback
  by_cases h0 : s.scheduler.ready_queue = 0
  · simp [h0]
  · simp only [h0, if_false]
    split_ifs
    · rfl
    · rw [(round_robin_fields _ (by simpa using h0)).2.1]
      rfl
    · rw [(round_robin_fields _ (by simpa using h0)).2.1]
      rfl

/-- A `scheduler_schedule` call leaves the time slice of every process of the
blocked and sleeping queues as it is. -/
theorem schedule_keeps_queued_slice (s : SchedState) (lr lb ls : List Nat)
    (hq : Queues s lr lb ls) (c : Nat) (hc : c ∈ lb ++ ls) :
    ((scheduler_schedule s).proc c).time_slice = (s.proc c).time_slice := by
  rw [(schedule_fields s c).2, if_neg]
  rintro ⟨h0, h1⟩
  obtain ⟨d1, d2, _⟩ := queues_disjoint hq
  have hh := hq.1.2
  cases lr with
  | nil => exact h0 hh
  | cons a t =>
    have ha : s.scheduler.ready_queue = a := by simpa using hh
    have hca : c ∈ a :: t := by rw [h1, ha]; simp
    rcases List.mem_append.mp hc with h | h
    · exact d1 c hca h
    · exact d2 c hca h

/-- In a circle with another member, `next` of a member is a different
member. -/
theorem cyc_next_mem_erase {proc : Nat → process} {l : List Nat} {x y : Nat}
    (hcyc : Cyc proc l) (hx : x ∈ l) (hy : y ∈ l) (hyx : y ≠ x) :
    (proc x).next ∈ l.erase x := by
  obtain ⟨pre, post, rfl, h1, h2, hrot, he⟩ := cyc_split hcyc hx
  rw [he, cyc_next_head hrot]
  have hy2 : y ∈ post ++ pre := by
    simp only [List.mem_append, List.mem_cons] at hy ⊢
    tauto
  cases hpp : post ++ pre with
  | nil => rw [hpp] at hy2; cases hy2
  | cons z t =>
    have hz : z ∈ post ++ pre := by rw [hpp]; simp
    simp only [List.cons_append, List.headD_cons]
    simp only [List.mem_append] at hz ⊢
    tauto

theorem cyc_next_mem {proc : Nat → process} {l : List Nat} {x : Nat}
    (hcyc : Cyc proc l) (hx : x ∈ l) : (proc x).next ∈ l := by
  obtain ⟨pre, post, rfl, _, _, hrot, _⟩ := cyc_split hcyc hx
  have := cyc_next_mem_cons hrot
  simp only [List.mem_cons, List.mem_append] at this ⊢
  tauto

/-- The sleeping-queue walk of `timer_handler` keeps a sleeper whose wake tick
`w` lies above the tick counter in the sleeping queue, with its wake tick. -/
theorem timer_walk_keeps_sleeper (afuel c w : Nat) :
    ∀ (fuel : Nat) (s : SchedState) (cur : Nat) (s1 : SchedState) (lr lb ls : List Nat),
      QInv s lr lb ls → c ∈ ls → cur ∈ ls → (s.proc c).time_slice = w → s.timer_ticks < w →
      timer_walk afuel fuel s cur = some s1 →
      ∃ lr1 lb1 ls1, QInv s1 lr1 lb1 ls1 ∧ c ∈ ls1 ∧ ls1.Sublist ls ∧
        (s1.proc c).time_slice = w ∧ s1.timer_ticks = s.timer_ticks := by
  intro fuel
  induction fuel with
  | zero => intro s cur s1 lr lb ls _ _ _ _ _ h; simp [timer_walk] at h
  | succ fuel ih =>
    intro s cur s1 lr lb ls hq hc hcur hw ht h
    unfold timer_walk at h
    have hmem : cur ∈ lr ++ lb ++ ls := List.mem_append_right _ hcur
    have h0 : cur ≠ 0 := queues_mem_ne_zero hq.1 hmem
    rw [if_neg h0] at h
    dsimp only at h
    have hcs := hq.1.2.2.1.1
    by_cases hdue : (s.proc cur).time_slice ≤ s.timer_ticks
    · rw [if_pos hdue] at h
      have hne : c ≠ cur := by
        intro e
        rw [e] at hw
        omega
      cases hadd : scheduler_add_process afuel
          ((scheduler_remove_process s cur).set_state cur PROCESS_READY) cur with
      | none => rw [hadd] at h; cases h
      | some s2 =>
        rw [hadd] at h
        dsimp only at h
        have h1 := qinv_remove s cur lr lb ls hq hmem
        have h2 := qinv_set_state _ cur PROCESS_READY _ _ _ h1 (Or.inl (by decide))
        have h3 := qinv_add afuel _ cur _ _ _ s2 h2 (not_mem_erase_lists hq.1.2.2.2) h0 hadd
        have hc2 : c ∈ ls.erase cur := (List.mem_erase_of_ne hne).mpr hc
        have hw2 : (s2.proc c).time_slice = w := by
          obtain ⟨_, e2⟩ := unlinked_fields (add_process_unlinked afuel _ s2 cur hadd c)
          obtain ⟨_, e4⟩ := unlinked_fields (remove_unlinked s cur c)
          rw [e2, set_state_time_slice, e4, hw]
        have ht2 : s2.timer_ticks = s.timer_ticks := by
          rw [(add_process_static afuel _ s2 cur hadd).2]
          exact remove_timer_ticks s cur
        have hn2 : (s.proc cur).next ∈ ls.erase cur := cyc_next_mem_erase hcs hcur hc hne
        by_cases hbrk : (s.proc cur).next = s2.scheduler.sleeping_queue
        · rw [if_pos hbrk] at h
          rw [← Option.some.inj h]
          exact ⟨_, _, _, h3, hc2, List.erase_sublist _ _, hw2, ht2⟩
        · rw [if_neg hbrk] at h
          obtain ⟨lr1, lb1, ls1, a1, a2, a3, a4, a5⟩ :=
            ih s2 _ s1 _ _ _ h3 hc2 hn2 hw2 (by rw [ht2]; exact ht) h
          exact ⟨lr1, lb1, ls1, a1, a2, a3.trans (List.erase_sublist _ _), a4, a5.trans ht2⟩
    · rw [if_neg hdue] at h
      dsimp only at h
      by_cases hbrk : (s.proc cur).next = s.scheduler.sleeping_queue
      · rw [if_pos hbrk] at h
        rw [← Option.some.inj h]
        exact ⟨lr, lb, ls, hq, hc, List.Sublist.refl _, hw, rfl⟩
      · rw [if_neg hbrk] at h
        exact ih s _ s1 lr lb ls hq hc (cyc_next_mem hcs hcur) hw ht h

theorem timer_walk_ticks (afuel : Nat) :
    ∀ (fuel : Nat) (s s1 : SchedState) (cur : Nat), timer_walk afuel fuel s cur = some s1 →
      s1.timer_ticks = s.timer_ticks := by
  intro fuel
  induction fuel with
  | zero => intro s s1 cur h; cases h
  | succ n ih =>
    intro s s1 cur h
    unfold timer_walk at h
    by_cases h0 : cur = 0
    · rw [if_pos h0] at h
      rw [← Option.some.inj h]
    · rw [if_neg h0] at h
      dsimp only at h
      by_cases hd : (s.proc cur).time_slice ≤ s.timer_ticks
      · rw [if_pos hd] at h
        cases ha : scheduler_add_process afuel
            ((scheduler_remove_process s cur).set_state cur PROCESS_READY) cur with
        | none => rw [ha] at h; cases h
        | some s2 =>
          rw [ha] at h
          dsimp only at h
          have f2 : s2.timer_ticks = s.timer_ticks := by
            rw [(add_process_static afuel _ s2 cur ha).2]
            exact remove_timer_ticks s cur
          split_ifs at h
          · rw [← Option.some.inj h]; exact f2
          · exact (ih _ _ _ h).trans f2
      · rw [if_neg hd] at h
        dsimp only at h
        split_ifs at h
        · rw [← Option.some.inj h]
        · exact ih _ _ _ h

/-- A returning `timer_handler` invocation whose tick counter stays below the
wake tick of a sleeper keeps it in the sleeping queue, with its wake tick. -/
theorem timer_handler_keeps_sleeper (fuel : Nat) (s s1 : SchedState) (lr lb ls : List Nat)
    (c w : Nat) (hq : QInv s lr lb ls) (hc : c ∈ ls) (hw : (s.proc c).time_slice = w)
    (h : timer_handler fuel s = some s1) (ht : s1.timer_ticks < w) :
    ∃ lr1 lb1 ls1, QInv s1 lr1 lb1 ls1 ∧ c ∈ ls1 ∧ ls1.Sublist ls ∧
      (s1.proc c).time_slice = w ∧ s1.timer_ticks = u32 (s.timer_ticks + 1) := by
  unfold timer_handler at h
  dsimp only at h
  have hq0 : QInv { s with timer_ticks := u32 (s.timer_ticks + 1) } lr lb ls :=
    qinv_congr hq rfl rfl rfl (fun q _ => ⟨rfl, rfl⟩) (fun q _ => Or.inl rfl)
  have key : ∀ (s0 : SchedState) (lr0 : List Nat), QInv s0 lr0 lb ls →
      (s0.proc c).time_slice = w → s0.timer_ticks = u32 (s.timer_ticks + 1) →
      timer_walk fuel fuel s0 s0.scheduler.sleeping_queue = some s1 →
      ∃ lr1 lb1 ls1, QInv s1 lr1 lb1 ls1 ∧ c ∈ ls1 ∧ ls1.Sublist ls ∧
        (s1.proc c).time_slice = w ∧ s1.timer_ticks = u32 (s.timer_ticks + 1) := by
    intro s0 lr0 hq1 hw1 ht1 hwalk
    have hhead : s0.scheduler.sleeping_queue ∈ ls := by
      rw [hq1.1.2.2.1.2]
      cases ls with
      | nil => cases hc
      | cons a t => simp
    have hticks := timer_walk_ticks fuel fuel s0 s1 _ hwalk
    have hlt : s0.timer_ticks < w := by rw [← hticks]; exact ht
    obtain ⟨lr1, lb1, ls1, a1, a2, a3, a4, a5⟩ :=
      timer_walk_keeps_sleeper fuel c w fuel s0 _ s1 lr0 lb ls hq1 hc hhead hw1 hlt hwalk
    exact ⟨lr1, lb1, ls1, a1, a2, a3, a4, a5.trans ht1⟩
  by_cases hten : u32 (s.timer_ticks + 1) % 10 = 0
  · rw [if_pos hten] at h
    obtain ⟨lr1, _, hq1⟩ := qinv_schedule _ lr lb ls hq0
    refine key _ lr1 hq1 ?_ ?_ h
    · rw [schedule_keeps_queued_slice _ lr lb ls hq0.1 c (List.mem_append_right _ hc)]
      exact hw
    · rw [schedule_timer_ticks]
  · rw [if_neg hten] at h
    exact key _ lr hq0 hw rfl h

theorem append_sleeping_unlinked (s : SchedState) (p q : Nat) :
    unlinked ((if s.scheduler.sleeping_queue = 0 then
        ((s.set_sleeping_queue p).set_next p p).set_prev p p
      else link_before s p s.scheduler.sleeping_queue).proc q) = unlinked (s.proc q) := by
  split_ifs
  · by_cases h : q = p <;> simp [SchedState.set_sleeping_queue, SchedState.set_next,
      SchedState.set_prev, unlinked, Function.update, h]
  · exact link_before_unlinked s p _ q

theorem append_sleeping_ticks (s : SchedState) (p : Nat) :
    (if s.scheduler.sleeping_queue = 0 then
        ((s.set_sleeping_queue p).set_next p p).set_prev p p
      else link_before s p s.scheduler.sleeping_queue).timer_ticks = s.timer_ticks := by
  split_ifs
  · rfl
  · unfold link_before
    rfl

theorem chain_subset {proc : Nat → process} {l2 : List Nat} (hc2 : Cyc proc l2) :
    ∀ l1 : List Nat, List.Chain' (Linked proc) l1 → (∀ a ∈ l1.head?, a ∈ l2) →
      ∀ x ∈ l1, x ∈ l2 := by
  intro l1
  induction l1 with
  | nil => intro _ _ x hx; cases hx
  | cons a t ih =>
    intro hch hhead x hx
    have ha : a ∈ l2 := hhead a (by simp)
    rcases List.mem_cons.mp hx with rfl | hx
    · exact ha
    · cases t with
      | nil => cases hx
      | cons b t2 =>
        obtain ⟨hl, hch2⟩ := List.chain'_cons.mp hch
        refine ih hch2 ?_ x hx
        intro y hy
        simp only [List.head?_cons, Option.mem_def, Option.some.injEq] at hy
        rw [← hy, ← hl.1]
        exact cyc_next_mem hc2 ha

/-- Two readings of the same circular queue have the same members. -/
theorem isQueue_subset {proc : Nat → process} {h : Nat} {l1 l2 : List Nat}
    (h1 : IsQueue proc h l1) (h2 : IsQueue proc h l2) : ∀ x ∈ l1, x ∈ l2 := by
  refine chain_subset h2.1 l1 h1.1.2.2.1 ?_
  intro a ha
  cases l1 with
  | nil => cases ha
  | cons b t =>
    simp only [List.head?_cons, Option.mem_def, Option.some.injEq] at ha
    subst ha
    have hb : h = b := by simpa using h1.2
    have hb0 : b ≠ 0 := h1.1.2.1 b (by simp)
    cases l2 with
    | nil => exact absurd (hb.symm.trans (by simpa using h2.2)) hb0
    | cons c t2 =>
      have hc : h = c := by simpa using h2.2
      rw [← hb, hc]
      simp

/-- The effect of `timer_sleep(k)` called while the current process `c` is a
queued process: `c` leaves its queue and stands at the tail of the sleeping
queue, its `time_slice` field holds the tick counter plus `k`, and the tick
counter is kept. -/
theorem timer_sleep_spec (s : SchedState) (k : Nat) (lr lb ls : List Nat)
    (hq : QInv s lr lb ls) (hc0 : s.scheduler.current_process ≠ 0)
    (hmem : s.scheduler.current_process ∈ lr ++ lb ++ ls) (hb : s.timer_ticks + k < 2 ^ 32) :
    (∃ lr1, lr1.Perm (lr.erase s.scheduler.current_process) ∧
      QInv (timer_sleep s k) lr1 (lb.erase s.scheduler.current_process)
        (ls.erase s.scheduler.current_process ++ [s.scheduler.current_process])) ∧
    ((timer_sleep s k).proc s.scheduler.current_process).time_slice = s.timer_ticks + k ∧
    (timer_sleep s k).timer_ticks = s.timer_ticks := by
  unfold timer_sleep
  simp only [ne_eq, hc0, not_false_eq_true, if_true]
  generalize hcur : s.scheduler.current_process = cur at *
  have h1 : QInv (s.set_time_slice cur (u32 (s.timer_ticks + k))) lr lb ls :=
    qinv_congr hq rfl rfl rfl (fun q _ => by simp) (fun q _ => Or.inl (by simp))
  have h2 := qinv_set_state _ cur PROCESS_SLEEPING _ _ _ h1 (Or.inl (by decide))
  have h3 := qinv_remove _ cur _ _ _ h2 hmem
  have h4 := qinv_append_sleeping _ cur _ _ _ h3 (not_mem_erase_lists hq.1.2.2.2) hc0
    (by rw [unlinked_state (remove_unlinked _ _ _)]; simp)
  simp only [set_state_scheduler, set_time_slice_scheduler, hcur, remove_current,
    set_sleeping_queue_current, set_next_scheduler, set_prev_scheduler]
  obtain ⟨lr1, hperm, h5⟩ := qinv_schedule _ _ _ _ h4
  refine ⟨⟨lr1, hperm, h5⟩, ?_, ?_⟩
  · rw [schedule_keeps_queued_slice _ _ _ _ h4.1 cur
      (List.mem_append_right _ (List.mem_append_right _ (List.mem_singleton.mpr rfl)))]
    rw [(unlinked_fields (append_sleeping_unlinked _ cur cur)).2,
      (unlinked_fields (remove_unlinked _ cur cur)).2, set_state_time_slice,
      set_time_slice_time_slice, if_pos rfl]
    exact u32_of_lt hb
  · rw [schedule_timer_ticks, append_sleeping_ticks, remove_timer_ticks]
    rfl

/-- C28: on a well-formed scheduler state whose current process `c` is a
queued process, `timer_sleep(k)` at tick `t` with `t + k < 2^32` stores
`t + k` in the `time_slice` field of `c` (the wake tick), takes `c` out of
its queue and puts it at the tail of the sleeping queue, and keeps the tick
counter; and after every following run of `scheduler_schedule` calls and of
returning `timer_handler` invocations that leave the tick counter below
`t + k`, the state is well-formed, `c` is in the sleeping queue and not in
the ready queue, and its wake tick is still `t + k`. A `timer_handler`
invocation that moves `c` to the ready queue therefore ends with the tick
counter at `t + k` or above. -/
theorem no_early_wakeup (s : SchedState) (k : Nat) (lr lb ls : List Nat)
    (hq : QInv s lr lb ls) (hc0 : s.scheduler.current_process ≠ 0)
    (hmem : s.scheduler.current_process ∈ lr ++ lb ++ ls) (hb : s.timer_ticks + k < 2 ^ 32) :
    (∃ lr1, lr1.Perm (lr.erase s.scheduler.current_process) ∧
      QInv (timer_sleep s k) lr1 (lb.erase s.scheduler.current_process)
        (ls.erase s.scheduler.current_process ++ [s.scheduler.current_process])) ∧
    ((timer_sleep s k).proc s.scheduler.current_process).time_slice = s.timer_ticks + k ∧
    (timer_sleep s k).timer_ticks = s.timer_ticks ∧
    (∀ s2, BeforeWake (s.timer_ticks + k) (timer_sleep s k) s2 →
      ∃ lr2 lb2 ls2, QInv s2 lr2 lb2 ls2 ∧ s.scheduler.current_process ∈ ls2 ∧
        s.scheduler.current_process ∉ lr2 ∧
        (s2.proc s.scheduler.current_process).time_slice = s.timer_ticks + k) ∧
    (∀ s2 s3 fuel lr3 lb3 ls3, BeforeWake (s.timer_ticks + k) (timer_sleep s k) s2 →
      timer_handler fuel s2 = some s3 → QInv s3 lr3 lb3 ls3 →
      s.scheduler.current_process ∈ lr3 → s.timer_ticks + k ≤ s3.timer_ticks) := by
  obtain ⟨a1, a2, a3⟩ := timer_sleep_spec s k lr lb ls hq hc0 hmem hb
  have stay : ∀ s2, BeforeWake (s.timer_ticks + k) (timer_sleep s k) s2 →
      ∃ lr2 lb2 ls2, QInv s2 lr2 lb2 ls2 ∧ s.scheduler.current_process ∈ ls2 ∧
        s.scheduler.current_process ∉ lr2 ∧
        (s2.proc s.scheduler.current_process).time_slice = s.timer_ticks + k := by
    intro s2 hrun
    induction hrun with
    | refl =>
      obtain ⟨lr1, _, h5⟩ := a1
      have hin : s.scheduler.current_process ∈
          ls.erase s.scheduler.current_process ++ [s.scheduler.current_process] :=
        List.mem_append_right _ (List.mem_singleton.mpr rfl)
      exact ⟨_, _, _, h5, hin, fun h => (queues_disjoint h5.1).2.1 _ h hin, a2⟩
    | @schedule s1 _ ih =>
      obtain ⟨lr2, lb2, ls2, b1, b2, _, b4⟩ := ih
      obtain ⟨lr3, _, b5⟩ := qinv_schedule _ _ _ _ b1
      refine ⟨lr3, lb2, ls2, b5, b2, fun h => (queues_disjoint b5.1).2.1 _ h b2, ?_⟩
      rw [schedule_keeps_queued_slice _ _ _ _ b1.1 _ (List.mem_append_right _ b2)]
      exact b4
    | @tick s1 s2 fuel _ hth hlt ih =>
      obtain ⟨lr2, lb2, ls2, b1, b2, _, b4⟩ := ih
      obtain ⟨lr3, lb3, ls3, c1, c2, _, c4, _⟩ :=
        timer_handler_keeps_sleeper fuel s1 s2 lr2 lb2 ls2 _ _ b1 b2 b4 hth hlt
      exact ⟨lr3, lb3, ls3, c1, c2, fun h => (queues_disjoint c1.1).2.1 _ h c2, c4⟩
  refine ⟨a1, a2, a3, stay, ?_⟩
  intro s2 s3 fuel lr3 lb3 ls3 hrun hth hq3 hin
  by_contra hlt
  obtain ⟨lr4, lb4, ls4, d1, d2, d3, _⟩ := stay s3 (BeforeWake.tick fuel hrun hth (by omega))
  exact d3 (isQueue_subset hq3.1.1 d1.1.1 _ hin)

theorem sample_running_qinv : QInv sample_running.sched [sample_created.2] [] [] := by
  refine ⟨⟨⟨cyc_one (by decide!) ⟨by decide!, by decide!⟩, by decide!⟩, ⟨cyc_nil _, by decide!⟩,
    ⟨cyc_nil _, by decide!⟩, by decide!⟩, by simp⟩

theorem sample_asleep_later_eq :
    timer_handler 5 (scheduler_schedule (timer_sleep sample_running.sched 5)) =
      some sample_asleep_later :=
  some_getD_of_isSome sample_asleep (by decide!)

/-- C28 on `sample_running`: its process is current and alone in the ready
queue at tick 0 and calls `timer_sleep(5)`; then a `scheduler_schedule` call
and one `timer_handler` invocation (tick 1) follow. -/
theorem no_early_wakeup_witness :
    (sample_running.sched.scheduler.current_process = sample_created.2 ∧
      sample_running.sched.timer_ticks = 0 ∧ sample_asleep_later.timer_ticks = 1) ∧
    (∃ lr2 lb2 ls2, QInv sample_asleep_later lr2 lb2 ls2 ∧
      sample_running.sched.scheduler.current_process ∈ ls2 ∧
      sample_running.sched.scheduler.current_process ∉ lr2 ∧
      (sample_asleep_later.proc sample_running.sched.scheduler.current_process).time_slice =
        sample_running.sched.timer_ticks + 5) :=
  ⟨by decide!,
    (no_early_wakeup sample_running.sched 5 [sample_created.2] [] [] sample_running_qinv
      (by decide!) (by decide!) (by decide!)).2.2.2.1 sample_asleep_later
      (BeforeWake.tick 5 (BeforeWake.schedule (BeforeWake.refl _)) sample_asleep_later_eq
        (by decide!))⟩

/-! ## Heap allocator: the address layout of the free list -/

/-- With `start = 0` the list head written by `memory_init` is `NULL`: the
chain is empty. -/
theorem memory_init_inv_null (size : Nat) (st0 : MemState) (h2 : size ≤ 2 ^ 32) :
    HeapInv (0 + size) (memory_init 0 size st0) [] := by
  refine ⟨?_, trivial, by omega, ?_⟩
  · rw [memory_init_mgr]
    rfl
  · rw [memory_init_mgr]
    rfl

theorem heap_reach_from_inv {start size : Nat} {st : MemState}
    (hs : sizeof_memory_block_t < size) (hb : start + size ≤ 2 ^ 32)
    (h : HeapReachFrom start size st) : ∃ l, HeapInv (start + size) st l := by
  induction h with
  | init st0 =>
    by_cases h0 : 0 < start
    · exact ⟨_, memory_init_inv start size st0 h0 hs hb⟩
    · have e : start = 0 := by omega
      subst e
      exact ⟨_, memory_init_inv_null size st0 (by omega)⟩
  | alloc fuel n st1 ptr _ hk ih =>
    obtain ⟨l, hinv⟩ := ih
    exact kmalloc_inv hinv hk
  | free fuel ptr st1 _ hp hk ih =>
    obtain ⟨l, hinv⟩ := ih
    exact kfree_inv hinv hp hk

/-- Headers laid out by `Layout` have strictly increasing addresses. -/
theorem layout_pairwise {blk : Nat → memory_block} {E : Nat} :
    ∀ {l : List Nat}, Layout blk E l → l.Pairwise (fun a b => a < b) := by
  intro l
  induction l with
  | nil => intro _; exact List.Pairwise.nil
  | cons h t ih =>
    intro hl
    obtain ⟨_, h2, h3⟩ := hl
    refine List.pairwise_cons.mpr ⟨?_, ih h3⟩
    intro x hx
    have := layout_ge_head h3 x hx
    unfold sizeof_memory_block_t at h2
    omega

/-- Along a chain laid out by `Layout`, a header with a successor has its
payload end at or before that successor, which is a header of the chain. -/
theorem seg_layout_next {blk : Nat → memory_block} {E : Nat} :
    ∀ {l : List Nat} {p : Nat}, Seg blk p l 0 → Layout blk E l →
      ∀ x ∈ l, (blk x).next ≠ 0 →
        (blk x).next ∈ l ∧ x + 16 + (blk x).size ≤ (blk x).next := by
  intro l
  induction l with
  | nil => intro p _ _ x hx; cases hx
  | cons h t ih =>
    intro p hseg hl x hx hn
    obtain ⟨_, _, hs2⟩ := hseg
    obtain ⟨_, l2, l3⟩ := hl
    rcases List.mem_cons.mp hx with rfl | hx
    · cases t with
      | nil => exact absurd hs2 hn
      | cons h2 t2 =>
        have e : (blk x).next = h2 := hs2.1
        rw [e]
        refine ⟨by simp, ?_⟩
        unfold sizeof_memory_block_t at l2
        simpa using l2
    · obtain ⟨a, b⟩ := ih hs2 l3 x hx hn
      exact ⟨List.mem_cons_of_mem _ a, b⟩

/-- C34: after `memory_init(start, size)` with `size > 16` on a heap inside
the 32-bit address space, and after every following `kmalloc` call and every
`kfree` call on a currently allocated payload address, the successor chain
from `free_list` is a finite list `l` of headers (read by `free_list_nodes`
with any fuel beyond its length; `kmalloc` and `kfree` return with that
fuel), the header addresses are strictly increasing along the chain, each
payload starts 16 bytes after its header, each payload end
`start_addr + size` is at most the heap end `start + size`, and for a header
with a successor the payload end is at most the successor's header address,
which is larger than its own. -/
theorem free_list_layout_invariant (start size : Nat) (st : MemState)
    (hs : 16 < size) (hb : start + size ≤ 2 ^ 32) (h : HeapReachFrom start size st) :
    ∃ l : List Nat,
      (∀ fuel, l.length < fuel →
        free_list_nodes fuel st = some (l.map (fun x => (x, st.blk x)))) ∧
      (∀ fuel n, l.length < fuel → ∃ res, kmalloc fuel st n = some res) ∧
      (∀ fuel ptr, l.length < fuel → ∃ res, kfree fuel st ptr = some res) ∧
      l.Pairwise (fun a b => a < b) ∧
      (∀ x ∈ l, (st.blk x).start_addr = x + 16 ∧
        (st.blk x).start_addr + (st.blk x).size ≤ start + size ∧
        ((st.blk x).next ≠ 0 → (st.blk x).next ∈ l ∧ x < (st.blk x).next ∧
          (st.blk x).start_addr + (st.blk x).size ≤ (st.blk x).next)) := by
  obtain ⟨l, hinv⟩ := heap_reach_from_inv (by unfold sizeof_memory_block_t; exact hs) hb h
  refine ⟨l, fun fuel hf => free_list_nodes_of_inv hinv fuel hf,
    fun fuel n hf => kmalloc_total hinv.1 n fuel hf,
    fun fuel ptr hf => kfree_total hinv.1 ptr fuel hf, layout_pairwise hinv.2.1, ?_⟩
  intro x hx
  obtain ⟨b1, b2⟩ := layout_bound hinv.2.1 x hx
  refine ⟨b1, by rw [b1]; exact b2, ?_⟩
  intro hn
  obtain ⟨c1, c2⟩ := seg_layout_next hinv.1 hinv.2.1 x hx hn
  exact ⟨c1, by omega, by rw [b1]; exact c2⟩

theorem reach_from_sample_heap_freed : HeapReachFrom 0x100000 0x100000 sample_heap_freed := by
  have ha : kmalloc 10 sample_heap 100 = some sample_heap_a :=
    some_getD_of_isSome (sample_heap, 0) (by decide!)
  have hb : kmalloc 10 sample_heap_a.1 200 = some sample_heap_b :=
    some_getD_of_isSome (sample_heap, 0) (by decide!)
  have hf : kfree 10 sample_heap_b.1 sample_heap_a.2 = some sample_heap_freed :=
    some_getD_of_isSome sample_heap (by decide!)
  have ha1 : kmalloc 10 sample_heap 100 = some (sample_heap_a.1, sample_heap_a.2) :=
    ha.trans (by simp only [Prod.mk.eta])
  have hb1 : kmalloc 10 sample_heap_a.1 200 = some (sample_heap_b.1, sample_heap_b.2) :=
    hb.trans (by simp only [Prod.mk.eta])
  have r0 : HeapReachFrom 0x100000 0x100000 sample_heap :=
    HeapReachFrom.init MemState.blank
  have r1 : HeapReachFrom 0x100000 0x100000 sample_heap_a.1 :=
    HeapReachFrom.alloc 10 100 sample_heap_a.1 sample_heap_a.2 r0 ha1
  have r2 : HeapReachFrom 0x100000 0x100000 sample_heap_b.1 :=
    HeapReachFrom.alloc 10 200 sample_heap_b.1 sample_heap_b.2 r1 hb1
  exact HeapReachFrom.free 10 sample_heap_a.2 sample_heap_freed r2 (by decide!) hf

/-- C34 on `sample_heap_freed`: `memory_init(0x100000, 0x100000)`,
`a = kmalloc(100)`, `kmalloc(200)`, `kfree(a)`; the chain has three headers. -/
theorem free_list_layout_invariant_witness :
    (free_list_nodes 10 sample_heap_freed).map (fun nodes => nodes.map Prod.fst) =
      some [0x100000, 0x100074, 0x10014C] ∧
    ∃ l : List Nat,
      (∀ fuel, l.length < fuel → free_list_nodes fuel sample_heap_freed =
        some (l.map (fun x => (x, sample_heap_freed.blk x)))) ∧
      (∀ fuel n, l.length < fuel → ∃ res, kmalloc fuel sample_heap_freed n = some res) ∧
      (∀ fuel ptr, l.length < fuel → ∃ res, kfree fuel sample_heap_freed ptr = some res) ∧
      l.Pairwise (fun a b => a < b) ∧
      (∀ x ∈ l, (sample_heap_freed.blk x).start_addr = x + 16 ∧
        (sample_heap_freed.blk x).start_addr + (sample_heap_freed.blk x).size ≤
          0x100000 + 0x100000 ∧
        ((sample_heap_freed.blk x).next ≠ 0 → (sample_heap_freed.blk x).next ∈ l ∧
          x < (sample_heap_freed.blk x).next ∧
          (sample_heap_freed.blk x).start_addr + (sample_heap_freed.blk x).size ≤
            (sample_heap_freed.blk x).next)) :=
  ⟨by decide!,
    free_list_layout_invariant 0x100000 0x100000 sample_heap_freed (by decide) (by decide)
      reach_from_sample_heap_freed⟩

/-! ## Heap allocator: `kfree` of a pointer returned by `kmalloc_aligned` -/

/-- C33 (the code breaks the claim): on `sample_heap`,
`kmalloc_aligned(0xFFFFFFE0, 32)` asks `kmalloc` for `0xFFFFFFFF` bytes, which
the rounding of `kmalloc` wraps to 0: the block it allocates has payload
address `0x100010` and size 0, and the split puts the header of the rest at
`0x100010`. The returned pointer `r = 0x100020` is 32-aligned, differs from
the payload address of the allocated block, and is the payload address of the
free node that follows; `kfree(r)` finds that node and changes `used_memory`
from 0 to `2^32 - 1048544`. -/
theorem kmalloc_aligned_pointer_hits_next_node :
    HeapReach sample_heap ∧
    kmalloc_aligned 10 sample_heap 0xFFFFFFE0 32 = some sample_aligned ∧
    (kmalloc 10 sample_heap (u32 (0xFFFFFFE0 + 32 - 1))).map Prod.snd = some 0x100010 ∧
    sample_aligned.2 = 0x100020 ∧ sample_aligned.2 % 32 = 0 ∧
    free_list_nodes 10 sample_aligned.1 =
      some [(0x100000, memory_block.mk 0x100010 0 1 0x100010),
        (0x100010, memory_block.mk 0x100020 1048544 0 0)] ∧
    get_used_memory sample_aligned.1 = 0 ∧
    (kfree 10 sample_aligned.1 sample_aligned.2).map get_used_memory =
      some (2 ^ 32 - 1048544) :=
  ⟨reach_sample_heap, some_getD_of_isSome (sample_heap, 0) (by decide!), by decide!, by decide!,
    by decide!, by decide!, by decide!, by decide!⟩

/-! ## Scheduler: states of the processes in the blocked and sleeping queues -/

theorem reach_sample_running : Reach sample_running [sample_created.2] :=
  reach_schedule_times 11 _ _ reach_sample_created

/-- C32 (the code breaks the claim): after `scheduler_init`, one
`process_create`, eleven `scheduler_schedule` calls (the process is current
and RUNNING), `process_block` of that process and `scheduler_yield`, the
process is the one member of the blocked queue and its state is READY, not
BLOCKED: `scheduler_yield` stores READY in the current process, which
`process_block` left current. `process_unblock` of it then returns the state
unchanged, for every fuel, so the process stays in the blocked queue and the
ready queue stays empty. With `timer_sleep(5)` in place of `process_block`
the process is in the sleeping queue with state READY, not SLEEPING. -/
theorem blocked_process_marked_ready :
    Reach sample_blocked_yield [sample_created.2] ∧
    (sample_self_blocked.sched.proc sample_created.2).state = PROCESS_BLOCKED ∧
    sample_self_blocked.sched.scheduler.current_process = sample_created.2 ∧
    queue_members 3 sample_blocked_yield.sched
      sample_blocked_yield.sched.scheduler.blocked_queue = some [sample_created.2] ∧
    (sample_blocked_yield.sched.proc sample_created.2).state = PROCESS_READY ∧
    (∀ fuel, process_unblock fuel sample_blocked_yield.sched sample_created.2 =
      some sample_blocked_yield.sched) ∧
    queue_members 3 sample_blocked_yield.sched
      sample_blocked_yield.sched.scheduler.ready_queue = some [] ∧
    Reach sample_asleep_yield [sample_created.2] ∧
    (sample_self_asleep.sched.proc sample_created.2).state = PROCESS_SLEEPING ∧
    queue_members 3 sample_asleep_yield.sched
      sample_asleep_yield.sched.scheduler.sleeping_queue = some [sample_created.2] ∧
    (sample_asleep_yield.sched.proc sample_created.2).state = PROCESS_READY := by
  refine ⟨Reach.yield (Reach.block reach_sample_running (by simp)), by decide!, by decide!,
    by decide!, by decide!, ?_, by decide!,
    Reach.yield (Reach.sleep 5 reach_sample_running (Or.inr (by decide!))), by decide!,
    by decide!, by decide!⟩
  intro fuel
  unfold process_unblock
  rw [if_pos (Or.inr (by decide!))]

/-! ## Timer: the walk over the sleeping queue after a removal -/

theorem timer_handler_eq_walk (fuel : Nat) (s : SchedState) :
    timer_handler fuel s =
      timer_walk fuel fuel (timer_handler_entry s)
        (timer_handler_entry s).scheduler.sleeping_queue := rfl

/-- The state at the entry of the loop of `timer_handler` is well-formed with
the same blocked and sleeping queues, the same time slices in them, and the
incremented tick counter. -/
theorem timer_handler_entry_qinv (s : SchedState) (lr lb ls : List Nat)
    (hq : QInv s lr lb ls) :
    ∃ lr1, lr1.Perm lr ∧ QInv (timer_handler_entry s) lr1 lb ls ∧
      (∀ c ∈ lb ++ ls, ((timer_handler_entry s).proc c).time_slice = (s.proc c).time_slice) ∧
      (timer_handler_entry s).timer_ticks = u32 (s.timer_ticks + 1) := by
  have hq0 : QInv { s with timer_ticks := u32 (s.timer_ticks + 1) } lr lb ls :=
    qinv_congr hq rfl rfl rfl (fun q _ => ⟨rfl, rfl⟩) (fun q _ => Or.inl rfl)
  unfold timer_handler_entry
  dsimp only
  by_cases hten : u32 (s.timer_ticks + 1) % 10 = 0
  · rw [if_pos hten]
    obtain ⟨lr1, hp, hq1⟩ := qinv_schedule _ lr lb ls hq0
    refine ⟨lr1, hp, hq1, ?_, ?_⟩
    · intro c hc
      exact schedule_keeps_queued_slice _ lr lb ls hq0.1 c hc
    · rw [schedule_timer_ticks]
  · rw [if_neg hten]
    exact ⟨lr, List.Perm.refl _, hq0, fun c _ => rfl, rfl⟩

/-- One iteration of the loop of `timer_handler` whose `current` is a process
of the ready queue while the sleeping queue is empty: the iteration
completes (the fuel for `scheduler_add_process` covers the ready queue) and
the loop goes on with `current->next`, again a process of the ready queue. -/
theorem timer_walk_step_ready (afuel : Nat) (s : SchedState) (cur : Nat) (lr lb : List Nat)
    (hq : QInv s lr lb []) (hc : cur ∈ lr) (hf : lr.length ≤ afuel + 1) :
    ∃ s2 lr2, QInv s2 lr2 lb [] ∧ lr2.Perm lr ∧ (s.proc cur).next ∈ lr2 ∧
      s2.timer_ticks = s.timer_ticks ∧
      ∀ fuel, timer_walk afuel (fuel + 1) s cur = timer_walk afuel fuel s2 (s.proc cur).next := by
  have hmem : cur ∈ lr ++ lb ++ [] := by simp [hc]
  have h0 : cur ≠ 0 := queues_mem_ne_zero hq.1 hmem
  have hnext : (s.proc cur).next ∈ lr := cyc_next_mem hq.1.1.1 hc
  have hz : s.scheduler.sleeping_queue = 0 := (isQueue_head_zero hq.1.2.2.1).mpr rfl
  by_cases hdue : (s.proc cur).time_slice ≤ s.timer_ticks
  · have h1 := qinv_remove s cur lr lb [] hq hmem
    have h2 := qinv_set_state _ cur PROCESS_READY _ _ _ h1 (Or.inl (by decide))
    have hlen : (lr.erase cur).length ≤ afuel := by
      rw [List.length_erase_of_mem hc]
      omega
    obtain ⟨s2, hadd⟩ := add_process_total afuel _ cur _ _ _ h2.1 hlen
    have h3 := qinv_add afuel _ cur _ _ _ s2 h2 (not_mem_erase_lists hq.1.2.2.2) h0 hadd
    have hlb : lb.erase cur = lb :=
      List.erase_of_not_mem (fun h => (queues_disjoint hq.1).1 cur hc h)
    rw [hlb] at h3
    have hperm : (insert_by_priority ((scheduler_remove_process s cur).set_state cur
        PROCESS_READY).proc cur (lr.erase cur)).Perm lr :=
      (insert_by_priority_perm _ cur _).trans (List.perm_cons_erase hc).symm
    have hz2 : s2.scheduler.sleeping_queue = 0 := (isQueue_head_zero h3.1.2.2.1).mpr rfl
    have hnz : (s.proc cur).next ≠ 0 := hq.1.1.1.2.1 _ hnext
    refine ⟨s2, _, h3, hperm, hperm.mem_iff.mpr hnext, ?_, ?_⟩
    · rw [(add_process_static afuel _ s2 cur hadd).2]
      exact remove_timer_ticks s cur
    · intro fuel
      conv_lhs => unfold timer_walk
      rw [if_neg h0]
      dsimp only
      rw [if_pos hdue, hadd]
      dsimp only
      rw [hz2, if_neg hnz]
  · have hnz : (s.proc cur).next ≠ 0 := hq.1.1.1.2.1 _ hnext
    refine ⟨s, lr, hq, List.Perm.refl _, hnext, rfl, ?_⟩
    intro fuel
    conv_lhs => unfold timer_walk
    rw [if_neg h0]
    dsimp only
    rw [if_neg hdue]
    dsimp only
    rw [hz, if_neg hnz]

/-- Any number of iterations: the loop that has reached a process of the
ready queue with the sleeping queue empty stays in that situation. -/
theorem timer_walk_steps_ready (afuel : Nat) (lb : List Nat) :
    ∀ (n : Nat) (s : SchedState) (cur : Nat) (lr : List Nat), QInv s lr lb [] → cur ∈ lr →
      lr.length ≤ afuel + 1 →
      ∃ sn curn lrn, QInv sn lrn lb [] ∧ lrn.Perm lr ∧ curn ∈ lrn ∧
        sn.timer_ticks = s.timer_ticks ∧
        ∀ fuel, timer_walk afuel (fuel + n) s cur = timer_walk afuel fuel sn curn := by
  intro n
  induction n with
  | zero =>
    intro s cur lr hq hc _
    exact ⟨s, cur, lr, hq, List.Perm.refl _, hc, rfl, fun _ => rfl⟩
  | succ n ih =>
    intro s cur lr hq hc hf
    obtain ⟨s2, lr2, q2, p2, c2, t2, e2⟩ := timer_walk_step_ready afuel s cur lr lb hq hc hf
    obtain ⟨sn, curn, lrn, q3, p3, c3, t3, e3⟩ :=
      ih s2 _ lr2 q2 c2 (by rw [p2.length_eq]; exact hf)
    refine ⟨sn, curn, lrn, q3, p3.trans p2, c3, t3.trans t2, ?_⟩
    intro fuel
    have : fuel + (n + 1) = (fuel + n) + 1 := by omega
    rw [this, e2, e3]

/-- The loop of `timer_handler` started at a process of the ready queue while
the sleeping queue is empty returns for no fuel. -/
theorem timer_walk_ready_none (afuel : Nat) (lb : List Nat) :
    ∀ (fuel : Nat) (s : SchedState) (cur : Nat) (lr : List Nat), QInv s lr lb [] → cur ∈ lr →
      timer_walk afuel fuel s cur = none := by
  intro fuel
  induction fuel with
  | zero => intro s cur lr _ _; rfl
  | succ fuel ih =>
    intro s cur lr hq hc
    have hmem : cur ∈ lr ++ lb ++ [] := by simp [hc]
    have h0 : cur ≠ 0 := queues_mem_ne_zero hq.1 hmem
    have hnext : (s.proc cur).next ∈ lr := cyc_next_mem hq.1.1.1 hc
    have hnz : (s.proc cur).next ≠ 0 := hq.1.1.1.2.1 _ hnext
    have hz : s.scheduler.sleeping_queue = 0 := (isQueue_head_zero hq.1.2.2.1).mpr rfl
    unfold timer_walk
    rw [if_neg h0]
    dsimp only
    by_cases hdue : (s.proc cur).time_slice ≤ s.timer_ticks
    · rw [if_pos hdue]
      cases hadd : scheduler_add_process afuel
          ((scheduler_remove_process s cur).set_state cur PROCESS_READY) cur with
      | none => rfl
      | some s2 =>
        dsimp only
        have h1 := qinv_remove s cur lr lb [] hq hmem
        have h2 := qinv_set_state _ cur PROCESS_READY _ _ _ h1 (Or.inl (by decide))
        have h3 := qinv_add afuel _ cur _ _ _ s2 h2 (not_mem_erase_lists hq.1.2.2.2) h0 hadd
        have hlb : lb.erase cur = lb :=
          List.erase_of_not_mem (fun h => (queues_disjoint hq.1).1 cur hc h)
        rw [hlb] at h3
        have hperm : (insert_by_priority ((scheduler_remove_process s cur).set_state cur
            PROCESS_READY).proc cur (lr.erase cur)).Perm lr :=
          (insert_by_priority_perm _ cur _).trans (List.perm_cons_erase hc).symm
        have hz2 : s2.scheduler.sleeping_queue = 0 := (isQueue_head_zero h3.1.2.2.1).mpr rfl
        rw [hz2, if_neg hnz]
        exact ih s2 _ _ h3 (hperm.mem_iff.mpr hnext)
    · rw [if_neg hdue]
      dsimp only
      rw [hz, if_neg hnz]
      exact ih s _ lr hq hnext

/-- The first iteration on a sleeping queue that holds the single due process
`p`: `p` is moved to the ready queue, the sleeping queue becomes empty, and
the loop goes on with `current = p`. -/
theorem timer_walk_single_due (afuel : Nat) (s : SchedState) (p : Nat) (lr lb : List Nat)
    (hq : QInv s lr lb [p]) (hdue : (s.proc p).time_slice ≤ s.timer_ticks) :
    (lr.length ≤ afuel →
      ∃ s2 lr2, QInv s2 lr2 lb [] ∧ lr2.Perm (p :: lr) ∧ s2.timer_ticks = s.timer_ticks ∧
        ∀ fuel, timer_walk afuel (fuel + 1) s p = timer_walk afuel fuel s2 p) ∧
    ∀ fuel, timer_walk afuel fuel s p = none := by
  have hmem : p ∈ lr ++ lb ++ [p] := by simp
  have h0 : p ≠ 0 := queues_mem_ne_zero hq.1 hmem
  have hnext : (s.proc p).next = p := by
    have := cyc_next_head hq.1.2.2.1.1
    simpa using this
  obtain ⟨d1, d2, d3⟩ := queues_disjoint hq.1
  have hlr : lr.erase p = lr := List.erase_of_not_mem (fun h => d2 p h (by simp))
  have hlb : lb.erase p = lb := List.erase_of_not_mem (fun h => d3 p h (by simp))
  have h1 := qinv_remove s p lr lb [p] hq hmem
  have h2 := qinv_set_state _ p PROCESS_READY _ _ _ h1 (Or.inl (by decide))
  rw [hlr, hlb, List.erase_cons_head] at h2
  have hkey : ∀ s2, scheduler_add_process afuel
      ((scheduler_remove_process s p).set_state p PROCESS_READY) p = some s2 →
      ∃ lr2, QInv s2 lr2 lb [] ∧ lr2.Perm (p :: lr) ∧ s2.scheduler.sleeping_queue = 0 ∧
        p ∈ lr2 := by
    intro s2 hadd
    have hnot : p ∉ lr ++ lb ++ [] := by
      have := not_mem_erase_lists (p := p) hq.1.2.2.2
      rw [hlr, hlb, List.erase_cons_head] at this
      exact this
    have h3 := qinv_add afuel _ p _ _ _ s2 h2 hnot h0 hadd
    have hperm := insert_by_priority_perm
      ((scheduler_remove_process s p).set_state p PROCESS_READY).proc p lr
    exact ⟨_, h3, hperm, (isQueue_head_zero h3.1.2.2.1).mpr rfl,
      hperm.mem_iff.mpr (List.mem_cons_self _ _)⟩
  constructor
  · intro hf
    obtain ⟨s2, hadd⟩ := add_process_total afuel _ p _ _ _ h2.1 hf
    obtain ⟨lr2, q2, p2, z2, _⟩ := hkey s2 hadd
    refine ⟨s2, lr2, q2, p2, ?_, ?_⟩
    · rw [(add_process_static afuel _ s2 p hadd).2]
      exact remove_timer_ticks s p
    · intro fuel
      conv_lhs => unfold timer_walk
      rw [if_neg h0]
      dsimp only
      rw [if_pos hdue, hadd]
      dsimp only
      rw [hnext, z2, if_neg h0]
  · intro fuel
    cases fuel with
    | zero => rfl
    | succ fuel =>
      unfold timer_walk
      rw [if_neg h0]
      dsimp only
      rw [if_pos hdue]
      cases hadd : scheduler_add_process afuel
          ((scheduler_remove_process s p).set_state p PROCESS_READY) p with
      | none => rfl
      | some s2 =>
        dsimp only
        obtain ⟨lr2, q2, _, z2, m2⟩ := hkey s2 hadd
        rw [hnext, z2, if_neg h0]
        exact timer_walk_ready_none afuel lb fuel s2 p lr2 q2 m2

/-- C31: from every well-formed scheduler state whose sleeping queue holds a
single process `p` with wake tick at most the incremented tick counter,
`timer_handler` returns for no fuel. The loop over the sleeping queue starts
at `p`; its first iteration moves `p` to the ready queue and empties the
sleeping queue, and after that iteration and any number `n` of further ones
(each completes when the fuel of `scheduler_add_process` covers the ready
queue) the loop is about to run again with a `current` that is not `NULL`, is
a process of the ready queue, and differs from the re-read `sleeping_queue`
head, which is `NULL`. -/
theorem sleeping_walk_never_terminates (s : SchedState) (p : Nat) (lr lb : List Nat)
    (hq : QInv s lr lb [p]) (hdue : (s.proc p).time_slice ≤ u32 (s.timer_ticks + 1)) :
    (∀ fuel, timer_handler fuel s = none) ∧
    (timer_handler_entry s).scheduler.sleeping_queue = p ∧
    (∀ afuel n, lr.length ≤ afuel →
      ∃ sn curn lrn, QInv sn lrn lb [] ∧ lrn.Perm (p :: lr) ∧ curn ∈ lrn ∧ curn ≠ 0 ∧
        sn.scheduler.sleeping_queue = 0 ∧ curn ≠ sn.scheduler.sleeping_queue ∧
        ∀ fuel, timer_walk afuel (fuel + n + 1) (timer_handler_entry s) p =
          timer_walk afuel fuel sn curn) := by
  obtain ⟨lr1, hp1, hq1, hts, htk⟩ := timer_handler_entry_qinv s lr lb [p] hq
  have hhead : (timer_handler_entry s).scheduler.sleeping_queue = p := by
    rw [hq1.1.2.2.1.2]
    rfl
  have hdue1 : ((timer_handler_entry s).proc p).time_slice ≤ (timer_handler_entry s).timer_ticks := by
    rw [hts p (by simp), htk]
    exact hdue
  refine ⟨?_, hhead, ?_⟩
  · intro fuel
    rw [timer_handler_eq_walk, hhead]
    exact (timer_walk_single_due fuel _ p lr1 lb hq1 hdue1).2 fuel
  · intro afuel n hf
    obtain ⟨s2, lr2, q2, p2, _, e2⟩ :=
      (timer_walk_single_due afuel _ p lr1 lb hq1 hdue1).1 (by rw [hp1.length_eq]; exact hf)
    have hm2 : p ∈ lr2 := p2.mem_iff.mpr (List.mem_cons_self _ _)
    have hl2 : lr2.length ≤ afuel + 1 := by
      rw [p2.length_eq, List.length_cons, hp1.length_eq]
      omega
    obtain ⟨sn, curn, lrn, q3, p3, c3, _, e3⟩ :=
      timer_walk_steps_ready afuel lb n s2 p lr2 q2 hm2 hl2
    have hz : sn.scheduler.sleeping_queue = 0 := (isQueue_head_zero q3.1.2.2.1).mpr rfl
    have hc0 : curn ≠ 0 := q3.1.1.1.2.1 _ c3
    refine ⟨sn, curn, lrn, q3, (p3.trans p2).trans (List.Perm.cons _ hp1), c3, hc0, hz,
      by rw [hz]; exact hc0, ?_⟩
    intro fuel
    rw [e2, e3]

theorem sample_due_qinv : QInv sample_due [] [] [sample_created.2] := by
  refine ⟨⟨⟨cyc_nil _, by decide!⟩, ⟨cyc_nil _, by decide!⟩,
    ⟨cyc_one (by decide!) ⟨by decide!, by decide!⟩, by decide!⟩, by decide!⟩, ?_⟩
  intro q hq
  simp only [List.nil_append, List.mem_singleton] at hq
  subst hq
  decide!

/-- C31 on `sample_due`: the one process of the machine called
`timer_sleep(0)` at tick 0, so it is alone in the sleeping queue with wake
tick 0. -/
theorem sleeping_walk_never_terminates_witness :
    ((sample_due.proc sample_created.2).time_slice = 0 ∧ sample_due.timer_ticks = 0 ∧
      queue_members 2 sample_due sample_due.scheduler.sleeping_queue =
        some [sample_created.2]) ∧
    (∀ fuel, timer_handler fuel sample_due = none) ∧
    (timer_handler_entry sample_due).scheduler.sleeping_queue = sample_created.2 ∧
    (∀ afuel n, ([] : List Nat).length ≤ afuel →
      ∃ sn curn lrn, QInv sn lrn [] [] ∧ lrn.Perm (sample_created.2 :: []) ∧ curn ∈ lrn ∧
        curn ≠ 0 ∧ sn.scheduler.sleeping_queue = 0 ∧ curn ≠ sn.scheduler.sleeping_queue ∧
        ∀ fuel, timer_walk afuel (fuel + n + 1) (timer_handler_entry sample_due)
            sample_created.2 = timer_walk afuel fuel sn curn) :=
  ⟨by decide!,
    sleeping_walk_never_terminates sample_due sample_created.2 [] [] sample_due_qinv
      (by decide!)⟩

/-- In a laid-out list `pre ++ c :: rest` the payload of `c` lies strictly
between the payload addresses of the headers before it and of those after
it. -/
theorem layout_payload_gap {blk : Nat → memory_block} {E : Nat} {pre rest : List Nat} {c : Nat}
    (h : Layout blk E (pre ++ c :: rest)) :
    (∀ x ∈ pre, (blk x).start_addr < (blk c).start_addr) ∧
    (∀ x ∈ rest, (blk c).start_addr + (blk c).size < (blk x).start_addr) ∧
    (blk c).start_addr = c + 16 ∧ c + 16 + (blk c).size ≤ E := by
  have hb := layout_bound h
  have hpw := layout_pairwise h
  obtain ⟨_, h2⟩ := layout_append.mp h
  obtain ⟨hc1, hc2, hc3⟩ := h2
  unfold sizeof_memory_block_t at hc1 hc2
  rw [List.pairwise_append] at hpw
  refine ⟨?_, ?_, hc1, (hb c (by simp)).2⟩
  · intro x hx
    have := hpw.2.2 x hx c (by simp)
    rw [(hb x (by simp [hx])).1, hc1]
    omega
  · intro x hx
    have h1 := layout_ge_head hc3 x hx
    have h3 : rest.headD E ≤ x := h1
    rw [(hb x (by simp [hx])).1, hc1]
    omega

/-- The alignment step of `kmalloc_aligned` for a power-of-two alignment: the
first multiple of the alignment at or above the address. -/
theorem align_up_bounds (p k : Nat) (hk : k ≤ 32) (hp : p + 2 ^ k - 1 < 2 ^ 32) :
    p ≤ Nat.land (u32 (p + 2 ^ k - 1)) (2 ^ 32 - 1 - (2 ^ k - 1)) ∧
    Nat.land (u32 (p + 2 ^ k - 1)) (2 ^ 32 - 1 - (2 ^ k - 1)) ≤ p + 2 ^ k - 1 ∧
    Nat.land (u32 (p + 2 ^ k - 1)) (2 ^ 32 - 1 - (2 ^ k - 1)) % 2 ^ k = 0 := by
  rw [u32_of_lt hp, land_high_mask _ k hp hk]
  have hpos : 0 < 2 ^ k := Nat.pos_pow_of_pos k (by decide)
  have h1 := Nat.div_add_mod (p + 2 ^ k - 1) (2 ^ k)
  have h2 := Nat.mod_lt (p + 2 ^ k - 1) hpos
  have h3 : (p + 2 ^ k - 1) / 2 ^ k * 2 ^ k = 2 ^ k * ((p + 2 ^ k - 1) / 2 ^ k) := Nat.mul_comm _ _
  refine ⟨by omega, by omega, ?_⟩
  exact Nat.mul_mod_left _ _

/-- The rounding of `kmalloc` does not shrink a request of at most
`0xFFFFFFFC` bytes. -/
theorem align4_ge {size : Nat} (h : size ≤ 0xFFFFFFFC) : size ≤ align4 size := by
  rw [align4_of_le h]
  omega

/-- The aligned allocation when the request does not overflow: on a well-formed
allocator state, for a power-of-two alignment `2 ^ k` and a size `n ≥ 1` with
`n + 2 ^ k - 1 ≤ 0xFFFFFFFC`, a pointer `r` returned by `kmalloc_aligned` that
differs from the payload address `ptr` of the block allocated by the inner
`kmalloc` lies strictly inside that block's payload, is the payload address
of no node of the list, and `kfree(r)` returns the state unchanged. -/
theorem kmalloc_aligned_interior_pointer {E : Nat} {st : MemState} {l : List Nat}
    (hinv : HeapInv E st l) {fuel n k : Nat} {st1 : MemState} {r : Nat} (hk : k ≤ 32)
    (hn : 0 < n) (hno : n + 2 ^ k - 1 ≤ 0xFFFFFFFC)
    (h : kmalloc_aligned fuel st n (2 ^ k) = some (st1, r)) :
    ∃ ptr l1, kmalloc fuel st (n + 2 ^ k - 1) = some (st1, ptr) ∧ HeapInv E st1 l1 ∧
      (ptr = 0 → r = 0) ∧
      (ptr ≠ 0 → ptr ≤ r ∧ r % 2 ^ k = 0 ∧
        ∃ c ∈ l1, (st1.blk c).start_addr = ptr ∧ (st1.blk c).is_allocated = 1 ∧
          r + n ≤ ptr + (st1.blk c).size) ∧
      (r ≠ ptr → (∀ x ∈ l1, (st1.blk x).start_addr ≠ r) ∧
        ∀ fuel1, l1.length < fuel1 → kfree fuel1 st1 r = some st1) := by
  have hpos : 0 < 2 ^ k := Nat.pos_pow_of_pos k (by decide)
  unfold kmalloc_aligned at h
  rw [if_neg (by omega)] at h
  dsimp only at h
  have e1 : u32 (n + 2 ^ k - 1) = n + 2 ^ k - 1 := u32_of_lt (by omega)
  rw [e1] at h
  cases hk1 : kmalloc fuel st (n + 2 ^ k - 1) with
  | none => rw [hk1] at h; cases h
  | some res =>
    obtain ⟨st2, ptr⟩ := res
    rw [hk1] at h
    dsimp only at h
    by_cases hp0 : ptr = 0
    · rw [if_pos hp0] at h
      have hst : st2 = st1 := congrArg Prod.fst (Option.some.inj h)
      have hr : (0 : Nat) = r := congrArg Prod.snd (Option.some.inj h)
      subst hst
      obtain ⟨l1, hinv1⟩ := kmalloc_inv hinv hk1
      refine ⟨ptr, l1, rfl, hinv1, fun _ => hr.symm, fun hne => absurd hp0 hne, ?_⟩
      intro hne
      exact absurd (hr.symm.trans hp0.symm) hne
    · rw [if_neg hp0] at h
      have hst : st2 = st1 := congrArg Prod.fst (Option.some.inj h)
      have hr : Nat.land (u32 (ptr + 2 ^ k - 1)) (2 ^ 32 - 1 - (2 ^ k - 1)) = r :=
        congrArg Prod.snd (Option.some.inj h)
      subst hst
      obtain ⟨pre, c, post, l1, hl, hinv1, _, _, hsz, hptr, hca, _, _, hsplit, hwhole⟩ :=
        kmalloc_nodes hinv hk1 hp0
      have hage := align4_ge hno
      have hshape : ∃ rest, l1 = pre ++ c :: rest ∧ (st2.blk c).start_addr = ptr ∧
          (st2.blk c).is_allocated = 1 ∧ n + 2 ^ k - 1 ≤ (st2.blk c).size := by
        by_cases hs : align4 (n + 2 ^ k - 1) + 16 < (st.blk c).size
        · obtain ⟨a1, a2, _, _⟩ := hsplit hs
          refine ⟨_, a1, ?_, ?_, ?_⟩
          · rw [a2]; show c + 16 = ptr; rw [hptr, hca]
          · rw [a2]
          · rw [a2]; exact hage
        · obtain ⟨a1, a2, _⟩ := hwhole hs
          refine ⟨_, a1, ?_, ?_, ?_⟩
          · rw [a2]; exact hptr.symm
          · rw [a2]
          · rw [a2]; exact le_trans hage hsz
      obtain ⟨rest, hl1, hstart, halloc, hsize⟩ := hshape
      have hlay := hinv1.2.1
      rw [hl1] at hlay
      obtain ⟨g1, g2, g3, g4⟩ := layout_payload_gap hlay
      have hE := hinv1.2.2.1
      have hlt : ptr + 2 ^ k - 1 < 2 ^ 32 := by
        rw [hstart] at g3
        omega
      obtain ⟨b1, b2, b3⟩ := align_up_bounds ptr k hk hlt
      rw [hr] at b1 b2 b3
      refine ⟨ptr, l1, rfl, hinv1, fun h0 => absurd h0 hp0, ?_, ?_⟩
      · intro _
        refine ⟨b1, b3, c, by rw [hl1]; simp, hstart, halloc, ?_⟩
        omega
      · intro hne
        have hnone : ∀ x ∈ l1, (st2.blk x).start_addr ≠ r := by
          intro x hx
          rw [hl1] at hx
          rcases List.mem_append.mp hx with hx | hx
          · have := g1 x hx
            rw [hstart] at this
            omega
          · rcases List.mem_cons.mp hx with rfl | hx
            · rw [hstart]; exact fun e => hne e.symm
            · have := g2 x hx
              rw [hstart] at this
              omega
        refine ⟨hnone, ?_⟩
        intro fuel1 hf
        unfold kfree
        have hr0 : r ≠ 0 := by omega
        rw [if_neg hr0]
        exact kfree_loop_none hinv1.1 hnone fuel1 0 hf

end CustomLinux
